import Mathlib

/-!
# Symbol and function resolution of the Octave interpreter (`libinterp/corefcn/symtab.cc`)

A shallow embedding of the function-cache entry (`fcn_info_rep`), of the
staleness check (`out_of_date_check`) and of the scope lookup
(`symbol_table::do_find`), with the collaborators that live outside
`symtab.cc` (search path, file loader, file system, class manager) taken as
parameters.

Conventions of the embedding:

* an `octave_value` is undefined, a non-function datum, or a reference to a
  function object; function objects live in a heap (`State.heap`) because the
  C++ code mutates them through pointers shared by several slots;
* `std::map` members are functions into `Option`, `find (k) == end ()` is
  `m k = none`, `m[k] = v` is `Function.update m k (some v)`;
* reference parameters (`octave_value& function`, `std::string& dir_name`) are
  passed in and returned;
* the two loops that have no static bound (the walk over the parent scopes and
  the recursion over parent classes) take fuel and return `none` when it runs
  out.
-/

namespace Octave

/-! ## Values and function objects -/

/-- The scope identifier `symbol_table::scope_id` (an `int`). -/
abbrev scope_id := Int

/-- The part of an `octave_function` object that `symtab.cc` reads or writes.
Times (`octave::sys::time`, `time_t`) are whole tick counts. -/
structure octave_function where
  name : String
  package_name : String
  canonical_name : String
  fcn_file_name : String
  dir_name : String
  time_parsed : Nat
  time_checked : Nat
  is_subfunction : Bool
  is_relative : Bool
  is_system_fcn_file : Bool
  is_classdef_constructor : Bool
  parent_fcn_scope : scope_id
  scope : scope_id
  dispatch_classes : List String
  private_function : Bool
  xdispatch_class : String
  deriving DecidableEq, Repr

instance : Inhabited octave_function :=
  ⟨⟨"", "", "", "", "", 0, 0, false, false, false, false, -1, -1, [], false, ""⟩⟩

/-- An `octave_value` as far as name resolution can tell values apart: the
undefined value, a defined value that is not a function, or a reference to
the function object at an address of the heap. -/
inductive octave_value where
  | undefined : octave_value
  | data (v : Nat) : octave_value
  | fcn (p : Nat) : octave_value
  deriving DecidableEq, Repr

instance : Inhabited octave_value := ⟨octave_value.undefined⟩

namespace octave_value

/-- The test `octave_value::is_defined`. -/
def is_defined : octave_value → Bool
  | undefined => false
  | _ => true

/-- The test `octave_value::is_undefined`. -/
def is_undefined (v : octave_value) : Bool := !v.is_defined

/-- The pointer `octave_value::function_value (true)`: the address of the
function object, or null (`none`) for a value that is not a function. -/
def function_value : octave_value → Option Nat
  | fcn p => some p
  | _ => none

end octave_value

/-! ## Built-in type tags and the dispatch type -/

/-- Modelled from the spec: the built-in type tags `builtin_type_t` of
`ov-base.h`, which is not among the sources; `btyp_unknown` is the tag of a
value that is "not built-in", and `btyp_num_types = btyp_unknown`. -/
inductive builtin_type_t where
  | btyp_double | btyp_float | btyp_complex | btyp_float_complex
  | btyp_int8 | btyp_int16 | btyp_int32 | btyp_int64
  | btyp_uint8 | btyp_uint16 | btyp_uint32 | btyp_uint64
  | btyp_bool | btyp_char | btyp_struct | btyp_cell | btyp_func_handle
  | btyp_unknown
  deriving DecidableEq, Repr

namespace builtin_type_t

/-- The integer value of the enumerator. -/
def toNat : builtin_type_t → Nat
  | btyp_double => 0 | btyp_float => 1 | btyp_complex => 2 | btyp_float_complex => 3
  | btyp_int8 => 4 | btyp_int16 => 5 | btyp_int32 => 6 | btyp_int64 => 7
  | btyp_uint8 => 8 | btyp_uint16 => 9 | btyp_uint32 => 10 | btyp_uint64 => 11
  | btyp_bool => 12 | btyp_char => 13 | btyp_struct => 14 | btyp_cell => 15
  | btyp_func_handle => 16 | btyp_unknown => 17

end builtin_type_t

open builtin_type_t

/-- Modelled from the spec: `btyp_isinteger` of `ov-base.h` (an integer type
is one of the eight tags from `btyp_int8` to `btyp_uint64`). -/
def btyp_isinteger (t : builtin_type_t) : Bool :=
  decide (btyp_int8.toNat ≤ t.toNat) && decide (t.toNat ≤ btyp_uint64.toNat)

/-- Modelled from the spec: `btyp_isarray` of `ov-base.h` (an array type is a
tag up to and including `btyp_char`). -/
def btyp_isarray (t : builtin_type_t) : Bool :=
  decide (t.toNat ≤ btyp_char.toNat)

/-- Modelled from the spec: the table `btyp_class_name` of `ov-base.cc`, the
canonical class name of each built-in tag. -/
def btyp_class_name : builtin_type_t → String
  | btyp_double => "double" | btyp_float => "single"
  | btyp_complex => "double" | btyp_float_complex => "single"
  | btyp_int8 => "int8" | btyp_int16 => "int16"
  | btyp_int32 => "int32" | btyp_int64 => "int64"
  | btyp_uint8 => "uint8" | btyp_uint16 => "uint16"
  | btyp_uint32 => "uint32" | btyp_uint64 => "uint64"
  | btyp_bool => "logical" | btyp_char => "char"
  | btyp_struct => "struct" | btyp_cell => "cell"
  | btyp_func_handle => "function_handle"
  | btyp_unknown => ""

/-- The entry `sup_table[i][j]` computed by `build_sup_table`. -/
def build_sup_table (ityp jtyp : builtin_type_t) : builtin_type_t :=
  let use_j : Bool :=
    (decide (jtyp = btyp_func_handle) || decide (ityp = btyp_bool)
      || (btyp_isarray ityp
          && (!btyp_isarray jtyp
              || (btyp_isinteger jtyp && !btyp_isinteger ityp)
              || ((decide (ityp = btyp_double) || decide (ityp = btyp_complex)
                    || decide (ityp = btyp_char))
                  && (decide (jtyp = btyp_float)
                      || decide (jtyp = btyp_float_complex))))))
  if use_j then jtyp else ityp

/-- What `get_dispatch_type` reads of one element of an `octave_value_list`:
its built-in tag and its class name. -/
structure octave_arg where
  builtin_type : builtin_type_t
  class_name : String
  deriving DecidableEq, Repr

/-- The class precedence table: superior class name to the set of classes
marked inferior to it. -/
abbrev precedence_table := String → Option (Finset String)

/-- The query `symbol_table::is_superiorto (a, b)`. -/
def is_superiorto (t : precedence_table) (a b : String) : Bool :=
  match t a with
  | none => false
  | some inferior_classes => decide (b ∈ inferior_classes)

/-- The first loop of `get_dispatch_type` (`for (i = 1; i < n; i++)`), from
the current tag and the arguments from index `i` on: the tag on exit and the
arguments from the index on exit on. -/
def get_dispatch_type_scan :
    builtin_type_t → List octave_arg → builtin_type_t × List octave_arg
  | bt, [] => (bt, [])
  | bt, a :: rest =>
    if a.builtin_type ≠ btyp_unknown then
      get_dispatch_type_scan (build_sup_table bt a.builtin_type) rest
    else (btyp_unknown, a :: rest)

/-- The second loop of `get_dispatch_type` (`for (int j = i+1; j < n; j++)`). -/
def get_dispatch_type_classes (t : precedence_table) :
    String → List octave_arg → String
  | dispatch_type, [] => dispatch_type
  | dispatch_type, arg :: rest =>
    if arg.builtin_type = btyp_unknown then
      let cname := arg.class_name
      if !is_superiorto t dispatch_type cname && is_superiorto t cname dispatch_type then
        get_dispatch_type_classes t cname rest
      else get_dispatch_type_classes t dispatch_type rest
    else get_dispatch_type_classes t dispatch_type rest

/-- The function `get_dispatch_type (args, builtin_type)`: the dispatch type
and the value left in `builtin_type`. -/
def get_dispatch_type_bt (t : precedence_table) (args : List octave_arg) :
    String × builtin_type_t :=
  match args with
  | [] => ("", btyp_unknown)
  | a0 :: rest =>
    let r : builtin_type_t × List octave_arg :=
      if a0.builtin_type ≠ btyp_unknown then get_dispatch_type_scan a0.builtin_type rest
      else (a0.builtin_type, a0 :: rest)
    if r.1 = btyp_unknown then
      match r.2 with
      | [] => ("", r.1)
      | ai :: later => (get_dispatch_type_classes t ai.class_name later, r.1)
    else (btyp_class_name r.1, r.1)

/-- The function `get_dispatch_type (args)`. -/
def get_dispatch_type (t : precedence_table) (args : List octave_arg) : String :=
  (get_dispatch_type_bt t args).1

/-! ## Strings -/

/-- The call `s.substr (pos)`. -/
def substr_from (s : String) (pos : Nat) : String := String.mk (s.toList.drop pos)

/-- The call `s.substr (0, len)`; `len = none` is `std::string::npos`. -/
def substr_to (s : String) (len : Option Nat) : String :=
  match len with
  | none => s
  | some n => String.mk (s.toList.take n)

/-- The last position of `cs` that holds a character of `chars`, scanning
from position `i` with `acc` the last one seen so far. -/
def find_last_of_from (chars : List Char) : List Char → Nat → Option Nat → Option Nat
  | [], _, acc => acc
  | c :: cs, i, acc => find_last_of_from chars cs (i + 1) (if c ∈ chars then some i else acc)

/-- The call `s.find_last_of (chars)`; `none` is `std::string::npos`. -/
def find_last_of (s chars : String) : Option Nat :=
  find_last_of_from chars.toList s.toList 0 none

/-- The function `split_name_with_package`: the pair `(fname, pname)`. -/
def split_name_with_package (name : String) : String × String :=
  match find_last_of name "." with
  | some pos => (substr_from name (pos + 1), substr_to name (some pos))
  | none => (name, "")

/-! ## Collaborators and the interpreter state -/

/-- The search path as the resolver currently sees it (`load_path`). The
reference parameter `dir_name` of `find_fcn` and `find_method` is passed in
and returned: each returns the pair `(file, dir_name)`, an empty `file`
meaning "not found". -/
structure load_path where
  find_fcn : String → String → String → String × String
  find_method : String → String → String → String → String × String
  find_private_fcn : String → String → String

/-- The collaborators of `symtab.cc` that are not state of the symbol table:
the file loader `load_fcn_from_file (file, dir, dispatch_type, package,
fcn_name, autoload)`, the autoload index, the file system (`same_file`,
`absolute_pathname`, `file_stat` giving the modification time of a file that
exists), the class manager, `symbol_table::parent_classes`, the directory
separators, and what `load_path::update` makes of a view of the path. -/
structure World where
  load_fcn_from_file : String → String → String → String → String → Bool → Option octave_function
  lookup_autoload : String → String
  same_file : String → String → Bool
  absolute_pathname : String → Bool
  file_stat : String → Option Nat
  find_method_symbol : String → String → Option octave_function
  find_package_symbol : String → Option octave_function
  parent_classes : String → List String
  dir_sep_chars : String
  load_path_update : load_path → load_path

/-- The function cache entry `symbol_table::fcn_info::fcn_info_rep`. -/
structure fcn_info_rep where
  name : String
  package_name : String
  subfunctions : scope_id → Option octave_value
  private_functions : String → Option octave_value
  class_constructors : String → Option octave_value
  class_methods : String → Option octave_value
  cmdline_function : octave_value
  autoload_function : octave_value
  function_on_path : octave_value
  package : octave_value
  built_in_function : octave_value

/-- Modelled from the spec: `fcn_info_rep::full_name` of `symtab.h`, which is
not among the sources: the name, qualified by the package when there is one. -/
def fcn_info_rep.full_name (e : fcn_info_rep) : String :=
  if e.package_name = "" then e.name else e.package_name ++ "." ++ e.name

/-- Modelled from the spec: the constructor `fcn_info (name)` of `symtab.h`,
which is not among the sources: an entry created on the first lookup of an
unseen name, with every slot undefined and every map empty. -/
def fcn_info_rep.create (nm : String) : fcn_info_rep :=
  { name := (split_name_with_package nm).1
    package_name := (split_name_with_package nm).2
    subfunctions := fun _ => none
    private_functions := fun _ => none
    class_constructors := fun _ => none
    class_methods := fun _ => none
    cmdline_function := octave_value.undefined
    autoload_function := octave_value.undefined
    function_on_path := octave_value.undefined
    package := octave_value.undefined
    built_in_function := octave_value.undefined }

/-- The interpreter state that name resolution reads or writes: the heap of
function objects with its next free address, the search path, the clock with
the last-prompt and last-chdir times, `Vignore_function_time_stamp`, the
static tables of `symbol_table`, the current scope and the function running
in each scope (`get_curr_fcn`), the breakpoint table, and two records kept
for the proofs only: the files handed to the loader (latest first) and the
number of calls of `load_path::update`. -/
structure State where
  heap : Nat → octave_function
  next_fcn : Nat
  lp : load_path
  now : Nat
  Vlast_prompt_time : Nat
  Vlast_chdir_time : Nat
  Vignore_function_time_stamp : Int
  class_precedence_table : precedence_table
  global_table : String → Option octave_value
  fcn_table : String → Option fcn_info_rep
  xcurrent_scope : scope_id
  curr_fcn : scope_id → Option Nat
  breakpoints : String → List Nat
  loads : List String
  updates : Nat

/-- The result of a lookup on an entry: the value, the entry and the state
after the call. -/
abbrev Res := octave_value × fcn_info_rep × State

/-- The constructor `octave_value (fcn)` for a function object just created:
the object is placed at the next free address of the heap. -/
def State.alloc (G : State) (f : octave_function) : Nat × State :=
  (G.next_fcn, { G with heap := Function.update G.heap G.next_fcn f, next_fcn := G.next_fcn + 1 })

/-- A call of `load_fcn_from_file`: the file is recorded in `loads`; on
success the new function object is placed in the heap and its address is
returned, on failure the result is null. -/
def load_fcn (w : World) (file dir_name dispatch_type package_name fcn_name : String)
    (autoload : Bool) (G : State) : Option Nat × State :=
  match w.load_fcn_from_file file dir_name dispatch_type package_name fcn_name autoload with
  | some f =>
    (some G.next_fcn,
      { G with heap := Function.update G.heap G.next_fcn f, next_fcn := G.next_fcn + 1,
               loads := file :: G.loads })
  | none => (none, { G with loads := file :: G.loads })

/-- Modelled from the spec: `bp_table::remove_all_breakpoints_in_file` of
`debug.cc`, which is not among the sources: every breakpoint registered for
the name is removed. -/
def remove_all_breakpoints_in_file (G : State) (fname : String) : State :=
  { G with breakpoints := Function.update G.breakpoints fname [] }

/-- The call `load_path::update ()`. -/
def load_path_update (w : World) (G : State) : State :=
  { G with lp := w.load_path_update G.lp, updates := G.updates + 1 }

/-! ## The staleness check -/

/-- The function `load_out_of_date_fcn`: the result and the new value of
`function`. -/
def load_out_of_date_fcn (w : World) (ff dir_name dispatch_type package_name : String)
    (G : State) : Bool × octave_value × State :=
  match load_fcn w ff dir_name dispatch_type package_name "" false G with
  | (some p, G1) => (true, octave_value.fcn p, G1)
  | (none, G1) => (false, octave_value.undefined, G1)

/-- The loop of `out_of_date_check` over the parent classes of the dispatch
type: the triple `(file, dir_name, pack)` on exit. -/
def out_of_date_parents (lp : load_path) (nm : String) :
    List String → String → String → String × String × String
  | [], dir_name, pack => ("", dir_name, pack)
  | c :: rest, dir_name, pack =>
    let s_pack := (split_name_with_package c).2
    let fm := lp.find_method c nm dir_name s_pack
    if fm.1 ≠ "" then (fm.1, fm.2, s_pack)
    else out_of_date_parents lp nm rest fm.2 pack

/-- The test of `out_of_date_check` that the name of a function is itself
the name of its file: an absolute path name that ends in `.oct`, `.mex` or
`.m`. -/
def names_fcn_file (w : World) (nm : String) : Bool :=
  let nm_len := nm.length
  w.absolute_pathname nm
    && ((decide (nm_len > 4)
          && (decide (substr_from nm (nm_len - 4) = ".oct")
              || decide (substr_from nm (nm_len - 4) = ".mex")))
        || (decide (nm_len > 2) && decide (substr_from nm (nm_len - 2) = ".m")))

/-- What the re-resolution of `out_of_date_check` leaves in its local
variables. -/
structure stale_lookup where
  file : String
  dir_name : String
  pack : String
  is_same_file : Bool
  deriving DecidableEq, Repr

/-- The re-resolution of the file of a potentially stale function object
(the statement `if (check_relative) ... else ...` of `out_of_date_check`). -/
def out_of_date_lookup (w : World) (G : State) (fcn : octave_function)
    (dispatch_type : String) (check_relative : Bool) : stale_lookup :=
  let nm := fcn.name
  let pack := fcn.package_name
  let ff := fcn.fcn_file_name
  if check_relative then
    let r : String × String × String :=
      if names_fcn_file w nm then (nm, "", pack)
      else
        let r1 : String × String × String :=
          if dispatch_type ≠ "" then
            let fm := G.lp.find_method dispatch_type nm "" pack
            if fm.1 = "" then
              out_of_date_parents G.lp nm (w.parent_classes dispatch_type) fm.2 pack
            else (fm.1, fm.2, pack)
          else ("", "", pack)
        let file2 := if r1.1 = "" then w.lookup_autoload nm else r1.1
        if file2 = "" then
          let ff2 := G.lp.find_fcn nm r1.2.1 r1.2.2
          (ff2.1, ff2.2, r1.2.2)
        else (file2, r1.2.1, r1.2.2)
    { file := r.1, dir_name := r.2.1, pack := r.2.2,
      is_same_file := if r.1 ≠ "" then w.same_file r.1 ff else false }
  else
    { file := ff, dir_name := "", pack := pack, is_same_file := true }

/-- The condition under which `out_of_date_check` looks at a function object
at all: `tc <= Vlast_prompt_time || (relative && tc < Vlast_chdir_time)`. -/
def potentially_stale (G : State) (fcn : octave_function) (check_relative : Bool) : Bool :=
  decide (fcn.time_checked ≤ G.Vlast_prompt_time)
    || ((check_relative && fcn.is_relative) && decide (fcn.time_checked < G.Vlast_chdir_time))

/-- The function `out_of_date_check (function, dispatch_type, check_relative)`:
the result, the new value of `function`, and the state. -/
def out_of_date_check (w : World) (function : octave_value) (dispatch_type : String)
    (check_relative : Bool) (G : State) : Bool × octave_value × State :=
  match function.function_value with
  | none => (false, function, G)
  | some p =>
    let fcn := G.heap p
    if fcn.is_subfunction then (false, function, G)
    else if fcn.fcn_file_name = "" then (false, function, G)
    else if potentially_stale G fcn check_relative then
      let canonical_nm := fcn.canonical_name
      let l := out_of_date_lookup w G fcn dispatch_type check_relative
      if l.file = "" then
        (false, octave_value.undefined, remove_all_breakpoints_in_file G canonical_nm)
      else if l.is_same_file then
        let tp := fcn.time_parsed
        let G1 := { G with heap := Function.update G.heap p { fcn with time_checked := G.now } }
        if ¬ (G.Vignore_function_time_stamp = 2
              ∨ (G.Vignore_function_time_stamp ≠ 0 ∧ fcn.is_system_fcn_file = true)) then
          match w.file_stat fcn.fcn_file_name with
          | some mtime =>
            if mtime > tp then
              let r := load_out_of_date_fcn w fcn.fcn_file_name l.dir_name dispatch_type l.pack G1
              (r.1, r.2.1, remove_all_breakpoints_in_file r.2.2 canonical_nm)
            else (false, function, G1)
          | none =>
            (false, octave_value.undefined, remove_all_breakpoints_in_file G1 canonical_nm)
        else (false, function, G1)
      else
        let r := load_out_of_date_fcn w l.file l.dir_name dispatch_type l.pack G
        (r.1, r.2.1, remove_all_breakpoints_in_file r.2.2 canonical_nm)
    else (false, function, G)

/-! ## The function cache entry -/

/-- The method `octave_function::mark_as_private_function (class_name)` on
the object at address `p`. -/
def mark_as_private_function (G : State) (p : Nat) (class_name : String) : State :=
  let fcn := G.heap p
  { G with heap :=
      Function.update G.heap p ({ fcn with private_function := true, xdispatch_class := class_name }) }

/-- The class name that `load_private_function` derives from the directory:
the last path component without its leading `@`, or the empty string. -/
def private_class_name (w : World) (dir_name : String) : String :=
  match find_last_of dir_name w.dir_sep_chars with
  | some pos =>
    let tmp := substr_from dir_name (pos + 1)
    if tmp.toList.head? = some '@' then substr_from tmp 1 else ""
  | none => ""

/-- The method `fcn_info_rep::load_private_function (dir_name)`. -/
def load_private_function (w : World) (dir_name : String) (e : fcn_info_rep) (G : State) : Res :=
  let file_name := G.lp.find_private_fcn dir_name e.name
  if file_name ≠ "" then
    match load_fcn w file_name dir_name "" "" "" false G with
    | (some p, G1) =>
      let retval := octave_value.fcn p
      (retval,
        { e with private_functions := Function.update e.private_functions dir_name (some retval) },
        mark_as_private_function G1 p (private_class_name w dir_name))
    | (none, G1) => (octave_value.undefined, e, G1)
  else (octave_value.undefined, e, G)

/-- The method `fcn_info_rep::find_user_function`. -/
def find_user_function (w : World) (e : fcn_info_rep) (G : State) : Res :=
  let r : Bool × octave_value × State :=
    if e.function_on_path.is_defined then out_of_date_check w e.function_on_path "" true G
    else (false, e.function_on_path, G)
  let e1 := { e with function_on_path := r.2.1 }
  if e1.function_on_path.is_undefined then
    let ff := r.2.2.lp.find_fcn e.name "" e.package_name
    if ff.1 ≠ "" then
      match load_fcn w ff.1 ff.2 "" e.package_name "" false r.2.2 with
      | (some p, G2) => (octave_value.fcn p, { e1 with function_on_path := octave_value.fcn p }, G2)
      | (none, G2) => (e1.function_on_path, e1, G2)
    else (e1.function_on_path, e1, r.2.2)
  else (e1.function_on_path, e1, r.2.2)

/-- The method `fcn_info_rep::find_autoload`. -/
def find_autoload (w : World) (e : fcn_info_rep) (G : State) : Res :=
  let r : Bool × octave_value × State :=
    if e.autoload_function.is_defined then out_of_date_check w e.autoload_function "" true G
    else (false, e.autoload_function, G)
  let e1 := { e with autoload_function := r.2.1 }
  if !e1.autoload_function.is_defined then
    let file_name := w.lookup_autoload e.name
    if file_name ≠ "" then
      let dir_name := substr_to file_name (find_last_of file_name w.dir_sep_chars)
      match load_fcn w file_name dir_name "" "" e.name true r.2.2 with
      | (some p, G2) => (octave_value.fcn p, { e1 with autoload_function := octave_value.fcn p }, G2)
      | (none, G2) => (e1.autoload_function, e1, G2)
    else (e1.autoload_function, e1, r.2.2)
  else (e1.autoload_function, e1, r.2.2)

/-- The method `fcn_info_rep::find_package`. -/
def find_package (w : World) (e : fcn_info_rep) (G : State) : Res :=
  if e.package.is_undefined then
    match w.find_package_symbol e.full_name with
    | some f =>
      let a := G.alloc f
      (octave_value.fcn a.1, { e with package := octave_value.fcn a.1 }, a.2)
    | none => (e.package, e, G)
  else (e.package, e, G)

/-- The method `fcn_info_rep::load_class_constructor`. -/
def load_class_constructor (w : World) (e : fcn_info_rep) (G : State) : Res :=
  let fm := G.lp.find_method e.name e.name "" e.package_name
  if fm.1 ≠ "" then
    match load_fcn w fm.1 fm.2 e.name e.package_name "" false G with
    | (some p, G1) =>
      let retval := octave_value.fcn p
      (retval,
        { e with class_constructors := Function.update e.class_constructors e.name (some retval)
                 class_methods := Function.update e.class_methods e.name (some retval) },
        G1)
    | (none, G1) => (octave_value.undefined, e, G1)
  else
    let old_function_on_path := e.function_on_path
    let m := find_user_function w e G
    let maybe_cdef_ctor := m.1
    if maybe_cdef_ctor.is_defined then
      match maybe_cdef_ctor.function_value with
      | some p =>
        if (m.2.2.heap p).is_classdef_constructor then
          (maybe_cdef_ctor,
            { m.2.1 with
                class_constructors :=
                  Function.update m.2.1.class_constructors e.name (some maybe_cdef_ctor)
                class_methods := Function.update m.2.1.class_methods e.name (some maybe_cdef_ctor)
                function_on_path := old_function_on_path },
            m.2.2)
        else (octave_value.undefined, m.2.1, m.2.2)
      | none => (octave_value.undefined, m.2.1, m.2.2)
    else (octave_value.undefined, m.2.1, m.2.2)

/-- The loop of `load_class_method` over the parent classes, with `find` the
method `find_method` it calls: the value of `retval` on exit. -/
def load_class_method_parents (find : String → fcn_info_rep → State → Option Res)
    (dispatch_type : String) : List String → fcn_info_rep → State → Option Res
  | [], e, G => some (octave_value.undefined, e, G)
  | c :: rest, e, G =>
    match find c e G with
    | none => none
    | some r =>
      if r.1.is_defined then
        some (r.1,
          { r.2.1 with class_methods := Function.update r.2.1.class_methods dispatch_type (some r.1) },
          r.2.2)
      else load_class_method_parents find dispatch_type rest r.2.1 r.2.2

/-- The last resort of `load_class_method`: the built-in function when it is
declared to handle the dispatch type. There is no result (`none`) when
`function_value ()` raises its type error on a defined value that is not a
function. -/
def load_class_method_built_in (dispatch_type : String) (e : fcn_info_rep) (G : State) :
    Option Res :=
  match e.built_in_function with
  | octave_value.undefined => some (octave_value.undefined, e, G)
  | octave_value.data _ => none
  | octave_value.fcn p =>
    if dispatch_type ∈ (G.heap p).dispatch_classes then
      some (e.built_in_function,
        { e with class_methods :=
            Function.update e.class_methods dispatch_type (some e.built_in_function) },
        G)
    else some (octave_value.undefined, e, G)

/-- The method `fcn_info_rep::load_class_method (dispatch_type)`, with `find`
the method `find_method` it calls on the parent classes. -/
def load_class_method (w : World) (find : String → fcn_info_rep → State → Option Res)
    (dispatch_type : String) (e : fcn_info_rep) (G : State) : Option Res :=
  if e.full_name = dispatch_type then some (load_class_constructor w e G)
  else
    match w.find_method_symbol e.name dispatch_type with
    | some cm =>
      let a := G.alloc cm
      some (octave_value.fcn a.1, e, a.2)
    | none =>
      let fm := G.lp.find_method dispatch_type e.name "" ""
      let r1 : Res :=
        if fm.1 ≠ "" then
          match load_fcn w fm.1 fm.2 dispatch_type "" "" false G with
          | (some p, G1) =>
            (octave_value.fcn p,
              { e with class_methods :=
                  Function.update e.class_methods dispatch_type (some (octave_value.fcn p)) },
              G1)
          | (none, G1) => (octave_value.undefined, e, G1)
        else (octave_value.undefined, e, G)
      if r1.1.is_undefined then
        match load_class_method_parents find dispatch_type (w.parent_classes dispatch_type)
            r1.2.1 r1.2.2 with
        | none => none
        | some r2 =>
          if r2.1.is_undefined then load_class_method_built_in dispatch_type r2.2.1 r2.2.2
          else some r2
      else some r1

/-- The method `fcn_info_rep::find_method (dispatch_type)`; the fuel bounds
the depth of the recursion through `load_class_method`. -/
def find_method (w : World) : Nat → String → fcn_info_rep → State → Option Res
  | 0 => fun _ _ _ => none
  | n + 1 => fun dispatch_type e G =>
    match e.class_methods dispatch_type with
    | none => load_class_method w (find_method w n) dispatch_type e G
    | some fval0 =>
      let r : Bool × octave_value × State :=
        if fval0.is_defined then out_of_date_check w fval0 dispatch_type true G
        else (false, fval0, G)
      let e1 := { e with class_methods := Function.update e.class_methods dispatch_type (some r.2.1) }
      if r.2.1.is_defined then some (r.2.1, e1, r.2.2)
      else load_class_method w (find_method w n) dispatch_type e1 r.2.2

/-! ## Precedence resolution -/

/-- The loop `for (scope_id scope = xcurrent_scope; scope >= 0;)` of `xfind`
and `x_builtin_find`, from scope `scope`: `some (some v)` when the loop
returns the entry `v` of `subfunctions`, `some none` when it ends without
one, `none` when the fuel runs out. -/
def find_subfunction (e : fcn_info_rep) (G : State) : Nat → scope_id → Option (Option octave_value)
  | 0, _ => none
  | n + 1, scope =>
    if scope ≥ 0 then
      match e.subfunctions scope with
      | some v => some (some v)
      | none =>
        match G.curr_fcn scope with
        | some p => find_subfunction e G n (G.heap p).parent_fcn_scope
        | none => find_subfunction e G n (-1)
    else some none

/-- The block "Private function" of `xfind` (with `check_relative` false) and
of `x_builtin_find` (with `check_relative` true): the value the block
returns, or undefined when control leaves the block. -/
def find_private_function (w : World) (check_relative : Bool) (e : fcn_info_rep) (G : State) :
    Res :=
  match G.curr_fcn G.xcurrent_scope with
  | some current_fcn =>
    let dir_name := (G.heap current_fcn).dir_name
    if dir_name ≠ "" then
      match e.private_functions dir_name with
      | none => load_private_function w dir_name e G
      | some fval0 =>
        let r : Bool × octave_value × State :=
          if fval0.is_defined then out_of_date_check w fval0 "" check_relative G
          else (false, fval0, G)
        let e1 :=
          { e with private_functions := Function.update e.private_functions dir_name (some r.2.1) }
        if r.2.1.is_defined then (r.2.1, e1, r.2.2)
        else load_private_function w dir_name e1 r.2.2
    else (octave_value.undefined, e, G)
  | none => (octave_value.undefined, e, G)

/-- The block "Class constructors" of `xfind`: the value the block returns,
or undefined when control leaves the block. -/
def find_class_constructor (w : World) (e : fcn_info_rep) (G : State) : Res :=
  match e.class_constructors e.name with
  | none => load_class_constructor w e G
  | some fval0 =>
    let r : Bool × octave_value × State :=
      if fval0.is_defined then out_of_date_check w fval0 e.name true G
      else (false, fval0, G)
    let e1 :=
      { e with class_constructors := Function.update e.class_constructors e.name (some r.2.1) }
    if r.2.1.is_defined then (r.2.1, e1, r.2.2)
    else load_class_constructor w e1 r.2.2

/-- The method `xfind` from the comment "Class constructors" to its end. -/
def xfind_from_class_constructors (w : World) (e : fcn_info_rep) (G : State) : Res :=
  let c := find_class_constructor w e G
  if c.1.is_defined then c
  else if c.2.1.cmdline_function.is_defined then (c.2.1.cmdline_function, c.2.1, c.2.2)
  else
    let a := find_autoload w c.2.1 c.2.2
    if a.1.is_defined then a
    else
      let u := find_user_function w a.2.1 a.2.2
      if u.1.is_defined then u
      else
        let k := find_package w u.2.1 u.2.2
        if k.1.is_defined then k
        else (k.2.1.built_in_function, k.2.1, k.2.2)

/-- The method `xfind` from the comment "Class methods" to its end. -/
def xfind_from_class_methods (w : World) (fuel : Nat) (args : List octave_arg)
    (e : fcn_info_rep) (G : State) : Option Res :=
  if args ≠ [] then
    match find_method w fuel (get_dispatch_type G.class_precedence_table args) e G with
    | none => none
    | some m =>
      if m.1.is_defined then some m
      else some (xfind_from_class_constructors w m.2.1 m.2.2)
  else some (xfind_from_class_constructors w e G)

/-- The method `fcn_info_rep::xfind (args, local_funcs)`. -/
def xfind (w : World) (fuel : Nat) (args : List octave_arg) (local_funcs : Bool)
    (e : fcn_info_rep) (G : State) : Option Res :=
  if local_funcs then
    match find_subfunction e G fuel G.xcurrent_scope with
    | none => none
    | some (some v) => some (v, e, G)
    | some none =>
      let q := find_private_function w false e G
      if q.1.is_defined then some q
      else xfind_from_class_methods w fuel args q.2.1 q.2.2
  else xfind_from_class_methods w fuel args e G

/-- The method `fcn_info_rep::find (args, local_funcs)`. -/
def find (w : World) (fuel : Nat) (args : List octave_arg) (local_funcs : Bool)
    (e : fcn_info_rep) (G : State) : Option Res :=
  match xfind w fuel args local_funcs e G with
  | none => none
  | some retval =>
    if retval.1.is_undefined then
      xfind w fuel args local_funcs retval.2.1 (load_path_update w retval.2.2)
    else some retval

/-- The method `fcn_info_rep::x_builtin_find`. -/
def x_builtin_find (w : World) (fuel : Nat) (e : fcn_info_rep) (G : State) : Option Res :=
  if e.built_in_function.is_defined then some (e.built_in_function, e, G)
  else
    let u := find_user_function w e G
    if u.1.is_defined then some u
    else
      let a := find_autoload w u.2.1 u.2.2
      if a.1.is_defined then some a
      else if a.2.1.cmdline_function.is_defined then some (a.2.1.cmdline_function, a.2.1, a.2.2)
      else
        let q := find_private_function w true a.2.1 a.2.2
        if q.1.is_defined then some q
        else
          match find_subfunction q.2.1 q.2.2 fuel q.2.2.xcurrent_scope with
          | none => none
          | some (some v) => some (v, q.2.1, q.2.2)
          | some none => some (octave_value.undefined, q.2.1, q.2.2)

/-- The method `fcn_info_rep::builtin_find`. -/
def builtin_find (w : World) (fuel : Nat) (e : fcn_info_rep) (G : State) : Option Res :=
  match x_builtin_find w fuel e G with
  | none => none
  | some retval =>
    if !retval.1.is_defined then
      x_builtin_find w fuel retval.2.1 (load_path_update w retval.2.2)
    else some retval

/-! ## The scope table -/

/-- What `do_find` reads of a `symbol_record`: whether it is flagged global
and the value `varval ()` of its local storage. -/
structure symbol_record where
  name : String
  is_global : Bool
  is_persistent : Bool
  is_formal : Bool
  varval : octave_value
  deriving DecidableEq, Repr

/-- Modelled from the spec: `symbol_table::global_varval` of `symtab.h`,
which is not among the sources: the value stored for the name in the global
table, undefined when there is none. -/
def global_varval (G : State) (name : String) : octave_value :=
  match G.global_table name with
  | some v => v
  | none => octave_value.undefined

/-- The method `symbol_table::do_find (name, args, skip_variables,
local_funcs)` of the scope with variable table `table`. -/
def do_find (w : World) (fuel : Nat) (table : String → Option symbol_record) (name : String)
    (args : List octave_arg) (skip_variables local_funcs : Bool) (G : State) :
    Option (octave_value × State) :=
  let var : Option octave_value :=
    if !skip_variables then
      match table name with
      | some sr =>
        if sr.is_global then some (global_varval G name)
        else if sr.varval.is_defined then some sr.varval else none
      | none => none
    else none
  match var with
  | some v => some (v, G)
  | none =>
    match G.fcn_table name with
    | some e =>
      match find w fuel args local_funcs e G with
      | none => none
      | some r =>
        some (r.1, { r.2.2 with fcn_table := Function.update r.2.2.fcn_table name (some r.2.1) })
    | none =>
      match find w fuel args local_funcs (fcn_info_rep.create name) G with
      | none => none
      | some r =>
        if r.1.is_defined then
          some (r.1, { r.2.2 with fcn_table := Function.update r.2.2.fcn_table name (some r.2.1) })
        else some (r.1, r.2.2)

/-! ## The precedence list as the specification words it -/

/-- A resolution step: a sub-procedure that yields a value, possibly
undefined, and leaves an entry and a state behind. -/
abbrev Step := fcn_info_rep → State → Option Res

/-- The value of the first step that yields a defined value, the steps being
tried in order, each on what the one before it left behind; `last` is the
terminal fallback, returned defined or not. -/
def first_defined : List Step → Step → Step
  | [], last, e, G => last e G
  | t :: ts, last, e, G =>
    match t e G with
    | none => none
    | some r => if r.1.is_defined then some r else first_defined ts last r.2.1 r.2.2

/-- The step "subfunction found in the current scope chain". -/
def subfunction_step (fuel : Nat) : Step := fun e G =>
  match find_subfunction e G fuel G.xcurrent_scope with
  | none => none
  | some (some v) => some (v, e, G)
  | some none => some (octave_value.undefined, e, G)

/-- The step "private function of the current function's directory". -/
def private_step (w : World) : Step := fun e G => some (find_private_function w false e G)

/-- The step "class method for the computed dispatch type". -/
def class_method_step (w : World) (fuel : Nat) (args : List octave_arg) : Step := fun e G =>
  find_method w fuel (get_dispatch_type G.class_precedence_table args) e G

/-- The step "class constructor". -/
def class_constructor_step (w : World) : Step := fun e G => some (find_class_constructor w e G)

/-- The step "command-line function". -/
def cmdline_step : Step := fun e G => some (e.cmdline_function, e, G)

/-- The step "autoload function". -/
def autoload_step (w : World) : Step := fun e G => some (find_autoload w e G)

/-- The step "function on the path". -/
def path_step (w : World) : Step := fun e G => some (find_user_function w e G)

/-- The step "package". -/
def package_step (w : World) : Step := fun e G => some (find_package w e G)

/-- The terminal step "built-in function". -/
def built_in_step : Step := fun e G => some (e.built_in_function, e, G)

/-- The precedence list of the specification: the steps that `xfind` is said
to try, in order, for an argument list and a flag. -/
def xfind_steps (w : World) (fuel : Nat) (args : List octave_arg) (local_funcs : Bool) :
    List Step :=
  (if local_funcs then [subfunction_step fuel, private_step w] else [])
    ++ (if args ≠ [] then [class_method_step w fuel args] else [])
    ++ [class_constructor_step w, cmdline_step, autoload_step w, path_step w, package_step w]

/-- The resolution the specification describes: the first defined value of
the precedence list, the built-in slot if there is none. -/
def xfind_precedence (w : World) (fuel : Nat) (args : List octave_arg) (local_funcs : Bool) :
    Step :=
  first_defined (xfind_steps w fuel args local_funcs) built_in_step

/-! ## Sample collaborators and states -/

/-- A search path on which nothing is found. -/
def empty_load_path : load_path :=
  { find_fcn := fun _ _ _ => ("", "")
    find_method := fun _ _ _ _ => ("", "")
    find_private_fcn := fun _ _ => "" }

/-- Collaborators that find nothing and load nothing. -/
def empty_world : World :=
  { load_fcn_from_file := fun _ _ _ _ _ _ => none
    lookup_autoload := fun _ => ""
    same_file := fun a b => decide (a = b)
    absolute_pathname := fun _ => false
    file_stat := fun _ => none
    find_method_symbol := fun _ _ => none
    find_package_symbol := fun _ => none
    parent_classes := fun _ => []
    dir_sep_chars := "/"
    load_path_update := fun lp => lp }

/-- A function object named `nm` with no backing file. -/
def sample_function (nm : String) : octave_function :=
  { name := nm, package_name := "", canonical_name := nm, fcn_file_name := "", dir_name := ""
    time_parsed := 0, time_checked := 0, is_subfunction := false, is_relative := false
    is_system_fcn_file := false, is_classdef_constructor := false
    parent_fcn_scope := -1, scope := -1, dispatch_classes := [], private_function := false
    xdispatch_class := "" }

/-- The state of an interpreter at its top-level scope, with one function
object (a function named `foo`) at address 0 of the heap, empty tables and
an empty search path. -/
def sample_state : State :=
  { heap := fun _ => sample_function "foo"
    next_fcn := 1
    lp := empty_load_path
    now := 10
    Vlast_prompt_time := 5
    Vlast_chdir_time := 5
    Vignore_function_time_stamp := 1
    class_precedence_table := fun _ => none
    global_table := fun _ => none
    fcn_table := fun _ => none
    xcurrent_scope := 1
    curr_fcn := fun _ => none
    breakpoints := fun _ => []
    loads := []
    updates := 0 }

/-- An entry for `foo` whose subfunction map holds an undefined value for
scope 1 and whose command-line slot holds the function at address 0. -/
def undefined_subfunction_entry : fcn_info_rep :=
  { fcn_info_rep.create "foo" with
      subfunctions := fun s => if s = 1 then some octave_value.undefined else none
      cmdline_function := octave_value.fcn 0 }

/-- An entry for `foo` with a subfunction registered for scope 1 (the
function at address 0) and nothing else. -/
def subfunction_entry : fcn_info_rep :=
  { fcn_info_rep.create "foo" with
      subfunctions := fun s => if s = 1 then some (octave_value.fcn 0) else none }

/-! ## What a lookup leaves alone -/

/-- The part of the state that no lookup on an entry writes: everything but
the heap, the breakpoints and the record of loads. -/
def State.frame (G : State) : State :=
  { G with heap := fun _ => default, next_fcn := 0, breakpoints := fun _ => [], loads := [] }

/-- A function object without the marks that `symtab.cc` puts on it (the
last-checked time and the private-function mark). -/
def octave_function.unmarked (f : octave_function) : octave_function :=
  { f with time_checked := 0, private_function := false, xdispatch_class := "" }

/-- The heap of `G2` extends the heap of `G1`: no address is given back, and
an object allocated in `G1` is the same object in `G2` up to its marks. -/
structure heap_ext (G1 G2 : State) : Prop where
  le : G1.next_fcn ≤ G2.next_fcn
  keep : ∀ p, p < G1.next_fcn → (G2.heap p).unmarked = (G1.heap p).unmarked

/-- The value refers to an allocated function object of the heap that
satisfies `P`, or is not a function at all. -/
def octave_value.refers (v : octave_value) (G : State) (P : octave_function → Prop) : Prop :=
  ∀ p, v = octave_value.fcn p → p < G.next_fcn ∧ P (G.heap p)

/-- What a value produced by a load is: undefined, or the object the loader
made, at the first free address. -/
def loaded_value (w : World) (G G2 : State) (v : octave_value) : Prop :=
  v = octave_value.undefined ∨
    (v = octave_value.fcn G.next_fcn ∧ G.next_fcn < G2.next_fcn ∧
      ∃ a b c d x y g, w.load_fcn_from_file a b c d x y = some g ∧ G2.heap G.next_fcn = g)

/-- What every call of `out_of_date_check` guarantees about its result `r`
for the value `v` and the state `G` it was called on. -/
structure stale_post (w : World) (v : octave_value) (G : State)
    (r : Bool × octave_value × State) : Prop where
  frame : r.2.2.frame = G.frame
  ext : heap_ext G r.2.2
  value : r.2.1 = v ∨ loaded_value w G r.2.2 r.2.1

/-- What every lookup on an entry guarantees about its result `r` for the
entry `e` and the state `G` it was called on: the frame of the state is
kept, the heap is extended, and the entry keeps its name and its built-in
slot. -/
structure lookup_post (e : fcn_info_rep) (G : State) (r : Res) : Prop where
  frame : r.2.2.frame = G.frame
  ext : heap_ext G r.2.2
  name : r.2.1.name = e.name
  package_name : r.2.1.package_name = e.package_name
  built_in : r.2.1.built_in_function = e.built_in_function

/-- A function object for `foo` loaded from the file `/p/foo.m`, last
checked at time 5 and parsed at time 3. -/
def stale_function : octave_function :=
  { sample_function "foo" with
      fcn_file_name := "/p/foo.m", dir_name := "/p", time_parsed := 3, time_checked := 5 }

/-- The sample state with `stale_function` at every address of the heap: the
last-prompt time is 5, the time at which the function was last checked. -/
def stale_state : State := { sample_state with heap := fun _ => stale_function }

/-- The step "private function" as `x_builtin_find` runs it (the staleness
check is made with relative checking). -/
def builtin_private_step (w : World) : Step := fun e G => some (find_private_function w true e G)

/-- The fallback of `x_builtin_find`: the undefined value. -/
def undefined_step : Step := fun e G => some (octave_value.undefined, e, G)

/-- The precedence list of the built-in-only lookup. -/
def x_builtin_find_precedence (w : World) (fuel : Nat) : Step :=
  first_defined
    [built_in_step, path_step w, autoload_step w, cmdline_step, builtin_private_step w,
      subfunction_step fuel]
    undefined_step

/-- The entry with its class-method and class-constructor maps replaced. -/
def fcn_info_rep.with_class_maps (e : fcn_info_rep) (cm cc : String → Option octave_value) :
    fcn_info_rep :=
  { e with class_methods := cm, class_constructors := cc }

/-! ## Worlds in which no class method is defined -/

/-- The value is not a classdef constructor of the heap of `G`. -/
def not_constructor (v : octave_value) (G : State) : Prop :=
  ∀ p, v = octave_value.fcn p → (G.heap p).is_classdef_constructor = false

/-- A situation without class definitions for the name `nm`, described by an
invariant `I` of the entry and the state: the class manager knows no method
symbol, the search path `lp` holds no method file for the name, the entry
caches no class method, its built-in slot holds `b`, which is not a datum,
and `find_user_function` keeps the invariant and never yields a classdef
constructor. -/
structure class_free (w : World) (lp : load_path) (nm pk : String) (b : octave_value)
    (I : fcn_info_rep → State → Prop) : Prop where
  method_symbol : ∀ c, w.find_method_symbol nm c = none
  method_file : ∀ c d p, (lp.find_method c nm d p).1 = ""
  not_data : ∀ d, b ≠ octave_value.data d
  methods : ∀ e G, I e G → ∀ c, e.class_methods c = none
  lp_eq : ∀ e G, I e G → G.lp = lp
  name : ∀ e G, I e G → e.name = nm
  package_name : ∀ e G, I e G → e.package_name = pk
  built_in : ∀ e G, I e G → e.built_in_function = b
  user : ∀ e G, I e G →
    I (find_user_function w e G).2.1 (find_user_function w e G).2.2
      ∧ not_constructor (find_user_function w e G).1 (find_user_function w e G).2.2

/-- The outcome of a class-method lookup where no class is defined: the
value is undefined and the invariant holds, or the value is the built-in
function, which handles some dispatch class, returned in a state in which
the invariant held for the entry up to its class-method map. -/
def class_free_outcome (b : octave_value) (I : fcn_info_rep → State → Prop) (r : Res) : Prop :=
  (r.1 = octave_value.undefined ∧ I r.2.1 r.2.2)
    ∨ (r.1 = b ∧ b.is_defined = true
        ∧ (∃ e1 m, I e1 r.2.2 ∧ r.2.1 = { e1 with class_methods := m })
        ∧ ∃ p c, b = octave_value.fcn p ∧ c ∈ (r.2.2.heap p).dispatch_classes)

/-! ## Names with no file to load -/

/-- The state with its record of loads replaced. -/
def State.logged (G : State) (l : List String) : State := { G with loads := l }

/-- No collaborator resolves the name of the entry `e` on the search path
`lp`: there is no private function file, no method file, no method symbol,
no autoload, no package symbol, and the path holds no file for the name or
the loader fails on the file it holds. -/
structure unresolvable (w : World) (lp : load_path) (e : fcn_info_rep) : Prop where
  private_fcn : ∀ d, lp.find_private_fcn d e.name = ""
  method_file : ∀ c d p, (lp.find_method c e.name d p).1 = ""
  method_symbol : ∀ c, w.find_method_symbol e.name c = none
  autoload : w.lookup_autoload e.name = ""
  package_symbol : w.find_package_symbol e.full_name = none
  path : (lp.find_fcn e.name "" e.package_name).1 = ""
    ∨ w.load_fcn_from_file (lp.find_fcn e.name "" e.package_name).1
        (lp.find_fcn e.name "" e.package_name).2 "" e.package_name "" false = none

/-- The entry caches nothing but, possibly, a command-line function and a
built-in function (and subfunctions). -/
structure uncached (e : fcn_info_rep) : Prop where
  private_functions : ∀ d, e.private_functions d = none
  class_constructors : ∀ c, e.class_constructors c = none
  class_methods : ∀ c, e.class_methods c = none
  autoload_function : e.autoload_function = octave_value.undefined
  function_on_path : e.function_on_path = octave_value.undefined
  package : e.package = octave_value.undefined

/-- The invariant of a lookup that loads nothing: the entry is `e0` and the
state is `G0` up to the record of loads. -/
def silent (e0 : fcn_info_rep) (G0 : State) (e : fcn_info_rep) (G : State) : Prop :=
  e = e0 ∧ ∃ l, G = G0.logged l

/-- The value `xfind` ends on when only the command-line and the built-in
slot are left: the command-line function if defined, else the built-in
slot. -/
def terminal_value (e : fcn_info_rep) : octave_value :=
  if e.cmdline_function.is_defined then e.cmdline_function else e.built_in_function

/-- The scopes that the walk of `xfind` over the parent scopes visits from
`scope`, `none` when the fuel does not suffice to reach its end. -/
def scope_chain (G : State) : Nat → scope_id → Option (List scope_id)
  | 0, _ => none
  | n + 1, scope =>
    if scope ≥ 0 then
      match G.curr_fcn scope with
      | some p => (scope_chain G n (G.heap p).parent_fcn_scope).map (fun l => scope :: l)
      | none => (scope_chain G n (-1)).map (fun l => scope :: l)
    else some []

/-- The parent-class relation is acyclic, and the classes above `dt` are
fewer than `fuel` levels deep: there is a rank that every parent class
lowers and that is below `fuel` at `dt`. -/
def class_depth_lt (w : World) (dt : String) (fuel : Nat) : Prop :=
  ∃ rank : String → Nat, (∀ c p, p ∈ w.parent_classes c → rank p < rank c) ∧ rank dt < fuel

/-- A search path whose only file is `/p/foo.m`, found for the name `foo`. -/
def foo_load_path : load_path :=
  { empty_load_path with
      find_fcn := fun nm _ _ => if nm = "foo" then ("/p/foo.m", "/p") else ("", "") }

/-- An entry for `foo` with a command-line function (the function at address
0) as its only definition. -/
def cmdline_entry : fcn_info_rep :=
  { fcn_info_rep.create "foo" with cmdline_function := octave_value.fcn 0 }

/-- An entry for `foo` with a built-in function (the function at address 0)
as its only definition. -/
def built_in_entry : fcn_info_rep :=
  { fcn_info_rep.create "foo" with built_in_function := octave_value.fcn 0 }

/-- The sample state with the search path that holds `/p/foo.m`. -/
def foo_state : State := { sample_state with lp := foo_load_path }

/-! ## Names with a file on the path -/

/-- A property of function objects that the marks of `symtab.cc` do not
affect. -/
def mark_stable (P : octave_function → Prop) : Prop :=
  ∀ f g : octave_function, f.unmarked = g.unmarked → P f → P g

/-- The invariant of a lookup during which only the path slot of the entry
`e0` changes: the slot refers to a function object that is not a classdef
constructor, the search path is that of `G0`, and the heap extends that of
`G0`. -/
def path_inv (e0 : fcn_info_rep) (G0 : State) (e : fcn_info_rep) (G : State) : Prop :=
  (∃ v, e = { e0 with function_on_path := v })
    ∧ e.function_on_path.refers G (fun f => f.is_classdef_constructor = false)
    ∧ G.lp = G0.lp ∧ heap_ext G0 G

/-- The function `symbol_table::set_class_relationship (sup_class,
inf_class)` on the class precedence table: the result and the table after
the call. The statement `class_precedence_table[sup_class].insert
(inf_class)` creates the set of `sup_class` when there is none. -/
def set_class_relationship (t : precedence_table) (sup_class inf_class : String) :
    Bool × precedence_table :=
  if is_superiorto t inf_class sup_class then (false, t)
  else
    (true, Function.update t sup_class (some (insert inf_class ((t sup_class).getD ∅))))

/-- The class precedence table with no entry. -/
def empty_precedence_table : precedence_table := fun _ => none

/-- The class precedence tables that a sequence of calls of
`set_class_relationship` makes of the empty table. -/
inductive reachable_table : precedence_table → Prop
  | empty : reachable_table empty_precedence_table
  | call (t : precedence_table) (sup_class inf_class : String) :
      reachable_table t → reachable_table (set_class_relationship t sup_class inf_class).2

/-- A search path on which the name `foo` is found in the file `/q/foo.m`. -/
def moved_load_path : load_path :=
  { empty_load_path with
      find_fcn := fun nm _ _ => if nm = "foo" then ("/q/foo.m", "/q") else ("", "") }

/-- The state `stale_state` (a function backed by `/p/foo.m`, last checked
at the last-prompt time) with the time-stamp mode "all" and with the search
path on which `foo` is now found in `/q/foo.m`. -/
def moved_state : State :=
  { stale_state with lp := moved_load_path, Vignore_function_time_stamp := 2 }

/-- The function object `stale_function`, last checked at time 4, before the
last prompt of the sample states. -/
def old_function : octave_function := { stale_function with time_checked := 4 }

/-- A function object for `foo` as a loader running at time 10 makes it of
`/p/foo.m`: parsed and last checked at time 10. -/
def fresh_function : octave_function :=
  { stale_function with time_parsed := 10, time_checked := 10 }

/-- Collaborators for which the file `/p/foo.m` was modified at time 9 and
whose loader makes `fresh_function` of it. -/
def reload_world : World :=
  { empty_world with
      load_fcn_from_file := fun file _ _ _ _ _ =>
        if file = "/p/foo.m" then some fresh_function else none
      file_stat := fun file => if file = "/p/foo.m" then some 9 else none }

/-- The sample state on the search path that holds `/p/foo.m`, with
`old_function` in the heap and the time-stamp mode "none". -/
def old_state : State :=
  { foo_state with heap := fun _ => old_function, Vignore_function_time_stamp := 0 }

/-- An entry for `foo` whose path slot holds the function at address 0. -/
def path_entry : fcn_info_rep :=
  { fcn_info_rep.create "foo" with function_on_path := octave_value.fcn 0 }


/-! ## Functions that the staleness check leaves alone -/

/-- The staleness check has nothing to do for the value in the state `G`: if
the value is a function, it is a subfunction, or has no file name, or is not
potentially stale (with relative checking). -/
def settled (G : State) (v : octave_value) : Prop :=
  ∀ p, v = octave_value.fcn p →
    (G.heap p).is_subfunction = true ∨ (G.heap p).fcn_file_name = ""
      ∨ potentially_stale G (G.heap p) true = false

/-- The two points of a lookup that resolves a name on the path: the entry
`e` and the state `G` it starts from, and the entry and the state that
`find_user_function` leaves. -/
def path_steps (w : World) (e : fcn_info_rep) (G : State) (e2 : fcn_info_rep) (G2 : State) :
    Prop :=
  (e2 = e ∧ G2 = G)
    ∨ (e2 = (find_user_function w e G).2.1 ∧ G2 = (find_user_function w e G).2.2)


/-- The entry `e` has no definition local to the current scope of `G`: it
has no subfunction and no private function cached, the search path holds no
private function file for its name, and the walk over the parent scopes ends
within the fuel, through function objects that are allocated. -/
structure no_local (fuel : Nat) (e : fcn_info_rep) (G : State) : Prop where
  subfunctions : ∀ s, e.subfunctions s = none
  chain : ∃ l, scope_chain G fuel G.xcurrent_scope = some l
  allocated : ∀ s p, G.curr_fcn s = some p → p < G.next_fcn
  private_functions : ∀ d, e.private_functions d = none
  private_file : ∀ d, G.lp.find_private_fcn d e.name = ""

/-- The name of the entry `e` has no definition that precedes the path slot
in a lookup with the arguments `args`: no class method (none cached, no
method symbol, no method file, a built-in function, if any, that handles no
dispatch class), no constructor cached, no command-line function, no
autoload, and, when local functions are looked up, none of them. -/
structure path_only (w : World) (fuel : Nat) (args : List octave_arg) (lf : Bool)
    (e : fcn_info_rep) (G : State) : Prop where
  methods : ∀ c, e.class_methods c = none
  constructors : e.class_constructors e.name = none
  method_symbol : ∀ c, w.find_method_symbol e.name c = none
  method_file : ∀ c d p, (G.lp.find_method c e.name d p).1 = ""
  not_data : ∀ d, e.built_in_function ≠ octave_value.data d
  built_in : e.built_in_function.refers G (fun f => f.dispatch_classes = [])
  cmdline : e.cmdline_function = octave_value.undefined
  autoload_slot : e.autoload_function = octave_value.undefined
  autoload_file : w.lookup_autoload e.name = ""
  depth : args ≠ [] →
    class_depth_lt w (get_dispatch_type G.class_precedence_table args) fuel
  locals : lf = true → no_local fuel e G


/-- The state after the function object at address `p` has been found out of
date and reloaded from its own file as `g`: the old object is stamped with
the current time, `g` is allocated at the first free address, the file is
recorded as handed to the loader, and the breakpoints of the canonical name
of the old object are gone. -/
def State.reloaded (G : State) (p : Nat) (g : octave_function) : State :=
  { G with
      heap := Function.update
        (Function.update G.heap p { G.heap p with time_checked := G.now }) G.next_fcn g
      next_fcn := G.next_fcn + 1
      loads := (G.heap p).fcn_file_name :: G.loads
      breakpoints := Function.update G.breakpoints (G.heap p).canonical_name [] }

/-- The state `old_state` with the time-stamp mode "all". -/
def ignoring_state : State := { old_state with Vignore_function_time_stamp := 2 }

/-- A function object for `foo` as a loader running at time 5 makes it of
`/p/foo.m`: parsed and last checked at time 5. -/
def tick_function : octave_function :=
  { stale_function with time_parsed := 5, time_checked := 5 }

/-- Collaborators for which the file `/p/foo.m` carries the modification
time 9 and whose loader makes `tick_function` of it. -/
def tick_world : World :=
  { empty_world with
      load_fcn_from_file := fun file _ _ _ _ _ =>
        if file = "/p/foo.m" then some tick_function else none
      file_stat := fun file => if file = "/p/foo.m" then some 9 else none }

/-- The state `old_state` at the time 5, the time of its last prompt. -/
def tick_state : State := { old_state with now := 5 }


/-! ## The dispatch type, as the specification words it -/

/-- One step of the scan over the class names of the later arguments without
a built-in tag: the class name `cname` replaces the current dispatch type
exactly when it is marked superior to it and the current one is not marked
superior to `cname`. -/
def class_override (t : precedence_table) (current cname : String) : String :=
  if is_superiorto t cname current = true ∧ is_superiorto t current cname = false then cname
  else current

/-- The dispatch type of an argument list with an argument without built-in
tag, as the specification words it: start from the class name `first` of the
first such argument and scan the class names of the later arguments without
built-in tag from left to right. -/
def class_dispatch (t : precedence_table) (first : String) (later : List octave_arg) : String :=
  ((later.filter (fun x => decide (x.builtin_type = btyp_unknown))).map
    (fun x => x.class_name)).foldl (class_override t) first


/-! ## Nested scopes -/

/-- What `do_update_nest` reads and writes of the record behind a
`symbol_record` handle (the class `symbol_record_rep` of `symtab.h`, which is
not among the sources): the storage-class flags, the validity flag that
`invalidate ()` clears, the function that `set_curr_fcn` stores, and the
value. -/
structure symbol_record_rep where
  is_formal : Bool
  is_global : Bool
  is_persistent : Bool
  valid : Bool
  curr_fcn : Option Nat
  value : octave_value
  deriving DecidableEq, Repr

/-- The record without the marks that `do_update_nest` puts on it (the
validity flag and the owning function). -/
def symbol_record_rep.declared (r : symbol_record_rep) : symbol_record_rep :=
  { r with valid := true, curr_fcn := none }

/-- What `do_update_nest` reads and writes of a `symbol_table` instance: the
map `table` in its order of iteration, each name with the address of the
record that its `symbol_record` handle refers to, the nest links, the current
function and the flag `static_workspace`. -/
structure nest_scope where
  table : List (String × Nat)
  nest_parent : Option scope_id
  nest_children : List scope_id
  curr_fcn : Nat
  static_workspace : Bool
  deriving DecidableEq, Repr

/-- The scopes, the records behind the `symbol_record` handles, the functions
marked as nested, and (a ghost) the scopes on which `do_update_nest` has run,
latest first. -/
structure nest_state where
  scopes : scope_id → nest_scope
  reps : Nat → symbol_record_rep
  nested : Nat → Bool
  visited : List scope_id

/-- The method `symbol_table::look_nonlocal (name, result)` of `symtab.h`,
which is not among the sources, taken as a parameter: the address of the
record it finds for the name from the scope, if any. -/
abbrev look_nonlocal_t := nest_state → scope_id → String → Option Nat

/-- The message of the error that `do_update_nest` raises. -/
def nest_error : String :=
  "global and persistent may only be used in the topmost level in which a nested variable is used"

/-- How a run of `do_update_nest` ends: normally, or with the error raised,
in the state reached when `error` is called. -/
inductive nest_outcome where
  | done (S : nest_state)
  | raised (msg : String) (S : nest_state)

/-- The state in which the run ends. -/
def nest_outcome.state : nest_outcome → nest_state
  | nest_outcome.done S => S
  | nest_outcome.raised _ S => S

/-- Whether the run ends with the error raised. -/
def nest_outcome.is_raised : nest_outcome → Bool
  | nest_outcome.done _ => false
  | nest_outcome.raised _ _ => true

/-- The call `ours.invalidate ()` on the record at address `r`. -/
def nest_state.invalidate (S : nest_state) (r : Nat) : nest_state :=
  { S with reps := Function.update S.reps r { S.reps r with valid := false } }

/-- The call `set_curr_fcn (f)` on the record at address `r`. -/
def nest_state.set_curr_fcn (S : nest_state) (r f : Nat) : nest_state :=
  { S with reps := Function.update S.reps r { S.reps r with curr_fcn := some f } }

/-- The assignment `nm_sr.second = parents` in the table of the scope `s`:
the handle stored under the name `nm` now refers to the record at `r`. -/
def nest_state.assign (S : nest_state) (s : scope_id) (nm : String) (r : Nat) : nest_state :=
  { S with scopes := Function.update S.scopes s ({ S.scopes s with
      table := (S.scopes s).table.map (fun e => if e.1 = nm then (e.1, r) else e) }) }

/-- The loop "fix bad symbol_records" of `do_update_nest` for the scope `s`
with nest parent `parent`, over the entries of the table that are left. -/
def do_update_nest_table (L : look_nonlocal_t) (s parent : scope_id) :
    List (String × Nat) → nest_state → nest_outcome
  | [], S => nest_outcome.done S
  | (nm, ours) :: rest, S =>
    if (S.reps ours).is_formal = false then
      match L S parent nm with
      | some parents =>
        if (S.reps ours).is_global || (S.reps ours).is_persistent then
          nest_outcome.raised nest_error S
        else
          let S1 :=
            if (S.reps ours).is_formal = false then (S.invalidate ours).assign s nm parents
            else S
          do_update_nest_table L s parent rest S1
      | none => do_update_nest_table L s parent rest (S.set_curr_fcn ours (S.scopes s).curr_fcn)
    else do_update_nest_table L s parent rest (S.set_curr_fcn ours (S.scopes s).curr_fcn)

/-- The loop `for (auto& nm_sr : table) nm_sr.second.set_curr_fcn (curr_fcn)`. -/
def set_curr_fcn_all (f : Nat) : List (String × Nat) → nest_state → nest_state
  | [], S => S
  | (_, r) :: rest, S => set_curr_fcn_all f rest (S.set_curr_fcn r f)

/-- The body of `do_update_nest` for the scope `s` up to the loop over the
nest children. -/
def do_update_nest_scope (L : look_nonlocal_t) (s : scope_id) (S0 : nest_state) :
    nest_outcome :=
  let S : nest_state := { S0 with visited := s :: S0.visited }
  let S1 : nest_state :=
    if (S.scopes s).nest_parent.isSome || !(S.scopes s).nest_children.isEmpty then
      { S with nested := Function.update S.nested (S.scopes s).curr_fcn true }
    else S
  match (S.scopes s).nest_parent with
  | some parent => do_update_nest_table L s parent (S.scopes s).table S1
  | none =>
    if !(S.scopes s).nest_children.isEmpty then
      nest_outcome.done
        (set_curr_fcn_all (S.scopes s).curr_fcn (S.scopes s).table
          { S1 with scopes :=
              Function.update S1.scopes s { S1.scopes s with static_workspace := true } })
    else nest_outcome.done S1

/-- The loop `for (auto& symtab_p : nest_children) symtab_p->do_update_nest ()`,
with `run` the method `do_update_nest` it calls. -/
def do_update_nest_children (run : scope_id → nest_state → Option nest_outcome) :
    List scope_id → nest_state → Option nest_outcome
  | [], S => some (nest_outcome.done S)
  | c :: rest, S =>
    match run c S with
    | none => none
    | some (nest_outcome.raised m S1) => some (nest_outcome.raised m S1)
    | some (nest_outcome.done S1) => do_update_nest_children run rest S1

/-- The method `symbol_table::do_update_nest` on the scope `s`; the fuel
bounds the depth of the recursion through the nest children. -/
def do_update_nest (L : look_nonlocal_t) : Nat → scope_id → nest_state → Option nest_outcome
  | 0 => fun _ _ => none
  | n + 1 => fun s S =>
    match do_update_nest_scope L s S with
    | nest_outcome.raised m S1 => some (nest_outcome.raised m S1)
    | nest_outcome.done S1 =>
      do_update_nest_children (do_update_nest L n) (S1.scopes s).nest_children S1


/-- What every run of `do_update_nest` keeps, from the state `S` to the state
`S2`: the records up to their marks, the invalidity of a record, the nest
links and the current function of every scope, the names of every table, the
flag `static_workspace` of every scope with a nest parent, and the scopes
already visited. -/
structure nest_post (S S2 : nest_state) : Prop where
  declared : ∀ r, (S2.reps r).declared = (S.reps r).declared
  valid : ∀ r, (S.reps r).valid = false → (S2.reps r).valid = false
  nest_parent : ∀ q, (S2.scopes q).nest_parent = (S.scopes q).nest_parent
  nest_children : ∀ q, (S2.scopes q).nest_children = (S.scopes q).nest_children
  curr_fcn : ∀ q, (S2.scopes q).curr_fcn = (S.scopes q).curr_fcn
  keys : ∀ q, (S2.scopes q).table.map Prod.fst = (S.scopes q).table.map Prod.fst
  static_workspace : ∀ q, (S.scopes q).nest_parent ≠ none →
    (S2.scopes q).static_workspace = (S.scopes q).static_workspace
  visited : ∀ q, q ∈ S.visited → q ∈ S2.visited

/-- The answers of `look_nonlocal` from the scope `p` depend neither on the
table of the scope `s` nor on the marks of the records. -/
def look_nonlocal_frame (L : look_nonlocal_t) (s p : scope_id) (S : nest_state) : Prop :=
  ∀ S2 : nest_state, (∀ q, q ≠ s → S2.scopes q = S.scopes q) →
    (∀ r, (S2.reps r).declared = (S.reps r).declared) → ∀ nm, L S2 p nm = L S p nm

/-- The entry of the table of a nested scope after `do_update_nest`, as the
specification words it: the record of the parent for a non-formal name that
the parent resolves, the own record otherwise. -/
def nest_entry (L : look_nonlocal_t) (S : nest_state) (parent : scope_id) (e : String × Nat) :
    String × Nat :=
  if (S.reps e.2).is_formal = false then
    match L S parent e.1 with
    | some parents => (e.1, parents)
    | none => e
  else e

/-- The entry is one for which `do_update_nest` raises its error: a
non-formal name that the parent resolves, flagged global or persistent. -/
def nest_offending (L : look_nonlocal_t) (S : nest_state) (parent : scope_id)
    (e : String × Nat) : Bool :=
  (!(S.reps e.2).is_formal && (L S parent e.1).isSome)
    && ((S.reps e.2).is_global || (S.reps e.2).is_persistent)

/-- The table of a nested scope after the loop of `do_update_nest`, as the
specification words it, and whether the error is raised: the entries up to
the first offending one are updated, the others are left. -/
def nest_table (L : look_nonlocal_t) (S : nest_state) (parent : scope_id) :
    List (String × Nat) → List (String × Nat) × Bool
  | [] => ([], false)
  | e :: rest =>
    if nest_offending L S parent e then (e :: rest, true)
    else (nest_entry L S parent e :: (nest_table L S parent rest).1,
      (nest_table L S parent rest).2)


/-- The scope `d` is below the scope `q` in the nest tree of `S`: a nest
child, or below a nest child. -/
inductive nest_descendant (S : nest_state) : scope_id → scope_id → Prop where
  | child {q c : scope_id} : c ∈ (S.scopes q).nest_children → nest_descendant S q c
  | step {q c d : scope_id} :
      c ∈ (S.scopes q).nest_children → nest_descendant S c d → nest_descendant S q d

/-- The nest tree of `S` is finite: every nest child has a lower rank than
its parent. -/
def nest_ranked (S : nest_state) (rank : scope_id → Nat) : Prop :=
  ∀ q c, c ∈ (S.scopes q).nest_children → rank c < rank q


/-- What a run of `do_update_nest` on the scope `s` of a finite nest tree
guarantees about its outcome `o`: the scopes that are not below `s` are left
alone, the scope `s` is as the body of the run for `s` left it, an error of
that body is the outcome, and a run without error visits `s` and every scope
below it. -/
structure nest_run (L : look_nonlocal_t) (rank : scope_id → Nat) (s : scope_id)
    (S : nest_state) (o : nest_outcome) : Prop where
  post : nest_post S o.state
  after : nest_post (do_update_nest_scope L s S).state o.state
  above : ∀ q, rank s ≤ rank q → q ≠ s → o.state.scopes q = S.scopes q
  own : o.state.scopes s = (do_update_nest_scope L s S).state.scopes s
  own_raised : (do_update_nest_scope L s S).is_raised = true → o = do_update_nest_scope L s S
  visited : o.is_raised = false →
    s ∈ o.state.visited ∧ ∀ d, nest_descendant S s d → d ∈ o.state.visited


/-- A sample `look_nonlocal`: the record that the table of the scope itself
holds for the name. -/
def sample_look_nonlocal : look_nonlocal_t := fun S p nm => (S.scopes p).table.lookup nm

/-- A record that is a plain local variable with the value `v`. -/
def local_rep (v : Nat) : symbol_record_rep :=
  { is_formal := false, is_global := false, is_persistent := false, valid := true,
    curr_fcn := none, value := octave_value.data v }

/-- A scope without nest links and with an empty table. -/
def lone_scope : nest_scope :=
  { table := [], nest_parent := none, nest_children := [], curr_fcn := 0,
    static_workspace := false }

/-- A nest of two scopes: the scope 5, which binds `x` (record 0, value 7) and
`y` (record 1), and its nest child 6, which has a formal parameter `a`
(record 2), its own `x` (record 3, value 1) and a variable `z` (record 4)
that the parent does not bind. -/
def sample_nest : nest_state :=
  { scopes := fun q =>
      if q = 5 then
        { lone_scope with table := [("x", 0), ("y", 1)], nest_children := [6], curr_fcn := 50 }
      else if q = 6 then
        { lone_scope with
            table := [("a", 2), ("x", 3), ("z", 4)], nest_parent := some 5, curr_fcn := 60 }
      else lone_scope
    reps := fun r =>
      if r = 0 then local_rep 7
      else if r = 2 then { local_rep 0 with is_formal := true }
      else local_rep 1
    nested := fun _ => false
    visited := [] }

/-- The sample nest with the record of `x` in the child flagged global. -/
def global_x_nest : nest_state :=
  { sample_nest with
      reps := fun r => if r = 3 then { local_rep 1 with is_global := true } else sample_nest.reps r }

/-- The sample nest with the record of `z` in the child flagged global; the
parent does not bind `z`. -/
def global_z_nest : nest_state :=
  { sample_nest with
      reps := fun r => if r = 4 then { local_rep 1 with is_global := true } else sample_nest.reps r }

/-- The rank of the scopes of the sample nest: the parent above the child. -/
def sample_rank : scope_id → Nat := fun q => if q = 5 then 1 else 0


/-! ## The walk over the parent scopes, as the specification words it -/

/-- The scope `s2` is visited right after the scope `s` by the walk over the
parent scopes: it is the parent scope, not negative, of the function that
executes in `s`. -/
def scope_parent (G : State) (s s2 : scope_id) : Prop :=
  0 ≤ s ∧ 0 ≤ s2 ∧ ∃ p, G.curr_fcn s = some p ∧ (G.heap p).parent_fcn_scope = s2

/-- The subfunction registered for the first scope of the list that has
one. -/
def first_subfunction (e : fcn_info_rep) : List scope_id → Option octave_value
  | [] => none
  | s :: rest =>
    match e.subfunctions s with
    | some v => some v
    | none => first_subfunction e rest


/-- The sample state inside a nested call: the current scope is 2, where the
function at address 0 executes, whose parent scope is 1; no function
executes in scope 1. -/
def nested_state : State :=
  { sample_state with
      heap := fun _ => { sample_function "foo" with parent_fcn_scope := 1 }
      xcurrent_scope := 2
      curr_fcn := fun s => if s = 2 then some 0 else none }


/-- Collaborators whose loader makes of the file `/p/foo.m` a function object
that is a classdef constructor. -/
def ctor_world : World :=
  { empty_world with
      load_fcn_from_file := fun file _ _ _ _ _ =>
        if file = "/p/foo.m"
        then some { stale_function with is_classdef_constructor := true } else none }

/-- The tables that calls of `set_class_relationship` make of the table
`t0`. -/
inductive table_after (t0 : precedence_table) : precedence_table → Prop where
  | refl : table_after t0 t0
  | call (t : precedence_table) (sup_class inf_class : String) :
      table_after t0 t → table_after t0 (set_class_relationship t sup_class inf_class).2


/-! ## Built-in dispatch classes and the time-stamp mode -/

/-- How a call of `install_built_in_dispatch` ends: the class is added (with
the state after the call), a warning is issued (the state is the one given),
the error of the function is raised, or `function_value ()` raises its type
error on a defined value that is not a function. -/
inductive install_result where
  | pushed (G : State)
  | warned (msg : String) (G : State)
  | error (msg : String)
  | wrong_type

/-- Whether the call ends with an error raised. -/
def install_result.is_raised : install_result → Bool
  | install_result.pushed _ => false
  | install_result.warned _ _ => false
  | install_result.error _ => true
  | install_result.wrong_type => true

/-- The method `fcn_info_rep::install_built_in_dispatch (klass)`. The set
`dispatch_classes` of the function object is a list here, and
`push_dispatch_class`, called for a class that is not in it, puts the class
in front. -/
def install_built_in_dispatch (e : fcn_info_rep) (klass : String) (G : State) :
    install_result :=
  if e.built_in_function.is_defined then
    match e.built_in_function.function_value with
    | some p =>
      if klass ∈ (G.heap p).dispatch_classes then
        install_result.warned
          ("install_built_in_dispatch: '" ++ e.name ++ "' already defined for class '"
            ++ klass ++ "'") G
      else
        install_result.pushed
          { G with heap := Function.update G.heap p ({ G.heap p with
              dispatch_classes := klass :: (G.heap p).dispatch_classes }) }
    | none => install_result.wrong_type
  else
    install_result.error
      ("install_built_in_dispatch: '" ++ e.name ++ "' is not a built-in function")

/-- What `Fignore_function_time_stamp` reads of an argument: a string, or a
value that is no string. -/
inductive arg_value where
  | str (s : String)
  | other
  deriving DecidableEq, Repr

/-- The errors of `Fignore_function_time_stamp`: the one of `print_usage ()`,
whose text is not among the sources, and the ones with a message. -/
inductive call_error where
  | print_usage
  | error (msg : String)
  deriving DecidableEq, Repr

/-- The switch of `Fignore_function_time_stamp` on the mode: its name. -/
def time_stamp_mode_name (mode : Int) : String :=
  if mode = 1 then "system" else if mode = 2 then "all" else "none"

/-- The built-in function `ignore_function_time_stamp (args, nargout)` on the
variable `Vignore_function_time_stamp` of the state: the value returned
(`none` for an undefined `retval`) or the error raised, and the state after
the call. -/
def Fignore_function_time_stamp (args : List arg_value) (nargout : Nat) (G : State) :
    Except call_error (Option String) × State :=
  if args.length > 1 then (Except.error call_error.print_usage, G)
  else
    let retval : Option String :=
      if nargout > 0 ∨ args.length = 0 then some (time_stamp_mode_name G.Vignore_function_time_stamp)
      else none
    match args with
    | [a] =>
      match a with
      | arg_value.other =>
        (Except.error
          (call_error.error "ignore_function_time_stamp: first argument must be a string"), G)
      | arg_value.str sval =>
        if sval = "all" then (Except.ok retval, { G with Vignore_function_time_stamp := 2 })
        else if sval = "system" then
          (Except.ok retval, { G with Vignore_function_time_stamp := 1 })
        else if sval = "none" then
          (Except.ok retval, { G with Vignore_function_time_stamp := 0 })
        else
          (Except.error
            (call_error.error
              "ignore_function_time_stamp: argument must be one of \"all\", \"system\", or \"none\""),
            G)
    | _ => (Except.ok retval, G)


/-! ## Cell ranges of `dlmread` -/

/-- A `std::istringstream`: the characters not yet extracted and the state
bits `eofbit` and `failbit`. -/
structure istream where
  rest : List Char
  eof : Bool
  fail : Bool
  deriving DecidableEq, Repr

namespace istream

/-- The test `is.good ()`. -/
def good (s : istream) : Bool := !s.eof && !s.fail

/-- The test `if (is)`, that is `! is.fail ()`. -/
def ok (s : istream) : Bool := !s.fail

/-- The call `is.peek ()`: the next character, `none` for end of file. On
a stream that is not good the sentry sets `failbit`; at the end of the
characters `eofbit` is set. -/
def peek (s : istream) : Option Char × istream :=
  if s.good then
    match s.rest with
    | [] => (none, { s with eof := true })
    | c :: _ => (some c, s)
  else (none, { s with fail := true })

/-- The call `is.get ()`: the next character, extracted, `none` for end of
file, which sets `eofbit` and `failbit`. -/
def get (s : istream) : Option Char × istream :=
  if s.good then
    match s.rest with
    | [] => (none, { s with eof := true, fail := true })
    | c :: r => (some c, { s with rest := r })
  else (none, { s with fail := true })

/-- The white space that a formatted extraction skips. -/
def isspace (c : Char) : Bool :=
  c = ' ' || c = '\t' || c = '\n' || c = '\r' || c = '\x0b' || c = '\x0c'

/-- The value of a run of decimal digits after the value `acc`. -/
def digits_value (acc : Nat) (ds : List Char) : Nat :=
  ds.foldl (fun n c => n * 10 + (c.toNat - 48)) acc

/-- The extraction `is >> row` of an `octave_idx_type`, whose largest value
is `idx_max`: white space is skipped, then an optional sign and a run of
decimal digits are read. Without a digit the value is 0 and `failbit` is
set; a value out of range is replaced by the nearest bound and `failbit` is
set; `eofbit` is set when the characters run out. On a stream that is not
good the value `old` is kept and `failbit` is set. -/
def extract (idx_max : Nat) (s : istream) (old : Int) : Int × istream :=
  if s.good then
    match s.rest.dropWhile isspace with
    | [] => (old, { rest := [], eof := true, fail := true })
    | c :: r =>
      let negative : Bool := c = '-'
      let body : List Char := if c = '-' ∨ c = '+' then r else c :: r
      let ds := body.takeWhile Char.isDigit
      let after := body.dropWhile Char.isDigit
      if ds = [] then (0, { rest := after, eof := after.isEmpty, fail := true })
      else
        let n := digits_value 0 ds
        if negative then
          if n > idx_max + 1 then
            (-((idx_max : Int) + 1), { rest := after, eof := after.isEmpty, fail := true })
          else (-(n : Int), { rest := after, eof := after.isEmpty, fail := false })
        else if n > idx_max then
          ((idx_max : Int), { rest := after, eof := after.isEmpty, fail := true })
        else ((n : Int), { rest := after, eof := after.isEmpty, fail := false })
  else (old, { s with fail := true })

end istream

/-- The update of `col` for the letter `ch` in `read_cell_spec`. -/
def cell_column_step (col : Int) (ch : Char) : Int :=
  if ch ≥ 'a' then col * 26 + ((ch.toNat : Int) - ('a'.toNat : Int) + 1)
  else col * 26 + ((ch.toNat : Int) - ('A'.toNat : Int) + 1)

/-- The loop `while (is && ::isalpha (is.peek ()))` of `read_cell_spec`: the
column and the stream on exit, `none` when the fuel runs out. The arithmetic
on `col` is exact. -/
def read_cell_spec_while : Nat → istream → Int → Option (Int × istream)
  | 0, _, _ => none
  | n + 1, s, col =>
    if s.ok then
      match s.peek with
      | (some c, s1) =>
        if c.isAlpha then
          match s1.get with
          | (some ch, s2) => read_cell_spec_while n s2 (cell_column_step col ch)
          | (none, s2) => some (col, s2)
        else some (col, s1)
      | (none, s1) => some (col, s1)
    else some (col, s)

/-- The function `read_cell_spec (is, row, col)` of `dlmread.cc`: the result,
the values left in `row` and `col`, and the stream; `none` when the fuel runs
out. -/
def read_cell_spec (idx_max : Nat) (fuel : Nat) (s : istream) (row col : Int) :
    Option (Bool × Int × Int × istream) :=
  match s.peek with
  | (none, s1) => some (true, row, col, s1)
  | (some c, s1) =>
    if c.isAlpha then
      match read_cell_spec_while fuel s1 0 with
      | none => none
      | some (col1, s2) =>
        let col2 := col1 - 1
        if s2.ok then
          let x := s2.extract idx_max row
          let row2 := x.1 - 1
          if x.2.ok then some (true, row2, col2, x.2)
          else some (false, row2, col2, x.2)
        else some (false, row, col2, s2)
    else some (false, row, col, s1)

/-- The four bounds that `parse_range_spec` sets. -/
structure cell_range where
  rlo : Int
  clo : Int
  rup : Int
  cup : Int
  deriving DecidableEq, Repr

/-- What `parse_range_spec` reads of its argument `range_spec`: a string, a
real matrix of four elements (here with the four values after their
conversion to `octave_idx_type`), or any other value. -/
inductive range_spec_value where
  | str (s : String)
  | matrix4 (a b c d : Int)
  | other
  deriving DecidableEq, Repr

/-- The statements of `parse_range_spec` that read a separator after the
first character `ch` of it has been seen: `ch = is.get ()`, and for a dot a
second `is.get ()` that must give a dot. -/
def read_separator (s : istream) : Bool × istream :=
  match s.get with
  | (some '.', s1) =>
    match s1.get with
    | (ch, s2) => (s2.ok && decide (ch = some '.'), s2)
  | (_, s1) => (true, s1)

/-- The end of the string branch of `parse_range_spec`: the second cell
specification, if any, and the test that the stream is at its end. -/
def parse_range_spec_tail (idx_max fuel : Nat) (stat : Bool) (s : istream) (r : cell_range) :
    Option (Bool × cell_range) :=
  if stat && s.ok && !s.eof then
    match read_cell_spec idx_max fuel s r.rup r.cup with
    | none => none
    | some (stat2, row, col, s2) =>
      some (if !s2.ok || !s2.eof then false else stat2, { r with rup := row, cup := col })
  else some (if !s.ok || !s.eof then false else stat, r)

/-- The function `parse_range_spec (range_spec, rlo, clo, rup, cup)` of
`dlmread.cc`, with the values of the four bounds at the call in `r`: the
result and the bounds after the call; `none` when the fuel runs out. -/
def parse_range_spec (idx_max fuel : Nat) (range_spec : range_spec_value) (r : cell_range) :
    Option (Bool × cell_range) :=
  match range_spec with
  | range_spec_value.str str =>
    let is0 : istream := { rest := str.toList, eof := false, fail := false }
    match is0.peek with
    | (ch, is1) =>
      if ch = some '.' ∨ ch = some ':' then
        let r1 := { r with rlo := 0, clo := 0 }
        match is1.get with
        | (some '.', is2) =>
          match is2.get with
          | (ch2, is3) => parse_range_spec_tail idx_max fuel (decide (ch2 = some '.')) is3 r1
        | (_, is2) => parse_range_spec_tail idx_max fuel true is2 r1
      else
        match read_cell_spec idx_max fuel is1 r.rlo r.clo with
        | none => none
        | some (stat, rlo, clo, is2) =>
          let r1 := { r with rlo := rlo, clo := clo }
          if stat then
            match is2.peek with
            | (ch2, is3) =>
              if ch2 = some '.' ∨ ch2 = some ':' then
                let sep := read_separator is3
                parse_range_spec_tail idx_max fuel sep.1 sep.2
                  { r1 with rup := (idx_max : Int) - 1, cup := (idx_max : Int) - 1 }
              else
                parse_range_spec_tail idx_max fuel (if !is3.ok || !is3.eof then false else true)
                  is3 { r1 with rup := rlo, cup := clo }
          else parse_range_spec_tail idx_max fuel false is2 r1
  | range_spec_value.matrix4 a b c d => some (true, { rlo := a, clo := b, rup := c, cup := d })
  | range_spec_value.other => some (false, r)


/-- The letters of a cell reference. -/
def cell_letters : List Char := "ABCDEFGHIJKLMNOPQRSTUVWXYZabcdefghijklmnopqrstuvwxyz".toList

/-- The decimal digits. -/
def cell_digits : List Char := "0123456789".toList

/-- The column number that `read_cell_spec` computes for a run of letters,
before it is made zero-based: the bijective base-26 value of the letters. -/
def column_value (L : List Char) : Int := L.foldl cell_column_step 0

/-- The list of characters is empty or starts with a character for which
`p` is false. -/
def starts_without (p : Char → Bool) (t : List Char) : Prop :=
  ∀ c, t.head? = some c → p c = false

/-- A cell reference that fits the index type: a non-empty run `L` of
letters and a non-empty run `D` of decimal digits, with the column value of
`L` and the number that `D` denotes both at most `idx_max`. -/
structure cell_spec (idx_max : Nat) (L D : List Char) : Prop where
  letters : ∀ c, c ∈ L → c ∈ cell_letters
  some_letter : L ≠ []
  digits : ∀ c, c ∈ D → c ∈ cell_digits
  some_digit : D ≠ []
  row_fits : istream.digits_value 0 D ≤ idx_max
  column_fits : column_value L ≤ (idx_max : Int)


/-! ### `xpow (const Matrix&, double)` of `xpow.cc` -/

/-- The collaborators of `xpow (const Matrix& a, double b)` that live in the
matrix library: the dimensions of a matrix, the product `x * y`, the call
`a.inverse (info, rcond, 1)` with the values it leaves in `info` and `rcond`,
and the value `ComplexMatrix (Q * D * Q.inverse ())` that the branch through
`EIG` builds from `a` and `b`. -/
structure xpow_world (M C : Type) where
  rows : M → Nat
  cols : M → Nat
  mul : M → M → M
  inverse : M → M × Int × ℚ
  eig_pow : M → ℚ → C

/-- The value stored in `retval` by `xpow`: `DiagMatrix (nr, nc, v)`, a
`Matrix`, or a `ComplexMatrix`. -/
inductive xpow_retval (M C : Type) where
  | diag (nr nc : Nat) (v : ℚ)
  | matrix (m : M)
  | complex (c : C)
  deriving DecidableEq, Repr

/-- What a call of `xpow` does: it raises an error and leaves `retval`
undefined, or it returns a value, after the warning about a singular matrix
(with the `rcond` it prints) when that was issued; `undefined_cast` stands for
a conversion `static_cast<int> (b)` whose value does not fit an `int`. -/
inductive xpow_result (M C : Type) where
  | error (msg : String)
  | value (retval : xpow_retval M C) (warning : Option ℚ)
  | undefined_cast
  deriving DecidableEq, Repr

/-- The value of a 32-bit `int` after an operation whose exact result is `z`. -/
def wrap_int (z : Int) : Int := (z + 2147483648) % 4294967296 - 2147483648

/-- The conversion `static_cast<int> (b)` of a finite double: the value
truncated towards zero, `none` when that does not fit a 32-bit `int`. -/
def static_cast_int (b : ℚ) : Option Int :=
  let t := Int.tdiv b.num (b.den : Int)
  if -2147483648 ≤ t ∧ t ≤ 2147483647 then some t else none

/-- The loop `while (btmp > 0)` of `xpow`: the matrix left in `result`, `none`
when the fuel runs out. -/
def xpow_while {M C : Type} (w : xpow_world M C) : Nat → Int → M → M → Option M
  | 0, _, _, _ => none
  | n + 1, btmp, result, atmp =>
    if btmp > 0 then
      let result1 := if btmp % 2 ≠ 0 then w.mul result atmp else result
      let btmp1 := btmp / 2
      let atmp1 := if btmp1 > 0 then w.mul atmp atmp else atmp
      xpow_while w n btmp1 result1 atmp1
    else some result

/-- The function `xpow (const Matrix& a, double b)` of `xpow.cc`, for a finite
`b`; `none` when the fuel of the squaring loop runs out. -/
def xpow {M C : Type} (w : xpow_world M C) (fuel : Nat) (a : M) (b : ℚ) :
    Option (xpow_result M C) :=
  let nr := w.rows a
  let nc := w.cols a
  if nr = 0 ∨ nc = 0 ∨ nr ≠ nc then some (xpow_result.error "for A^b, A must be square")
  else
    match static_cast_int b with
    | none => some xpow_result.undefined_cast
    | some t =>
      if (t : ℚ) = b then
        if t = 0 then some (xpow_result.value (xpow_retval.diag nr nr 1) none)
        else
          let inv := w.inverse a
          let btmp := if t < 0 then wrap_int (-t) else t
          let atmp := if t < 0 then inv.1 else a
          let warning := if t < 0 ∧ inv.2.1 = -1 then some inv.2.2 else none
          match xpow_while w fuel (wrap_int (btmp - 1)) atmp atmp with
          | none => none
          | some result => some (xpow_result.value (xpow_retval.matrix result) warning)
      else some (xpow_result.value (xpow_retval.complex (w.eig_pow a b)) none)

/-- The product `a * a * ... * a` of `k + 1` copies of `a`, as the
specification words it: `a` for `k = 0`, and one more factor `a` on the right
for each further step. -/
def spec_product {M C : Type} (w : xpow_world M C) (a : M) : Nat → M
  | 0 => a
  | k + 1 => w.mul (spec_product w a k) a

/-- The matrices of two rows and two columns over the integers with their
product; `inverse` and `eig_pow` are not used with an exponent that is a
natural number. -/
def int_matrix_world : xpow_world (Matrix (Fin 2) (Fin 2) Int) Unit where
  rows := fun _ => 2
  cols := fun _ => 2
  mul := fun x y => x * y
  inverse := fun x => (x, 0, 1)
  eig_pow := fun _ _ => ()


/-- The entries of a table that the loop of `do_update_nest` reaches before
it raises its error: those before the first offending one. -/
def nest_reached (L : look_nonlocal_t) (S : nest_state) (parent : scope_id)
    (l : List (String × Nat)) : List (String × Nat) :=
  l.takeWhile (fun e => !nest_offending L S parent e)

/-- The entries of a table that the loop of `do_update_nest` does not
handle: the first offending one and those after it. -/
def nest_left (L : look_nonlocal_t) (S : nest_state) (parent : scope_id)
    (l : List (String × Nat)) : List (String × Nat) :=
  l.dropWhile (fun e => !nest_offending L S parent e)

/-- A nest of two scopes in which the child 6 holds its own `x` (record 3),
flagged global, and its own `y` (record 4), a plain variable; the parent 5
binds both names. -/
def global_x_y_nest : nest_state :=
  { global_x_nest with
      scopes := fun q =>
        if q = 6 then
          { lone_scope with table := [("x", 3), ("y", 4)], nest_parent := some 5, curr_fcn := 60 }
        else sample_nest.scopes q }

/-- A nest of three scopes: the scope 5 with the nest children 6 and 7, in
this order; the child 6 holds its own `x` flagged global, which the parent
binds, and the child 7 has an empty table. -/
def two_children_nest : nest_state :=
  { global_x_nest with
      scopes := fun q =>
        if q = 5 then
          { lone_scope with
              table := [("x", 0), ("y", 1)], nest_children := [6, 7], curr_fcn := 50 }
        else if q = 7 then { lone_scope with nest_parent := some 5, curr_fcn := 70 }
        else global_x_nest.scopes q }


/-- A situation in which the name of the entry `e0` has no definition that
precedes the path slot, described by an invariant `I` of the entry and the
state: no method symbol, no method file on the search path `lp`, no class
method or constructor cached, no command-line function, no autoload, a
built-in function, if any, that handles no dispatch class; along `I` only
the path slot of the entry changes, `find_user_function` yields a defined
value, and it keeps `I` unless that value is a classdef constructor. -/
structure path_world (w : World) (lp : load_path) (e0 : fcn_info_rep)
    (I : fcn_info_rep → State → Prop) : Prop where
  method_symbol : ∀ c, w.find_method_symbol e0.name c = none
  method_file : ∀ c d p, (lp.find_method c e0.name d p).1 = ""
  not_data : ∀ d, e0.built_in_function ≠ octave_value.data d
  methods : ∀ c, e0.class_methods c = none
  constructors : e0.class_constructors e0.name = none
  cmdline : e0.cmdline_function = octave_value.undefined
  autoload_slot : e0.autoload_function = octave_value.undefined
  autoload_file : w.lookup_autoload e0.name = ""
  entry : ∀ e G, I e G → ∃ v, e = { e0 with function_on_path := v }
  lp_eq : ∀ e G, I e G → G.lp = lp
  no_dispatch : ∀ e G, I e G → ∀ p, e0.built_in_function = octave_value.fcn p →
    (G.heap p).dispatch_classes = []
  defined : ∀ e G, I e G → (find_user_function w e G).1.is_defined = true
  step : ∀ e G, I e G →
    not_constructor (find_user_function w e G).1 (find_user_function w e G).2.2 →
    I (find_user_function w e G).2.1 (find_user_function w e G).2.2

/-- The result `r` carries the value and the state of a call of
`find_user_function`, on an entry and a state that satisfy `I`, that yielded
a classdef constructor. -/
def constructor_found (w : World) (I : fcn_info_rep → State → Prop) (r : Res) : Prop :=
  ∃ e1 G1 p, I e1 G1 ∧ (find_user_function w e1 G1).1 = octave_value.fcn p
    ∧ ((find_user_function w e1 G1).2.2.heap p).is_classdef_constructor = true
    ∧ r.1 = octave_value.fcn p ∧ r.2.2 = (find_user_function w e1 G1).2.2

/-- The outcome of a class-method lookup in a `path_world`: nothing found,
with the invariant kept, or a classdef constructor found on the path. -/
def method_outcome (w : World) (I : fcn_info_rep → State → Prop) (r : Res) : Prop :=
  (r.1 = octave_value.undefined ∧ I r.2.1 r.2.2) ∨ constructor_found w I r

/-- The result `r` carries the value, which is defined, and the state of a
call of `find_user_function` on an entry and a state that satisfy `I`. -/
def path_result (w : World) (I : fcn_info_rep → State → Prop) (r : Res) : Prop :=
  ∃ e1 G1, I e1 G1 ∧ r.1 = (find_user_function w e1 G1).1
    ∧ r.2.2 = (find_user_function w e1 G1).2.2 ∧ r.1.is_defined = true

/-- The entry and the state of a lookup on the entry `e` from the state `G`
after the function object at address `p` has been reloaded as `g`: the path
slot holds a function object allocated since, which is `g`, or, if `g` is
itself due for a check, `g` stamped with the current time; the file of the
old object has been handed to the loader, and the breakpoints of the
canonical name of the old object are gone. -/
def reload_inv (e : fcn_info_rep) (G : State) (p : Nat) (g : octave_function)
    (e2 : fcn_info_rep) (G2 : State) : Prop :=
  ∃ q, e2 = { e with function_on_path := octave_value.fcn q }
    ∧ G.next_fcn ≤ q ∧ q < G2.next_fcn
    ∧ (G2.heap q = g
        ∨ (g.is_subfunction = false ∧ potentially_stale G g true = true
            ∧ G2.heap q = { g with time_checked := G.now }))
    ∧ G2.frame = G.frame ∧ heap_ext G G2
    ∧ (∃ l, G2.loads = l ++ (G.heap p).fcn_file_name :: G.loads)
    ∧ G2.breakpoints (G.heap p).canonical_name = []

/-- Collaborators like `reload_world`, but whose loader makes of
`/p/foo.m` a classdef constructor. -/
def ctor_reload_world : World :=
  { reload_world with
      load_fcn_from_file := fun file _ _ _ _ _ =>
        if file = "/p/foo.m" then some { fresh_function with is_classdef_constructor := true }
        else none }

/-- A search path whose only file is `/p/+pkg/foo.m`, found for the name
`foo` of the package `pkg`. -/
def pkg_load_path : load_path :=
  { empty_load_path with
      find_fcn := fun nm _ pk =>
        if nm = "foo" ∧ pk = "pkg" then ("/p/+pkg/foo.m", "/p/+pkg") else ("", "") }

/-- A classdef constructor `foo` of the package `pkg` as a loader running at
time 10 makes it of `/p/+pkg/foo.m`. -/
def pkg_constructor : octave_function :=
  { sample_function "foo" with
      package_name := "pkg", fcn_file_name := "/p/+pkg/foo.m", dir_name := "/p/+pkg"
      time_parsed := 10, time_checked := 10, is_classdef_constructor := true }

/-- Collaborators for which the file `/p/+pkg/foo.m` was modified at time 3
and whose loader makes `pkg_constructor` of it. -/
def pkg_world : World :=
  { empty_world with
      load_fcn_from_file := fun file _ _ _ _ _ =>
        if file = "/p/+pkg/foo.m" then some pkg_constructor else none
      file_stat := fun file => if file = "/p/+pkg/foo.m" then some 3 else none }

/-- The sample state (time 10, last prompt at time 5) on the search path
that holds `/p/+pkg/foo.m`. -/
def pkg_state : State := { sample_state with lp := pkg_load_path }

/-- The entry `e2` is the entry `e` after a classdef constructor `v` found on
the path has been cached: the constructor map holds `v` under the name of the
entry, the method map holds `v` under that name and holds nothing but `v`. -/
def ctor_cached (e : fcn_info_rep) (v : octave_value) (e2 : fcn_info_rep) : Prop :=
  ∃ cm : String → Option octave_value,
    e2 = { e with
            class_constructors := Function.update e.class_constructors e.name (some v)
            class_methods := cm }
      ∧ cm e.name = some v ∧ ∀ c, cm c = none ∨ cm c = some v

/-- What the second lookup of a class method finds on an entry with a cached
constructor `v`, in the state `G1`: nothing or `v`, with the state as it is. -/
def ctor_second (e : fcn_info_rep) (v : octave_value) (G1 : State) (r : Res) : Prop :=
  (r.1 = octave_value.undefined ∨ r.1 = v) ∧ ctor_cached e v r.2.1 ∧ r.2.2 = G1

/-- What the first lookup of a class method for the class `c` finds when the
path lookup yields the classdef constructor `v` and leaves the state `G1`:
the constructor, cached, and cached under `c` unless `c` is the full name of
the entry. -/
def ctor_first (e : fcn_info_rep) (v : octave_value) (G1 : State) (c : String) (r : Res) :
    Prop :=
  r.1 = v ∧ r.2.2 = G1 ∧ ctor_cached e v r.2.1
    ∧ (c ≠ e.full_name → r.2.1.class_methods c = some v)

/-- The state `pkg_state` with `pkg_constructor` in the heap. -/
def pkg_held_state : State := { pkg_state with heap := fun _ => pkg_constructor }

/-- An entry for `pkg.foo` whose path slot holds the function at address 0. -/
def pkg_held_entry : fcn_info_rep :=
  { fcn_info_rep.create "pkg.foo" with function_on_path := octave_value.fcn 0 }

/-! ## Theorems -/

/-- A value that the scope walk returns is an entry of the subfunction map. -/
theorem find_subfunction_some (e : fcn_info_rep) (G : State) (v : octave_value) :
    ∀ (fuel : Nat) (scope : scope_id), find_subfunction e G fuel scope = some (some v) →
      ∃ s, e.subfunctions s = some v := by
  intro fuel
  induction fuel with
  | zero => intro scope h; simp [find_subfunction] at h
  | succ n ih =>
    intro scope h
    unfold find_subfunction at h
    split at h
    · split at h
      · rename_i v0 hv
        simp only [Option.some.injEq] at h
        exact ⟨scope, by rw [hv, h]⟩
      · split at h
        · exact ih _ h
        · exact ih _ h
    · simp at h

/-! ### Frame and heap lemmas -/

theorem heap_ext_refl (G : State) : heap_ext G G := ⟨le_refl _, fun _ _ => rfl⟩

theorem heap_ext_trans {G1 G2 G3 : State} (h12 : heap_ext G1 G2) (h23 : heap_ext G2 G3) :
    heap_ext G1 G3 :=
  ⟨le_trans h12.le h23.le, fun p hp =>
    (h23.keep p (lt_of_lt_of_le hp h12.le)).trans (h12.keep p hp)⟩

theorem frame_remove_all_breakpoints (G : State) (nm : String) :
    (remove_all_breakpoints_in_file G nm).frame = G.frame := rfl

theorem heap_ext_remove_all_breakpoints (G : State) (nm : String) :
    heap_ext G (remove_all_breakpoints_in_file G nm) := ⟨le_refl _, fun _ _ => rfl⟩

theorem frame_load_fcn (w : World) (file d dt pk fn : String) (a : Bool) (G : State) :
    (load_fcn w file d dt pk fn a G).2.frame = G.frame := by
  unfold load_fcn
  split <;> rfl

theorem heap_ext_load_fcn (w : World) (file d dt pk fn : String) (a : Bool) (G : State) :
    heap_ext G (load_fcn w file d dt pk fn a G).2 := by
  unfold load_fcn
  split
  · refine ⟨Nat.le_succ _, fun p hp => ?_⟩
    simp [Function.update, Nat.ne_of_lt hp]
  · exact ⟨le_refl _, fun _ _ => rfl⟩

theorem load_fcn_none (w : World) (file d dt pk fn : String) (a : Bool) (G : State)
    (h : w.load_fcn_from_file file d dt pk fn a = none) :
    load_fcn w file d dt pk fn a G = (none, { G with loads := file :: G.loads }) := by
  unfold load_fcn
  rw [h]

theorem load_fcn_some (w : World) (file d dt pk fn : String) (a : Bool) (G : State)
    (g : octave_function) (h : w.load_fcn_from_file file d dt pk fn a = some g) :
    load_fcn w file d dt pk fn a G
      = (some G.next_fcn,
          { G with heap := Function.update G.heap G.next_fcn g, next_fcn := G.next_fcn + 1,
                   loads := file :: G.loads }) := by
  unfold load_fcn
  rw [h]

theorem load_out_of_date_fcn_frame (w : World) (ff d dt pk : String) (G : State) :
    (load_out_of_date_fcn w ff d dt pk G).2.2.frame = G.frame := by
  unfold load_out_of_date_fcn
  cases h : w.load_fcn_from_file ff d dt pk "" false with
  | none => rw [load_fcn_none _ _ _ _ _ _ _ _ h]; rfl
  | some g => rw [load_fcn_some _ _ _ _ _ _ _ _ g h]; rfl

theorem load_out_of_date_fcn_ext (w : World) (ff d dt pk : String) (G : State) :
    heap_ext G (load_out_of_date_fcn w ff d dt pk G).2.2 := by
  have := heap_ext_load_fcn w ff d dt pk "" false G
  unfold load_out_of_date_fcn
  cases h : w.load_fcn_from_file ff d dt pk "" false with
  | none => rw [load_fcn_none _ _ _ _ _ _ _ _ h] at this ⊢; exact this
  | some g => rw [load_fcn_some _ _ _ _ _ _ _ _ g h] at this ⊢; exact this

theorem load_out_of_date_fcn_value (w : World) (ff d dt pk : String) (G : State) :
    loaded_value w G (load_out_of_date_fcn w ff d dt pk G).2.2
      (load_out_of_date_fcn w ff d dt pk G).2.1 := by
  unfold load_out_of_date_fcn
  cases h : w.load_fcn_from_file ff d dt pk "" false with
  | none => rw [load_fcn_none _ _ _ _ _ _ _ _ h]; exact Or.inl rfl
  | some g =>
    rw [load_fcn_some _ _ _ _ _ _ _ _ g h]
    exact Or.inr ⟨rfl, Nat.lt_succ_self _, _, _, _, _, _, _, g, h, by simp⟩

theorem heap_ext_stamp (G : State) (p t : Nat) :
    heap_ext G { G with heap := Function.update G.heap p { G.heap p with time_checked := t } } := by
  refine ⟨le_refl _, fun q _ => ?_⟩
  by_cases hq : q = p
  · subst hq; simp [octave_function.unmarked]
  · simp [Function.update, hq]

theorem loaded_value_of_ext {w : World} {G G1 G2 G3 : State} {v : octave_value}
    (h01 : G1.next_fcn = G.next_fcn) (h : loaded_value w G1 G2 v)
    (h23 : G3.next_fcn = G2.next_fcn) (hh : G3.heap = G2.heap) : loaded_value w G G3 v := by
  rcases h with h | ⟨h1, h2, h3⟩
  · exact Or.inl h
  · refine Or.inr ⟨by rw [h1, h01], by rw [h23, ← h01]; exact h2, ?_⟩
    rw [hh, ← h01]
    exact h3

theorem out_of_date_check_post (w : World) (v : octave_value) (dt : String) (cr : Bool)
    (G : State) : stale_post w v G (out_of_date_check w v dt cr G) := by
  have triv : stale_post w v G (false, v, G) := ⟨rfl, heap_ext_refl G, Or.inl rfl⟩
  unfold out_of_date_check
  split
  · exact triv
  · rename_i p hp
    dsimp only
    split
    · exact triv
    split
    · exact triv
    split
    · split
      · exact ⟨rfl, ⟨le_refl _, fun _ _ => rfl⟩, Or.inr (Or.inl rfl)⟩
      split
      · split
        · split
          · split
            · refine ⟨?_, ?_, Or.inr ?_⟩
              · exact (load_out_of_date_fcn_frame _ _ _ _ _ _).trans rfl
              · exact heap_ext_trans (heap_ext_stamp G p G.now)
                  (heap_ext_trans (load_out_of_date_fcn_ext _ _ _ _ _ _)
                    (heap_ext_remove_all_breakpoints _ _))
              · exact loaded_value_of_ext rfl (load_out_of_date_fcn_value _ _ _ _ _ _) rfl rfl
            · exact ⟨rfl, heap_ext_stamp G p G.now, Or.inl rfl⟩
          · exact ⟨rfl, heap_ext_trans (heap_ext_stamp G p G.now)
              (heap_ext_remove_all_breakpoints _ _), Or.inr (Or.inl rfl)⟩
        · exact ⟨rfl, heap_ext_stamp G p G.now, Or.inl rfl⟩
      · refine ⟨?_, ?_, Or.inr ?_⟩
        · exact (load_out_of_date_fcn_frame _ _ _ _ _ _).trans rfl
        · exact heap_ext_trans (load_out_of_date_fcn_ext _ _ _ _ _ _)
            (heap_ext_remove_all_breakpoints _ _)
        · exact loaded_value_of_ext rfl (load_out_of_date_fcn_value _ _ _ _ _ _) rfl rfl
    · exact triv

theorem lookup_post_refl (v : octave_value) (e : fcn_info_rep) (G : State) :
    lookup_post e G (v, e, G) := ⟨rfl, heap_ext_refl G, rfl, rfl, rfl⟩

theorem lookup_post_trans {e : fcn_info_rep} {G : State} {r r2 : Res}
    (h1 : lookup_post e G r) (h2 : lookup_post r.2.1 r.2.2 r2) : lookup_post e G r2 :=
  ⟨h2.frame.trans h1.frame, heap_ext_trans h1.ext h2.ext, h2.name.trans h1.name,
    h2.package_name.trans h1.package_name, h2.built_in.trans h1.built_in⟩

theorem lookup_post_step {e : fcn_info_rep} {G : State} {v : octave_value}
    {e1 : fcn_info_rep} {G1 : State} {r2 : Res}
    (h1 : lookup_post e G (v, e1, G1)) (h2 : lookup_post e1 G1 r2) : lookup_post e G r2 :=
  lookup_post_trans h1 h2

theorem heap_ext_mark_private (G : State) (p : Nat) (c : String) :
    heap_ext G (mark_as_private_function G p c) := by
  refine ⟨le_refl _, fun q _ => ?_⟩
  by_cases hq : q = p
  · subst hq; simp [mark_as_private_function, octave_function.unmarked]
  · simp [mark_as_private_function, Function.update, hq]

theorem load_private_function_post (w : World) (d : String) (e : fcn_info_rep) (G : State) :
    lookup_post e G (load_private_function w d e G) := by
  unfold load_private_function
  dsimp only
  split
  · have hf := frame_load_fcn w (G.lp.find_private_fcn d e.name) d "" "" "" false G
    have hx := heap_ext_load_fcn w (G.lp.find_private_fcn d e.name) d "" "" "" false G
    split
    · rename_i p G1 heq
      rw [heq] at hf hx
      exact ⟨hf, heap_ext_trans hx (heap_ext_mark_private _ _ _), rfl, rfl, rfl⟩
    · rename_i G1 heq
      rw [heq] at hf hx
      exact ⟨hf, hx, rfl, rfl, rfl⟩
  · exact lookup_post_refl _ _ _

theorem stale_or_not_post (w : World) (v : octave_value) (dt : String) (cr : Bool) (G : State)
    (c : Bool) :
    stale_post w v G (if c = true then out_of_date_check w v dt cr G else (false, v, G)) := by
  split
  · exact out_of_date_check_post w v dt cr G
  · exact ⟨rfl, heap_ext_refl G, Or.inl rfl⟩

theorem find_user_function_post (w : World) (e : fcn_info_rep) (G : State) :
    lookup_post e G (find_user_function w e G) := by
  have hs := stale_or_not_post w e.function_on_path "" true G e.function_on_path.is_defined
  unfold find_user_function
  dsimp only
  generalize (if e.function_on_path.is_defined = true then
    out_of_date_check w e.function_on_path "" true G else (false, e.function_on_path, G)) = r at hs
  split
  · split
    · have hf := frame_load_fcn w (r.2.2.lp.find_fcn e.name "" e.package_name).1
        (r.2.2.lp.find_fcn e.name "" e.package_name).2 "" e.package_name "" false r.2.2
      have hx := heap_ext_load_fcn w (r.2.2.lp.find_fcn e.name "" e.package_name).1
        (r.2.2.lp.find_fcn e.name "" e.package_name).2 "" e.package_name "" false r.2.2
      split
      · rename_i p G1 heq
        rw [heq] at hf hx
        exact ⟨hf.trans hs.frame, heap_ext_trans hs.ext hx, rfl, rfl, rfl⟩
      · rename_i G1 heq
        rw [heq] at hf hx
        exact ⟨hf.trans hs.frame, heap_ext_trans hs.ext hx, rfl, rfl, rfl⟩
    · exact ⟨hs.frame, hs.ext, rfl, rfl, rfl⟩
  · exact ⟨hs.frame, hs.ext, rfl, rfl, rfl⟩

theorem find_autoload_post (w : World) (e : fcn_info_rep) (G : State) :
    lookup_post e G (find_autoload w e G) := by
  have hs := stale_or_not_post w e.autoload_function "" true G e.autoload_function.is_defined
  unfold find_autoload
  dsimp only
  generalize (if e.autoload_function.is_defined = true then
    out_of_date_check w e.autoload_function "" true G else (false, e.autoload_function, G)) = r
    at hs
  split
  · split
    · have hf := frame_load_fcn w (w.lookup_autoload e.name)
        (substr_to (w.lookup_autoload e.name)
          (find_last_of (w.lookup_autoload e.name) w.dir_sep_chars)) "" "" e.name true r.2.2
      have hx := heap_ext_load_fcn w (w.lookup_autoload e.name)
        (substr_to (w.lookup_autoload e.name)
          (find_last_of (w.lookup_autoload e.name) w.dir_sep_chars)) "" "" e.name true r.2.2
      split
      · rename_i p G1 heq
        rw [heq] at hf hx
        exact ⟨hf.trans hs.frame, heap_ext_trans hs.ext hx, rfl, rfl, rfl⟩
      · rename_i G1 heq
        rw [heq] at hf hx
        exact ⟨hf.trans hs.frame, heap_ext_trans hs.ext hx, rfl, rfl, rfl⟩
    · exact ⟨hs.frame, hs.ext, rfl, rfl, rfl⟩
  · exact ⟨hs.frame, hs.ext, rfl, rfl, rfl⟩

theorem heap_ext_alloc (G : State) (f : octave_function) : heap_ext G (G.alloc f).2 := by
  refine ⟨Nat.le_succ _, fun p hp => ?_⟩
  simp [State.alloc, Function.update, Nat.ne_of_lt hp]

theorem find_package_post (w : World) (e : fcn_info_rep) (G : State) :
    lookup_post e G (find_package w e G) := by
  unfold find_package
  split
  · split
    · exact ⟨rfl, heap_ext_alloc G _, rfl, rfl, rfl⟩
    · exact lookup_post_refl _ _ _
  · exact lookup_post_refl _ _ _

theorem load_class_constructor_post (w : World) (e : fcn_info_rep) (G : State) :
    lookup_post e G (load_class_constructor w e G) := by
  unfold load_class_constructor
  dsimp only
  split
  · have hf := frame_load_fcn w (G.lp.find_method e.name e.name "" e.package_name).1
      (G.lp.find_method e.name e.name "" e.package_name).2 e.name e.package_name "" false G
    have hx := heap_ext_load_fcn w (G.lp.find_method e.name e.name "" e.package_name).1
      (G.lp.find_method e.name e.name "" e.package_name).2 e.name e.package_name "" false G
    split
    · rename_i p G1 heq
      rw [heq] at hf hx
      exact ⟨hf, hx, rfl, rfl, rfl⟩
    · rename_i G1 heq
      rw [heq] at hf hx
      exact ⟨hf, hx, rfl, rfl, rfl⟩
  · have hu := find_user_function_post w e G
    split
    · split
      · split
        · exact ⟨hu.frame, hu.ext, hu.name, hu.package_name, hu.built_in⟩
        · exact ⟨hu.frame, hu.ext, hu.name, hu.package_name, hu.built_in⟩
      · exact ⟨hu.frame, hu.ext, hu.name, hu.package_name, hu.built_in⟩
    · exact ⟨hu.frame, hu.ext, hu.name, hu.package_name, hu.built_in⟩

theorem load_class_method_parents_post
    (find : String → fcn_info_rep → State → Option Res)
    (hfind : ∀ c e G r, find c e G = some r → lookup_post e G r) (dt : String) :
    ∀ (l : List String) (e : fcn_info_rep) (G : State) (r : Res),
      load_class_method_parents find dt l e G = some r → lookup_post e G r := by
  intro l
  induction l with
  | nil =>
    intro e G r h
    simp only [load_class_method_parents, Option.some.injEq] at h
    subst h
    exact lookup_post_refl _ _ _
  | cons c rest ih =>
    intro e G r h
    unfold load_class_method_parents at h
    split at h
    · cases h
    · rename_i r1 h1
      have p1 := hfind c e G r1 h1
      split at h
      · simp only [Option.some.injEq] at h
        subst h
        exact ⟨p1.frame, p1.ext, p1.name, p1.package_name, p1.built_in⟩
      · exact lookup_post_trans p1 (ih _ _ _ h)

theorem load_class_method_built_in_post (dt : String) (e : fcn_info_rep) (G : State) (r : Res)
    (h : load_class_method_built_in dt e G = some r) : lookup_post e G r := by
  unfold load_class_method_built_in at h
  split at h
  · cases h; exact lookup_post_refl _ _ _
  · cases h
  · split at h
    · cases h; exact ⟨rfl, heap_ext_refl G, rfl, rfl, rfl⟩
    · cases h; exact lookup_post_refl _ _ _

theorem load_class_method_post (w : World)
    (find : String → fcn_info_rep → State → Option Res)
    (hfind : ∀ c e G r, find c e G = some r → lookup_post e G r) (dt : String)
    (e : fcn_info_rep) (G : State) (r : Res)
    (h : load_class_method w find dt e G = some r) : lookup_post e G r := by
  unfold load_class_method at h
  split at h
  · cases h; exact load_class_constructor_post w e G
  · split at h
    · cases h; exact ⟨rfl, heap_ext_alloc G _, rfl, rfl, rfl⟩
    · dsimp only at h
      have h1 : lookup_post e G
          (if (G.lp.find_method dt e.name "" "").1 ≠ "" then
            match load_fcn w (G.lp.find_method dt e.name "" "").1
                (G.lp.find_method dt e.name "" "").2 dt "" "" false G with
            | (some p, G1) =>
              (octave_value.fcn p,
                { e with class_methods :=
                    Function.update e.class_methods dt (some (octave_value.fcn p)) },
                G1)
            | (none, G1) => (octave_value.undefined, e, G1)
          else (octave_value.undefined, e, G)) := by
        split
        · have hf := frame_load_fcn w (G.lp.find_method dt e.name "" "").1
            (G.lp.find_method dt e.name "" "").2 dt "" "" false G
          have hx := heap_ext_load_fcn w (G.lp.find_method dt e.name "" "").1
            (G.lp.find_method dt e.name "" "").2 dt "" "" false G
          split
          · rename_i p G1 heq
            rw [heq] at hf hx
            exact ⟨hf, hx, rfl, rfl, rfl⟩
          · rename_i G1 heq
            rw [heq] at hf hx
            exact ⟨hf, hx, rfl, rfl, rfl⟩
        · exact lookup_post_refl _ _ _
      revert h h1
      generalize (if (G.lp.find_method dt e.name "" "").1 ≠ "" then
            match load_fcn w (G.lp.find_method dt e.name "" "").1
                (G.lp.find_method dt e.name "" "").2 dt "" "" false G with
            | (some p, G1) =>
              (octave_value.fcn p,
                { e with class_methods :=
                    Function.update e.class_methods dt (some (octave_value.fcn p)) },
                G1)
            | (none, G1) => (octave_value.undefined, e, G1)
          else (octave_value.undefined, e, G)) = r1
      intro h h1
      split at h
      · split at h
        · cases h
        · rename_i r2 h2
          have p2 := lookup_post_trans h1
            (load_class_method_parents_post find hfind dt _ _ _ _ h2)
          split at h
          · exact lookup_post_trans p2 (load_class_method_built_in_post dt _ _ _ h)
          · cases h; exact p2
      · cases h; exact h1

theorem find_method_post (w : World) :
    ∀ (fuel : Nat) (dt : String) (e : fcn_info_rep) (G : State) (r : Res),
      find_method w fuel dt e G = some r → lookup_post e G r := by
  intro fuel
  induction fuel with
  | zero => intro dt e G r h; simp [find_method] at h
  | succ n ih =>
    intro dt e G r h
    unfold find_method at h
    dsimp only at h
    split at h
    · exact load_class_method_post w _ ih dt e G r h
    · rename_i fval0 hq
      have hs := stale_or_not_post w fval0 dt true G fval0.is_defined
      revert h hs
      generalize (if fval0.is_defined = true then out_of_date_check w fval0 dt true G
        else (false, fval0, G)) = s
      intro h hs
      split at h
      · cases h; exact ⟨hs.frame, hs.ext, rfl, rfl, rfl⟩
      · have p1 : lookup_post e G
            (s.2.1, { e with class_methods := Function.update e.class_methods dt (some s.2.1) },
              s.2.2) := ⟨hs.frame, hs.ext, rfl, rfl, rfl⟩
        exact lookup_post_trans p1 (load_class_method_post w _ ih dt _ _ r h)

theorem find_private_function_post (w : World) (cr : Bool) (e : fcn_info_rep) (G : State) :
    lookup_post e G (find_private_function w cr e G) := by
  unfold find_private_function
  split
  · dsimp only
    split
    · split
      · exact load_private_function_post w _ e G
      · rename_i fval0 hq
        have hs := stale_or_not_post w fval0 "" cr G fval0.is_defined
        revert hs
        generalize (if fval0.is_defined = true then out_of_date_check w fval0 "" cr G
          else (false, fval0, G)) = s
        intro hs
        split
        · exact ⟨hs.frame, hs.ext, rfl, rfl, rfl⟩
        · refine lookup_post_step (v := s.2.1) ?_ (load_private_function_post w _ _ _)
          exact ⟨hs.frame, hs.ext, rfl, rfl, rfl⟩
    · exact lookup_post_refl _ _ _
  · exact lookup_post_refl _ _ _

theorem find_class_constructor_post (w : World) (e : fcn_info_rep) (G : State) :
    lookup_post e G (find_class_constructor w e G) := by
  unfold find_class_constructor
  split
  · exact load_class_constructor_post w e G
  · rename_i fval0 hq
    have hs := stale_or_not_post w fval0 e.name true G fval0.is_defined
    revert hs
    generalize (if fval0.is_defined = true then out_of_date_check w fval0 e.name true G
      else (false, fval0, G)) = s
    intro hs
    dsimp only
    split
    · exact ⟨hs.frame, hs.ext, rfl, rfl, rfl⟩
    · refine lookup_post_step (v := s.2.1) ?_ (load_class_constructor_post w _ _)
      exact ⟨hs.frame, hs.ext, rfl, rfl, rfl⟩

theorem xfind_from_class_constructors_post (w : World) (e : fcn_info_rep) (G : State) :
    lookup_post e G (xfind_from_class_constructors w e G) := by
  have hc := find_class_constructor_post w e G
  unfold xfind_from_class_constructors
  dsimp only
  generalize find_class_constructor w e G = c at hc
  split
  · exact hc
  split
  · exact ⟨hc.frame, hc.ext, hc.name, hc.package_name, hc.built_in⟩
  have ha := lookup_post_trans hc (find_autoload_post w c.2.1 c.2.2)
  generalize find_autoload w c.2.1 c.2.2 = a at ha
  split
  · exact ha
  have hu := lookup_post_trans ha (find_user_function_post w a.2.1 a.2.2)
  generalize find_user_function w a.2.1 a.2.2 = u at hu
  split
  · exact hu
  have hk := lookup_post_trans hu (find_package_post w u.2.1 u.2.2)
  generalize find_package w u.2.1 u.2.2 = k at hk
  split
  · exact hk
  · exact ⟨hk.frame, hk.ext, hk.name, hk.package_name, hk.built_in⟩

theorem xfind_from_class_methods_post (w : World) (fuel : Nat) (args : List octave_arg)
    (e : fcn_info_rep) (G : State) (r : Res)
    (h : xfind_from_class_methods w fuel args e G = some r) : lookup_post e G r := by
  unfold xfind_from_class_methods at h
  split at h
  · split at h
    · cases h
    · rename_i m hm
      have pm := find_method_post w fuel _ e G m hm
      split at h
      · cases h; exact pm
      · cases h
        exact lookup_post_trans pm (xfind_from_class_constructors_post w _ _)
  · cases h
    exact xfind_from_class_constructors_post w e G

theorem xfind_post (w : World) (fuel : Nat) (args : List octave_arg) (local_funcs : Bool)
    (e : fcn_info_rep) (G : State) (r : Res)
    (h : xfind w fuel args local_funcs e G = some r) : lookup_post e G r := by
  unfold xfind at h
  split at h
  · split at h
    · cases h
    · cases h; exact lookup_post_refl _ _ _
    · have hq := find_private_function_post w false e G
      dsimp only at h
      split at h
      · cases h; exact hq
      · exact lookup_post_trans hq (xfind_from_class_methods_post w fuel args _ _ r h)
  · exact xfind_from_class_methods_post w fuel args e G r h

theorem x_builtin_find_post (w : World) (fuel : Nat) (e : fcn_info_rep) (G : State) (r : Res)
    (h : x_builtin_find w fuel e G = some r) : lookup_post e G r := by
  unfold x_builtin_find at h
  split at h
  · cases h; exact lookup_post_refl _ _ _
  dsimp only at h
  have hu := find_user_function_post w e G
  revert h hu
  generalize find_user_function w e G = u
  intro h hu
  split at h
  · cases h; exact hu
  have ha := lookup_post_trans hu (find_autoload_post w u.2.1 u.2.2)
  revert h ha
  generalize find_autoload w u.2.1 u.2.2 = a
  intro h ha
  split at h
  · cases h; exact ha
  split at h
  · cases h; exact ⟨ha.frame, ha.ext, ha.name, ha.package_name, ha.built_in⟩
  have hq := lookup_post_trans ha (find_private_function_post w true a.2.1 a.2.2)
  revert h hq
  generalize find_private_function w true a.2.1 a.2.2 = q
  intro h hq
  split at h
  · cases h; exact hq
  split at h
  · cases h
  · cases h; exact ⟨hq.frame, hq.ext, hq.name, hq.package_name, hq.built_in⟩
  · cases h; exact ⟨hq.frame, hq.ext, hq.name, hq.package_name, hq.built_in⟩

theorem frame_lp {G G2 : State} (h : G2.frame = G.frame) : G2.lp = G.lp :=
  show G2.frame.lp = G.frame.lp from congrArg State.lp h

theorem frame_updates {G G2 : State} (h : G2.frame = G.frame) : G2.updates = G.updates :=
  show G2.frame.updates = G.frame.updates from congrArg State.updates h

theorem frame_fcn_table {G G2 : State} (h : G2.frame = G.frame) : G2.fcn_table = G.fcn_table :=
  show G2.frame.fcn_table = G.frame.fcn_table from congrArg State.fcn_table h

/-- C6: `find` runs `xfind` once; a defined result is returned as it is, with
the search path not refreshed; on an undefined result `load_path::update` is
called once (the count of updates goes up by one, and only then) and the
result of `find` is the result of one more run of `xfind`, defined or not.
The same holds of `builtin_find` and `x_builtin_find`. -/
theorem find_retries_once (w : World) (fuel : Nat) (args : List octave_arg) (local_funcs : Bool)
    (e : fcn_info_rep) (G : State) (r rb : Res)
    (h : xfind w fuel args local_funcs e G = some r)
    (hb : x_builtin_find w fuel e G = some rb) :
    (r.1.is_defined = true →
        find w fuel args local_funcs e G = some r
          ∧ r.2.2.updates = G.updates ∧ r.2.2.lp = G.lp)
      ∧ (r.1.is_defined = false →
          find w fuel args local_funcs e G
              = xfind w fuel args local_funcs r.2.1 (load_path_update w r.2.2)
            ∧ ∀ r2, find w fuel args local_funcs e G = some r2 →
                r2.2.2.updates = G.updates + 1 ∧ r2.2.2.lp = w.load_path_update G.lp)
      ∧ (rb.1.is_defined = true →
          builtin_find w fuel e G = some rb
            ∧ rb.2.2.updates = G.updates ∧ rb.2.2.lp = G.lp)
      ∧ (rb.1.is_defined = false →
          builtin_find w fuel e G = x_builtin_find w fuel rb.2.1 (load_path_update w rb.2.2)
            ∧ ∀ r2, builtin_find w fuel e G = some r2 →
                r2.2.2.updates = G.updates + 1 ∧ r2.2.2.lp = w.load_path_update G.lp) := by
  have p1 := xfind_post w fuel args local_funcs e G r h
  have pb := x_builtin_find_post w fuel e G rb hb
  refine ⟨fun hd => ?_, fun hu => ?_, fun hd => ?_, fun hu => ?_⟩
  · refine ⟨?_, frame_updates p1.frame, frame_lp p1.frame⟩
    simp [find, h, octave_value.is_undefined, hd]
  · have hf : find w fuel args local_funcs e G
        = xfind w fuel args local_funcs r.2.1 (load_path_update w r.2.2) := by
      simp [find, h, octave_value.is_undefined, hu]
    refine ⟨hf, fun r2 h2 => ?_⟩
    rw [hf] at h2
    have p2 := xfind_post w fuel args local_funcs _ _ r2 h2
    refine ⟨?_, ?_⟩
    · rw [frame_updates p2.frame]
      show r.2.2.updates + 1 = G.updates + 1
      rw [frame_updates p1.frame]
    · rw [frame_lp p2.frame]
      show w.load_path_update r.2.2.lp = w.load_path_update G.lp
      rw [frame_lp p1.frame]
  · refine ⟨?_, frame_updates pb.frame, frame_lp pb.frame⟩
    simp [builtin_find, hb, hd]
  · have hf : builtin_find w fuel e G
        = x_builtin_find w fuel rb.2.1 (load_path_update w rb.2.2) := by
      simp [builtin_find, hb, hu]
    refine ⟨hf, fun r2 h2 => ?_⟩
    rw [hf] at h2
    have p2 := x_builtin_find_post w fuel _ _ r2 h2
    refine ⟨?_, ?_⟩
    · rw [frame_updates p2.frame]
      show rb.2.2.updates + 1 = G.updates + 1
      rw [frame_updates pb.frame]
    · rw [frame_lp p2.frame]
      show w.load_path_update rb.2.2.lp = w.load_path_update G.lp
      rw [frame_lp pb.frame]

/-- C6, at a concrete input: on the fresh entry for `foo`, with nothing on
the path, both passes come back undefined and the path is refreshed once. -/
theorem find_retries_once_witness :
    xfind empty_world 3 [] true (fcn_info_rep.create "foo") sample_state
        = some (octave_value.undefined, fcn_info_rep.create "foo", sample_state)
      ∧ x_builtin_find empty_world 3 (fcn_info_rep.create "foo") sample_state
        = some (octave_value.undefined, fcn_info_rep.create "foo", sample_state)
      ∧ find empty_world 3 [] true (fcn_info_rep.create "foo") sample_state
        = xfind empty_world 3 [] true (fcn_info_rep.create "foo")
            (load_path_update empty_world sample_state)
      ∧ ∀ r2, find empty_world 3 [] true (fcn_info_rep.create "foo") sample_state = some r2 →
          r2.2.2.updates = sample_state.updates + 1
            ∧ r2.2.2.lp = empty_world.load_path_update sample_state.lp :=
  have h : xfind empty_world 3 [] true (fcn_info_rep.create "foo") sample_state
      = some (octave_value.undefined, fcn_info_rep.create "foo", sample_state) := by
    simp [xfind, find_subfunction, sample_state, fcn_info_rep.create, find_private_function,
      xfind_from_class_methods, xfind_from_class_constructors, find_class_constructor,
      load_class_constructor, find_user_function, find_autoload, find_package,
      fcn_info_rep.full_name, empty_load_path, empty_world, octave_value.is_defined,
      octave_value.is_undefined]
  have hb : x_builtin_find empty_world 3 (fcn_info_rep.create "foo") sample_state
      = some (octave_value.undefined, fcn_info_rep.create "foo", sample_state) := by
    simp [x_builtin_find, find_subfunction, sample_state, fcn_info_rep.create,
      find_private_function, find_user_function, find_autoload, empty_load_path, empty_world,
      octave_value.is_defined, octave_value.is_undefined]
  ⟨h, hb, ((find_retries_once empty_world 3 [] true (fcn_info_rep.create "foo") sample_state
    _ _ h hb).2.1 rfl)⟩

/-- C8: with `skip_variables` false and a record for the name in the scope's
table, `do_find` returns the value stored for the name in the global table
when the record is flagged global (whatever its local storage holds), and
the record's own value when it is not global and that value is defined; in
both cases the state, and with it `fcn_table`, the heap and the record of
loads, is returned unchanged, whatever the fuel. -/
theorem do_find_variable_first (w : World) (fuel : Nat) (table : String → Option symbol_record)
    (name : String) (args : List octave_arg) (local_funcs : Bool) (G : State)
    (sr : symbol_record) (h : table name = some sr) :
    (sr.is_global = true →
        do_find w fuel table name args false local_funcs G
            = some ((G.global_table name).getD octave_value.undefined, G))
      ∧ (sr.is_global = false → sr.varval.is_defined = true →
          do_find w fuel table name args false local_funcs G = some (sr.varval, G)) := by
  constructor
  · intro hg
    simp only [do_find, h, hg, global_varval, Bool.not_false, if_true]
    cases G.global_table name <;> rfl
  · intro hg hd
    simp [do_find, h, hg, hd]

/-- C8, at a concrete input: a global record for `x` whose local storage
holds the datum 1 while the global table holds the datum 7. -/
theorem do_find_variable_first_witness :
    (fun n => if n = "x" then some (symbol_record.mk "x" true false false (octave_value.data 1))
        else none) "x"
        = some (symbol_record.mk "x" true false false (octave_value.data 1))
      ∧ do_find empty_world 0
          (fun n => if n = "x" then
            some (symbol_record.mk "x" true false false (octave_value.data 1)) else none)
          "x" [] false true
          { sample_state with
              global_table := fun n => if n = "x" then some (octave_value.data 7) else none }
        = some (octave_value.data 7,
            { sample_state with
                global_table := fun n => if n = "x" then some (octave_value.data 7) else none }) :=
  have h : (fun n => if n = "x" then
        some (symbol_record.mk "x" true false false (octave_value.data 1)) else none) "x"
      = some (symbol_record.mk "x" true false false (octave_value.data 1)) := by simp
  ⟨h, (do_find_variable_first empty_world 0 _ "x" [] true
    { sample_state with
        global_table := fun n => if n = "x" then some (octave_value.data 7) else none }
    _ h).1 rfl⟩

/-- C9 (as stated, refuted): a function last checked exactly at the
last-prompt time (and not relative) is treated as stale; here its name no
longer resolves, and the check clears it instead of changing nothing. -/
theorem out_of_date_check_at_prompt_time :
    (stale_state.heap 0).time_checked = stale_state.Vlast_prompt_time
      ∧ (stale_state.heap 0).is_relative = false
      ∧ (stale_state.heap 0).is_subfunction = false
      ∧ (stale_state.heap 0).fcn_file_name ≠ ""
      ∧ (out_of_date_check empty_world (octave_value.fcn 0) "" true stale_state).2.1
          = octave_value.undefined := by
  refine ⟨rfl, rfl, rfl, by decide, ?_⟩
  simp [out_of_date_check, octave_value.function_value, stale_state, stale_function,
    sample_state, sample_function, potentially_stale, out_of_date_lookup, names_fcn_file,
    empty_world, empty_load_path]

/-- C9 (amended): for a function that is not a subfunction and has a
non-empty file name, `out_of_date_check` handles it as potentially stale
exactly when its last-checked time is older than or equal to the last-prompt
time, or it is relative (with relative checking requested) and its
last-checked time is strictly older than the last-chdir time: then it clears
the value and the breakpoints, or stamps the object with the current time, or
hands a file to the loader; in every other case it returns false and changes
nothing. -/
theorem out_of_date_check_stale_iff (w : World) (p : Nat) (dt : String) (cr : Bool) (G : State)
    (hsub : (G.heap p).is_subfunction = false) (hff : (G.heap p).fcn_file_name ≠ "") :
    (((G.heap p).time_checked ≤ G.Vlast_prompt_time
          ∨ (cr = true ∧ (G.heap p).is_relative = true
              ∧ (G.heap p).time_checked < G.Vlast_chdir_time)) →
        ((out_of_date_check w (octave_value.fcn p) dt cr G).2.1 = octave_value.undefined
            ∧ (out_of_date_check w (octave_value.fcn p) dt cr G).2.2.breakpoints
                (G.heap p).canonical_name = [])
          ∨ ((out_of_date_check w (octave_value.fcn p) dt cr G).2.2.heap p).time_checked = G.now
          ∨ ∃ file, (out_of_date_check w (octave_value.fcn p) dt cr G).2.2.loads
              = file :: G.loads)
      ∧ (¬ ((G.heap p).time_checked ≤ G.Vlast_prompt_time
            ∨ (cr = true ∧ (G.heap p).is_relative = true
                ∧ (G.heap p).time_checked < G.Vlast_chdir_time)) →
          out_of_date_check w (octave_value.fcn p) dt cr G = (false, octave_value.fcn p, G)) := by
  have hst : potentially_stale G (G.heap p) cr = true ↔
      ((G.heap p).time_checked ≤ G.Vlast_prompt_time
        ∨ (cr = true ∧ (G.heap p).is_relative = true
            ∧ (G.heap p).time_checked < G.Vlast_chdir_time)) := by
    simp [potentially_stale, and_assoc]
  have hload : ∀ (ff d pk : String) (G1 : State),
      (load_out_of_date_fcn w ff d dt pk G1).2.2.loads = ff :: G1.loads := by
    intro ff d pk G1
    unfold load_out_of_date_fcn
    cases h : w.load_fcn_from_file ff d dt pk "" false with
    | none => rw [load_fcn_none _ _ _ _ _ _ _ _ h]
    | some g => rw [load_fcn_some _ _ _ _ _ _ _ _ g h]
  constructor
  · intro h
    have h1 := hst.mpr h
    unfold out_of_date_check
    simp only [octave_value.function_value, hsub, Bool.false_eq_true, if_false, hff, h1, if_true]
    split
    · exact Or.inl ⟨rfl, by simp [remove_all_breakpoints_in_file]⟩
    split
    · split
      · split
        · split
          · exact Or.inr (Or.inr ⟨_, hload _ _ _ _⟩)
          · exact Or.inr (Or.inl (by simp))
        · exact Or.inl ⟨rfl, by simp [remove_all_breakpoints_in_file]⟩
      · exact Or.inr (Or.inl (by simp))
    · exact Or.inr (Or.inr ⟨_, hload _ _ _ _⟩)
  · intro h
    have h1 : potentially_stale G (G.heap p) cr = false := by
      cases hc : potentially_stale G (G.heap p) cr with
      | false => rfl
      | true => exact absurd (hst.mp hc) h
    unfold out_of_date_check
    simp only [octave_value.function_value, hsub, Bool.false_eq_true, if_false, hff, h1]

/-- C9 (amended), at a concrete input: the function of `stale_state`, last
checked at the last-prompt time. -/
theorem out_of_date_check_stale_iff_witness :
    (stale_state.heap 0).is_subfunction = false ∧ (stale_state.heap 0).fcn_file_name ≠ ""
      ∧ (((out_of_date_check empty_world (octave_value.fcn 0) "" true stale_state).2.1
              = octave_value.undefined
            ∧ (out_of_date_check empty_world (octave_value.fcn 0) "" true stale_state).2.2.breakpoints
                (stale_state.heap 0).canonical_name = [])
          ∨ ((out_of_date_check empty_world (octave_value.fcn 0) "" true stale_state).2.2.heap
              0).time_checked = stale_state.now
          ∨ ∃ file, (out_of_date_check empty_world (octave_value.fcn 0) "" true stale_state).2.2.loads
              = file :: stale_state.loads) :=
  ⟨rfl, by decide,
    (out_of_date_check_stale_iff empty_world 0 "" true stale_state rfl (by decide)).1
      (Or.inl (le_refl 5))⟩

theorem out_of_date_parents_none (lp : load_path) (nm : String) :
    ∀ (l : List String), (∀ c, c ∈ l → ∀ d pk, (lp.find_method c nm d pk).1 = "") →
      ∀ (d pk : String), (out_of_date_parents lp nm l d pk).1 = "" := by
  intro l
  induction l with
  | nil => intro _ d pk; rfl
  | cons c rest ih =>
    intro hm d pk
    unfold out_of_date_parents
    simp only [hm c (List.mem_cons_self _ _), ne_eq, not_true_eq_false, if_false]
    exact ih (fun c2 h2 => hm c2 (List.mem_cons_of_mem _ h2)) _ _

/-- C10: when a potentially stale function (not a subfunction, with a file
name) is checked with relative checking, its name is not itself an absolute
file name, and the method lookup (for the dispatch type and for every parent
class), the autoload lookup and the path lookup all return an empty name,
`out_of_date_check` returns false, leaves the slot undefined, and removes
the breakpoints registered for the canonical name of the function, and
changes nothing else. -/
theorem out_of_date_check_unresolvable (w : World) (p : Nat) (dt : String) (G : State)
    (hsub : (G.heap p).is_subfunction = false) (hff : (G.heap p).fcn_file_name ≠ "")
    (hstale : (G.heap p).time_checked ≤ G.Vlast_prompt_time
      ∨ ((G.heap p).is_relative = true ∧ (G.heap p).time_checked < G.Vlast_chdir_time))
    (habs : names_fcn_file w (G.heap p).name = false)
    (hm : ∀ c, c = dt ∨ c ∈ w.parent_classes dt →
      ∀ d pk, (G.lp.find_method c (G.heap p).name d pk).1 = "")
    (ha : w.lookup_autoload (G.heap p).name = "")
    (hf : ∀ d pk, (G.lp.find_fcn (G.heap p).name d pk).1 = "") :
    out_of_date_check w (octave_value.fcn p) dt true G
        = (false, octave_value.undefined,
            { G with breakpoints := Function.update G.breakpoints (G.heap p).canonical_name [] })
      ∧ (out_of_date_check w (octave_value.fcn p) dt true G).2.2.breakpoints
          (G.heap p).canonical_name = [] := by
  have h1 : potentially_stale G (G.heap p) true = true := by
    simp only [potentially_stale, Bool.true_and, Bool.or_eq_true, decide_eq_true_eq,
      Bool.and_eq_true]
    exact hstale
  have h2 : (out_of_date_lookup w G (G.heap p) dt true).file = "" := by
    unfold out_of_date_lookup
    simp only [if_true, habs, Bool.false_eq_true, if_false]
    by_cases hd : dt = ""
    · simp [hd, ha, hf]
    · simp [hd, hm dt (Or.inl rfl),
        out_of_date_parents_none G.lp _ _ (fun c hc => hm c (Or.inr hc)), ha, hf]
  have h3 : out_of_date_check w (octave_value.fcn p) dt true G
      = (false, octave_value.undefined,
          { G with breakpoints := Function.update G.breakpoints (G.heap p).canonical_name [] }) := by
    unfold out_of_date_check
    simp only [octave_value.function_value, hsub, Bool.false_eq_true, if_false, hff, h1, if_true,
      h2, remove_all_breakpoints_in_file]
  refine ⟨h3, ?_⟩
  rw [h3]
  simp

/-- C10, at a concrete input: the function of `stale_state`, whose name
resolves to nothing on the empty search path. -/
theorem out_of_date_check_unresolvable_witness :
    (stale_state.heap 0).is_subfunction = false ∧ (stale_state.heap 0).fcn_file_name ≠ ""
      ∧ (stale_state.heap 0).time_checked ≤ stale_state.Vlast_prompt_time
      ∧ out_of_date_check empty_world (octave_value.fcn 0) "" true stale_state
        = (false, octave_value.undefined,
            { stale_state with
                breakpoints :=
                  Function.update stale_state.breakpoints (stale_state.heap 0).canonical_name [] }) :=
  ⟨rfl, by decide, le_refl 5,
    (out_of_date_check_unresolvable empty_world 0 "" stale_state rfl (by decide)
      (Or.inl (le_refl 5)) (by simp [names_fcn_file, empty_world]) (fun _ _ _ _ => rfl) rfl
      (fun _ _ => rfl)).1⟩

theorem is_defined_false_iff (v : octave_value) :
    v.is_defined = false ↔ v = octave_value.undefined := by
  cases v <;> simp [octave_value.is_defined]

theorem find_user_function_class_maps (w : World) (e : fcn_info_rep) (G : State)
    (cm cc : String → Option octave_value) :
    find_user_function w (e.with_class_maps cm cc) G
      = ((find_user_function w e G).1, (find_user_function w e G).2.1.with_class_maps cm cc,
          (find_user_function w e G).2.2) := by
  unfold find_user_function fcn_info_rep.with_class_maps
  dsimp only
  repeat' split
  all_goals simp_all

theorem find_autoload_class_maps (w : World) (e : fcn_info_rep) (G : State)
    (cm cc : String → Option octave_value) :
    find_autoload w (e.with_class_maps cm cc) G
      = ((find_autoload w e G).1, (find_autoload w e G).2.1.with_class_maps cm cc,
          (find_autoload w e G).2.2) := by
  unfold find_autoload fcn_info_rep.with_class_maps
  dsimp only
  repeat' split
  all_goals simp_all

theorem load_private_function_class_maps (w : World) (d : String) (e : fcn_info_rep) (G : State)
    (cm cc : String → Option octave_value) :
    load_private_function w d (e.with_class_maps cm cc) G
      = ((load_private_function w d e G).1,
          (load_private_function w d e G).2.1.with_class_maps cm cc,
          (load_private_function w d e G).2.2) := by
  unfold load_private_function fcn_info_rep.with_class_maps
  dsimp only
  repeat' split
  all_goals simp_all

theorem find_private_function_class_maps (w : World) (cr : Bool) (e : fcn_info_rep) (G : State)
    (cm cc : String → Option octave_value) :
    find_private_function w cr (e.with_class_maps cm cc) G
      = ((find_private_function w cr e G).1,
          (find_private_function w cr e G).2.1.with_class_maps cm cc,
          (find_private_function w cr e G).2.2) := by
  unfold find_private_function
  cases hc : G.curr_fcn G.xcurrent_scope with
  | none => rfl
  | some current_fcn =>
    dsimp only
    by_cases hd : (G.heap current_fcn).dir_name = ""
    · simp [hd]
    · simp only [ne_eq, hd, not_false_eq_true, if_true]
      have hpf : (e.with_class_maps cm cc).private_functions = e.private_functions := rfl
      rw [hpf]
      cases hq : e.private_functions (G.heap current_fcn).dir_name with
      | none => exact load_private_function_class_maps w _ e G cm cc
      | some fval0 =>
        dsimp only
        generalize (if fval0.is_defined = true then out_of_date_check w fval0 "" cr G
          else (false, fval0, G)) = s
        by_cases hs : s.2.1.is_defined = true
        · simp only [hs, if_true]
          rfl
        · simp only [hs, if_false]
          exact load_private_function_class_maps w (G.heap current_fcn).dir_name
            { e with private_functions :=
                Function.update e.private_functions (G.heap current_fcn).dir_name (some s.2.1) }
            s.2.2 cm cc

theorem find_subfunction_class_maps (e : fcn_info_rep) (G : State)
    (cm cc : String → Option octave_value) :
    ∀ (fuel : Nat) (scope : scope_id),
      find_subfunction (e.with_class_maps cm cc) G fuel scope = find_subfunction e G fuel scope := by
  intro fuel
  induction fuel with
  | zero => intro scope; rfl
  | succ n ih =>
    intro scope
    unfold find_subfunction
    have hs : (e.with_class_maps cm cc).subfunctions = e.subfunctions := rfl
    rw [hs]
    split
    · split
      · rfl
      · split
        · exact ih _
        · exact ih _
    · rfl

/-! ### Lookups where no class is defined -/

theorem is_undefined_iff (v : octave_value) :
    v.is_undefined = true ↔ v = octave_value.undefined := by
  cases v <;> simp [octave_value.is_undefined, octave_value.is_defined]

theorem is_defined_undefined : octave_value.undefined.is_defined = false := rfl

theorem load_class_constructor_class_free {w : World} {lp : load_path} {nm pk : String}
    {b : octave_value} {I : fcn_info_rep → State → Prop} (hw : class_free w lp nm pk b I)
    (e : fcn_info_rep) (G : State) (hI : I e G) :
    load_class_constructor w e G
      = (octave_value.undefined, (find_user_function w e G).2.1, (find_user_function w e G).2.2)
      := by
  have hu := (hw.user e G hI).2
  unfold load_class_constructor
  have hf : (G.lp.find_method e.name e.name "" e.package_name).1 = "" := by
    rw [hw.lp_eq e G hI, hw.name e G hI]
    exact hw.method_file _ _ _
  simp only [hf, ne_eq, not_true_eq_false, if_false]
  split
  · split
    · rename_i p hp
      have hv : (find_user_function w e G).1 = octave_value.fcn p := by
        cases hx : (find_user_function w e G).1 with
        | undefined => rw [hx] at hp; cases hp
        | data d => rw [hx] at hp; cases hp
        | fcn q =>
          rw [hx] at hp
          simp only [octave_value.function_value, Option.some.injEq] at hp
          rw [hp]
      simp [hu p hv]
    · rfl
  · rfl

theorem load_class_method_parents_class_free {b : octave_value}
    {I : fcn_info_rep → State → Prop} (find : String → fcn_info_rep → State → Option Res)
    (dt : String) :
    ∀ (l : List String),
      (∀ c, c ∈ l → ∀ e G, I e G → ∃ r, find c e G = some r ∧ class_free_outcome b I r) →
      ∀ e G, I e G →
        ∃ r, load_class_method_parents find dt l e G = some r ∧ class_free_outcome b I r := by
  intro l
  induction l with
  | nil =>
    intro _ e G hI
    exact ⟨_, rfl, Or.inl ⟨rfl, hI⟩⟩
  | cons c rest ih =>
    intro hfind e G hI
    obtain ⟨r, hr, ho⟩ := hfind c (List.mem_cons_self _ _) e G hI
    unfold load_class_method_parents
    rw [hr]
    dsimp only
    rcases ho with ⟨hu, hI2⟩ | ⟨hb, hd, ⟨e1, m, hI1, he1⟩, hp⟩
    · rw [hu]
      simp only [is_defined_undefined, Bool.false_eq_true, if_false]
      exact ih (fun c2 h2 => hfind c2 (List.mem_cons_of_mem _ h2)) _ _ hI2
    · have hd2 : r.1.is_defined = true := by rw [hb]; exact hd
      simp only [hd2, if_true]
      refine ⟨_, rfl, Or.inr ⟨hb, hd,
        ⟨e1, Function.update r.2.1.class_methods dt (some r.1), hI1, ?_⟩, hp⟩⟩
      show { r.2.1 with class_methods := Function.update r.2.1.class_methods dt (some r.1) }
        = { e1 with class_methods := Function.update r.2.1.class_methods dt (some r.1) }
      rw [he1]

theorem load_class_method_class_free {w : World} {lp : load_path} {nm pk : String}
    {b : octave_value} {I : fcn_info_rep → State → Prop} (hw : class_free w lp nm pk b I)
    (find : String → fcn_info_rep → State → Option Res) (dt : String)
    (hfind : ∀ c, c ∈ w.parent_classes dt → ∀ e G, I e G →
      ∃ r, find c e G = some r ∧ class_free_outcome b I r)
    (e : fcn_info_rep) (G : State) (hI : I e G) :
    ∃ r, load_class_method w find dt e G = some r ∧ class_free_outcome b I r := by
  unfold load_class_method
  by_cases hfull : e.full_name = dt
  · simp only [hfull, if_true]
    rw [load_class_constructor_class_free hw e G hI]
    exact ⟨_, rfl, Or.inl ⟨rfl, (hw.user e G hI).1⟩⟩
  · simp only [hfull, if_false]
    have hsym : w.find_method_symbol e.name dt = none := by
      rw [hw.name e G hI]; exact hw.method_symbol dt
    have hf : (G.lp.find_method dt e.name "" "").1 = "" := by
      rw [hw.lp_eq e G hI, hw.name e G hI]
      exact hw.method_file _ _ _
    simp only [hsym, hf, ne_eq, not_true_eq_false, if_false, octave_value.is_undefined,
      is_defined_undefined, Bool.not_false, if_true]
    obtain ⟨r2, hr2, ho⟩ :=
      load_class_method_parents_class_free find dt (w.parent_classes dt) hfind e G hI
    rw [hr2]
    dsimp only
    rcases ho with ⟨hu, hI2⟩ | ⟨hb, hd, he1, hp⟩
    · rw [hu]
      simp only [is_defined_undefined, Bool.not_false, if_true]
      unfold load_class_method_built_in
      have hbi := hw.built_in _ _ hI2
      split
      · exact ⟨_, rfl, Or.inl ⟨rfl, hI2⟩⟩
      · rename_i d hbv
        exact absurd (hbi.symm.trans hbv) (hw.not_data d)
      · rename_i p hbv
        by_cases hh : dt ∈ (r2.2.2.heap p).dispatch_classes
        · simp only [hh, if_true]
          refine ⟨_, rfl, Or.inr ⟨hbi, ?_, ⟨r2.2.1, _, hI2, rfl⟩, p, dt, hbi.symm.trans hbv, hh⟩⟩
          rw [← hbi, hbv]
          rfl
        · simp only [hh, if_false]
          exact ⟨_, rfl, Or.inl ⟨rfl, hI2⟩⟩
    · have hd2 : r2.1.is_defined = true := by rw [hb]; exact hd
      simp only [hd2, Bool.not_true, Bool.false_eq_true, if_false]
      exact ⟨_, rfl, Or.inr ⟨hb, hd, he1, hp⟩⟩

theorem find_method_class_free {w : World} {lp : load_path} {nm pk : String}
    {b : octave_value} {I : fcn_info_rep → State → Prop} (hw : class_free w lp nm pk b I)
    (rank : String → Nat) (hrank : ∀ c p, p ∈ w.parent_classes c → rank p < rank c) :
    ∀ (fuel : Nat) (dt : String), rank dt < fuel → ∀ e G, I e G →
      ∃ r, find_method w fuel dt e G = some r ∧ class_free_outcome b I r := by
  intro fuel
  induction fuel with
  | zero => intro dt h; exact absurd h (Nat.not_lt_zero _)
  | succ n ih =>
    intro dt hlt e G hI
    unfold find_method
    dsimp only
    rw [hw.methods e G hI dt]
    dsimp only
    refine load_class_method_class_free hw _ dt ?_ e G hI
    intro c hc e2 G2 hI2
    exact ih c (lt_of_lt_of_le (hrank dt c hc) (Nat.le_of_lt_succ hlt)) e2 G2 hI2

/-! ### Lookups that load nothing -/

theorem find_subfunction_none_of_chain (e : fcn_info_rep) (G : State) :
    ∀ (fuel : Nat) (scope : scope_id) (l : List scope_id),
      scope_chain G fuel scope = some l → (∀ s, s ∈ l → e.subfunctions s = none) →
      find_subfunction e G fuel scope = some none := by
  intro fuel
  induction fuel with
  | zero => intro scope l h; simp [scope_chain] at h
  | succ n ih =>
    intro scope l h hl
    unfold scope_chain at h
    unfold find_subfunction
    by_cases hs : scope ≥ 0
    · simp only [hs, if_true] at h ⊢
      cases hc : G.curr_fcn scope with
      | none =>
        rw [hc] at h
        simp only [Option.map_eq_some'] at h
        obtain ⟨l2, h2, rfl⟩ := h
        rw [hl scope (List.mem_cons_self _ _)]
        exact ih _ l2 h2 (fun s hs2 => hl s (List.mem_cons_of_mem _ hs2))
      | some p =>
        rw [hc] at h
        simp only [Option.map_eq_some'] at h
        obtain ⟨l2, h2, rfl⟩ := h
        rw [hl scope (List.mem_cons_self _ _)]
        exact ih _ l2 h2 (fun s hs2 => hl s (List.mem_cons_of_mem _ hs2))
    · simp only [hs, if_false]

theorem scope_chain_congr (G G2 : State) (hc : G2.curr_fcn = G.curr_fcn) (hh : G2.heap = G.heap) :
    ∀ (fuel : Nat) (scope : scope_id), scope_chain G2 fuel scope = scope_chain G fuel scope := by
  intro fuel
  induction fuel with
  | zero => intro scope; rfl
  | succ n ih =>
    intro scope
    unfold scope_chain
    rw [hc, hh]
    split
    · split
      · rw [ih]
      · rw [ih]
    · rfl

theorem find_user_function_silent (w : World) (e : fcn_info_rep) (G : State)
    (hu : e.function_on_path = octave_value.undefined)
    (hp : (G.lp.find_fcn e.name "" e.package_name).1 = ""
      ∨ w.load_fcn_from_file (G.lp.find_fcn e.name "" e.package_name).1
          (G.lp.find_fcn e.name "" e.package_name).2 "" e.package_name "" false = none) :
    ∃ l, find_user_function w e G = (octave_value.undefined, e, G.logged l) := by
  unfold find_user_function
  simp only [hu, is_defined_undefined, Bool.false_eq_true, if_false, octave_value.is_undefined,
    Bool.not_false, if_true]
  by_cases hf : (G.lp.find_fcn e.name "" e.package_name).1 = ""
  · simp only [hf, ne_eq, not_true_eq_false, if_false]
    refine ⟨G.loads, ?_⟩
    rw [← hu]
    rfl
  · simp only [ne_eq, hf, not_false_eq_true, if_true]
    rcases hp with hp | hp
    · exact absurd hp hf
    · rw [load_fcn_none _ _ _ _ _ _ _ _ hp]
      refine ⟨(G.lp.find_fcn e.name "" e.package_name).1 :: G.loads, ?_⟩
      dsimp only
      rw [← hu]
      rfl

theorem find_autoload_silent (w : World) (e : fcn_info_rep) (G : State)
    (hu : e.autoload_function = octave_value.undefined) (ha : w.lookup_autoload e.name = "") :
    find_autoload w e G = (octave_value.undefined, e, G) := by
  unfold find_autoload
  simp only [hu, is_defined_undefined, Bool.false_eq_true, if_false, Bool.not_false, if_true, ha,
    ne_eq, not_true_eq_false]
  rw [← hu]

theorem find_package_silent (w : World) (e : fcn_info_rep) (G : State)
    (hu : e.package = octave_value.undefined) (hp : w.find_package_symbol e.full_name = none) :
    find_package w e G = (octave_value.undefined, e, G) := by
  unfold find_package
  simp only [hu, octave_value.is_undefined, is_defined_undefined, Bool.not_false, if_true, hp]

theorem find_private_function_silent (w : World) (cr : Bool) (e : fcn_info_rep) (G : State)
    (hc : ∀ d, e.private_functions d = none) (hp : ∀ d, G.lp.find_private_fcn d e.name = "") :
    find_private_function w cr e G = (octave_value.undefined, e, G) := by
  unfold find_private_function
  split
  · dsimp only
    split
    · rw [hc]
      dsimp only
      unfold load_private_function
      simp only [hp, ne_eq, not_true_eq_false, if_false]
    · rfl
  · rfl

theorem class_free_silent (w : World) (e0 : fcn_info_rep) (G0 : State) (hu : uncached e0)
    (hr : unresolvable w G0.lp e0) (hb : ∀ d, e0.built_in_function ≠ octave_value.data d) :
    class_free w G0.lp e0.name e0.package_name e0.built_in_function (silent e0 G0) where
  method_symbol := hr.method_symbol
  method_file := hr.method_file
  not_data := hb
  methods := fun e G h c => by rw [h.1]; exact hu.class_methods c
  lp_eq := fun e G h => by obtain ⟨_, l, rfl⟩ := h; rfl
  name := fun e G h => by rw [h.1]
  package_name := fun e G h => by rw [h.1]
  built_in := fun e G h => by rw [h.1]
  user := fun e G h => by
    obtain ⟨rfl, l, rfl⟩ := h
    obtain ⟨l2, h2⟩ := find_user_function_silent w e (G0.logged l) hu.function_on_path hr.path
    rw [h2]
    refine ⟨⟨rfl, l2, rfl⟩, ?_⟩
    intro p hp
    cases hp

theorem xfind_from_class_constructors_silent (w : World) (e : fcn_info_rep) (G : State)
    (hu : uncached e) (hr : unresolvable w G.lp e)
    (hb : ∀ d, e.built_in_function ≠ octave_value.data d) :
    ∃ l, xfind_from_class_constructors w e G = (terminal_value e, e, G.logged l) := by
  have hw := class_free_silent w e G hu hr hb
  have hI : silent e G e G := ⟨rfl, G.loads, rfl⟩
  obtain ⟨l1, h1⟩ := find_user_function_silent w e G hu.function_on_path hr.path
  have hc : find_class_constructor w e G = (octave_value.undefined, e, G.logged l1) := by
    unfold find_class_constructor
    rw [hu.class_constructors]
    dsimp only
    rw [load_class_constructor_class_free hw e G hI, h1]
  obtain ⟨l2, h2⟩ := find_user_function_silent w e (G.logged l1) hu.function_on_path hr.path
  unfold xfind_from_class_constructors
  rw [hc]
  simp only [is_defined_undefined, Bool.false_eq_true, if_false]
  by_cases hcl : e.cmdline_function.is_defined = true
  · refine ⟨l1, ?_⟩
    simp only [hcl, if_true, terminal_value]
  · simp only [hcl, if_false, Bool.false_eq_true]
    rw [find_autoload_silent w e _ hu.autoload_function hr.autoload]
    simp only [is_defined_undefined, Bool.false_eq_true, if_false]
    rw [h2]
    simp only [is_defined_undefined, Bool.false_eq_true, if_false]
    rw [find_package_silent w e _ hu.package hr.package_symbol]
    simp only [is_defined_undefined, Bool.false_eq_true, if_false]
    refine ⟨l2, ?_⟩
    simp only [terminal_value, hcl, if_false, Bool.false_eq_true]
    rfl

/-- How `xfind` ends on an entry that caches nothing, for a name that no
collaborator resolves: nothing is loaded, and the value is the command-line
function if defined, else the built-in slot, with the entry unchanged; or,
for a non-empty argument list, the built-in function found as the method of
a dispatch class. -/
theorem xfind_silent (w : World) (fuel : Nat) (args : List octave_arg) (local_funcs : Bool)
    (e : fcn_info_rep) (G : State) (hu : uncached e) (hr : unresolvable w G.lp e)
    (hb : ∀ d, e.built_in_function ≠ octave_value.data d)
    (hsub : local_funcs = true → find_subfunction e G fuel G.xcurrent_scope = some none)
    (hfuel : args ≠ [] →
      class_depth_lt w (get_dispatch_type G.class_precedence_table args) fuel) :
    ∃ r, xfind w fuel args local_funcs e G = some r ∧ (∃ l, r.2.2 = G.logged l)
      ∧ ((r.1 = terminal_value e ∧ r.2.1 = e)
        ∨ (args ≠ [] ∧ r.1 = e.built_in_function ∧ e.built_in_function.is_defined = true
            ∧ ∃ m, r.2.1 = { e with class_methods := m })) := by
  have hw := class_free_silent w e G hu hr hb
  have hI : silent e G e G := ⟨rfl, G.loads, rfl⟩
  have mid : ∃ r, xfind_from_class_methods w fuel args e G = some r ∧ (∃ l, r.2.2 = G.logged l)
      ∧ ((r.1 = terminal_value e ∧ r.2.1 = e)
        ∨ (args ≠ [] ∧ r.1 = e.built_in_function ∧ e.built_in_function.is_defined = true
            ∧ ∃ m, r.2.1 = { e with class_methods := m })) := by
    unfold xfind_from_class_methods
    by_cases ha : args = []
    · rw [if_neg (not_not.mpr ha)]
      obtain ⟨l, hl⟩ := xfind_from_class_constructors_silent w e G hu hr hb
      rw [hl]
      exact ⟨_, rfl, ⟨l, rfl⟩, Or.inl ⟨rfl, rfl⟩⟩
    · rw [if_pos ha]
      obtain ⟨rank, hrank, hlt⟩ := hfuel ha
      obtain ⟨m, hm, ho⟩ := find_method_class_free hw rank hrank fuel _ hlt e G hI
      rw [hm]
      dsimp only
      rcases ho with ⟨hund, hI2⟩ | ⟨hbv, hd, ⟨e1, cm, hI1, he1⟩, _⟩
      · obtain ⟨he, l, hl⟩ := hI2
        rw [hund]
        simp only [is_defined_undefined, Bool.false_eq_true, if_false]
        rw [he, hl]
        obtain ⟨l2, hl2⟩ := xfind_from_class_constructors_silent w e (G.logged l) hu hr hb
        rw [hl2]
        exact ⟨_, rfl, ⟨l2, rfl⟩, Or.inl ⟨rfl, rfl⟩⟩
      · have hd2 : m.1.is_defined = true := by rw [hbv]; exact hd
        simp only [hd2, if_true]
        obtain ⟨he, l, hl⟩ := hI1
        refine ⟨_, rfl, ⟨l, hl⟩, Or.inr ⟨ha, hbv, hd, cm, ?_⟩⟩
        rw [he1, he]
  unfold xfind
  cases local_funcs with
  | false => simpa using mid
  | true =>
    simp only [if_true]
    rw [hsub rfl]
    dsimp only
    rw [find_private_function_silent w false e G hu.private_functions hr.private_fcn]
    simp only [is_defined_undefined, Bool.false_eq_true, if_false]
    exact mid

theorem unresolvable_of_name {w : World} {lp : load_path} {e : fcn_info_rep}
    (h : unresolvable w lp e) (e2 : fcn_info_rep) (hn : e2.name = e.name)
    (hp : e2.package_name = e.package_name) : unresolvable w lp e2 := by
  have hfull : e2.full_name = e.full_name := by
    unfold fcn_info_rep.full_name
    rw [hn, hp]
  exact ⟨by rw [hn]; exact h.private_fcn, by rw [hn]; exact h.method_file,
    by rw [hn]; exact h.method_symbol, by rw [hn]; exact h.autoload,
    by rw [hfull]; exact h.package_symbol, by rw [hn, hp]; exact h.path⟩

theorem find_subfunction_congr (e : fcn_info_rep) (G G2 : State)
    (hc : G2.curr_fcn = G.curr_fcn) (hh : G2.heap = G.heap) :
    ∀ (fuel : Nat) (scope : scope_id),
      find_subfunction e G2 fuel scope = find_subfunction e G fuel scope := by
  intro fuel
  induction fuel with
  | zero => intro scope; rfl
  | succ n ih =>
    intro scope
    unfold find_subfunction
    rw [hc, hh]
    split
    · split
      · rfl
      · split
        · exact ih _
        · exact ih _
    · rfl

/-- C3: for an entry whose only definition is a command-line function (the
walk over the scope chain ends without a subfunction, nothing is cached, the
built-in slot is undefined, and no collaborator resolves the name, before or
after a refresh of the search path), `find` with an empty argument list and
`local_funcs` true returns the command-line function and leaves the entry as
it is; with the command-line slot set undefined, the same call returns the
undefined value, after one refresh of the path. -/
theorem find_cmdline_only (w : World) (fuel : Nat) (e : fcn_info_rep) (G : State)
    (chain : List scope_id) (hu : uncached e) (hb : e.built_in_function = octave_value.undefined)
    (hc : e.cmdline_function.is_defined = true)
    (hr : unresolvable w G.lp e) (hr2 : unresolvable w (w.load_path_update G.lp) e)
    (hchain : scope_chain G fuel G.xcurrent_scope = some chain)
    (hsub : ∀ s, s ∈ chain → e.subfunctions s = none) :
    (∃ l, find w fuel [] true e G = some (e.cmdline_function, e, G.logged l))
      ∧ ∃ l, find w fuel [] true { e with cmdline_function := octave_value.undefined } G
          = some (octave_value.undefined, { e with cmdline_function := octave_value.undefined },
              (load_path_update w G).logged l) := by
  have hnd : ∀ d, e.built_in_function ≠ octave_value.data d := by
    intro d; rw [hb]; exact fun h => by cases h
  have hfs := find_subfunction_none_of_chain e G fuel _ chain hchain hsub
  constructor
  · obtain ⟨r, hx, ⟨l, hl⟩, ho⟩ := xfind_silent w fuel [] true e G hu hr hnd (fun _ => hfs)
      (fun h => absurd rfl h)
    rcases ho with ⟨hv, he⟩ | ⟨ha, _⟩
    · obtain ⟨v, e1, G1⟩ := r
      dsimp only at hv he hl
      have hv2 : v = e.cmdline_function := by rw [hv]; simp [terminal_value, hc]
      subst hv2 he hl
      refine ⟨l, ?_⟩
      unfold find
      rw [hx]
      simp [octave_value.is_undefined, hc]
    · exact absurd rfl ha
  · have hu2 : uncached { e with cmdline_function := octave_value.undefined } :=
      ⟨hu.private_functions, hu.class_constructors, hu.class_methods, hu.autoload_function,
        hu.function_on_path, hu.package⟩
    have hr' := unresolvable_of_name hr { e with cmdline_function := octave_value.undefined }
      rfl rfl
    have hr2' := unresolvable_of_name hr2 { e with cmdline_function := octave_value.undefined }
      rfl rfl
    have hfs2 : ∀ G2 : State, G2.curr_fcn = G.curr_fcn → G2.heap = G.heap →
        G2.xcurrent_scope = G.xcurrent_scope →
        find_subfunction { e with cmdline_function := octave_value.undefined } G2 fuel
          G2.xcurrent_scope = some none := by
      intro G2 h1 h2 h3
      rw [h3]
      refine find_subfunction_none_of_chain _ G2 fuel _ chain ?_ hsub
      rw [scope_chain_congr G G2 h1 h2]
      exact hchain
    have htv : terminal_value { e with cmdline_function := octave_value.undefined }
        = octave_value.undefined := by
      simp [terminal_value, is_defined_undefined, hb]
    obtain ⟨r, hx, ⟨l, hl⟩, ho⟩ := xfind_silent w fuel [] true
      { e with cmdline_function := octave_value.undefined } G hu2 hr' hnd
      (fun _ => hfs2 G rfl rfl rfl) (fun h => absurd rfl h)
    rcases ho with ⟨hv, he⟩ | ⟨ha, _⟩
    · rw [htv] at hv
      obtain ⟨r2, hx2, ⟨l2, hl2⟩, ho2⟩ := xfind_silent w fuel [] true
        { e with cmdline_function := octave_value.undefined } (load_path_update w (G.logged l))
        hu2 hr2' hnd (fun _ => hfs2 _ rfl rfl rfl) (fun h => absurd rfl h)
      rcases ho2 with ⟨hv2, he2⟩ | ⟨ha2, _⟩
      · rw [htv] at hv2
        obtain ⟨v, e1, G1⟩ := r
        obtain ⟨v2, e2, G2⟩ := r2
        dsimp only at hv he hl hv2 he2 hl2
        subst hv he hl hv2 he2 hl2
        refine ⟨l2, ?_⟩
        unfold find
        rw [hx]
        simp only [octave_value.is_undefined, is_defined_undefined, Bool.not_false, if_true]
        rw [hx2]
        rfl
      · exact absurd rfl ha2
    · exact absurd rfl ha

/-- C3, at a concrete input: the entry for `foo` with only a command-line
function, at the top-level scope of the sample state, with an empty search
path. -/
theorem find_cmdline_only_witness :
    uncached cmdline_entry ∧ cmdline_entry.built_in_function = octave_value.undefined
      ∧ cmdline_entry.cmdline_function.is_defined = true
      ∧ unresolvable empty_world sample_state.lp cmdline_entry
      ∧ scope_chain sample_state 3 sample_state.xcurrent_scope = some [1]
      ∧ ((∃ l, find empty_world 3 [] true cmdline_entry sample_state
            = some (cmdline_entry.cmdline_function, cmdline_entry, sample_state.logged l))
        ∧ ∃ l, find empty_world 3 [] true
            { cmdline_entry with cmdline_function := octave_value.undefined } sample_state
          = some (octave_value.undefined,
              { cmdline_entry with cmdline_function := octave_value.undefined },
              (load_path_update empty_world sample_state).logged l)) :=
  have hu : uncached cmdline_entry :=
    ⟨fun _ => rfl, fun _ => rfl, fun _ => rfl, rfl, rfl, rfl⟩
  have hr : unresolvable empty_world sample_state.lp cmdline_entry :=
    ⟨fun _ => rfl, fun _ _ _ => rfl, fun _ => rfl, rfl, rfl, Or.inl rfl⟩
  have hc : scope_chain sample_state 3 sample_state.xcurrent_scope = some [1] := by
    simp [scope_chain, sample_state]
  ⟨hu, rfl, rfl, hr, hc,
    find_cmdline_only empty_world 3 cmdline_entry sample_state [1] hu rfl rfl hr hr hc
      (fun _ _ => rfl)⟩

theorem find_silent_undefined (w : World) (fuel : Nat) (args : List octave_arg)
    (local_funcs : Bool) (e : fcn_info_rep) (G : State) (hu : uncached e)
    (hb : e.built_in_function = octave_value.undefined)
    (hc : e.cmdline_function = octave_value.undefined)
    (hr : unresolvable w G.lp e) (hr2 : unresolvable w (w.load_path_update G.lp) e)
    (hsub : local_funcs = true → find_subfunction e G fuel G.xcurrent_scope = some none)
    (hfuel : args ≠ [] →
      class_depth_lt w (get_dispatch_type G.class_precedence_table args) fuel) :
    ∃ l, find w fuel args local_funcs e G
      = some (octave_value.undefined, e, (load_path_update w G).logged l) := by
  have hnd : ∀ d, e.built_in_function ≠ octave_value.data d := by
    intro d; rw [hb]; exact fun h => by cases h
  have htv : terminal_value e = octave_value.undefined := by
    simp [terminal_value, hc, is_defined_undefined, hb]
  have hbd : ¬ (e.built_in_function.is_defined = true) := by rw [hb]; decide
  obtain ⟨r, hx, ⟨l, hl⟩, ho⟩ := xfind_silent w fuel args local_funcs e G hu hr hnd hsub hfuel
  rcases ho with ⟨hv, he⟩ | ⟨_, _, hd, _⟩
  · rw [htv] at hv
    have hsub2 : local_funcs = true →
        find_subfunction e (load_path_update w (G.logged l)) fuel
          (load_path_update w (G.logged l)).xcurrent_scope = some none := by
      intro h
      exact (find_subfunction_congr e G (load_path_update w (G.logged l)) rfl rfl fuel _).trans
        (hsub h)
    obtain ⟨r2, hx2, ⟨l2, hl2⟩, ho2⟩ := xfind_silent w fuel args local_funcs e
      (load_path_update w (G.logged l)) hu hr2 hnd hsub2 hfuel
    rcases ho2 with ⟨hv2, he2⟩ | ⟨_, _, hd2, _⟩
    · rw [htv] at hv2
      obtain ⟨v, e1, G1⟩ := r
      obtain ⟨v2, e2, G2⟩ := r2
      dsimp only at hv he hl hv2 he2 hl2
      subst hv he hl hv2 he2 hl2
      refine ⟨l2, ?_⟩
      unfold find
      rw [hx]
      simp only [octave_value.is_undefined, is_defined_undefined, Bool.not_false, if_true]
      rw [hx2]
      rfl
    · exact absurd hd2 hbd
  · exact absurd hd hbd

/-- C4: for a name with no variable record in the scope and no entry in
`fcn_table`, which no collaborator resolves on the current search path or
after one or two refreshes of it (and for which the walk over the scope
chain and the walk over the parent classes end within the fuel), `do_find`
returns the undefined value and leaves `fcn_table` as it is, hence without
an entry for the name; a second identical call on the state the first one
left again returns the undefined value and leaves `fcn_table` as it is. -/
theorem do_find_unknown_name (w : World) (fuel : Nat) (table : String → Option symbol_record)
    (name : String) (args : List octave_arg) (skip_variables local_funcs : Bool) (G : State)
    (hvar : table name = none) (hft : G.fcn_table name = none)
    (hr0 : unresolvable w G.lp (fcn_info_rep.create name))
    (hr1 : unresolvable w (w.load_path_update G.lp) (fcn_info_rep.create name))
    (hr2 : unresolvable w (w.load_path_update (w.load_path_update G.lp))
      (fcn_info_rep.create name))
    (hchain : local_funcs = true → ∃ chain, scope_chain G fuel G.xcurrent_scope = some chain)
    (hfuel : args ≠ [] →
      class_depth_lt w (get_dispatch_type G.class_precedence_table args) fuel) :
    ∃ G1 G2,
      do_find w fuel table name args skip_variables local_funcs G
          = some (octave_value.undefined, G1)
        ∧ G1.fcn_table = G.fcn_table ∧ G1.fcn_table name = none
        ∧ do_find w fuel table name args skip_variables local_funcs G1
          = some (octave_value.undefined, G2)
        ∧ G2.fcn_table = G.fcn_table ∧ G2.fcn_table name = none := by
  have hu : uncached (fcn_info_rep.create name) :=
    ⟨fun _ => rfl, fun _ => rfl, fun _ => rfl, rfl, rfl, rfl⟩
  have hsub : ∀ G2 : State, G2.curr_fcn = G.curr_fcn → G2.heap = G.heap →
      G2.xcurrent_scope = G.xcurrent_scope → local_funcs = true →
      find_subfunction (fcn_info_rep.create name) G2 fuel G2.xcurrent_scope = some none := by
    intro G2 h1 h2 h3 hl
    obtain ⟨chain, hc⟩ := hchain hl
    rw [h3]
    refine find_subfunction_none_of_chain _ G2 fuel _ chain ?_ (fun _ _ => rfl)
    rw [scope_chain_congr G G2 h1 h2]
    exact hc
  have step : ∀ G2 : State, G2.fcn_table name = none →
      (∃ l, find w fuel args local_funcs (fcn_info_rep.create name) G2
        = some (octave_value.undefined, fcn_info_rep.create name,
            (load_path_update w G2).logged l)) →
      ∃ l, do_find w fuel table name args skip_variables local_funcs G2
        = some (octave_value.undefined, (load_path_update w G2).logged l) := by
    intro G2 hf2 ⟨l, hl⟩
    refine ⟨l, ?_⟩
    unfold do_find
    have hv : (if (!skip_variables) = true then
        match table name with
        | some sr =>
          if sr.is_global = true then some (global_varval G2 name)
          else if sr.varval.is_defined = true then some sr.varval else none
        | none => none
      else none) = none := by
      rw [hvar]
      split <;> rfl
    rw [hv]
    simp only [hf2, hl, is_defined_undefined, Bool.false_eq_true, if_false]
  obtain ⟨l1, h1⟩ := step G hft
    (find_silent_undefined w fuel args local_funcs _ G hu rfl rfl hr0 hr1
      (hsub G rfl rfl rfl) hfuel)
  obtain ⟨l2, h2⟩ := step ((load_path_update w G).logged l1) hft
    (find_silent_undefined w fuel args local_funcs _ _ hu rfl rfl hr1 hr2
      (hsub _ rfl rfl rfl) hfuel)
  exact ⟨_, _, h1, rfl, hft, h2, rfl, hft⟩

/-- C4, at a concrete input: the name `foo` in the sample state, with an
empty variable table and an empty search path. -/
theorem do_find_unknown_name_witness :
    (fun _ : String => (none : Option symbol_record)) "foo" = none
      ∧ sample_state.fcn_table "foo" = none
      ∧ unresolvable empty_world sample_state.lp (fcn_info_rep.create "foo")
      ∧ (∃ chain, scope_chain sample_state 3 sample_state.xcurrent_scope = some chain)
      ∧ ∃ G1 G2,
          do_find empty_world 3 (fun _ => none) "foo" [] false true sample_state
              = some (octave_value.undefined, G1)
            ∧ G1.fcn_table = sample_state.fcn_table ∧ G1.fcn_table "foo" = none
            ∧ do_find empty_world 3 (fun _ => none) "foo" [] false true G1
              = some (octave_value.undefined, G2)
            ∧ G2.fcn_table = sample_state.fcn_table ∧ G2.fcn_table "foo" = none :=
  have hr : unresolvable empty_world sample_state.lp (fcn_info_rep.create "foo") :=
    ⟨fun _ => rfl, fun _ _ _ => rfl, fun _ => rfl, rfl, rfl, Or.inl rfl⟩
  have hc : ∃ chain, scope_chain sample_state 3 sample_state.xcurrent_scope = some chain :=
    ⟨[1], by simp [scope_chain, sample_state]⟩
  ⟨rfl, rfl, hr, hc,
    do_find_unknown_name empty_world 3 (fun _ => none) "foo" [] false true sample_state rfl rfl
      hr hr hr (fun _ => hc) (fun h => absurd rfl h)⟩

/-- C5: when the search path yields a candidate file for the name and the
loader fails on it, `find_user_function` leaves the path slot undefined (the
entry is unchanged, the file is recorded as handed to the loader); and for
every entry that caches nothing, has a defined built-in function and no
command-line function, and whose name no other collaborator resolves, `find`
returns the built-in function, the path slot still undefined. -/
theorem find_broken_file_falls_back (w : World) (fuel : Nat) (args : List octave_arg)
    (local_funcs : Bool) (e : fcn_info_rep) (G : State) (b : Nat) (hu : uncached e)
    (hcl : e.cmdline_function = octave_value.undefined)
    (hbi : e.built_in_function = octave_value.fcn b)
    (hr : unresolvable w G.lp e)
    (hfile : (G.lp.find_fcn e.name "" e.package_name).1 ≠ "")
    (hchain : local_funcs = true → ∃ chain,
      scope_chain G fuel G.xcurrent_scope = some chain ∧ ∀ s, s ∈ chain → e.subfunctions s = none)
    (hfuel : args ≠ [] →
      class_depth_lt w (get_dispatch_type G.class_precedence_table args) fuel) :
    w.load_fcn_from_file (G.lp.find_fcn e.name "" e.package_name).1
        (G.lp.find_fcn e.name "" e.package_name).2 "" e.package_name "" false = none
      ∧ find_user_function w e G
        = (octave_value.undefined, e,
            { G with loads := (G.lp.find_fcn e.name "" e.package_name).1 :: G.loads })
      ∧ ∃ e2 G2, find w fuel args local_funcs e G = some (octave_value.fcn b, e2, G2)
          ∧ e2.function_on_path = octave_value.undefined := by
  have hfail := hr.path.resolve_left hfile
  refine ⟨hfail, ?_, ?_⟩
  · unfold find_user_function
    simp only [hu.function_on_path, is_defined_undefined, Bool.false_eq_true, if_false,
      octave_value.is_undefined, Bool.not_false, if_true, ne_eq, hfile, not_false_eq_true]
    rw [load_fcn_none _ _ _ _ _ _ _ _ hfail]
    dsimp only
    have h := hu.function_on_path
    congr 2
    cases e
    simp only at h
    subst h
    rfl
  · have hnd : ∀ d, e.built_in_function ≠ octave_value.data d := by
      intro d; rw [hbi]; exact fun h => by cases h
    have htv : terminal_value e = octave_value.fcn b := by
      simp [terminal_value, hcl, is_defined_undefined, hbi]
    have hsub : local_funcs = true → find_subfunction e G fuel G.xcurrent_scope = some none := by
      intro h
      obtain ⟨chain, h1, h2⟩ := hchain h
      exact find_subfunction_none_of_chain e G fuel _ chain h1 h2
    obtain ⟨r, hx, _, ho⟩ := xfind_silent w fuel args local_funcs e G hu hr hnd hsub hfuel
    have hv : r.1 = octave_value.fcn b := by
      rcases ho with ⟨hv, _⟩ | ⟨_, hv, _, _⟩
      · rw [hv, htv]
      · rw [hv, hbi]
    have he : r.2.1.function_on_path = octave_value.undefined := by
      rcases ho with ⟨_, he⟩ | ⟨_, _, _, m, he⟩
      · rw [he]; exact hu.function_on_path
      · rw [he]; exact hu.function_on_path
    refine ⟨r.2.1, r.2.2, ?_, he⟩
    unfold find
    rw [hx]
    simp only [octave_value.is_undefined, hv, octave_value.is_defined, Bool.not_true,
      Bool.false_eq_true, if_false]
    rw [← hv]

/-- C5, at a concrete input: the entry for `foo` with only a built-in
function, on the search path that holds `/p/foo.m`, with a loader that
fails. -/
theorem find_broken_file_falls_back_witness :
    uncached built_in_entry
      ∧ unresolvable empty_world foo_state.lp built_in_entry
      ∧ (foo_state.lp.find_fcn built_in_entry.name "" built_in_entry.package_name).1 ≠ ""
      ∧ find_user_function empty_world built_in_entry foo_state
        = (octave_value.undefined, built_in_entry,
            { foo_state with
                loads := (foo_state.lp.find_fcn built_in_entry.name ""
                  built_in_entry.package_name).1 :: foo_state.loads })
      ∧ ∃ e2 G2, find empty_world 3 [] true built_in_entry foo_state
          = some (octave_value.fcn 0, e2, G2)
          ∧ e2.function_on_path = octave_value.undefined :=
  have hu : uncached built_in_entry :=
    ⟨fun _ => rfl, fun _ => rfl, fun _ => rfl, rfl, rfl, rfl⟩
  have hr : unresolvable empty_world foo_state.lp built_in_entry :=
    ⟨fun _ => rfl, fun _ _ _ => rfl, fun _ => rfl, rfl, rfl, Or.inr rfl⟩
  have hf : (foo_state.lp.find_fcn built_in_entry.name "" built_in_entry.package_name).1 ≠ "" := by
    decide
  have h := find_broken_file_falls_back empty_world 3 [] true built_in_entry foo_state 0 hu rfl
    rfl hr hf (fun _ => ⟨[1], by simp [scope_chain, foo_state, sample_state], fun _ _ => rfl⟩)
    (fun h => absurd rfl h)
  ⟨hu, hr, hf, h.2.1, h.2.2⟩

/-! ### Lookups of a name with a file on the path -/

theorem mark_stable_not_constructor :
    mark_stable (fun f => f.is_classdef_constructor = false) := by
  intro f g h hf
  have := congrArg octave_function.is_classdef_constructor h
  simp only [octave_function.unmarked] at this
  rw [← this]
  exact hf

theorem mark_stable_no_dispatch : mark_stable (fun f => f.dispatch_classes = []) := by
  intro f g h hf
  have := congrArg octave_function.dispatch_classes h
  simp only [octave_function.unmarked] at this
  rw [← this]
  exact hf

theorem refers_mono {v : octave_value} {G G2 : State} {P : octave_function → Prop}
    (hP : mark_stable P) (hv : v.refers G P) (hx : heap_ext G G2) : v.refers G2 P := by
  intro p hp
  obtain ⟨h1, h2⟩ := hv p hp
  exact ⟨lt_of_lt_of_le h1 hx.le, hP _ _ (hx.keep p h1).symm h2⟩

theorem refers_undefined (G : State) (P : octave_function → Prop) :
    octave_value.undefined.refers G P := by
  intro p hp
  cases hp

theorem refers_of_stale_post {w : World} {v : octave_value} {G : State}
    {r : Bool × octave_value × State} {P : octave_function → Prop} (hP : mark_stable P)
    (hl : ∀ a b c d x y g, w.load_fcn_from_file a b c d x y = some g → P g)
    (h : stale_post w v G r) (hv : v.refers G P) : r.2.1.refers r.2.2 P := by
  rcases h.value with hval | hval | ⟨hval, hlt, a, b, c, d, x, y, g, hg, hh⟩
  · rw [hval]
    exact refers_mono hP hv h.ext
  · rw [hval]
    exact refers_undefined _ _
  · rw [hval]
    intro p hp
    cases hp
    exact ⟨hlt, by rw [hh]; exact hl _ _ _ _ _ _ _ hg⟩

theorem find_user_function_entry (w : World) (e : fcn_info_rep) (G : State) :
    (find_user_function w e G).2.1
      = { e with function_on_path := (find_user_function w e G).1 } := by
  unfold find_user_function
  dsimp only
  generalize (if e.function_on_path.is_defined = true then
    out_of_date_check w e.function_on_path "" true G else (false, e.function_on_path, G)) = s
  split
  · split
    · cases hld : w.load_fcn_from_file (s.2.2.lp.find_fcn e.name "" e.package_name).1
          (s.2.2.lp.find_fcn e.name "" e.package_name).2 "" e.package_name "" false with
      | none => rw [load_fcn_none _ _ _ _ _ _ _ _ hld]
      | some g => rw [load_fcn_some _ _ _ _ _ _ _ _ g hld]
    · rfl
  · rfl

theorem find_user_function_refers (w : World) (e : fcn_info_rep) (G : State)
    {P : octave_function → Prop} (hP : mark_stable P)
    (hl : ∀ a b c d x y g, w.load_fcn_from_file a b c d x y = some g → P g)
    (hv : e.function_on_path.refers G P) :
    (find_user_function w e G).1.refers (find_user_function w e G).2.2 P := by
  have hs := stale_or_not_post w e.function_on_path "" true G e.function_on_path.is_defined
  have hr := refers_of_stale_post hP hl hs hv
  unfold find_user_function
  dsimp only
  revert hs hr
  generalize (if e.function_on_path.is_defined = true then
    out_of_date_check w e.function_on_path "" true G else (false, e.function_on_path, G)) = s
  intro hs hr
  split
  · rename_i hund
    split
    · cases hld : w.load_fcn_from_file (s.2.2.lp.find_fcn e.name "" e.package_name).1
          (s.2.2.lp.find_fcn e.name "" e.package_name).2 "" e.package_name "" false with
      | none =>
        rw [load_fcn_none _ _ _ _ _ _ _ _ hld]
        dsimp only
        rw [(is_undefined_iff _).mp hund]
        exact refers_undefined _ _
      | some g =>
        rw [load_fcn_some _ _ _ _ _ _ _ _ g hld]
        dsimp only
        intro p hp
        cases hp
        exact ⟨Nat.lt_succ_self _, by simp only [Function.update_same]; exact hl _ _ _ _ _ _ _ hld⟩
    · exact hr
  · exact hr

theorem find_user_function_defined (w : World) (e : fcn_info_rep) (G : State)
    (hfile : (G.lp.find_fcn e.name "" e.package_name).1 ≠ "")
    (hload : ∃ f, w.load_fcn_from_file (G.lp.find_fcn e.name "" e.package_name).1
      (G.lp.find_fcn e.name "" e.package_name).2 "" e.package_name "" false = some f) :
    (find_user_function w e G).1.is_defined = true := by
  have hs := stale_or_not_post w e.function_on_path "" true G e.function_on_path.is_defined
  unfold find_user_function
  dsimp only
  revert hs
  generalize (if e.function_on_path.is_defined = true then
    out_of_date_check w e.function_on_path "" true G else (false, e.function_on_path, G)) = s
  intro hs
  have hlp : s.2.2.lp = G.lp := frame_lp hs.frame
  rw [hlp]
  obtain ⟨f, hf⟩ := hload
  by_cases hund : s.2.1.is_undefined = true
  · rw [if_pos hund, if_pos hfile, load_fcn_some _ _ _ _ _ _ _ _ f hf]
    rfl
  · rw [if_neg hund]
    cases hd : s.2.1.is_defined with
    | true => rfl
    | false => exact absurd (by simp [octave_value.is_undefined, hd]) hund

theorem path_inv_entry {e0 e : fcn_info_rep} {G0 G : State} (h : path_inv e0 G0 e G) :
    e.name = e0.name ∧ e.package_name = e0.package_name
      ∧ e.class_methods = e0.class_methods ∧ e.class_constructors = e0.class_constructors
      ∧ e.cmdline_function = e0.cmdline_function ∧ e.autoload_function = e0.autoload_function
      ∧ e.built_in_function = e0.built_in_function := by
  obtain ⟨⟨v, rfl⟩, _⟩ := h
  exact ⟨rfl, rfl, rfl, rfl, rfl, rfl, rfl⟩

theorem path_inv_user (w : World) (e0 : fcn_info_rep) (G0 : State)
    (hnc : ∀ a b c d x y g, w.load_fcn_from_file a b c d x y = some g →
      g.is_classdef_constructor = false)
    (e : fcn_info_rep) (G : State) (h : path_inv e0 G0 e G) :
    path_inv e0 G0 (find_user_function w e G).2.1 (find_user_function w e G).2.2
      ∧ not_constructor (find_user_function w e G).1 (find_user_function w e G).2.2 := by
  have hp := find_user_function_post w e G
  have hr := find_user_function_refers w e G mark_stable_not_constructor hnc h.2.1
  have he := find_user_function_entry w e G
  refine ⟨⟨?_, ?_, ?_, ?_⟩, fun p hp2 => (hr p hp2).2⟩
  · obtain ⟨⟨v, hv⟩, _⟩ := h
    refine ⟨(find_user_function w e G).1, ?_⟩
    rw [he, hv]
  · rw [he]
    exact hr
  · rw [frame_lp hp.frame]
    exact h.2.2.1
  · exact heap_ext_trans h.2.2.2 hp.ext

theorem class_free_path (w : World) (e0 : fcn_info_rep) (G0 : State)
    (hcm : ∀ c, e0.class_methods c = none)
    (hsym : ∀ c, w.find_method_symbol e0.name c = none)
    (hmf : ∀ c d p, (G0.lp.find_method c e0.name d p).1 = "")
    (hbd : ∀ d, e0.built_in_function ≠ octave_value.data d)
    (hnc : ∀ a b c d x y g, w.load_fcn_from_file a b c d x y = some g →
      g.is_classdef_constructor = false) :
    class_free w G0.lp e0.name e0.package_name e0.built_in_function (path_inv e0 G0) where
  method_symbol := hsym
  method_file := hmf
  not_data := hbd
  methods := fun e G h c => by rw [(path_inv_entry h).2.2.1]; exact hcm c
  lp_eq := fun e G h => h.2.2.1
  name := fun e G h => (path_inv_entry h).1
  package_name := fun e G h => (path_inv_entry h).2.1
  built_in := fun e G h => (path_inv_entry h).2.2.2.2.2.2
  user := path_inv_user w e0 G0 hnc

theorem xfind_from_class_constructors_path (w : World) (e0 : fcn_info_rep) (G0 : State)
    (hcm : ∀ c, e0.class_methods c = none)
    (hcc : e0.class_constructors e0.name = none)
    (hsym : ∀ c, w.find_method_symbol e0.name c = none)
    (hmf : ∀ c d p, (G0.lp.find_method c e0.name d p).1 = "")
    (hbd : ∀ d, e0.built_in_function ≠ octave_value.data d)
    (hnc : ∀ a b c d x y g, w.load_fcn_from_file a b c d x y = some g →
      g.is_classdef_constructor = false)
    (hcl : e0.cmdline_function = octave_value.undefined)
    (hal : e0.autoload_function = octave_value.undefined)
    (hau : w.lookup_autoload e0.name = "")
    (hfile : (G0.lp.find_fcn e0.name "" e0.package_name).1 ≠ "")
    (hload : ∃ f, w.load_fcn_from_file (G0.lp.find_fcn e0.name "" e0.package_name).1
      (G0.lp.find_fcn e0.name "" e0.package_name).2 "" e0.package_name "" false = some f)
    (e : fcn_info_rep) (G : State) (hI : path_inv e0 G0 e G) :
    ∃ e2 G2, xfind_from_class_constructors w e G = (e2.function_on_path, e2, G2)
      ∧ e2.function_on_path.is_defined = true := by
  have hw := class_free_path w e0 G0 hcm hsym hmf hbd hnc
  obtain ⟨hn, hpk, _, hcc2, _, _, _⟩ := path_inv_entry hI
  have hc : find_class_constructor w e G
      = (octave_value.undefined, (find_user_function w e G).2.1,
          (find_user_function w e G).2.2) := by
    unfold find_class_constructor
    rw [hcc2, hn, hcc]
    dsimp only
    exact load_class_constructor_class_free hw e G hI
  have hI1 := (path_inv_user w e0 G0 hnc e G hI).1
  revert hc hI1
  generalize find_user_function w e G = u
  intro hc hI1
  obtain ⟨hn1, hpk1, _, _, hcl1, hal1, _⟩ := path_inv_entry hI1
  have ha : find_autoload w u.2.1 u.2.2 = (octave_value.undefined, u.2.1, u.2.2) :=
    find_autoload_silent w u.2.1 u.2.2 (hal1.trans hal) (by rw [hn1]; exact hau)
  have hd : (find_user_function w u.2.1 u.2.2).1.is_defined = true := by
    apply find_user_function_defined
    · rw [hI1.2.2.1, hn1, hpk1]; exact hfile
    · rw [hI1.2.2.1, hn1, hpk1]; exact hload
  have hv : (find_user_function w u.2.1 u.2.2).2.1.function_on_path
      = (find_user_function w u.2.1 u.2.2).1 := by
    rw [find_user_function_entry w u.2.1 u.2.2]
  refine ⟨(find_user_function w u.2.1 u.2.2).2.1, (find_user_function w u.2.1 u.2.2).2.2, ?_, ?_⟩
  · unfold xfind_from_class_constructors
    rw [hc]
    simp only [is_defined_undefined, Bool.false_eq_true, if_false, hcl1, hcl, ha, hd, if_true]
    rw [hv]
  · rw [hv]
    exact hd

theorem find_subfunction_returns (e : fcn_info_rep) (G : State) :
    ∀ (fuel : Nat) (scope : scope_id) (l : List scope_id),
      scope_chain G fuel scope = some l → ∃ o, find_subfunction e G fuel scope = some o := by
  intro fuel
  induction fuel with
  | zero => intro scope l h; simp [scope_chain] at h
  | succ n ih =>
    intro scope l h
    unfold scope_chain at h
    unfold find_subfunction
    by_cases hs : scope ≥ 0
    · simp only [hs, if_true] at h ⊢
      cases he : e.subfunctions scope with
      | some v => exact ⟨_, rfl⟩
      | none =>
        cases hc : G.curr_fcn scope with
        | none =>
          rw [hc] at h
          simp only [Option.map_eq_some'] at h
          obtain ⟨l2, h2, _⟩ := h
          exact ih _ l2 h2
        | some p =>
          rw [hc] at h
          simp only [Option.map_eq_some'] at h
          obtain ⟨l2, h2, _⟩ := h
          exact ih _ l2 h2
    · simp only [hs, if_false]
      exact ⟨_, rfl⟩

theorem load_class_method_parents_returns
    (find : String → fcn_info_rep → State → Option Res) (dt : String)
    (hpost : ∀ c e G r, find c e G = some r → lookup_post e G r) :
    ∀ (l : List String),
      (∀ c, c ∈ l → ∀ e G, (∀ d, e.built_in_function ≠ octave_value.data d) →
        ∃ r, find c e G = some r) →
      ∀ e G, (∀ d, e.built_in_function ≠ octave_value.data d) →
        ∃ r, load_class_method_parents find dt l e G = some r := by
  intro l
  induction l with
  | nil => intro _ e G _; exact ⟨_, rfl⟩
  | cons c rest ih =>
    intro hfind e G hd
    obtain ⟨r, hr⟩ := hfind c (List.mem_cons_self _ _) e G hd
    have hp := hpost c e G r hr
    unfold load_class_method_parents
    rw [hr]
    dsimp only
    split
    · exact ⟨_, rfl⟩
    · exact ih (fun c2 h2 => hfind c2 (List.mem_cons_of_mem _ h2)) _ _
        (fun d => by rw [hp.built_in]; exact hd d)

theorem load_class_method_returns (w : World)
    (find : String → fcn_info_rep → State → Option Res) (dt : String)
    (hpost : ∀ c e G r, find c e G = some r → lookup_post e G r)
    (hfind : ∀ c, c ∈ w.parent_classes dt → ∀ e G,
      (∀ d, e.built_in_function ≠ octave_value.data d) → ∃ r, find c e G = some r)
    (e : fcn_info_rep) (G : State) (hd : ∀ d, e.built_in_function ≠ octave_value.data d) :
    ∃ r, load_class_method w find dt e G = some r := by
  unfold load_class_method
  split
  · exact ⟨_, rfl⟩
  split
  · exact ⟨_, rfl⟩
  dsimp only
  have h1 : ∀ r1 : Res, r1.2.1.built_in_function = e.built_in_function →
      ∃ r, (if r1.1.is_undefined = true then
        match load_class_method_parents find dt (w.parent_classes dt) r1.2.1 r1.2.2 with
        | none => none
        | some r2 =>
          if r2.1.is_undefined = true then load_class_method_built_in dt r2.2.1 r2.2.2
          else some r2
      else some r1) = some r := by
    intro r1 hb1
    split
    · have hd1 : ∀ d, r1.2.1.built_in_function ≠ octave_value.data d := by
        intro d; rw [hb1]; exact hd d
      obtain ⟨r2, hr2⟩ :=
        load_class_method_parents_returns find dt hpost (w.parent_classes dt) hfind _ r1.2.2 hd1
      have hp2 := load_class_method_parents_post find hpost dt _ _ _ _ hr2
      rw [hr2]
      dsimp only
      split
      · unfold load_class_method_built_in
        split
        · exact ⟨_, rfl⟩
        · rename_i d hbv
          exact absurd (hp2.built_in.symm.trans hbv) (hd1 d)
        · split
          · exact ⟨_, rfl⟩
          · exact ⟨_, rfl⟩
      · exact ⟨_, rfl⟩
    · exact ⟨_, rfl⟩
  split
  · cases hl : w.load_fcn_from_file (G.lp.find_method dt e.name "" "").1
        (G.lp.find_method dt e.name "" "").2 dt "" "" false with
    | none =>
      rw [load_fcn_none _ _ _ _ _ _ _ _ hl]
      exact h1 _ rfl
    | some g =>
      rw [load_fcn_some _ _ _ _ _ _ _ _ g hl]
      exact h1 _ rfl
  · exact h1 _ rfl

theorem find_method_returns (w : World) (rank : String → Nat)
    (hrank : ∀ c p, p ∈ w.parent_classes c → rank p < rank c) :
    ∀ (fuel : Nat) (dt : String), rank dt < fuel → ∀ e G,
      (∀ d, e.built_in_function ≠ octave_value.data d) →
      ∃ r, find_method w fuel dt e G = some r := by
  intro fuel
  induction fuel with
  | zero => intro dt h; exact absurd h (Nat.not_lt_zero _)
  | succ n ih =>
    intro dt hlt e G hd
    have hfind : ∀ c, c ∈ w.parent_classes dt → ∀ e G,
        (∀ d, e.built_in_function ≠ octave_value.data d) →
        ∃ r, find_method w n c e G = some r := fun c hc e2 G2 hd2 =>
      ih c (lt_of_lt_of_le (hrank dt c hc) (Nat.le_of_lt_succ hlt)) e2 G2 hd2
    unfold find_method
    dsimp only
    split
    · exact load_class_method_returns w _ dt (find_method_post w n) hfind e G hd
    · rename_i fval0 hq
      generalize (if fval0.is_defined = true then out_of_date_check w fval0 dt true G
        else (false, fval0, G)) = s
      split
      · exact ⟨_, rfl⟩
      · exact load_class_method_returns w _ dt (find_method_post w n) hfind _ _ hd

theorem frame_class_precedence_table {G G2 : State} (h : G2.frame = G.frame) :
    G2.class_precedence_table = G.class_precedence_table :=
  show G2.frame.class_precedence_table = G.frame.class_precedence_table from
    congrArg State.class_precedence_table h

/-- The method `xfind` returns a result when the walk over the scope chain
(made with `local_funcs`) and the walk over the parent classes (made for a
non-empty argument list) end within the fuel and the built-in slot does not
hold a datum. -/
theorem xfind_returns (w : World) (fuel : Nat) (args : List octave_arg) (local_funcs : Bool)
    (e : fcn_info_rep) (G : State)
    (hchain : local_funcs = true → ∃ chain, scope_chain G fuel G.xcurrent_scope = some chain)
    (hdepth : args ≠ [] →
      class_depth_lt w (get_dispatch_type G.class_precedence_table args) fuel)
    (hdata : args ≠ [] → ∀ d, e.built_in_function ≠ octave_value.data d) :
    ∃ r, xfind w fuel args local_funcs e G = some r := by
  have mid : ∀ (e2 : fcn_info_rep) (G2 : State),
      e2.built_in_function = e.built_in_function →
      G2.class_precedence_table = G.class_precedence_table →
      ∃ r, xfind_from_class_methods w fuel args e2 G2 = some r := by
    intro e2 G2 hb hc
    unfold xfind_from_class_methods
    by_cases ha : args = []
    · rw [if_neg (not_not.mpr ha)]
      exact ⟨_, rfl⟩
    · rw [if_pos ha, hc]
      obtain ⟨rank, hrank, hlt⟩ := hdepth ha
      obtain ⟨m, hm⟩ := find_method_returns w rank hrank fuel _ hlt e2 G2
        (fun d => by rw [hb]; exact hdata ha d)
      rw [hm]
      dsimp only
      split
      · exact ⟨_, rfl⟩
      · exact ⟨_, rfl⟩
  unfold xfind
  cases local_funcs with
  | false =>
    simp only [Bool.false_eq_true, if_false]
    exact mid e G rfl rfl
  | true =>
    simp only [if_true]
    obtain ⟨chain, hc⟩ := hchain rfl
    obtain ⟨o, ho⟩ := find_subfunction_returns e G fuel _ chain hc
    rw [ho]
    cases o with
    | some v => exact ⟨_, rfl⟩
    | none =>
      dsimp only
      have hq := find_private_function_post w false e G
      split
      · exact ⟨_, rfl⟩
      · exact mid _ _ hq.built_in (frame_class_precedence_table hq.frame)

/-- C1 (as stated, refuted): on the entry whose subfunction map holds an
undefined value for the current scope and whose command-line function is
defined, `xfind` returns the undefined value although the precedence list,
read as "first step that yields a defined callable", gives the command-line
function. -/
theorem xfind_undefined_subfunction_entry :
    (xfind empty_world 3 [] true undefined_subfunction_entry sample_state).map (fun r => r.1)
        = some octave_value.undefined
      ∧ (xfind_precedence empty_world 3 [] true undefined_subfunction_entry sample_state).map
          (fun r => r.1) = some (octave_value.fcn 0) := by
  constructor
  · simp [xfind, find_subfunction, sample_state, undefined_subfunction_entry]
  · simp [xfind_precedence, xfind_steps, first_defined, subfunction_step, private_step,
      class_constructor_step, cmdline_step, find_subfunction, sample_state,
      undefined_subfunction_entry, find_private_function, find_class_constructor,
      load_class_constructor, find_user_function, fcn_info_rep.create, empty_load_path,
      octave_value.is_defined, octave_value.is_undefined]

/-- C1 (amended): when every value stored in the subfunction map is defined,
`xfind` returns the first defined value of the precedence list (subfunction
and private function only with `local_funcs`, class method only for a
non-empty argument list, then constructor, command-line function, autoload,
path function, package), and the built-in slot, defined or not, when there
is none; and it does return a result when the walk over the scope chain and
the walk over the parent classes end within the fuel (and the built-in slot
holds no datum, on which the class-method step raises a type error). -/
theorem xfind_eq_precedence (w : World) (fuel : Nat) (args : List octave_arg)
    (local_funcs : Bool) (e : fcn_info_rep) (G : State)
    (h : ∀ scope v, e.subfunctions scope = some v → v.is_defined = true) :
    xfind w fuel args local_funcs e G = xfind_precedence w fuel args local_funcs e G
      ∧ ((local_funcs = true → ∃ chain, scope_chain G fuel G.xcurrent_scope = some chain) →
          (args ≠ [] →
            class_depth_lt w (get_dispatch_type G.class_precedence_table args) fuel) →
          (args ≠ [] → ∀ d, e.built_in_function ≠ octave_value.data d) →
          ∃ r, xfind w fuel args local_funcs e G = some r) := by
  refine ⟨?_, xfind_returns w fuel args local_funcs e G⟩
  have tail : ∀ (e : fcn_info_rep) (G : State),
      some (xfind_from_class_constructors w e G)
        = first_defined [class_constructor_step w, cmdline_step, autoload_step w, path_step w,
            package_step w] built_in_step e G := by
    intro e G
    simp only [xfind_from_class_constructors, first_defined, class_constructor_step,
      cmdline_step, autoload_step, path_step, package_step, built_in_step]
    repeat' split
    all_goals rfl
  have mid : ∀ (e : fcn_info_rep) (G : State),
      xfind_from_class_methods w fuel args e G
        = first_defined ((if args ≠ [] then [class_method_step w fuel args] else [])
            ++ [class_constructor_step w, cmdline_step, autoload_step w, path_step w,
              package_step w]) built_in_step e G := by
    intro e G
    unfold xfind_from_class_methods
    by_cases ha : args = []
    · simp only [ha, ne_eq, not_true_eq_false, if_false, List.nil_append]
      exact tail e G
    · simp only [ha, ne_eq, not_false_eq_true, if_true, List.singleton_append]
      rw [first_defined]
      simp only [class_method_step]
      cases hm : find_method w fuel (get_dispatch_type G.class_precedence_table args) e G with
      | none => rfl
      | some m =>
        simp only
        split
        · rfl
        · exact tail _ _
  unfold xfind xfind_precedence xfind_steps
  cases local_funcs with
  | false => simpa using mid e G
  | true =>
    simp only [if_true, List.append_assoc, List.cons_append, List.nil_append]
    rw [first_defined]
    simp only [subfunction_step]
    cases hs : find_subfunction e G fuel G.xcurrent_scope with
    | none => rfl
    | some o =>
      cases o with
      | some v =>
        obtain ⟨s, hs2⟩ := find_subfunction_some e G v fuel _ hs
        simp [h s v hs2]
      | none =>
        have hu : ¬ (octave_value.undefined.is_defined = true) := by decide
        dsimp only
        rw [if_neg hu, first_defined]
        dsimp only [private_step]
        split
        · rfl
        · exact mid _ _

/-- C1 (amended), at a concrete entry: the entry with one defined subfunction
for the current scope. -/
theorem xfind_eq_precedence_witness :
    (∀ scope v, subfunction_entry.subfunctions scope = some v → v.is_defined = true)
      ∧ xfind empty_world 3 [] true subfunction_entry sample_state
          = xfind_precedence empty_world 3 [] true subfunction_entry sample_state
      ∧ ∃ r, xfind empty_world 3 [] true subfunction_entry sample_state = some r :=
  have h : ∀ scope v, subfunction_entry.subfunctions scope = some v → v.is_defined = true := by
    intro scope v hv
    simp only [subfunction_entry] at hv
    split at hv
    · cases hv; rfl
    · cases hv
  ⟨h, (xfind_eq_precedence empty_world 3 [] true subfunction_entry sample_state h).1,
    (xfind_eq_precedence empty_world 3 [] true subfunction_entry sample_state h).2
      (fun _ => ⟨[1], by simp [scope_chain, sample_state]⟩) (fun hne => absurd rfl hne)
      (fun hne => absurd rfl hne)⟩

theorem frame_curr_fcn {G G2 : State} (h : G2.frame = G.frame) : G2.curr_fcn = G.curr_fcn :=
  show G2.frame.curr_fcn = G.frame.curr_fcn from congrArg State.curr_fcn h

theorem frame_xcurrent_scope {G G2 : State} (h : G2.frame = G.frame) :
    G2.xcurrent_scope = G.xcurrent_scope :=
  show G2.frame.xcurrent_scope = G.frame.xcurrent_scope from congrArg State.xcurrent_scope h

theorem scope_chain_ext (G G2 : State) (hc : G2.curr_fcn = G.curr_fcn) (hx : heap_ext G G2)
    (ha : ∀ s p, G.curr_fcn s = some p → p < G.next_fcn) :
    ∀ (fuel : Nat) (scope : scope_id), scope_chain G2 fuel scope = scope_chain G fuel scope := by
  intro fuel
  induction fuel with
  | zero => intro scope; rfl
  | succ n ih =>
    intro scope
    unfold scope_chain
    rw [hc]
    split
    · cases hp : G.curr_fcn scope with
      | none => dsimp only; rw [ih]
      | some p =>
        dsimp only
        have hk := congrArg octave_function.parent_fcn_scope (hx.keep p (ha scope p hp))
        simp only [octave_function.unmarked] at hk
        rw [hk, ih]
    · rfl

theorem x_builtin_find_returns (w : World) (fuel : Nat) (e : fcn_info_rep) (G : State)
    (chain : List scope_id) (hchain : scope_chain G fuel G.xcurrent_scope = some chain)
    (ha : ∀ s p, G.curr_fcn s = some p → p < G.next_fcn) :
    ∃ r, x_builtin_find w fuel e G = some r := by
  unfold x_builtin_find
  split
  · exact ⟨_, rfl⟩
  dsimp only
  have hu := find_user_function_post w e G
  revert hu
  generalize find_user_function w e G = u
  intro hu
  split
  · exact ⟨_, rfl⟩
  have hau := lookup_post_trans hu (find_autoload_post w u.2.1 u.2.2)
  revert hau
  generalize find_autoload w u.2.1 u.2.2 = a
  intro hau
  split
  · exact ⟨_, rfl⟩
  split
  · exact ⟨_, rfl⟩
  have hq := lookup_post_trans hau (find_private_function_post w true a.2.1 a.2.2)
  revert hq
  generalize find_private_function w true a.2.1 a.2.2 = q
  intro hq
  split
  · exact ⟨_, rfl⟩
  have hc : scope_chain q.2.2 fuel q.2.2.xcurrent_scope = some chain := by
    rw [frame_xcurrent_scope hq.frame, scope_chain_ext G q.2.2 (frame_curr_fcn hq.frame) hq.ext ha]
    exact hchain
  obtain ⟨o, ho⟩ := find_subfunction_returns q.2.1 q.2.2 fuel _ chain hc
  rw [ho]
  cases o with
  | none => exact ⟨_, rfl⟩
  | some v => exact ⟨_, rfl⟩

/-- C7: `x_builtin_find` returns the first defined value of the list
built-in function, function on the path, autoload function, command-line
function, private function, subfunction of the scope chain, and the
undefined value when there is none; replacing the class-method and
class-constructor maps of the entry changes neither the value nor the state
it returns (the entry it returns differs in those two maps only); a
defined built-in function is returned with the entry and the state, hence
the record of loads, unchanged; and a result is returned whenever the walk
over the scope chain ends within the fuel (the functions running in the
scopes being allocated objects of the heap). -/
theorem x_builtin_find_order (w : World) (fuel : Nat) (e : fcn_info_rep) (G : State) :
    x_builtin_find w fuel e G = x_builtin_find_precedence w fuel e G
      ∧ (∀ cm cc, x_builtin_find w fuel (e.with_class_maps cm cc) G
          = (x_builtin_find w fuel e G).map
              (fun r => (r.1, r.2.1.with_class_maps cm cc, r.2.2)))
      ∧ (e.built_in_function.is_defined = true →
          x_builtin_find w fuel e G = some (e.built_in_function, e, G))
      ∧ (∀ chain, scope_chain G fuel G.xcurrent_scope = some chain →
          (∀ s p, G.curr_fcn s = some p → p < G.next_fcn) →
          ∃ r, x_builtin_find w fuel e G = some r) := by
  refine ⟨?_, ?_, ?_, fun chain hc ha => x_builtin_find_returns w fuel e G chain hc ha⟩
  · unfold x_builtin_find x_builtin_find_precedence
    simp only [first_defined, built_in_step, path_step, autoload_step, cmdline_step,
      builtin_private_step, subfunction_step, undefined_step]
    split
    · rfl
    split
    · rfl
    split
    · rfl
    split
    · rfl
    split
    · rfl
    generalize find_private_function w true _ _ = q
    cases hs : find_subfunction q.2.1 q.2.2 fuel q.2.2.xcurrent_scope with
    | none => rfl
    | some o =>
      cases o with
      | none => rfl
      | some v =>
        cases v with
        | undefined => rfl
        | data d => rfl
        | fcn p => rfl
  · intro cm cc
    unfold x_builtin_find
    have hb : (e.with_class_maps cm cc).built_in_function = e.built_in_function := rfl
    rw [hb]
    by_cases h1 : e.built_in_function.is_defined = true
    · simp only [h1, Bool.false_eq_true, if_false, if_true, Option.map_some']
    simp only [h1, Bool.false_eq_true, if_false]
    rw [find_user_function_class_maps]
    generalize find_user_function w e G = u
    dsimp only
    by_cases h2 : u.1.is_defined = true
    · simp only [h2, Bool.false_eq_true, if_false, if_true, Option.map_some']
    simp only [h2, Bool.false_eq_true, if_false]
    rw [find_autoload_class_maps]
    generalize find_autoload w u.2.1 u.2.2 = a
    dsimp only
    by_cases h3 : a.1.is_defined = true
    · simp only [h3, Bool.false_eq_true, if_false, if_true, Option.map_some']
    simp only [h3, Bool.false_eq_true, if_false]
    have hc : (a.2.1.with_class_maps cm cc).cmdline_function = a.2.1.cmdline_function := rfl
    rw [hc]
    by_cases h4 : a.2.1.cmdline_function.is_defined = true
    · simp only [h4, Bool.false_eq_true, if_false, if_true, Option.map_some']
    simp only [h4, Bool.false_eq_true, if_false]
    rw [find_private_function_class_maps]
    generalize find_private_function w true a.2.1 a.2.2 = q
    dsimp only
    by_cases h5 : q.1.is_defined = true
    · simp only [h5, Bool.false_eq_true, if_false, if_true, Option.map_some']
    simp only [h5, Bool.false_eq_true, if_false]
    rw [find_subfunction_class_maps]
    cases find_subfunction q.2.1 q.2.2 fuel q.2.2.xcurrent_scope with
    | none => rfl
    | some o =>
      cases o with
      | none => rfl
      | some v => rfl
  · intro h
    unfold x_builtin_find
    simp only [h, if_true]

/-- C7, at a concrete input: an entry for `foo` whose built-in slot holds the
function at address 0. -/
theorem x_builtin_find_order_witness :
    ({ fcn_info_rep.create "foo" with
        built_in_function := octave_value.fcn 0 }).built_in_function.is_defined = true
      ∧ x_builtin_find empty_world 0
          { fcn_info_rep.create "foo" with built_in_function := octave_value.fcn 0 } sample_state
        = some (octave_value.fcn 0,
            { fcn_info_rep.create "foo" with built_in_function := octave_value.fcn 0 },
            sample_state) :=
  ⟨rfl, (x_builtin_find_order empty_world 0
    { fcn_info_rep.create "foo" with built_in_function := octave_value.fcn 0 }
    sample_state).2.2.1 rfl⟩

/-! ### The class precedence relation -/

theorem is_superiorto_iff (t : precedence_table) (a b : String) :
    is_superiorto t a b = true ↔ ∃ s, t a = some s ∧ b ∈ s := by
  unfold is_superiorto
  cases h : t a with
  | none => simp
  | some s => simp

theorem is_superiorto_set (t : precedence_table) (sup_class inf_class a b : String)
    (h : is_superiorto t inf_class sup_class = false) :
    is_superiorto (set_class_relationship t sup_class inf_class).2 a b
      = (decide (a = sup_class ∧ b = inf_class) || is_superiorto t a b) := by
  unfold set_class_relationship
  rw [h]
  simp only [Bool.false_eq_true, if_false]
  unfold is_superiorto
  by_cases ha : a = sup_class
  · subst ha
    simp only [Function.update_same, true_and]
    cases ht : t a with
    | none => simp
    | some s => simp [Finset.mem_insert]
  · simp [Function.update_noteq ha, ha]

theorem set_class_relationship_refused (t : precedence_table) (sup_class inf_class : String)
    (h : is_superiorto t inf_class sup_class = true) :
    set_class_relationship t sup_class inf_class = (false, t) := by
  unfold set_class_relationship
  rw [h]
  rfl

theorem set_class_relationship_recorded (t : precedence_table) (sup_class inf_class : String)
    (h : is_superiorto t inf_class sup_class = false) :
    set_class_relationship t sup_class inf_class
      = (true, Function.update t sup_class (some (insert inf_class ((t sup_class).getD ∅)))) := by
  unfold set_class_relationship
  rw [h]
  rfl

/-- C16: `set_class_relationship (sup, inf)` returns false exactly when
`is_superiorto (inf, sup)` holds at the call, and then leaves the table as
it was; otherwise it returns true, the set recorded for `sup` becomes the old
one with `inf` added, `is_superiorto (sup, inf)` holds afterwards, and the
answer of `is_superiorto` changes for no other pair of class names. -/
theorem set_class_relationship_spec (t : precedence_table) (sup_class inf_class : String) :
    ((set_class_relationship t sup_class inf_class).1 = false
        ↔ is_superiorto t inf_class sup_class = true)
      ∧ (is_superiorto t inf_class sup_class = true →
          (set_class_relationship t sup_class inf_class).2 = t)
      ∧ (is_superiorto t inf_class sup_class = false →
          (set_class_relationship t sup_class inf_class).1 = true
            ∧ (set_class_relationship t sup_class inf_class).2 sup_class
                = some (insert inf_class ((t sup_class).getD ∅))
            ∧ is_superiorto (set_class_relationship t sup_class inf_class).2 sup_class inf_class
                = true
            ∧ ∀ a b, ¬ (a = sup_class ∧ b = inf_class) →
                is_superiorto (set_class_relationship t sup_class inf_class).2 a b
                  = is_superiorto t a b) := by
  refine ⟨?_, ?_, ?_⟩
  · unfold set_class_relationship
    cases h : is_superiorto t inf_class sup_class <;> simp
  · intro h
    unfold set_class_relationship
    rw [h]
    rfl
  · intro h
    refine ⟨?_, ?_, ?_, ?_⟩
    · unfold set_class_relationship
      rw [h]
      rfl
    · unfold set_class_relationship
      rw [h]
      simp
    · rw [is_superiorto_set t sup_class inf_class _ _ h]
      simp
    · intro a b hab
      rw [is_superiorto_set t sup_class inf_class _ _ h]
      simp [hab]

/-- C16, at a concrete input: marking `b` inferior to `a` on the empty
table. -/
theorem set_class_relationship_spec_witness :
    is_superiorto empty_precedence_table "b" "a" = false
      ∧ (set_class_relationship empty_precedence_table "a" "b").1 = true
      ∧ is_superiorto (set_class_relationship empty_precedence_table "a" "b").2 "a" "b" = true :=
  ⟨rfl,
    ((set_class_relationship_spec empty_precedence_table "a" "b").2.2 rfl).1,
    ((set_class_relationship_spec empty_precedence_table "a" "b").2.2 rfl).2.2.1⟩

/-- C17 (as stated, refuted): with both class names equal to `a`, the first
call on the empty table returns true, the second returns false, and
afterwards `is_superiorto (a, a)` holds, which is both directions at once. -/
theorem set_class_relationship_self :
    (set_class_relationship empty_precedence_table "a" "a").1 = true
      ∧ (set_class_relationship (set_class_relationship empty_precedence_table "a" "a").2
          "a" "a").1 = false
      ∧ is_superiorto
          (set_class_relationship (set_class_relationship empty_precedence_table "a" "a").2
            "a" "a").2 "a" "a" = true := by
  have h0 : is_superiorto empty_precedence_table "a" "a" = false := rfl
  have h1 : is_superiorto (set_class_relationship empty_precedence_table "a" "a").2 "a" "a"
      = true := by
    rw [is_superiorto_set _ _ _ _ _ h0]
    simp
  refine ⟨?_, ?_, ?_⟩
  · rw [set_class_relationship_recorded _ _ _ h0]
  · rw [set_class_relationship_refused _ _ _ h1]
  · rw [set_class_relationship_refused _ _ _ h1]
    exact h1

/-- C17 (amended): if `set_class_relationship (A, B)` returns true, then an
immediately following `set_class_relationship (B, A)` returns false and
leaves the table unchanged, afterwards `is_superiorto (A, B)` is true, and,
when `A` and `B` are distinct, `is_superiorto (B, A)` is false. -/
theorem set_class_relationship_reverse (t : precedence_table) (A B : String)
    (h : (set_class_relationship t A B).1 = true) :
    set_class_relationship (set_class_relationship t A B).2 B A
        = (false, (set_class_relationship t A B).2)
      ∧ is_superiorto (set_class_relationship t A B).2 A B = true
      ∧ (A ≠ B → is_superiorto (set_class_relationship t A B).2 B A = false) := by
  have h0 : is_superiorto t B A = false := by
    cases hc : is_superiorto t B A with
    | false => rfl
    | true =>
      rw [set_class_relationship_refused t A B hc] at h
      cases h
  have h1 : is_superiorto (set_class_relationship t A B).2 A B = true := by
    rw [is_superiorto_set t A B _ _ h0]
    simp
  refine ⟨set_class_relationship_refused _ B A h1, h1, fun hne => ?_⟩
  rw [is_superiorto_set t A B _ _ h0, h0]
  simp only [Bool.or_false, decide_eq_false_iff_not, not_and]
  intro hba
  exact absurd hba.symm hne

/-- C17 (amended), at a concrete input: the class names `a` and `b` on the
empty table. -/
theorem set_class_relationship_reverse_witness :
    (set_class_relationship empty_precedence_table "a" "b").1 = true
      ∧ set_class_relationship (set_class_relationship empty_precedence_table "a" "b").2 "b" "a"
        = (false, (set_class_relationship empty_precedence_table "a" "b").2)
      ∧ is_superiorto (set_class_relationship empty_precedence_table "a" "b").2 "b" "a" = false :=
  have h : (set_class_relationship empty_precedence_table "a" "b").1 = true := rfl
  ⟨h, (set_class_relationship_reverse empty_precedence_table "a" "b" h).1,
    (set_class_relationship_reverse empty_precedence_table "a" "b" h).2.2 (by decide)⟩

/-- C18: in every class precedence table that a sequence of calls of
`set_class_relationship` makes of the empty table, no two distinct class
names are superior to each other. -/
theorem reachable_table_no_two_cycle (t : precedence_table) (h : reachable_table t) :
    ∀ a b : String, a ≠ b → ¬ (is_superiorto t a b = true ∧ is_superiorto t b a = true) := by
  induction h with
  | empty =>
    intro a b _ hab
    exact absurd hab.1 (by simp [is_superiorto, empty_precedence_table])
  | call t sup_class inf_class _ ih =>
    intro a b hne hab
    cases hg : is_superiorto t inf_class sup_class with
    | true =>
      rw [set_class_relationship_refused t _ _ hg] at hab
      exact ih a b hne hab
    | false =>
      rw [is_superiorto_set t _ _ a b hg, is_superiorto_set t _ _ b a hg] at hab
      simp only [Bool.or_eq_true, decide_eq_true_eq] at hab
      obtain ⟨h1, h2⟩ := hab
      rcases h1 with ⟨ha, hb⟩ | h1
      · rcases h2 with ⟨hb2, ha2⟩ | h2
        · exact hne (ha.trans hb2.symm)
        · rw [ha, hb, hg] at h2
          cases h2
      · rcases h2 with ⟨hb2, ha2⟩ | h2
        · rw [hb2, ha2, hg] at h1
          cases h1
        · exact ih a b hne ⟨h1, h2⟩

/-- C18, at a concrete input: the table made of the empty one by marking `b`
inferior to `a`. -/
theorem reachable_table_no_two_cycle_witness :
    reachable_table (set_class_relationship empty_precedence_table "a" "b").2
      ∧ ¬ (is_superiorto (set_class_relationship empty_precedence_table "a" "b").2 "a" "b" = true
          ∧ is_superiorto (set_class_relationship empty_precedence_table "a" "b").2 "b" "a"
            = true) :=
  have h : reachable_table (set_class_relationship empty_precedence_table "a" "b").2 :=
    reachable_table.call _ "a" "b" reachable_table.empty
  ⟨h, reachable_table_no_two_cycle _ h "a" "b" (by decide)⟩

/-- C19: `is_superiorto (a, b)` is true exactly when the table stores a set
under `a` and `b` is a member of it; and for distinct class names `A`, `B`,
`C`, after `set_class_relationship (A, B)` and `set_class_relationship (B,
C)` on the empty table, both calls having returned true, `is_superiorto (A,
B)` and `is_superiorto (B, C)` are true and `is_superiorto (A, C)` is
false. -/
theorem is_superiorto_not_transitive (A B C : String) (hab : A ≠ B) (hbc : B ≠ C)
    (hac : A ≠ C) :
    (∀ (t : precedence_table) (a b : String),
        is_superiorto t a b = true ↔ ∃ s, t a = some s ∧ b ∈ s)
      ∧ (set_class_relationship empty_precedence_table A B).1 = true
      ∧ (set_class_relationship (set_class_relationship empty_precedence_table A B).2 B C).1
        = true
      ∧ is_superiorto
          (set_class_relationship (set_class_relationship empty_precedence_table A B).2 B C).2
          A B = true
      ∧ is_superiorto
          (set_class_relationship (set_class_relationship empty_precedence_table A B).2 B C).2
          B C = true
      ∧ is_superiorto
          (set_class_relationship (set_class_relationship empty_precedence_table A B).2 B C).2
          A C = false := by
  have h0 : is_superiorto empty_precedence_table B A = false := rfl
  have h1 : is_superiorto (set_class_relationship empty_precedence_table A B).2 C B = false := by
    rw [is_superiorto_set _ _ _ _ _ h0]
    simp [is_superiorto, empty_precedence_table, hac.symm]
  refine ⟨is_superiorto_iff, ?_, ?_, ?_, ?_, ?_⟩
  · rw [set_class_relationship_recorded _ _ _ h0]
  · rw [set_class_relationship_recorded _ _ _ h1]
  · rw [is_superiorto_set _ _ _ _ _ h1, is_superiorto_set _ _ _ _ _ h0]
    simp
  · rw [is_superiorto_set _ _ _ _ _ h1]
    simp
  · rw [is_superiorto_set _ _ _ _ _ h1, is_superiorto_set _ _ _ _ _ h0]
    simp [is_superiorto, empty_precedence_table, hab, hbc.symm]

/-- C19, at a concrete input: the class names `A`, `B` and `C`. -/
theorem is_superiorto_not_transitive_witness :
    is_superiorto
        (set_class_relationship (set_class_relationship empty_precedence_table "A" "B").2
          "B" "C").2 "A" "B" = true
      ∧ is_superiorto
        (set_class_relationship (set_class_relationship empty_precedence_table "A" "B").2
          "B" "C").2 "B" "C" = true
      ∧ is_superiorto
        (set_class_relationship (set_class_relationship empty_precedence_table "A" "B").2
          "B" "C").2 "A" "C" = false :=
  ⟨(is_superiorto_not_transitive "A" "B" "C" (by decide) (by decide) (by decide)).2.2.2.1,
    (is_superiorto_not_transitive "A" "B" "C" (by decide) (by decide) (by decide)).2.2.2.2.1,
    (is_superiorto_not_transitive "A" "B" "C" (by decide) (by decide) (by decide)).2.2.2.2.2⟩

/-- C20: for distinct class names `A`, `B`, `C`, starting from the empty
table, the calls `set_class_relationship (A, B)`, `set_class_relationship
(B, C)` and `set_class_relationship (C, A)` all return true, and afterwards
`is_superiorto (A, B)`, `is_superiorto (B, C)` and `is_superiorto (C, A)`
are all true: the table holds a cycle of length three. -/
theorem set_class_relationship_three_cycle (A B C : String) (hab : A ≠ B) (hbc : B ≠ C)
    (hac : A ≠ C) :
    (set_class_relationship empty_precedence_table A B).1 = true
      ∧ (set_class_relationship (set_class_relationship empty_precedence_table A B).2 B C).1
        = true
      ∧ (set_class_relationship
          (set_class_relationship (set_class_relationship empty_precedence_table A B).2 B C).2
          C A).1 = true
      ∧ is_superiorto
          (set_class_relationship
            (set_class_relationship (set_class_relationship empty_precedence_table A B).2
              B C).2 C A).2 A B = true
      ∧ is_superiorto
          (set_class_relationship
            (set_class_relationship (set_class_relationship empty_precedence_table A B).2
              B C).2 C A).2 B C = true
      ∧ is_superiorto
          (set_class_relationship
            (set_class_relationship (set_class_relationship empty_precedence_table A B).2
              B C).2 C A).2 C A = true := by
  have h0 : is_superiorto empty_precedence_table B A = false := rfl
  have h1 : is_superiorto (set_class_relationship empty_precedence_table A B).2 C B = false := by
    rw [is_superiorto_set _ _ _ _ _ h0]
    simp [is_superiorto, empty_precedence_table, hac.symm]
  have h2 : is_superiorto
      (set_class_relationship (set_class_relationship empty_precedence_table A B).2 B C).2
      A C = false := by
    rw [is_superiorto_set _ _ _ _ _ h1, is_superiorto_set _ _ _ _ _ h0]
    simp [is_superiorto, empty_precedence_table, hab, hbc.symm]
  refine ⟨?_, ?_, ?_, ?_, ?_, ?_⟩
  · rw [set_class_relationship_recorded _ _ _ h0]
  · rw [set_class_relationship_recorded _ _ _ h1]
  · rw [set_class_relationship_recorded _ _ _ h2]
  · rw [is_superiorto_set _ _ _ _ _ h2, is_superiorto_set _ _ _ _ _ h1,
      is_superiorto_set _ _ _ _ _ h0]
    simp
  · rw [is_superiorto_set _ _ _ _ _ h2, is_superiorto_set _ _ _ _ _ h1]
    simp
  · rw [is_superiorto_set _ _ _ _ _ h2]
    simp

/-- C20, at a concrete input: the class names `A`, `B` and `C`. -/
theorem set_class_relationship_three_cycle_witness :
    (set_class_relationship
        (set_class_relationship (set_class_relationship empty_precedence_table "A" "B").2
          "B" "C").2 "C" "A").1 = true
      ∧ is_superiorto
        (set_class_relationship
          (set_class_relationship (set_class_relationship empty_precedence_table "A" "B").2
            "B" "C").2 "C" "A").2 "C" "A" = true :=
  ⟨(set_class_relationship_three_cycle "A" "B" "C" (by decide) (by decide)
      (by decide)).2.2.1,
    (set_class_relationship_three_cycle "A" "B" "C" (by decide) (by decide)
      (by decide)).2.2.2.2.2⟩

/-! ### The staleness check, case by case -/

theorem potentially_stale_iff (G : State) (f : octave_function) (cr : Bool) :
    potentially_stale G f cr = true ↔
      (f.time_checked ≤ G.Vlast_prompt_time
        ∨ (cr = true ∧ f.is_relative = true ∧ f.time_checked < G.Vlast_chdir_time)) := by
  simp [potentially_stale, and_assoc]

theorem load_out_of_date_fcn_loads (w : World) (ff d dt pk : String) (G : State) :
    (load_out_of_date_fcn w ff d dt pk G).2.2.loads = ff :: G.loads := by
  unfold load_out_of_date_fcn
  cases h : w.load_fcn_from_file ff d dt pk "" false with
  | none => rw [load_fcn_none _ _ _ _ _ _ _ _ h]
  | some g => rw [load_fcn_some _ _ _ _ _ _ _ _ g h]

/-- C11: for a potentially stale function (not a subfunction, with a file
name) whose re-resolution finds its own file, with the time-stamp mode
"none" and the file still present: if the modification time of the file is
not newer than the parse time, `out_of_date_check` returns false, keeps the
value, stamps the object with the current time and changes nothing else, so
that no breakpoint is removed; if it is newer, the loader is invoked on the
file (with the object stamped first), its result is the result and the
value, and the breakpoints of the canonical name are removed. -/
theorem out_of_date_check_same_file (w : World) (p : Nat) (dt : String) (cr : Bool) (G : State)
    (mtime : Nat)
    (hsub : (G.heap p).is_subfunction = false) (hff : (G.heap p).fcn_file_name ≠ "")
    (hstale : (G.heap p).time_checked ≤ G.Vlast_prompt_time
      ∨ (cr = true ∧ (G.heap p).is_relative = true
          ∧ (G.heap p).time_checked < G.Vlast_chdir_time))
    (hfile : (out_of_date_lookup w G (G.heap p) dt cr).file ≠ "")
    (hsame : (out_of_date_lookup w G (G.heap p) dt cr).is_same_file = true)
    (hmode : G.Vignore_function_time_stamp = 0)
    (hstat : w.file_stat (G.heap p).fcn_file_name = some mtime) :
    (mtime ≤ (G.heap p).time_parsed →
        out_of_date_check w (octave_value.fcn p) dt cr G
          = (false, octave_value.fcn p,
              { G with heap :=
                  Function.update G.heap p { G.heap p with time_checked := G.now } }))
      ∧ ((G.heap p).time_parsed < mtime →
          out_of_date_check w (octave_value.fcn p) dt cr G
              = ((load_out_of_date_fcn w (G.heap p).fcn_file_name
                    (out_of_date_lookup w G (G.heap p) dt cr).dir_name dt
                    (out_of_date_lookup w G (G.heap p) dt cr).pack
                    { G with heap :=
                        Function.update G.heap p { G.heap p with time_checked := G.now } }).1,
                  (load_out_of_date_fcn w (G.heap p).fcn_file_name
                    (out_of_date_lookup w G (G.heap p) dt cr).dir_name dt
                    (out_of_date_lookup w G (G.heap p) dt cr).pack
                    { G with heap :=
                        Function.update G.heap p { G.heap p with time_checked := G.now } }).2.1,
                  remove_all_breakpoints_in_file
                    (load_out_of_date_fcn w (G.heap p).fcn_file_name
                      (out_of_date_lookup w G (G.heap p) dt cr).dir_name dt
                      (out_of_date_lookup w G (G.heap p) dt cr).pack
                      { G with heap :=
                          Function.update G.heap p { G.heap p with time_checked := G.now } }).2.2
                    (G.heap p).canonical_name)
            ∧ (out_of_date_check w (octave_value.fcn p) dt cr G).2.2.loads
                = (G.heap p).fcn_file_name :: G.loads
            ∧ (out_of_date_check w (octave_value.fcn p) dt cr G).2.2.breakpoints
                (G.heap p).canonical_name = []) := by
  have h1 := (potentially_stale_iff G (G.heap p) cr).mpr hstale
  have hm : ¬ (G.Vignore_function_time_stamp = 2
      ∨ (G.Vignore_function_time_stamp ≠ 0 ∧ (G.heap p).is_system_fcn_file = true)) := by
    rw [hmode]
    simp
  constructor
  · intro hle
    unfold out_of_date_check
    simp only [octave_value.function_value, hsub, Bool.false_eq_true, if_false, hff, h1, if_true,
      hfile, hsame, hm, not_false_eq_true, hstat, gt_iff_lt, Nat.not_lt.mpr hle]
  · intro hlt
    have hx : out_of_date_check w (octave_value.fcn p) dt cr G
        = ((load_out_of_date_fcn w (G.heap p).fcn_file_name
              (out_of_date_lookup w G (G.heap p) dt cr).dir_name dt
              (out_of_date_lookup w G (G.heap p) dt cr).pack
              { G with heap :=
                  Function.update G.heap p { G.heap p with time_checked := G.now } }).1,
            (load_out_of_date_fcn w (G.heap p).fcn_file_name
              (out_of_date_lookup w G (G.heap p) dt cr).dir_name dt
              (out_of_date_lookup w G (G.heap p) dt cr).pack
              { G with heap :=
                  Function.update G.heap p { G.heap p with time_checked := G.now } }).2.1,
            remove_all_breakpoints_in_file
              (load_out_of_date_fcn w (G.heap p).fcn_file_name
                (out_of_date_lookup w G (G.heap p) dt cr).dir_name dt
                (out_of_date_lookup w G (G.heap p) dt cr).pack
                { G with heap :=
                    Function.update G.heap p { G.heap p with time_checked := G.now } }).2.2
              (G.heap p).canonical_name) := by
      unfold out_of_date_check
      simp only [octave_value.function_value, hsub, Bool.false_eq_true, if_false, hff, h1,
        if_true, hfile, hsame, hm, not_false_eq_true, hstat, gt_iff_lt, hlt]
    refine ⟨hx, ?_, ?_⟩
    · rw [hx]
      exact load_out_of_date_fcn_loads _ _ _ _ _ _
    · rw [hx]
      simp [remove_all_breakpoints_in_file]

theorem out_of_date_lookup_old_state :
    out_of_date_lookup reload_world old_state (old_state.heap 0) "" true
      = { file := "/p/foo.m", dir_name := "/p", pack := "", is_same_file := true } := by
  simp [out_of_date_lookup, names_fcn_file, reload_world, empty_world, old_state, foo_state,
    sample_state, foo_load_path, old_function, stale_function, sample_function]

/-- C11, at a concrete input: the function of `old_state`, parsed at time 3,
whose file was modified at time 9. -/
theorem out_of_date_check_same_file_witness :
    (old_state.heap 0).is_subfunction = false ∧ (old_state.heap 0).fcn_file_name ≠ ""
      ∧ (old_state.heap 0).time_checked ≤ old_state.Vlast_prompt_time
      ∧ (out_of_date_lookup reload_world old_state (old_state.heap 0) "" true).file ≠ ""
      ∧ (out_of_date_lookup reload_world old_state (old_state.heap 0) "" true).is_same_file = true
      ∧ old_state.Vignore_function_time_stamp = 0
      ∧ reload_world.file_stat (old_state.heap 0).fcn_file_name = some 9
      ∧ (out_of_date_check reload_world (octave_value.fcn 0) "" true old_state).2.2.loads
          = (old_state.heap 0).fcn_file_name :: old_state.loads
      ∧ (out_of_date_check reload_world (octave_value.fcn 0) "" true old_state).2.2.breakpoints
          (old_state.heap 0).canonical_name = [] :=
  have hfile : (out_of_date_lookup reload_world old_state (old_state.heap 0) "" true).file ≠ ""
      := by rw [out_of_date_lookup_old_state]; decide
  have hsame : (out_of_date_lookup reload_world old_state (old_state.heap 0) "" true).is_same_file
      = true := by rw [out_of_date_lookup_old_state]
  have hstat : reload_world.file_stat (old_state.heap 0).fcn_file_name = some 9 := by decide
  have hlt : (old_state.heap 0).time_parsed < 9 := by decide
  have h := (out_of_date_check_same_file reload_world 0 "" true old_state 9 rfl (by decide)
    (Or.inl (by decide)) hfile hsame rfl hstat).2 hlt
  ⟨rfl, by decide, by decide, hfile, hsame, rfl, hstat, h.2.1, h.2.2⟩

/-- C12: for a potentially stale function (not a subfunction, with a file
name) whose re-resolution finds a file that is not its own, whatever the
time-stamp mode, `out_of_date_check` invokes the loader on the file found:
when the load succeeds the result is true and the value is the new function
object, when it fails the result is false and the value is undefined; in
both cases the breakpoints of the canonical name of the old function are
removed. -/
theorem out_of_date_check_other_file (w : World) (p : Nat) (dt : String) (cr : Bool)
    (G : State)
    (hsub : (G.heap p).is_subfunction = false) (hff : (G.heap p).fcn_file_name ≠ "")
    (hstale : (G.heap p).time_checked ≤ G.Vlast_prompt_time
      ∨ (cr = true ∧ (G.heap p).is_relative = true
          ∧ (G.heap p).time_checked < G.Vlast_chdir_time))
    (hfile : (out_of_date_lookup w G (G.heap p) dt cr).file ≠ "")
    (hother : (out_of_date_lookup w G (G.heap p) dt cr).is_same_file = false) :
    (out_of_date_check w (octave_value.fcn p) dt cr G).2.2.loads
        = (out_of_date_lookup w G (G.heap p) dt cr).file :: G.loads
      ∧ (out_of_date_check w (octave_value.fcn p) dt cr G).2.2.breakpoints
          (G.heap p).canonical_name = []
      ∧ (∀ g, w.load_fcn_from_file (out_of_date_lookup w G (G.heap p) dt cr).file
            (out_of_date_lookup w G (G.heap p) dt cr).dir_name dt
            (out_of_date_lookup w G (G.heap p) dt cr).pack "" false = some g →
          out_of_date_check w (octave_value.fcn p) dt cr G
            = (true, octave_value.fcn G.next_fcn,
                { G with heap := Function.update G.heap G.next_fcn g
                         next_fcn := G.next_fcn + 1
                         loads := (out_of_date_lookup w G (G.heap p) dt cr).file :: G.loads
                         breakpoints :=
                           Function.update G.breakpoints (G.heap p).canonical_name [] }))
      ∧ (w.load_fcn_from_file (out_of_date_lookup w G (G.heap p) dt cr).file
            (out_of_date_lookup w G (G.heap p) dt cr).dir_name dt
            (out_of_date_lookup w G (G.heap p) dt cr).pack "" false = none →
          out_of_date_check w (octave_value.fcn p) dt cr G
            = (false, octave_value.undefined,
                { G with loads := (out_of_date_lookup w G (G.heap p) dt cr).file :: G.loads
                         breakpoints :=
                           Function.update G.breakpoints (G.heap p).canonical_name [] })) := by
  have h1 := (potentially_stale_iff G (G.heap p) cr).mpr hstale
  have hx : out_of_date_check w (octave_value.fcn p) dt cr G
      = ((load_out_of_date_fcn w (out_of_date_lookup w G (G.heap p) dt cr).file
            (out_of_date_lookup w G (G.heap p) dt cr).dir_name dt
            (out_of_date_lookup w G (G.heap p) dt cr).pack G).1,
          (load_out_of_date_fcn w (out_of_date_lookup w G (G.heap p) dt cr).file
            (out_of_date_lookup w G (G.heap p) dt cr).dir_name dt
            (out_of_date_lookup w G (G.heap p) dt cr).pack G).2.1,
          remove_all_breakpoints_in_file
            (load_out_of_date_fcn w (out_of_date_lookup w G (G.heap p) dt cr).file
              (out_of_date_lookup w G (G.heap p) dt cr).dir_name dt
              (out_of_date_lookup w G (G.heap p) dt cr).pack G).2.2
            (G.heap p).canonical_name) := by
    unfold out_of_date_check
    simp only [octave_value.function_value, hsub, Bool.false_eq_true, if_false, hff, h1, if_true,
      hfile, hother]
  refine ⟨?_, ?_, ?_, ?_⟩
  · rw [hx]
    exact load_out_of_date_fcn_loads _ _ _ _ _ _
  · rw [hx]
    simp [remove_all_breakpoints_in_file]
  · intro g hg
    rw [hx]
    unfold load_out_of_date_fcn
    rw [load_fcn_some _ _ _ _ _ _ _ _ g hg]
    rfl
  · intro hg
    rw [hx]
    unfold load_out_of_date_fcn
    rw [load_fcn_none _ _ _ _ _ _ _ _ hg]
    rfl

theorem out_of_date_lookup_moved_state :
    out_of_date_lookup empty_world moved_state (moved_state.heap 0) "" true
      = { file := "/q/foo.m", dir_name := "/q", pack := "", is_same_file := false } := by
  simp [out_of_date_lookup, names_fcn_file, empty_world, moved_state, stale_state,
    sample_state, moved_load_path, stale_function, sample_function]

/-- C12, at a concrete input: the function of `moved_state`, backed by
`/p/foo.m`, whose name now resolves to `/q/foo.m`, with the time-stamp mode
"all" and a loader that fails. -/
theorem out_of_date_check_other_file_witness :
    (moved_state.heap 0).is_subfunction = false ∧ (moved_state.heap 0).fcn_file_name ≠ ""
      ∧ (moved_state.heap 0).time_checked ≤ moved_state.Vlast_prompt_time
      ∧ (out_of_date_lookup empty_world moved_state (moved_state.heap 0) "" true).file ≠ ""
      ∧ (out_of_date_lookup empty_world moved_state (moved_state.heap 0) "" true).is_same_file
          = false
      ∧ moved_state.Vignore_function_time_stamp = 2
      ∧ (out_of_date_check empty_world (octave_value.fcn 0) "" true moved_state).2.2.loads
          = (out_of_date_lookup empty_world moved_state (moved_state.heap 0) "" true).file
              :: moved_state.loads :=
  have hfile : (out_of_date_lookup empty_world moved_state (moved_state.heap 0) "" true).file
      ≠ "" := by rw [out_of_date_lookup_moved_state]; decide
  have hother : (out_of_date_lookup empty_world moved_state (moved_state.heap 0) ""
      true).is_same_file = false := by rw [out_of_date_lookup_moved_state]
  ⟨rfl, by decide, by decide, hfile, hother, rfl,
    (out_of_date_check_other_file empty_world 0 "" true moved_state rfl (by decide)
      (Or.inl (by decide)) hfile hother).1⟩


theorem remove_all_breakpoints_loads (G : State) (nm : String) :
    (remove_all_breakpoints_in_file G nm).loads = G.loads := rfl

/-- In the time-stamp mode "all", `out_of_date_check` hands a file to the
loader exactly in the different-file case. -/
theorem out_of_date_check_mode_all (w : World) (p : Nat) (dt : String) (cr : Bool) (G : State)
    (hmode : G.Vignore_function_time_stamp = 2) :
    (out_of_date_check w (octave_value.fcn p) dt cr G).2.2.loads
      = if (G.heap p).is_subfunction = false ∧ (G.heap p).fcn_file_name ≠ ""
            ∧ potentially_stale G (G.heap p) cr = true
            ∧ (out_of_date_lookup w G (G.heap p) dt cr).file ≠ ""
            ∧ (out_of_date_lookup w G (G.heap p) dt cr).is_same_file = false
        then (out_of_date_lookup w G (G.heap p) dt cr).file :: G.loads
        else G.loads := by
  unfold out_of_date_check
  simp only [octave_value.function_value]
  by_cases hsub : (G.heap p).is_subfunction = true
  · simp [hsub]
  · by_cases hff : (G.heap p).fcn_file_name = ""
    · simp [hsub, hff]
    · by_cases hst : potentially_stale G (G.heap p) cr = true
      · by_cases hfile : (out_of_date_lookup w G (G.heap p) dt cr).file = ""
        · simp [hsub, hff, hst, hfile, remove_all_breakpoints_loads]
        · by_cases hsame : (out_of_date_lookup w G (G.heap p) dt cr).is_same_file = true
          · simp [hsub, hff, hst, hfile, hsame, hmode]
          · simp [hsub, hff, hst, hfile, hsame, remove_all_breakpoints_loads,
              load_out_of_date_fcn_loads]
      · simp [hsub, hff, hst]

/-- C13, as stated, fails: in the time-stamp mode "all", the function of
`moved_state`, backed by `/p/foo.m`, whose name now resolves to `/q/foo.m`, is
handed to the loader by `out_of_date_check`. -/
theorem out_of_date_check_mode_all_loads :
    ¬ ∀ (w : World) (v : octave_value) (dt : String) (cr : Bool) (G : State),
        G.Vignore_function_time_stamp = 2 →
          (out_of_date_check w v dt cr G).2.2.loads = G.loads := by
  intro h
  have h1 := h empty_world (octave_value.fcn 0) "" true moved_state rfl
  rw [out_of_date_check_mode_all _ _ _ _ _ rfl, out_of_date_lookup_moved_state] at h1
  revert h1
  decide

/-- C13, amended: in the time-stamp mode "all", `out_of_date_check` invokes
the loader if and only if the value is a function that is not a subfunction,
has a file name and is potentially stale, and its re-resolution finds a file
that is not its own; it then invokes the loader once, on the file found. -/
theorem out_of_date_check_mode_all_iff (w : World) (v : octave_value) (dt : String)
    (cr : Bool) (G : State) (hmode : G.Vignore_function_time_stamp = 2) :
    ((out_of_date_check w v dt cr G).2.2.loads ≠ G.loads
        ↔ ∃ p, v = octave_value.fcn p ∧ (G.heap p).is_subfunction = false
            ∧ (G.heap p).fcn_file_name ≠ "" ∧ potentially_stale G (G.heap p) cr = true
            ∧ (out_of_date_lookup w G (G.heap p) dt cr).file ≠ ""
            ∧ (out_of_date_lookup w G (G.heap p) dt cr).is_same_file = false)
      ∧ ∀ p, v = octave_value.fcn p →
          (out_of_date_check w v dt cr G).2.2.loads ≠ G.loads →
          (out_of_date_check w v dt cr G).2.2.loads
            = (out_of_date_lookup w G (G.heap p) dt cr).file :: G.loads := by
  have hne : ∀ (a : String) (l : List String), a :: l ≠ l := fun a l h =>
    absurd (congrArg List.length h) (by simp)
  cases v with
  | undefined =>
    refine ⟨⟨fun h => absurd rfl h, fun ⟨p, hp, _⟩ => by cases hp⟩, fun p hp => by cases hp⟩
  | data n =>
    refine ⟨⟨fun h => absurd rfl h, fun ⟨p, hp, _⟩ => by cases hp⟩, fun p hp => by cases hp⟩
  | fcn q =>
    rw [out_of_date_check_mode_all w q dt cr G hmode]
    refine ⟨⟨fun h => ?_, fun ⟨p, hp, hrest⟩ => ?_⟩, fun p hp h => ?_⟩
    · by_cases hc : (G.heap q).is_subfunction = false ∧ (G.heap q).fcn_file_name ≠ ""
          ∧ potentially_stale G (G.heap q) cr = true
          ∧ (out_of_date_lookup w G (G.heap q) dt cr).file ≠ ""
          ∧ (out_of_date_lookup w G (G.heap q) dt cr).is_same_file = false
      · exact ⟨q, rfl, hc⟩
      · rw [if_neg hc] at h
        exact absurd rfl h
    · cases hp
      rw [if_pos hrest]
      exact hne _ _
    · cases hp
      by_cases hc : (G.heap q).is_subfunction = false ∧ (G.heap q).fcn_file_name ≠ ""
          ∧ potentially_stale G (G.heap q) cr = true
          ∧ (out_of_date_lookup w G (G.heap q) dt cr).file ≠ ""
          ∧ (out_of_date_lookup w G (G.heap q) dt cr).is_same_file = false
      · rw [if_pos hc]
      · rw [if_neg hc] at h
        exact absurd rfl h

/-- C13 amended, at a concrete input: in `moved_state` the mode is "all" and
the loader is invoked on `/q/foo.m`. -/
theorem out_of_date_check_mode_all_iff_witness :
    moved_state.Vignore_function_time_stamp = 2
      ∧ (out_of_date_check empty_world (octave_value.fcn 0) "" true moved_state).2.2.loads
          = ["/q/foo.m"] :=
  have hl : (out_of_date_check empty_world (octave_value.fcn 0) "" true moved_state).2.2.loads
      ≠ moved_state.loads :=
    (out_of_date_check_mode_all_iff empty_world (octave_value.fcn 0) "" true moved_state
      rfl).1.mpr
      ⟨0, rfl, rfl, by decide, by decide,
        by rw [out_of_date_lookup_moved_state]; decide,
        by rw [out_of_date_lookup_moved_state]⟩
  ⟨rfl, by
    rw [(out_of_date_check_mode_all_iff empty_world (octave_value.fcn 0) "" true moved_state
      rfl).2 0 rfl hl, out_of_date_lookup_moved_state]
    rfl⟩


/-! ### Reloading through `find` -/

theorem potentially_stale_times {G G2 : State}
    (h1 : G2.Vlast_prompt_time = G.Vlast_prompt_time)
    (h2 : G2.Vlast_chdir_time = G.Vlast_chdir_time) (f : octave_function) (cr : Bool) :
    potentially_stale G2 f cr = potentially_stale G f cr := by
  unfold potentially_stale
  rw [h1, h2]

theorem frame_times {G G2 : State} (h : G2.frame = G.frame) :
    G2.Vlast_prompt_time = G.Vlast_prompt_time ∧ G2.Vlast_chdir_time = G.Vlast_chdir_time
      ∧ G2.now = G.now :=
  ⟨show G2.frame.Vlast_prompt_time = G.frame.Vlast_prompt_time from
      congrArg State.Vlast_prompt_time h,
    show G2.frame.Vlast_chdir_time = G.frame.Vlast_chdir_time from
      congrArg State.Vlast_chdir_time h,
    show G2.frame.now = G.frame.now from congrArg State.now h⟩

theorem settled_undefined (G : State) : settled G octave_value.undefined := by
  intro p hp
  cases hp

theorem settled_data (G : State) (n : Nat) : settled G (octave_value.data n) := by
  intro p hp
  cases hp

theorem out_of_date_check_settled (w : World) (v : octave_value) (dt : String) (G : State)
    (h : settled G v) : out_of_date_check w v dt true G = (false, v, G) := by
  cases v with
  | undefined => rfl
  | data n => rfl
  | fcn p =>
    unfold out_of_date_check
    simp only [octave_value.function_value]
    rcases h p rfl with h1 | h1 | h1
    · simp [h1]
    · by_cases hs : (G.heap p).is_subfunction = true
      · simp [hs]
      · simp [hs, h1]
    · by_cases hs : (G.heap p).is_subfunction = true
      · simp [hs]
      · by_cases hf : (G.heap p).fcn_file_name = ""
        · simp [hs, hf]
        · simp [hs, hf, h1]

theorem find_user_function_settled (w : World) (e : fcn_info_rep) (G : State)
    (hd : e.function_on_path.is_defined = true) (h : settled G e.function_on_path) :
    find_user_function w e G = (e.function_on_path, e, G) := by
  unfold find_user_function
  simp only [hd, if_true]
  rw [out_of_date_check_settled w _ "" G h]
  simp [octave_value.is_undefined, hd]

theorem load_out_of_date_fcn_settled (w : World) (ff d dt pk nm : String) (G : State)
    (hl : ∀ a b c d x y g, w.load_fcn_from_file a b c d x y = some g →
      potentially_stale G g true = false) :
    settled (remove_all_breakpoints_in_file (load_out_of_date_fcn w ff d dt pk G).2.2 nm)
      (load_out_of_date_fcn w ff d dt pk G).2.1 := by
  unfold load_out_of_date_fcn
  cases h : w.load_fcn_from_file ff d dt pk "" false with
  | none =>
    rw [load_fcn_none _ _ _ _ _ _ _ _ h]
    exact settled_undefined _
  | some g =>
    rw [load_fcn_some _ _ _ _ _ _ _ _ g h]
    intro p hp
    cases hp
    refine Or.inr (Or.inr ?_)
    have hg := hl _ _ _ _ _ _ g h
    simpa [remove_all_breakpoints_in_file, potentially_stale] using hg

theorem settled_stamp (G : State) (p : Nat) (hp : G.Vlast_prompt_time < G.now)
    (hc : G.Vlast_chdir_time ≤ G.now) :
    settled { G with heap := Function.update G.heap p { G.heap p with time_checked := G.now } }
      (octave_value.fcn p) := by
  intro q hq
  cases hq
  refine Or.inr (Or.inr ?_)
  simp only [potentially_stale, Function.update_same, Bool.or_eq_false_iff,
    decide_eq_false_iff_not, not_le, Bool.and_eq_false_iff, not_lt]
  exact ⟨hp, Or.inr hc⟩


theorem out_of_date_check_settles (w : World) (v : octave_value) (dt : String) (G : State)
    (hp : G.Vlast_prompt_time < G.now) (hc : G.Vlast_chdir_time ≤ G.now)
    (hl : ∀ a b c d x y g, w.load_fcn_from_file a b c d x y = some g →
      potentially_stale G g true = false) :
    settled (out_of_date_check w v dt true G).2.2 (out_of_date_check w v dt true G).2.1 := by
  by_cases hs : settled G v
  · rw [out_of_date_check_settled w v dt G hs]
    exact hs
  · unfold settled at hs
    push_neg at hs
    obtain ⟨p, rfl, h1, h2, h3⟩ := hs
    have h1 := (Bool.not_eq_true _).mp h1
    have h3 := (Bool.not_eq_false _).mp h3
    have hl1 : ∀ a b c d x y g, w.load_fcn_from_file a b c d x y = some g →
        potentially_stale
          { G with heap := Function.update G.heap p { G.heap p with time_checked := G.now } }
          g true = false := fun a b c d x y g hg =>
      (potentially_stale_times rfl rfl g true).trans (hl a b c d x y g hg)
    unfold out_of_date_check
    simp only [octave_value.function_value]
    rw [if_neg (show ¬ (G.heap p).is_subfunction = true by simp [h1]), if_neg h2, if_pos h3]
    split
    · exact settled_undefined _
    split
    · split
      · split
        · split
          · exact load_out_of_date_fcn_settled w _ _ _ _ _ _ hl1
          · exact settled_stamp G p hp hc
        · exact settled_undefined _
      · exact settled_stamp G p hp hc
    · exact load_out_of_date_fcn_settled w _ _ _ _ _ _ hl

theorem find_user_function_settles (w : World) (e : fcn_info_rep) (G : State)
    (hp : G.Vlast_prompt_time < G.now) (hc : G.Vlast_chdir_time ≤ G.now)
    (hl : ∀ a b c d x y g, w.load_fcn_from_file a b c d x y = some g →
      potentially_stale G g true = false) :
    settled (find_user_function w e G).2.2 (find_user_function w e G).1 := by
  have hs : settled
      (if e.function_on_path.is_defined = true
        then out_of_date_check w e.function_on_path "" true G
        else (false, e.function_on_path, G)).2.2
      (if e.function_on_path.is_defined = true
        then out_of_date_check w e.function_on_path "" true G
        else (false, e.function_on_path, G)).2.1 := by
    by_cases hd : e.function_on_path.is_defined = true
    · rw [if_pos hd]
      exact out_of_date_check_settles w _ "" G hp hc hl
    · rw [if_neg hd]
      rw [Bool.not_eq_true, is_defined_false_iff] at hd
      rw [hd]
      exact settled_undefined G
  have hf := (stale_or_not_post w e.function_on_path "" true G
    e.function_on_path.is_defined).frame
  revert hs hf
  unfold find_user_function
  generalize (if e.function_on_path.is_defined = true
        then out_of_date_check w e.function_on_path "" true G
        else (false, e.function_on_path, G)) = r
  intro hs hf
  dsimp only
  split
  · split
    · cases hload : w.load_fcn_from_file (r.2.2.lp.find_fcn e.name "" e.package_name).1
          (r.2.2.lp.find_fcn e.name "" e.package_name).2 "" e.package_name "" false with
      | none =>
        rw [load_fcn_none _ _ _ _ _ _ _ _ hload]
        dsimp only
        rename_i hu _
        rw [is_undefined_iff] at hu
        rw [hu]
        exact settled_undefined _
      | some g =>
        rw [load_fcn_some _ _ _ _ _ _ _ _ g hload]
        dsimp only
        intro q hq
        cases hq
        refine Or.inr (Or.inr ?_)
        have hg := hl _ _ _ _ _ _ g hload
        have ht := frame_times hf
        rw [← potentially_stale_times ht.1 ht.2.1 g true] at hg
        simpa [potentially_stale] using hg
    · exact hs
  · exact hs

theorem find_user_function_idem (w : World) (e : fcn_info_rep) (G : State)
    (hp : G.Vlast_prompt_time < G.now) (hc : G.Vlast_chdir_time ≤ G.now)
    (hl : ∀ a b c d x y g, w.load_fcn_from_file a b c d x y = some g →
      potentially_stale G g true = false)
    (hd : (find_user_function w e G).1.is_defined = true) :
    find_user_function w (find_user_function w e G).2.1 (find_user_function w e G).2.2
      = find_user_function w e G := by
  have he := find_user_function_entry w e G
  have hs := find_user_function_settles w e G hp hc hl
  have hslot : (find_user_function w e G).2.1.function_on_path = (find_user_function w e G).1
      := by rw [he]
  rw [find_user_function_settled w _ _ (by rw [hslot]; exact hd) (by rw [hslot]; exact hs),
    hslot]


theorem path_steps_entry {w : World} {e : fcn_info_rep} {G : State} {e2 : fcn_info_rep}
    {G2 : State} (h : path_steps w e G e2 G2) :
    (∃ v, e2 = { e with function_on_path := v }) ∧ G2.frame = G.frame ∧ heap_ext G G2 := by
  rcases h with ⟨rfl, rfl⟩ | ⟨rfl, rfl⟩
  · exact ⟨⟨e2.function_on_path, rfl⟩, rfl, heap_ext_refl _⟩
  · exact ⟨⟨_, find_user_function_entry w e G⟩, (find_user_function_post w e G).frame,
      (find_user_function_post w e G).ext⟩

theorem path_steps_user {w : World} {e : fcn_info_rep} {G : State}
    (hidem : find_user_function w (find_user_function w e G).2.1 (find_user_function w e G).2.2
      = find_user_function w e G)
    {e2 : fcn_info_rep} {G2 : State} (h : path_steps w e G e2 G2) :
    find_user_function w e2 G2 = find_user_function w e G := by
  rcases h with ⟨rfl, rfl⟩ | ⟨rfl, rfl⟩
  · rfl
  · exact hidem

theorem class_free_steps (w : World) (fuel : Nat) (args : List octave_arg) (lf : Bool)
    (e : fcn_info_rep) (G : State) (h : path_only w fuel args lf e G)
    (hnot : not_constructor (find_user_function w e G).1 (find_user_function w e G).2.2)
    (hidem : find_user_function w (find_user_function w e G).2.1 (find_user_function w e G).2.2
      = find_user_function w e G) :
    class_free w G.lp e.name e.package_name e.built_in_function (path_steps w e G) where
  method_symbol := h.method_symbol
  method_file := h.method_file
  not_data := h.not_data
  methods := fun e2 G2 h2 c => by
    obtain ⟨⟨v, rfl⟩, _, _⟩ := path_steps_entry h2
    exact h.methods c
  lp_eq := fun e2 G2 h2 => frame_lp (path_steps_entry h2).2.1
  name := fun e2 G2 h2 => by
    obtain ⟨⟨v, rfl⟩, _, _⟩ := path_steps_entry h2
    rfl
  package_name := fun e2 G2 h2 => by
    obtain ⟨⟨v, rfl⟩, _, _⟩ := path_steps_entry h2
    rfl
  built_in := fun e2 G2 h2 => by
    obtain ⟨⟨v, rfl⟩, _, _⟩ := path_steps_entry h2
    rfl
  user := fun e2 G2 h2 => by
    rw [path_steps_user hidem h2]
    exact ⟨Or.inr ⟨rfl, rfl⟩, hnot⟩

theorem xfind_from_class_constructors_steps (w : World) (fuel : Nat) (args : List octave_arg)
    (lf : Bool) (e : fcn_info_rep) (G : State) (h : path_only w fuel args lf e G)
    (hnot : not_constructor (find_user_function w e G).1 (find_user_function w e G).2.2)
    (hidem : find_user_function w (find_user_function w e G).2.1 (find_user_function w e G).2.2
      = find_user_function w e G)
    (hd : (find_user_function w e G).1.is_defined = true)
    (e2 : fcn_info_rep) (G2 : State) (h2 : path_steps w e G e2 G2) :
    xfind_from_class_constructors w e2 G2 = find_user_function w e G := by
  have hw := class_free_steps w fuel args lf e G h hnot hidem
  have hc : find_class_constructor w e2 G2
      = (octave_value.undefined, (find_user_function w e G).2.1,
          (find_user_function w e G).2.2) := by
    have hcc : e2.class_constructors e2.name = none := by
      obtain ⟨⟨v, rfl⟩, _, _⟩ := path_steps_entry h2
      exact h.constructors
    unfold find_class_constructor
    rw [hcc]
    dsimp only
    rw [load_class_constructor_class_free hw e2 G2 h2, path_steps_user hidem h2]
  have he := find_user_function_entry w e G
  have hcl : (find_user_function w e G).2.1.cmdline_function = octave_value.undefined := by
    rw [he]; exact h.cmdline
  have hal : (find_user_function w e G).2.1.autoload_function = octave_value.undefined := by
    rw [he]; exact h.autoload_slot
  have hau : w.lookup_autoload (find_user_function w e G).2.1.name = "" := by
    rw [he]; exact h.autoload_file
  unfold xfind_from_class_constructors
  rw [hc]
  simp only [is_defined_undefined, Bool.false_eq_true, if_false, hcl]
  rw [find_autoload_silent w _ _ hal hau]
  simp only [is_defined_undefined, Bool.false_eq_true, if_false]
  rw [hidem, if_pos hd]


theorem find_path_steps (w : World) (fuel : Nat) (args : List octave_arg)
    (lf : Bool) (e : fcn_info_rep) (G : State) (h : path_only w fuel args lf e G)
    (hnot : not_constructor (find_user_function w e G).1 (find_user_function w e G).2.2)
    (hidem : find_user_function w (find_user_function w e G).2.1 (find_user_function w e G).2.2
      = find_user_function w e G)
    (hd : (find_user_function w e G).1.is_defined = true)
    (e2 : fcn_info_rep) (G2 : State) (h2 : path_steps w e G e2 G2) :
    find w fuel args lf e2 G2 = some (find_user_function w e G) := by
  have hw := class_free_steps w fuel args lf e G h hnot hidem
  have tail := xfind_from_class_constructors_steps w fuel args lf e G h hnot hidem hd
  obtain ⟨hent, hfr, hext⟩ := path_steps_entry h2
  have hm : xfind_from_class_methods w fuel args e2 G2 = some (find_user_function w e G) := by
    unfold xfind_from_class_methods
    by_cases ha : args = []
    · rw [if_neg (not_not.mpr ha), tail e2 G2 h2]
    · rw [if_pos ha]
      obtain ⟨rank, hrank, hlt⟩ := h.depth ha
      rw [frame_class_precedence_table hfr]
      obtain ⟨m, hm, ho⟩ := find_method_class_free hw rank hrank fuel _ hlt e2 G2 h2
      rw [hm]
      dsimp only
      rcases ho with ⟨hund, hI2⟩ | ⟨_, _, ⟨e1, cm, hI1, _⟩, p, c, hbp, hc⟩
      · rw [hund]
        simp only [is_defined_undefined, Bool.false_eq_true, if_false]
        rw [tail _ _ hI2]
      · have hr := refers_mono mark_stable_no_dispatch h.built_in
          (path_steps_entry hI1).2.2 p hbp
        rw [hr.2] at hc
        cases hc
  have hx : xfind w fuel args lf e2 G2 = some (find_user_function w e G) := by
    unfold xfind
    cases lf with
    | false =>
      simp only [Bool.false_eq_true, if_false]
      exact hm
    | true =>
      have hl := h.locals rfl
      obtain ⟨l, hl1⟩ := hl.chain
      have hsc : scope_chain G2 fuel G2.xcurrent_scope = some l := by
        rw [frame_xcurrent_scope hfr,
          scope_chain_ext G G2 (frame_curr_fcn hfr) hext hl.allocated]
        exact hl1
      have hsub : find_subfunction e2 G2 fuel G2.xcurrent_scope = some none :=
        find_subfunction_none_of_chain e2 G2 fuel _ l hsc (fun s _ => by
          obtain ⟨v, rfl⟩ := hent
          exact hl.subfunctions s)
      have hpriv : find_private_function w false e2 G2 = (octave_value.undefined, e2, G2) :=
        find_private_function_silent w false e2 G2
          (by obtain ⟨v, rfl⟩ := hent; exact hl.private_functions)
          (by rw [frame_lp hfr]; obtain ⟨v, rfl⟩ := hent; exact hl.private_file)
      simp only [if_true]
      rw [hsub]
      dsimp only
      rw [hpriv]
      simp only [is_defined_undefined, Bool.false_eq_true, if_false]
      exact hm
  unfold find
  rw [hx]
  simp [octave_value.is_undefined, hd]


theorem out_of_date_check_reload (w : World) (p : Nat) (dt : String) (cr : Bool) (G : State)
    (mtime : Nat) (g : octave_function)
    (hsub : (G.heap p).is_subfunction = false) (hff : (G.heap p).fcn_file_name ≠ "")
    (hstale : potentially_stale G (G.heap p) cr = true)
    (hfile : (out_of_date_lookup w G (G.heap p) dt cr).file ≠ "")
    (hsame : (out_of_date_lookup w G (G.heap p) dt cr).is_same_file = true)
    (hmode : G.Vignore_function_time_stamp ≠ 2
      ∧ (G.Vignore_function_time_stamp = 0 ∨ (G.heap p).is_system_fcn_file = false))
    (hstat : w.file_stat (G.heap p).fcn_file_name = some mtime)
    (hnew : (G.heap p).time_parsed < mtime)
    (hload : w.load_fcn_from_file (G.heap p).fcn_file_name
      (out_of_date_lookup w G (G.heap p) dt cr).dir_name dt
      (out_of_date_lookup w G (G.heap p) dt cr).pack "" false = some g) :
    out_of_date_check w (octave_value.fcn p) dt cr G
      = (true, octave_value.fcn G.next_fcn, G.reloaded p g) := by
  have hm : ¬ (G.Vignore_function_time_stamp = 2
      ∨ (G.Vignore_function_time_stamp ≠ 0 ∧ (G.heap p).is_system_fcn_file = true)) := by
    rintro (h | ⟨h1, h2⟩)
    · exact hmode.1 h
    · rcases hmode.2 with h3 | h3
      · exact h1 h3
      · rw [h3] at h2
        cases h2
  have hx : out_of_date_check w (octave_value.fcn p) dt cr G
      = ((load_out_of_date_fcn w (G.heap p).fcn_file_name
            (out_of_date_lookup w G (G.heap p) dt cr).dir_name dt
            (out_of_date_lookup w G (G.heap p) dt cr).pack
            { G with heap :=
                Function.update G.heap p { G.heap p with time_checked := G.now } }).1,
          (load_out_of_date_fcn w (G.heap p).fcn_file_name
            (out_of_date_lookup w G (G.heap p) dt cr).dir_name dt
            (out_of_date_lookup w G (G.heap p) dt cr).pack
            { G with heap :=
                Function.update G.heap p { G.heap p with time_checked := G.now } }).2.1,
          remove_all_breakpoints_in_file
            (load_out_of_date_fcn w (G.heap p).fcn_file_name
              (out_of_date_lookup w G (G.heap p) dt cr).dir_name dt
              (out_of_date_lookup w G (G.heap p) dt cr).pack
              { G with heap :=
                  Function.update G.heap p { G.heap p with time_checked := G.now } }).2.2
            (G.heap p).canonical_name) := by
    unfold out_of_date_check
    simp only [octave_value.function_value, hsub, Bool.false_eq_true, if_false, hff, hstale,
      if_true, hfile, hsame, hm, not_false_eq_true, hstat, gt_iff_lt, hnew]
  rw [hx]
  unfold load_out_of_date_fcn
  rw [load_fcn_some _ _ _ _ _ _ _ _ g hload]
  rfl


theorem out_of_date_lookup_ignoring_state :
    out_of_date_lookup reload_world ignoring_state (ignoring_state.heap 0) "" true
      = { file := "/p/foo.m", dir_name := "/p", pack := "", is_same_file := true } := by
  simp [out_of_date_lookup, names_fcn_file, reload_world, empty_world, ignoring_state,
    old_state, foo_state, sample_state, foo_load_path, old_function, stale_function,
    sample_function]

/-- C14, as stated, fails: in `ignoring_state` the time-stamp mode is "all";
the path slot of the entry holds the function at address 0, parsed at time 3
and last checked at time 4, the last prompt is at time 5, the name resolves to
the file of the function, and the file was modified at time 9; `find` returns
the old function and hands no file to the loader. -/
theorem find_ignores_touched_file :
    path_entry.function_on_path = octave_value.fcn 0
      ∧ (ignoring_state.heap 0).time_parsed < ignoring_state.Vlast_prompt_time
      ∧ (ignoring_state.heap 0).time_checked < ignoring_state.Vlast_prompt_time
      ∧ (out_of_date_lookup reload_world ignoring_state (ignoring_state.heap 0) ""
          true).is_same_file = true
      ∧ reload_world.file_stat (ignoring_state.heap 0).fcn_file_name = some 9
      ∧ (ignoring_state.heap 0).time_parsed < 9
      ∧ (find reload_world 3 [] false path_entry ignoring_state).map
          (fun r => (r.1, r.2.2.loads)) = some (octave_value.fcn 0, []) := by
  refine ⟨rfl, by decide, by decide, ?_, by decide, by decide, ?_⟩
  · rw [out_of_date_lookup_ignoring_state]
  · decide


theorem find_user_function_reload (w : World) (e : fcn_info_rep) (G : State) (p mtime : Nat)
    (g : octave_function) (hslot : e.function_on_path = octave_value.fcn p)
    (hsub : (G.heap p).is_subfunction = false) (hff : (G.heap p).fcn_file_name ≠ "")
    (hstale : potentially_stale G (G.heap p) true = true)
    (hfile : (out_of_date_lookup w G (G.heap p) "" true).file ≠ "")
    (hsame : (out_of_date_lookup w G (G.heap p) "" true).is_same_file = true)
    (hmode : G.Vignore_function_time_stamp ≠ 2
      ∧ (G.Vignore_function_time_stamp = 0 ∨ (G.heap p).is_system_fcn_file = false))
    (hstat : w.file_stat (G.heap p).fcn_file_name = some mtime)
    (hnew : (G.heap p).time_parsed < mtime)
    (hload : w.load_fcn_from_file (G.heap p).fcn_file_name
      (out_of_date_lookup w G (G.heap p) "" true).dir_name ""
      (out_of_date_lookup w G (G.heap p) "" true).pack "" false = some g) :
    find_user_function w e G
      = (octave_value.fcn G.next_fcn,
          { e with function_on_path := octave_value.fcn G.next_fcn }, G.reloaded p g) := by
  unfold find_user_function
  rw [hslot]
  simp only [octave_value.is_defined, if_true]
  rw [out_of_date_check_reload w p "" true G mtime g hsub hff hstale hfile hsame hmode hstat
    hnew hload]
  simp [octave_value.is_undefined, octave_value.is_defined]

theorem path_world_name {w : World} {lp : load_path} {e0 : fcn_info_rep}
    {I : fcn_info_rep → State → Prop} (hw : path_world w lp e0 I) {e : fcn_info_rep}
    {G : State} (hI : I e G) :
    e.name = e0.name ∧ e.package_name = e0.package_name
      ∧ e.class_methods = e0.class_methods ∧ e.class_constructors = e0.class_constructors
      ∧ e.cmdline_function = e0.cmdline_function ∧ e.autoload_function = e0.autoload_function
      ∧ e.built_in_function = e0.built_in_function ∧ e.full_name = e0.full_name := by
  obtain ⟨v, rfl⟩ := hw.entry e G hI
  exact ⟨rfl, rfl, rfl, rfl, rfl, rfl, rfl, rfl⟩

theorem load_class_constructor_path {w : World} {lp : load_path} {e0 : fcn_info_rep}
    {I : fcn_info_rep → State → Prop} (hw : path_world w lp e0 I)
    (e : fcn_info_rep) (G : State) (hI : I e G) :
    (load_class_constructor w e G
          = (octave_value.undefined, (find_user_function w e G).2.1,
              (find_user_function w e G).2.2)
        ∧ not_constructor (find_user_function w e G).1 (find_user_function w e G).2.2)
      ∨ constructor_found w I (load_class_constructor w e G) := by
  have hn := path_world_name hw hI
  have hf : (G.lp.find_method e.name e.name "" e.package_name).1 = "" := by
    rw [hw.lp_eq e G hI, hn.1]
    exact hw.method_file _ _ _
  cases hv : (find_user_function w e G).1 with
  | undefined =>
    left
    refine ⟨?_, fun p hp => by cases hp⟩
    unfold load_class_constructor
    simp only [hf, ne_eq, not_true_eq_false, if_false, hv, is_defined_undefined,
      Bool.false_eq_true]
  | data d =>
    left
    refine ⟨?_, fun p hp => by cases hp⟩
    unfold load_class_constructor
    simp only [hf, ne_eq, not_true_eq_false, if_false, hv, octave_value.is_defined, if_true,
      octave_value.function_value]
  | fcn p =>
    by_cases hc : ((find_user_function w e G).2.2.heap p).is_classdef_constructor = true
    · right
      refine ⟨e, G, p, hI, hv, hc, ?_, ?_⟩
      · unfold load_class_constructor
        simp only [hf, ne_eq, not_true_eq_false, if_false, hv, octave_value.is_defined, if_true,
          octave_value.function_value, hc]
      · unfold load_class_constructor
        simp only [hf, ne_eq, not_true_eq_false, if_false, hv, octave_value.is_defined, if_true,
          octave_value.function_value, hc]
    · left
      refine ⟨?_, fun q hq => ?_⟩
      · unfold load_class_constructor
        simp only [hf, ne_eq, not_true_eq_false, if_false, hv, octave_value.is_defined, if_true,
          octave_value.function_value, hc, Bool.false_eq_true]
      · cases hq
        simpa using hc

theorem load_class_method_parents_path {w : World} {I : fcn_info_rep → State → Prop}
    (find : String → fcn_info_rep → State → Option Res) (dt : String) :
    ∀ (l : List String),
      (∀ c, c ∈ l → ∀ e G, I e G → ∃ r, find c e G = some r ∧ method_outcome w I r) →
      ∀ e G, I e G →
        ∃ r, load_class_method_parents find dt l e G = some r ∧ method_outcome w I r := by
  intro l
  induction l with
  | nil =>
    intro _ e G hI
    exact ⟨_, rfl, Or.inl ⟨rfl, hI⟩⟩
  | cons c rest ih =>
    intro hfind e G hI
    obtain ⟨r, hr, ho⟩ := hfind c (List.mem_cons_self _ _) e G hI
    unfold load_class_method_parents
    rw [hr]
    dsimp only
    rcases ho with ⟨hu, hI2⟩ | ⟨e1, G1, p, hI1, hv, hc, hr1, hr2⟩
    · rw [hu]
      simp only [is_defined_undefined, Bool.false_eq_true, if_false]
      exact ih (fun c2 h2 => hfind c2 (List.mem_cons_of_mem _ h2)) _ _ hI2
    · have hd2 : r.1.is_defined = true := by rw [hr1]; rfl
      simp only [hd2, if_true]
      exact ⟨_, rfl, Or.inr ⟨e1, G1, p, hI1, hv, hc, hr1, hr2⟩⟩

theorem load_class_method_path {w : World} {lp : load_path} {e0 : fcn_info_rep}
    {I : fcn_info_rep → State → Prop} (hw : path_world w lp e0 I)
    (find : String → fcn_info_rep → State → Option Res) (dt : String)
    (hfind : ∀ c, c ∈ w.parent_classes dt → ∀ e G, I e G →
      ∃ r, find c e G = some r ∧ method_outcome w I r)
    (e : fcn_info_rep) (G : State) (hI : I e G) :
    ∃ r, load_class_method w find dt e G = some r ∧ method_outcome w I r := by
  have hn := path_world_name hw hI
  unfold load_class_method
  by_cases hfull : e.full_name = dt
  · simp only [hfull, if_true]
    rcases load_class_constructor_path hw e G hI with ⟨hl, hnc⟩ | hc
    · rw [hl]
      exact ⟨_, rfl, Or.inl ⟨rfl, hw.step e G hI hnc⟩⟩
    · exact ⟨_, rfl, Or.inr hc⟩
  · simp only [hfull, if_false]
    have hsym : w.find_method_symbol e.name dt = none := by
      rw [hn.1]; exact hw.method_symbol dt
    have hf : (G.lp.find_method dt e.name "" "").1 = "" := by
      rw [hw.lp_eq e G hI, hn.1]
      exact hw.method_file _ _ _
    simp only [hsym, hf, ne_eq, not_true_eq_false, if_false, octave_value.is_undefined,
      is_defined_undefined, Bool.not_false, if_true]
    obtain ⟨r2, hr2, ho⟩ :=
      load_class_method_parents_path (w := w) find dt (w.parent_classes dt) hfind e G hI
    rw [hr2]
    dsimp only
    rcases ho with ⟨hu, hI2⟩ | ⟨e1, G1, p, hI1, hv, hc, hr1, hr3⟩
    · rw [hu]
      simp only [is_defined_undefined, Bool.not_false, if_true]
      have hbi := (path_world_name hw hI2).2.2.2.2.2.2.1
      unfold load_class_method_built_in
      split
      · exact ⟨_, rfl, Or.inl ⟨rfl, hI2⟩⟩
      · rename_i d hbv
        exact absurd (hbi.symm.trans hbv) (hw.not_data d)
      · rename_i q hbv
        have hnd := hw.no_dispatch _ _ hI2 q (hbi.symm.trans hbv)
        simp only [hnd, List.not_mem_nil, if_false]
        exact ⟨_, rfl, Or.inl ⟨rfl, hI2⟩⟩
    · have hd2 : r2.1.is_defined = true := by rw [hr1]; rfl
      simp only [hd2, Bool.not_true, Bool.false_eq_true, if_false]
      exact ⟨_, rfl, Or.inr ⟨e1, G1, p, hI1, hv, hc, hr1, hr3⟩⟩

theorem find_method_path {w : World} {lp : load_path} {e0 : fcn_info_rep}
    {I : fcn_info_rep → State → Prop} (hw : path_world w lp e0 I)
    (rank : String → Nat) (hrank : ∀ c p, p ∈ w.parent_classes c → rank p < rank c) :
    ∀ (fuel : Nat) (dt : String), rank dt < fuel → ∀ e G, I e G →
      ∃ r, find_method w fuel dt e G = some r ∧ method_outcome w I r := by
  intro fuel
  induction fuel with
  | zero => intro dt h; exact absurd h (Nat.not_lt_zero _)
  | succ n ih =>
    intro dt hlt e G hI
    have hm : e.class_methods dt = none := by
      rw [(path_world_name hw hI).2.2.1]; exact hw.methods dt
    unfold find_method
    dsimp only
    rw [hm]
    dsimp only
    refine load_class_method_path hw _ dt ?_ e G hI
    intro c hc e2 G2 hI2
    exact ih c (lt_of_lt_of_le (hrank dt c hc) (Nat.le_of_lt_succ hlt)) e2 G2 hI2

theorem path_result_of_found {w : World} {I : fcn_info_rep → State → Prop} {r : Res}
    (h : constructor_found w I r) : path_result w I r := by
  obtain ⟨e1, G1, p, hI1, hv, _, hr1, hr2⟩ := h
  exact ⟨e1, G1, hI1, hr1.trans hv.symm, hr2, by rw [hr1]; rfl⟩

theorem xfind_from_class_constructors_pw {w : World} {lp : load_path} {e0 : fcn_info_rep}
    {I : fcn_info_rep → State → Prop} (hw : path_world w lp e0 I)
    (e : fcn_info_rep) (G : State) (hI : I e G) :
    path_result w I (xfind_from_class_constructors w e G) := by
  have hn := path_world_name hw hI
  have hcc : e.class_constructors e.name = none := by
    rw [hn.2.2.2.1, hn.1]; exact hw.constructors
  have hfc : find_class_constructor w e G = load_class_constructor w e G := by
    unfold find_class_constructor
    rw [hcc]
  rcases load_class_constructor_path hw e G hI with ⟨hl, hnc⟩ | hc
  · have hI1 := hw.step e G hI hnc
    have hn1 := path_world_name hw hI1
    have ha : find_autoload w (find_user_function w e G).2.1 (find_user_function w e G).2.2
        = (octave_value.undefined, (find_user_function w e G).2.1,
            (find_user_function w e G).2.2) :=
      find_autoload_silent w _ _ (hn1.2.2.2.2.2.1.trans hw.autoload_slot)
        (by rw [hn1.1]; exact hw.autoload_file)
    have hd := hw.defined _ _ hI1
    have hx : xfind_from_class_constructors w e G
        = find_user_function w (find_user_function w e G).2.1
            (find_user_function w e G).2.2 := by
      unfold xfind_from_class_constructors
      rw [hfc, hl]
      simp only [is_defined_undefined, Bool.false_eq_true, if_false,
        hn1.2.2.2.2.1.trans hw.cmdline, ha, hd, if_true]
    rw [hx]
    exact ⟨_, _, hI1, rfl, rfl, hd⟩
  · have hp := path_result_of_found hc
    have hd : (load_class_constructor w e G).1.is_defined = true := hp.choose_spec.choose_spec.2.2.2
    have hx : xfind_from_class_constructors w e G = load_class_constructor w e G := by
      unfold xfind_from_class_constructors
      rw [hfc]
      simp only [hd, if_true]
    rw [hx]
    exact hp

theorem xfind_from_class_methods_pw {w : World} {lp : load_path} {e0 : fcn_info_rep}
    {I : fcn_info_rep → State → Prop} (hw : path_world w lp e0 I)
    (fuel : Nat) (args : List octave_arg) (e : fcn_info_rep) (G : State) (hI : I e G)
    (hdepth : args ≠ [] →
      class_depth_lt w (get_dispatch_type G.class_precedence_table args) fuel) :
    ∃ r, xfind_from_class_methods w fuel args e G = some r ∧ path_result w I r := by
  unfold xfind_from_class_methods
  by_cases ha : args = []
  · rw [if_neg (not_not.mpr ha)]
    exact ⟨_, rfl, xfind_from_class_constructors_pw hw e G hI⟩
  · rw [if_pos ha]
    obtain ⟨rank, hrank, hlt⟩ := hdepth ha
    obtain ⟨m, hm, ho⟩ := find_method_path hw rank hrank fuel _ hlt e G hI
    rw [hm]
    dsimp only
    rcases ho with ⟨hund, hI2⟩ | hc
    · rw [hund]
      simp only [is_defined_undefined, Bool.false_eq_true, if_false]
      exact ⟨_, rfl, xfind_from_class_constructors_pw hw _ _ hI2⟩
    · have hp := path_result_of_found hc
      have hd : m.1.is_defined = true := hp.choose_spec.choose_spec.2.2.2
      simp only [hd, if_true]
      exact ⟨m, rfl, hp⟩

theorem find_pw {w : World} {lp : load_path} {e0 : fcn_info_rep}
    {I : fcn_info_rep → State → Prop} (hw : path_world w lp e0 I)
    (fuel : Nat) (args : List octave_arg) (lf : Bool) (e : fcn_info_rep) (G : State)
    (hI : I e G)
    (hdepth : args ≠ [] →
      class_depth_lt w (get_dispatch_type G.class_precedence_table args) fuel)
    (hloc : lf = true → no_local fuel e G) :
    ∃ r, find w fuel args lf e G = some r ∧ path_result w I r := by
  obtain ⟨r, hm, hp⟩ := xfind_from_class_methods_pw hw fuel args e G hI hdepth
  have hx : xfind w fuel args lf e G = some r := by
    unfold xfind
    cases lf with
    | false =>
      simp only [Bool.false_eq_true, if_false]
      exact hm
    | true =>
      have hl := hloc rfl
      obtain ⟨l, hl1⟩ := hl.chain
      have hsub : find_subfunction e G fuel G.xcurrent_scope = some none :=
        find_subfunction_none_of_chain e G fuel _ l hl1 (fun s _ => hl.subfunctions s)
      have hpriv : find_private_function w false e G = (octave_value.undefined, e, G) :=
        find_private_function_silent w false e G hl.private_functions hl.private_file
      simp only [if_true]
      rw [hsub]
      dsimp only
      rw [hpriv]
      simp only [is_defined_undefined, Bool.false_eq_true, if_false]
      exact hm
  have hd : r.1.is_defined = true := hp.choose_spec.choose_spec.2.2.2
  refine ⟨r, ?_, hp⟩
  unfold find
  rw [hx]
  simp [octave_value.is_undefined, hd]

theorem out_of_date_lookup_congr (w : World) (G G2 : State) (f h : octave_function)
    (dt : String) (cr : Bool) (hlp : G2.lp = G.lp) (hn : h.name = f.name)
    (hp : h.package_name = f.package_name) (hf : h.fcn_file_name = f.fcn_file_name) :
    out_of_date_lookup w G2 h dt cr = out_of_date_lookup w G f dt cr := by
  unfold out_of_date_lookup
  rw [hlp, hn, hp, hf]

theorem out_of_date_check_stamp (w : World) (p : Nat) (dt : String) (cr : Bool) (G : State)
    (mtime : Nat)
    (hsub : (G.heap p).is_subfunction = false) (hff : (G.heap p).fcn_file_name ≠ "")
    (hstale : potentially_stale G (G.heap p) cr = true)
    (hfile : (out_of_date_lookup w G (G.heap p) dt cr).file ≠ "")
    (hsame : (out_of_date_lookup w G (G.heap p) dt cr).is_same_file = true)
    (hstat : w.file_stat (G.heap p).fcn_file_name = some mtime)
    (hkeep : (G.Vignore_function_time_stamp = 2
        ∨ (G.Vignore_function_time_stamp ≠ 0 ∧ (G.heap p).is_system_fcn_file = true))
      ∨ mtime ≤ (G.heap p).time_parsed) :
    out_of_date_check w (octave_value.fcn p) dt cr G
      = (false, octave_value.fcn p,
          { G with heap := Function.update G.heap p { G.heap p with time_checked := G.now } })
      := by
  unfold out_of_date_check
  simp only [octave_value.function_value, hsub, Bool.false_eq_true, if_false, hff, hstale,
    if_true, hfile, hsame]
  by_cases hm : (G.Vignore_function_time_stamp = 2
        ∨ (G.Vignore_function_time_stamp ≠ 0 ∧ (G.heap p).is_system_fcn_file = true))
  · simp only [hm, not_true_eq_false, if_false]
  · have hle : mtime ≤ (G.heap p).time_parsed := by
      rcases hkeep with h | h
      · exact absurd h hm
      · exact h
    simp only [hm, not_false_eq_true, if_true, hstat, gt_iff_lt, Nat.not_lt.mpr hle, if_false]

theorem find_user_function_stamp (w : World) (e : fcn_info_rep) (G : State) (p : Nat)
    (mtime : Nat) (hslot : e.function_on_path = octave_value.fcn p)
    (hsub : (G.heap p).is_subfunction = false) (hff : (G.heap p).fcn_file_name ≠ "")
    (hstale : potentially_stale G (G.heap p) true = true)
    (hfile : (out_of_date_lookup w G (G.heap p) "" true).file ≠ "")
    (hsame : (out_of_date_lookup w G (G.heap p) "" true).is_same_file = true)
    (hstat : w.file_stat (G.heap p).fcn_file_name = some mtime)
    (hkeep : (G.Vignore_function_time_stamp = 2
        ∨ (G.Vignore_function_time_stamp ≠ 0 ∧ (G.heap p).is_system_fcn_file = true))
      ∨ mtime ≤ (G.heap p).time_parsed) :
    find_user_function w e G
      = (octave_value.fcn p, e,
          { G with heap := Function.update G.heap p { G.heap p with time_checked := G.now } })
      := by
  unfold find_user_function
  rw [hslot]
  simp only [octave_value.is_defined, if_true]
  rw [out_of_date_check_stamp w p "" true G mtime hsub hff hstale hfile hsame hstat hkeep]
  simp only [octave_value.is_undefined, octave_value.is_defined, Bool.not_true,
    Bool.false_eq_true, if_false]
  rw [← hslot]

theorem reload_inv_start (w : World) (e : fcn_info_rep) (G : State) (p mtime : Nat)
    (g : octave_function) (hslot : e.function_on_path = octave_value.fcn p)
    (hsub : (G.heap p).is_subfunction = false) (hff : (G.heap p).fcn_file_name ≠ "")
    (hstale : potentially_stale G (G.heap p) true = true)
    (hfile : (out_of_date_lookup w G (G.heap p) "" true).file ≠ "")
    (hsame : (out_of_date_lookup w G (G.heap p) "" true).is_same_file = true)
    (hmode : G.Vignore_function_time_stamp ≠ 2
      ∧ (G.Vignore_function_time_stamp = 0 ∨ (G.heap p).is_system_fcn_file = false))
    (hstat : w.file_stat (G.heap p).fcn_file_name = some mtime)
    (hnew : (G.heap p).time_parsed < mtime)
    (hload : w.load_fcn_from_file (G.heap p).fcn_file_name
      (out_of_date_lookup w G (G.heap p) "" true).dir_name ""
      (out_of_date_lookup w G (G.heap p) "" true).pack "" false = some g) :
    reload_inv e G p g (find_user_function w e G).2.1 (find_user_function w e G).2.2 := by
  have hp := find_user_function_post w e G
  have hu := find_user_function_reload w e G p mtime g hslot hsub hff hstale hfile hsame hmode
    hstat hnew hload
  refine ⟨G.next_fcn, ?_, le_refl _, ?_, Or.inl ?_, hp.frame, hp.ext, ⟨[], ?_⟩, ?_⟩
  · rw [hu]
  · rw [hu]
    exact Nat.lt_succ_self _
  · rw [hu]
    simp [State.reloaded]
  · rw [hu]
    rfl
  · rw [hu]
    simp [State.reloaded]

theorem reload_inv_step (w : World) (e : fcn_info_rep) (G : State) (p mtime : Nat)
    (g : octave_function)
    (hfile : (out_of_date_lookup w G (G.heap p) "" true).file ≠ "")
    (hsame : (out_of_date_lookup w G (G.heap p) "" true).is_same_file = true)
    (hstat : w.file_stat (G.heap p).fcn_file_name = some mtime)
    (hload : w.load_fcn_from_file (G.heap p).fcn_file_name
      (out_of_date_lookup w G (G.heap p) "" true).dir_name ""
      (out_of_date_lookup w G (G.heap p) "" true).pack "" false = some g)
    (hg : g.is_subfunction = false → g.fcn_file_name ≠ "" → potentially_stale G g true = true →
      g.name = (G.heap p).name ∧ g.package_name = (G.heap p).package_name
        ∧ g.fcn_file_name = (G.heap p).fcn_file_name)
    (e2 : fcn_info_rep) (G2 : State) (h : reload_inv e G p g e2 G2) :
    reload_inv e G p g (find_user_function w e2 G2).2.1 (find_user_function w e2 G2).2.2 := by
  obtain ⟨q, he2, hq1, hq2, hheap, hfr, hext, ⟨l, hl⟩, hbp⟩ := h
  have hslot : e2.function_on_path = octave_value.fcn q := by rw [he2]
  by_cases hs : settled G2 (octave_value.fcn q)
  · rw [find_user_function_settled w e2 G2 (by rw [hslot]; rfl) (by rw [hslot]; exact hs)]
    exact ⟨q, he2, hq1, hq2, hheap, hfr, hext, ⟨l, hl⟩, hbp⟩
  · unfold settled at hs
    push_neg at hs
    obtain ⟨q2, hq, h1, h2, h3⟩ := hs
    cases hq
    have h1 := (Bool.not_eq_true _).mp h1
    have h3 := (Bool.not_eq_false _).mp h3
    have ht := frame_times hfr
    have hsame_fields : (G2.heap q).is_subfunction = g.is_subfunction
        ∧ (G2.heap q).fcn_file_name = g.fcn_file_name ∧ (G2.heap q).name = g.name
        ∧ (G2.heap q).package_name = g.package_name
        ∧ (G2.heap q).time_parsed = g.time_parsed
        ∧ (G2.heap q).is_system_fcn_file = g.is_system_fcn_file
        ∧ ({ G2.heap q with time_checked := G.now } : octave_function)
            = { g with time_checked := G.now } := by
      rcases hheap with hh | ⟨_, _, hh⟩
      · rw [hh]
        exact ⟨rfl, rfl, rfl, rfl, rfl, rfl, rfl⟩
      · rw [hh]
        exact ⟨rfl, rfl, rfl, rfl, rfl, rfl, rfl⟩
    obtain ⟨hf1, hf2, hf3, hf4, hf5, hf6, hf7⟩ := hsame_fields
    have hgsub : g.is_subfunction = false := by rw [← hf1]; exact h1
    have hgstale : potentially_stale G g true = true := by
      rcases hheap with hh | ⟨_, hst, _⟩
      · rw [← potentially_stale_times ht.1 ht.2.1 g true, ← hh]
        exact h3
      · exact hst
    obtain ⟨hn, hpk, hfn⟩ := hg hgsub (by rw [← hf2]; exact h2) hgstale
    have hlook : out_of_date_lookup w G2 (G2.heap q) "" true
        = out_of_date_lookup w G (G.heap p) "" true :=
      out_of_date_lookup_congr w G G2 (G.heap p) (G2.heap q) "" true (frame_lp hfr)
        (hf3.trans hn) (hf4.trans hpk) (hf2.trans hfn)
    have hfile2 : (out_of_date_lookup w G2 (G2.heap q) "" true).file ≠ "" := by
      rw [hlook]; exact hfile
    have hsame2 : (out_of_date_lookup w G2 (G2.heap q) "" true).is_same_file = true := by
      rw [hlook]; exact hsame
    have hstat2 : w.file_stat (G2.heap q).fcn_file_name = some mtime := by
      rw [hf2, hfn]; exact hstat
    have hpost := find_user_function_post w e2 G2
    by_cases hkeep : (G2.Vignore_function_time_stamp = 2
        ∨ (G2.Vignore_function_time_stamp ≠ 0 ∧ (G2.heap q).is_system_fcn_file = true))
      ∨ mtime ≤ (G2.heap q).time_parsed
    · have hu := find_user_function_stamp w e2 G2 q mtime hslot h1 h2 h3 hfile2 hsame2 hstat2
        hkeep
      refine ⟨q, ?_, hq1, ?_, Or.inr ⟨hgsub, hgstale, ?_⟩, hpost.frame.trans hfr,
        heap_ext_trans hext hpost.ext, ⟨l, ?_⟩, ?_⟩
      · rw [hu]; exact he2
      · rw [hu]; exact hq2
      · rw [hu]
        simp only [Function.update_same, ht.2.2]
        exact hf7
      · rw [hu]; exact hl
      · rw [hu]; exact hbp
    · push_neg at hkeep
      have hmode2 : G2.Vignore_function_time_stamp ≠ 2
          ∧ (G2.Vignore_function_time_stamp = 0 ∨ (G2.heap q).is_system_fcn_file = false) := by
        refine ⟨hkeep.1.1, ?_⟩
        by_cases h0 : G2.Vignore_function_time_stamp = 0
        · exact Or.inl h0
        · right
          have := hkeep.1.2 h0
          simpa using this
      have hload2 : w.load_fcn_from_file (G2.heap q).fcn_file_name
          (out_of_date_lookup w G2 (G2.heap q) "" true).dir_name ""
          (out_of_date_lookup w G2 (G2.heap q) "" true).pack "" false = some g := by
        rw [hlook, hf2, hfn]; exact hload
      have hu := find_user_function_reload w e2 G2 q mtime g hslot h1 h2 h3 hfile2 hsame2
        hmode2 hstat2 hkeep.2 hload2
      refine ⟨G2.next_fcn, ?_, le_trans hq1 (le_of_lt hq2), ?_, Or.inl ?_,
        hpost.frame.trans hfr, heap_ext_trans hext hpost.ext,
        ⟨(G.heap p).fcn_file_name :: l, ?_⟩, ?_⟩
      · rw [hu, he2]
      · rw [hu]
        exact Nat.lt_succ_self _
      · rw [hu]
        simp [State.reloaded]
      · rw [hu]
        simp only [State.reloaded, hl, hf2, hfn, List.cons_append]
      · rw [hu]
        simp only [State.reloaded]
        by_cases hc : (G.heap p).canonical_name = (G2.heap q).canonical_name
        · rw [hc]
          simp
        · simp [Function.update, hc, hbp]

theorem path_world_reload (w : World) (fuel : Nat) (args : List octave_arg)
    (lf : Bool) (e : fcn_info_rep) (G : State) (p mtime : Nat) (g : octave_function)
    (hpath : path_only w fuel args lf e G)
    (hslot : e.function_on_path = octave_value.fcn p)
    (hsub : (G.heap p).is_subfunction = false) (hff : (G.heap p).fcn_file_name ≠ "")
    (hstale : potentially_stale G (G.heap p) true = true)
    (hfile : (out_of_date_lookup w G (G.heap p) "" true).file ≠ "")
    (hsame : (out_of_date_lookup w G (G.heap p) "" true).is_same_file = true)
    (hmode : G.Vignore_function_time_stamp ≠ 2
      ∧ (G.Vignore_function_time_stamp = 0 ∨ (G.heap p).is_system_fcn_file = false))
    (hstat : w.file_stat (G.heap p).fcn_file_name = some mtime)
    (hnew : (G.heap p).time_parsed < mtime)
    (hload : w.load_fcn_from_file (G.heap p).fcn_file_name
      (out_of_date_lookup w G (G.heap p) "" true).dir_name ""
      (out_of_date_lookup w G (G.heap p) "" true).pack "" false = some g)
    (hg : g.is_subfunction = false → g.fcn_file_name ≠ "" → potentially_stale G g true = true →
      g.name = (G.heap p).name ∧ g.package_name = (G.heap p).package_name
        ∧ g.fcn_file_name = (G.heap p).fcn_file_name) :
    (∀ e2 G2, ((e2 = e ∧ G2 = G) ∨ reload_inv e G p g e2 G2) →
        reload_inv e G p g (find_user_function w e2 G2).2.1 (find_user_function w e2 G2).2.2)
      ∧ path_world w G.lp e (fun e2 G2 => (e2 = e ∧ G2 = G) ∨ reload_inv e G p g e2 G2) := by
  have hK : ∀ e2 G2, ((e2 = e ∧ G2 = G) ∨ reload_inv e G p g e2 G2) →
      reload_inv e G p g (find_user_function w e2 G2).2.1 (find_user_function w e2 G2).2.2 := by
    intro e2 G2 h
    rcases h with ⟨rfl, rfl⟩ | h
    · exact reload_inv_start w e2 G2 p mtime g hslot hsub hff hstale hfile hsame hmode hstat
        hnew hload
    · exact reload_inv_step w e G p mtime g hfile hsame hstat hload hg e2 G2 h
  refine ⟨hK, ?_⟩
  refine
    { method_symbol := hpath.method_symbol
      method_file := hpath.method_file
      not_data := hpath.not_data
      methods := hpath.methods
      constructors := hpath.constructors
      cmdline := hpath.cmdline
      autoload_slot := hpath.autoload_slot
      autoload_file := hpath.autoload_file
      entry := ?_
      lp_eq := ?_
      no_dispatch := ?_
      defined := ?_
      step := fun e2 G2 h _ => Or.inr (hK e2 G2 h) }
  · intro e2 G2 h
    rcases h with ⟨rfl, rfl⟩ | ⟨q, he2, _⟩
    · exact ⟨e2.function_on_path, rfl⟩
    · exact ⟨_, he2⟩
  · intro e2 G2 h
    rcases h with ⟨rfl, rfl⟩ | ⟨q, _, _, _, _, hfr, _⟩
    · rfl
    · exact frame_lp hfr
  · intro e2 G2 h q hq
    rcases h with ⟨rfl, rfl⟩ | ⟨_, _, _, _, _, _, hext, _⟩
    · exact (hpath.built_in q hq).2
    · exact (refers_mono mark_stable_no_dispatch hpath.built_in hext q hq).2
  · intro e2 G2 h
    obtain ⟨q, he, _⟩ := hK e2 G2 h
    have hent := find_user_function_entry w e2 G2
    have hv : (find_user_function w e2 G2).1 = octave_value.fcn q := by
      have h1 := congrArg fcn_info_rep.function_on_path hent
      have h2 := congrArg fcn_info_rep.function_on_path he
      simp only at h1 h2
      rw [← h1, h2]
    rw [hv]
    rfl

/-- C14, amended: for an entry whose name has no definition that precedes the
path slot, whose path slot holds a function that is not a subfunction, has a
file name and was last checked no later than the last prompt, whose name
still resolves to the file of the function, and whose file has a modification
time strictly later than the parse time of the function: when the time-stamp
mode is not "all" and, unless it is "none", the file is not a system file,
`find` invokes the loader on the file, returns a function object allocated
during the call that is the object the loader makes of the file (as the
loader made it, or stamped with the current time by a further check), and
leaves no breakpoint under the canonical name of the old object. The object
that the loader makes, if it is itself due for a check (not a subfunction,
with a file name, last checked no later than the last prompt or, if relative,
before the last chdir), is taken to carry the name, the package and the file
name of the object it replaces. When the new object is not a classdef constructor
and is not due for a check, the result of `find` is the new object at the
first free address, with the entry and the state as the one reload leaves
them. -/
theorem find_reloads_touched_file (w : World) (fuel : Nat) (args : List octave_arg)
    (lf : Bool) (e : fcn_info_rep) (G : State) (p mtime : Nat) (g : octave_function)
    (hpath : path_only w fuel args lf e G)
    (hslot : e.function_on_path = octave_value.fcn p)
    (hsub : (G.heap p).is_subfunction = false) (hff : (G.heap p).fcn_file_name ≠ "")
    (hstale : (G.heap p).time_checked ≤ G.Vlast_prompt_time)
    (hfile : (out_of_date_lookup w G (G.heap p) "" true).file ≠ "")
    (hsame : (out_of_date_lookup w G (G.heap p) "" true).is_same_file = true)
    (hmode : G.Vignore_function_time_stamp ≠ 2
      ∧ (G.Vignore_function_time_stamp = 0 ∨ (G.heap p).is_system_fcn_file = false))
    (hstat : w.file_stat (G.heap p).fcn_file_name = some mtime)
    (hnew : (G.heap p).time_parsed < mtime)
    (hload : w.load_fcn_from_file (G.heap p).fcn_file_name
      (out_of_date_lookup w G (G.heap p) "" true).dir_name ""
      (out_of_date_lookup w G (G.heap p) "" true).pack "" false = some g)
    (hg : g.is_subfunction = false → g.fcn_file_name ≠ "" → potentially_stale G g true = true →
      g.name = (G.heap p).name ∧ g.package_name = (G.heap p).package_name
        ∧ g.fcn_file_name = (G.heap p).fcn_file_name) :
    (∃ r q, find w fuel args lf e G = some r
        ∧ r.1 = octave_value.fcn q ∧ G.next_fcn ≤ q ∧ q < r.2.2.next_fcn
        ∧ (r.2.2.heap q = g ∨ r.2.2.heap q = { g with time_checked := G.now })
        ∧ (∃ l, r.2.2.loads = l ++ (G.heap p).fcn_file_name :: G.loads)
        ∧ r.2.2.breakpoints (G.heap p).canonical_name = [])
      ∧ (g.is_classdef_constructor = false → potentially_stale G g true = false →
          find w fuel args lf e G
              = some (octave_value.fcn G.next_fcn,
                  { e with function_on_path := octave_value.fcn G.next_fcn }, G.reloaded p g)
            ∧ (G.reloaded p g).heap G.next_fcn = g
            ∧ (G.reloaded p g).loads = (G.heap p).fcn_file_name :: G.loads
            ∧ (G.reloaded p g).breakpoints (G.heap p).canonical_name = []) := by
  have hst := (potentially_stale_iff G (G.heap p) true).mpr (Or.inl hstale)
  constructor
  · obtain ⟨hK, hw⟩ := path_world_reload w fuel args lf e G p mtime g hpath hslot hsub hff hst
      hfile hsame hmode hstat hnew hload hg
    obtain ⟨r, hr, e1, G1, hI1, hv, hs, _⟩ := find_pw hw fuel args lf e G (Or.inl ⟨rfl, rfl⟩)
      hpath.depth hpath.locals
    obtain ⟨q, he, hq1, hq2, hheap, _, _, hl, hbp⟩ := hK e1 G1 hI1
    have hent := find_user_function_entry w e1 G1
    have hval : (find_user_function w e1 G1).1 = octave_value.fcn q := by
      have h1 := congrArg fcn_info_rep.function_on_path hent
      have h2 := congrArg fcn_info_rep.function_on_path he
      simp only at h1 h2
      rw [← h1, h2]
    refine ⟨r, q, hr, hv.trans hval, hq1, by rw [hs]; exact hq2, ?_, by rw [hs]; exact hl,
      by rw [hs]; exact hbp⟩
    rw [hs]
    rcases hheap with h | ⟨_, _, h⟩
    · exact Or.inl h
    · exact Or.inr h
  · intro hctor hfresh
    have hu := find_user_function_reload w e G p mtime g hslot hsub hff hst hfile hsame hmode
      hstat hnew hload
    have hheap : (G.reloaded p g).heap G.next_fcn = g := by
      simp [State.reloaded]
    have hnot : not_constructor (find_user_function w e G).1 (find_user_function w e G).2.2 := by
      rw [hu]
      intro q hq
      cases hq
      show ((G.reloaded p g).heap G.next_fcn).is_classdef_constructor = false
      rw [hheap]
      exact hctor
    have hd : (find_user_function w e G).1.is_defined = true := by
      rw [hu]
      rfl
    have hidem : find_user_function w (find_user_function w e G).2.1
        (find_user_function w e G).2.2 = find_user_function w e G := by
      rw [hu]
      refine find_user_function_settled w _ _ rfl ?_
      intro q hq
      cases hq
      refine Or.inr (Or.inr ?_)
      rw [hheap]
      exact (potentially_stale_times rfl rfl g true).trans hfresh
    refine ⟨?_, hheap, rfl, ?_⟩
    · rw [find_path_steps w fuel args lf e G hpath hnot hidem hd e G (Or.inl ⟨rfl, rfl⟩), hu]
    · simp [State.reloaded]

theorem path_only_path_entry (w : World) (G : State) (hw : w = reload_world ∨ w = tick_world)
    (hG : G.frame = old_state.frame ∨ G.frame = tick_state.frame) :
    path_only w 3 [] true path_entry G := by
  have hlp : G.lp = foo_load_path := by
    rcases hG with h | h
    · exact frame_lp h
    · exact frame_lp h
  have hcf : G.curr_fcn = fun _ => none := by
    rcases hG with h | h
    · exact frame_curr_fcn h
    · exact frame_curr_fcn h
  have hxs : G.xcurrent_scope = 1 := by
    rcases hG with h | h
    · exact frame_xcurrent_scope h
    · exact frame_xcurrent_scope h
  have hsym : ∀ c, w.find_method_symbol path_entry.name c = none := by
    rcases hw with rfl | rfl <;> exact fun _ => rfl
  have hau : w.lookup_autoload path_entry.name = "" := by
    rcases hw with rfl | rfl <;> rfl
  refine
    { methods := fun _ => rfl
      constructors := rfl
      method_symbol := hsym
      method_file := fun _ _ _ => by rw [hlp]; rfl
      not_data := fun d h => by cases h
      built_in := refers_undefined _ _
      cmdline := rfl
      autoload_slot := rfl
      autoload_file := hau
      depth := fun h => absurd rfl h
      locals := fun _ =>
        { subfunctions := fun _ => rfl
          chain := ⟨[1], by simp [scope_chain, hxs, hcf]⟩
          allocated := fun s q h => by rw [hcf] at h; cases h
          private_functions := fun _ => rfl
          private_file := fun _ => by rw [hlp]; rfl } }


theorem path_only_path_entry_old (w : World)
    (hsym : ∀ c, w.find_method_symbol path_entry.name c = none)
    (hau : w.lookup_autoload path_entry.name = "") :
    path_only w 3 [] true path_entry old_state :=
  { methods := fun _ => rfl
    constructors := rfl
    method_symbol := hsym
    method_file := fun _ _ _ => rfl
    not_data := fun d h => by cases h
    built_in := refers_undefined _ _
    cmdline := rfl
    autoload_slot := rfl
    autoload_file := hau
    depth := fun h => absurd rfl h
    locals := fun _ =>
      { subfunctions := fun _ => rfl
        chain := ⟨[1], by decide⟩
        allocated := fun s q h => by cases h
        private_functions := fun _ => rfl
        private_file := fun _ => rfl } }

theorem out_of_date_lookup_old_state_ctor :
    out_of_date_lookup ctor_reload_world old_state (old_state.heap 0) "" true
      = { file := "/p/foo.m", dir_name := "/p", pack := "", is_same_file := true } := by
  simp [out_of_date_lookup, names_fcn_file, ctor_reload_world, reload_world, empty_world,
    old_state, foo_state, sample_state, foo_load_path, old_function, stale_function,
    sample_function]

theorem out_of_date_lookup_old_state_tick :
    out_of_date_lookup tick_world old_state (old_state.heap 0) "" true
      = { file := "/p/foo.m", dir_name := "/p", pack := "", is_same_file := true } := by
  simp [out_of_date_lookup, names_fcn_file, tick_world, empty_world,
    old_state, foo_state, sample_state, foo_load_path, old_function, stale_function,
    sample_function]

/-- C14 amended, at concrete inputs: in `old_state` the time-stamp mode is
"none"; the function at address 0, parsed at time 3 and last checked at time
4, is reloaded from `/p/foo.m`, modified at time 9: as `fresh_function` by
`reload_world`, as a classdef constructor by `ctor_reload_world`, and as
`tick_function`, which is stamped with the time 5 of the last prompt and so
is itself due for a check, by `tick_world`. -/
theorem find_reloads_touched_file_witness :
    path_only reload_world 3 [] true path_entry old_state
      ∧ path_entry.function_on_path = octave_value.fcn 0
      ∧ (old_state.heap 0).time_checked ≤ old_state.Vlast_prompt_time
      ∧ old_state.Vignore_function_time_stamp = 0
      ∧ reload_world.file_stat (old_state.heap 0).fcn_file_name = some 9
      ∧ (old_state.heap 0).time_parsed < 9
      ∧ find reload_world 3 [] true path_entry old_state
          = some (octave_value.fcn 1, { path_entry with function_on_path := octave_value.fcn 1 },
              old_state.reloaded 0 fresh_function)
      ∧ (old_state.reloaded 0 fresh_function).loads = ["/p/foo.m"]
      ∧ (∃ r q, find ctor_reload_world 3 [] true path_entry old_state = some r
          ∧ r.1 = octave_value.fcn q ∧ old_state.next_fcn ≤ q ∧ q < r.2.2.next_fcn
          ∧ (r.2.2.heap q = { fresh_function with is_classdef_constructor := true }
              ∨ r.2.2.heap q
                = { ({ fresh_function with is_classdef_constructor := true } : octave_function)
                    with time_checked := old_state.now })
          ∧ (∃ l, r.2.2.loads = l ++ (old_state.heap 0).fcn_file_name :: old_state.loads)
          ∧ r.2.2.breakpoints (old_state.heap 0).canonical_name = [])
      ∧ (∃ r q, find tick_world 3 [] true path_entry old_state = some r
          ∧ r.1 = octave_value.fcn q ∧ old_state.next_fcn ≤ q ∧ q < r.2.2.next_fcn
          ∧ (r.2.2.heap q = tick_function
              ∨ r.2.2.heap q = { tick_function with time_checked := old_state.now })
          ∧ (∃ l, r.2.2.loads = l ++ (old_state.heap 0).fcn_file_name :: old_state.loads)
          ∧ r.2.2.breakpoints (old_state.heap 0).canonical_name = []) :=
  have hpath : path_only reload_world 3 [] true path_entry old_state :=
    path_only_path_entry reload_world old_state (Or.inl rfl) (Or.inl rfl)
  have hfile : (out_of_date_lookup reload_world old_state (old_state.heap 0) "" true).file ≠ ""
      := by rw [out_of_date_lookup_old_state]; decide
  have hsame : (out_of_date_lookup reload_world old_state (old_state.heap 0) "" true).is_same_file
      = true := by rw [out_of_date_lookup_old_state]
  have hstat : reload_world.file_stat (old_state.heap 0).fcn_file_name = some 9 := by decide
  have h := find_reloads_touched_file reload_world 3 [] true path_entry old_state 0 9
    fresh_function hpath rfl rfl (by decide) (by decide) hfile hsame ⟨by decide, Or.inl rfl⟩
    hstat (by decide) rfl (fun _ _ _ => ⟨rfl, rfl, rfl⟩)
  have hc := find_reloads_touched_file ctor_reload_world 3 [] true path_entry old_state 0 9
    { fresh_function with is_classdef_constructor := true }
    (path_only_path_entry_old ctor_reload_world (fun _ => rfl) rfl) rfl rfl (by decide)
    (by decide) (by rw [out_of_date_lookup_old_state_ctor]; decide)
    (by rw [out_of_date_lookup_old_state_ctor]) ⟨by decide, Or.inl rfl⟩ (by decide) (by decide)
    (by rw [out_of_date_lookup_old_state_ctor]; rfl) (fun _ _ _ => ⟨rfl, rfl, rfl⟩)
  have ht := find_reloads_touched_file tick_world 3 [] true path_entry old_state 0 9
    tick_function (path_only_path_entry_old tick_world (fun _ => rfl) rfl) rfl rfl (by decide)
    (by decide) (by rw [out_of_date_lookup_old_state_tick]; decide)
    (by rw [out_of_date_lookup_old_state_tick]) ⟨by decide, Or.inl rfl⟩ (by decide) (by decide)
    (by rw [out_of_date_lookup_old_state_tick]; rfl) (fun _ _ _ => ⟨rfl, rfl, rfl⟩)
  ⟨hpath, rfl, by decide, rfl, hstat, by decide, (h.2 rfl (by decide)).1,
    (h.2 rfl (by decide)).2.2.1, hc.1, ht.1⟩

theorem load_out_of_date_fcn_alloc (w : World) (ff d dt pk : String) (G : State) :
    ((load_out_of_date_fcn w ff d dt pk G).2.1 = octave_value.undefined
        ∧ (load_out_of_date_fcn w ff d dt pk G).2.2.next_fcn = G.next_fcn)
      ∨ ((load_out_of_date_fcn w ff d dt pk G).2.1.is_defined = true
        ∧ (load_out_of_date_fcn w ff d dt pk G).2.2.next_fcn = G.next_fcn + 1) := by
  unfold load_out_of_date_fcn
  cases h : w.load_fcn_from_file ff d dt pk "" false with
  | none =>
    rw [load_fcn_none _ _ _ _ _ _ _ _ h]
    exact Or.inl ⟨rfl, rfl⟩
  | some g =>
    rw [load_fcn_some _ _ _ _ _ _ _ _ g h]
    exact Or.inr ⟨rfl, rfl⟩

theorem out_of_date_check_alloc (w : World) (v : octave_value) (dt : String) (cr : Bool)
    (G : State) :
    (out_of_date_check w v dt cr G).2.2.next_fcn = G.next_fcn
      ∨ ((out_of_date_check w v dt cr G).2.1.is_defined = true
        ∧ (out_of_date_check w v dt cr G).2.2.next_fcn = G.next_fcn + 1) := by
  have hload : ∀ (ff d pk nm : String) (G1 : State), G1.next_fcn = G.next_fcn →
      (remove_all_breakpoints_in_file (load_out_of_date_fcn w ff d dt pk G1).2.2 nm).next_fcn
          = G.next_fcn
        ∨ ((load_out_of_date_fcn w ff d dt pk G1).2.1.is_defined = true
          ∧ (remove_all_breakpoints_in_file (load_out_of_date_fcn w ff d dt pk G1).2.2
              nm).next_fcn = G.next_fcn + 1) := by
    intro ff d pk nm G1 h1
    rcases load_out_of_date_fcn_alloc w ff d dt pk G1 with ⟨_, h⟩ | ⟨h2, h⟩
    · exact Or.inl (h.trans h1)
    · exact Or.inr ⟨h2, h.trans (by rw [h1])⟩
  unfold out_of_date_check
  split
  · exact Or.inl rfl
  · dsimp only
    split
    · exact Or.inl rfl
    split
    · exact Or.inl rfl
    split
    · split
      · exact Or.inl rfl
      split
      · split
        · split
          · split
            · exact hload _ _ _ _ _ rfl
            · exact Or.inl rfl
          · exact Or.inl rfl
        · exact Or.inl rfl
      · exact hload _ _ _ _ _ rfl
    · exact Or.inl rfl

theorem find_user_function_alloc (w : World) (e : fcn_info_rep) (G : State) :
    (find_user_function w e G).2.2.next_fcn ≤ G.next_fcn + 1 := by
  have hr : (if e.function_on_path.is_defined = true
        then out_of_date_check w e.function_on_path "" true G
        else (false, e.function_on_path, G)).2.2.next_fcn = G.next_fcn
      ∨ ((if e.function_on_path.is_defined = true
          then out_of_date_check w e.function_on_path "" true G
          else (false, e.function_on_path, G)).2.1.is_defined = true
        ∧ (if e.function_on_path.is_defined = true
          then out_of_date_check w e.function_on_path "" true G
          else (false, e.function_on_path, G)).2.2.next_fcn = G.next_fcn + 1) := by
    by_cases hd : e.function_on_path.is_defined = true
    · rw [if_pos hd]
      exact out_of_date_check_alloc w _ "" true G
    · rw [if_neg hd]
      exact Or.inl rfl
  revert hr
  unfold find_user_function
  generalize (if e.function_on_path.is_defined = true
        then out_of_date_check w e.function_on_path "" true G
        else (false, e.function_on_path, G)) = r
  intro hr
  dsimp only
  split
  · rename_i hu
    have hn : r.2.2.next_fcn = G.next_fcn := by
      rcases hr with h | ⟨h1, _⟩
      · exact h
      · rw [is_undefined_iff] at hu
        rw [hu] at h1
        cases h1
    split
    · cases hload : w.load_fcn_from_file (r.2.2.lp.find_fcn e.name "" e.package_name).1
          (r.2.2.lp.find_fcn e.name "" e.package_name).2 "" e.package_name "" false with
      | none =>
        rw [load_fcn_none _ _ _ _ _ _ _ _ hload]
        dsimp only
        rw [hn]
        exact Nat.le_succ _
      | some g =>
        rw [load_fcn_some _ _ _ _ _ _ _ _ g hload]
        dsimp only
        rw [hn]
    · dsimp only
      rw [hn]
      exact Nat.le_succ _
  · dsimp only
    rcases hr with h | ⟨_, h⟩
    · rw [h]
      exact Nat.le_succ _
    · rw [h]


theorem load_class_constructor_found (w : World) (e : fcn_info_rep) (G : State) (q : Nat)
    (hmf : (G.lp.find_method e.name e.name "" e.package_name).1 = "")
    (hu : (find_user_function w e G).1 = octave_value.fcn q)
    (hctor : ((find_user_function w e G).2.2.heap q).is_classdef_constructor = true) :
    load_class_constructor w e G
      = (octave_value.fcn q,
          { e with
            class_constructors :=
              Function.update e.class_constructors e.name (some (octave_value.fcn q))
            class_methods := Function.update e.class_methods e.name (some (octave_value.fcn q)) },
          (find_user_function w e G).2.2) := by
  have he := find_user_function_entry w e G
  unfold load_class_constructor
  simp only [hmf, ne_eq, not_true_eq_false, if_false, hu, octave_value.is_defined, if_true,
    octave_value.function_value, hctor]
  rw [he, hu]

theorem find_constructor_twice (w : World) (fuel : Nat) (lf : Bool) (e : fcn_info_rep)
    (G : State) (q : Nat) (hpath : path_only w fuel [] lf e G)
    (hu : (find_user_function w e G).1 = octave_value.fcn q)
    (hctor : ((find_user_function w e G).2.2.heap q).is_classdef_constructor = true)
    (hs : settled (find_user_function w e G).2.2 (octave_value.fcn q)) :
    ∃ r1, find w fuel [] lf e G = some r1
      ∧ r1.1 = octave_value.fcn q ∧ r1.2.2 = (find_user_function w e G).2.2
      ∧ find w fuel [] lf r1.2.1 r1.2.2 = some r1 := by
  have hl := load_class_constructor_found w e G q (hpath.method_file _ _ _) hu hctor
  have hpost := find_user_function_post w e G
  have hxc : xfind_from_class_constructors w e G = load_class_constructor w e G := by
    unfold xfind_from_class_constructors find_class_constructor
    simp only [hpath.constructors, hl, octave_value.is_defined, if_true]
  have hxm : ∀ e2 G2, xfind_from_class_methods w fuel [] e2 G2
      = some (xfind_from_class_constructors w e2 G2) := by
    intro e2 G2
    unfold xfind_from_class_methods
    simp
  have hx1 : xfind w fuel [] lf e G = some (load_class_constructor w e G) := by
    unfold xfind
    cases lf with
    | false =>
      simp only [Bool.false_eq_true, if_false]
      rw [hxm, hxc]
    | true =>
      have hloc := hpath.locals rfl
      obtain ⟨l, hl1⟩ := hloc.chain
      have hsub : find_subfunction e G fuel G.xcurrent_scope = some none :=
        find_subfunction_none_of_chain e G fuel _ l hl1 (fun s _ => hloc.subfunctions s)
      have hpriv : find_private_function w false e G = (octave_value.undefined, e, G) :=
        find_private_function_silent w false e G hloc.private_functions hloc.private_file
      simp only [if_true]
      rw [hsub]
      dsimp only
      rw [hpriv]
      simp only [is_defined_undefined, Bool.false_eq_true, if_false]
      rw [hxm, hxc]
  have hf1 : find w fuel [] lf e G = some (load_class_constructor w e G) := by
    unfold find
    rw [hx1]
    simp [hl, octave_value.is_undefined, octave_value.is_defined]
  refine ⟨load_class_constructor w e G, hf1, by rw [hl], by rw [hl], ?_⟩
  rw [hl]
  dsimp only
  have hcheck : out_of_date_check w (octave_value.fcn q) e.name true
      (find_user_function w e G).2.2 = (false, octave_value.fcn q, (find_user_function w e G).2.2)
      := out_of_date_check_settled w _ e.name _ hs
  have hxc2 : xfind_from_class_constructors w
      { e with
        class_constructors :=
          Function.update e.class_constructors e.name (some (octave_value.fcn q))
        class_methods := Function.update e.class_methods e.name (some (octave_value.fcn q)) }
      (find_user_function w e G).2.2
      = (octave_value.fcn q,
          { e with
            class_constructors :=
              Function.update e.class_constructors e.name (some (octave_value.fcn q))
            class_methods :=
              Function.update e.class_methods e.name (some (octave_value.fcn q)) },
          (find_user_function w e G).2.2) := by
    unfold xfind_from_class_constructors find_class_constructor
    simp only [Function.update_same, octave_value.is_defined, if_true, hcheck,
      Function.update_idem]
  have hx2 : xfind w fuel [] lf
      { e with
        class_constructors :=
          Function.update e.class_constructors e.name (some (octave_value.fcn q))
        class_methods := Function.update e.class_methods e.name (some (octave_value.fcn q)) }
      (find_user_function w e G).2.2
      = some (octave_value.fcn q,
          { e with
            class_constructors :=
              Function.update e.class_constructors e.name (some (octave_value.fcn q))
            class_methods :=
              Function.update e.class_methods e.name (some (octave_value.fcn q)) },
          (find_user_function w e G).2.2) := by
    unfold xfind
    cases lf with
    | false =>
      simp only [Bool.false_eq_true, if_false]
      rw [hxm, hxc2]
    | true =>
      have hloc := hpath.locals rfl
      obtain ⟨l, hl1⟩ := hloc.chain
      have hsc : scope_chain (find_user_function w e G).2.2 fuel
          (find_user_function w e G).2.2.xcurrent_scope = some l := by
        rw [frame_xcurrent_scope hpost.frame,
          scope_chain_ext G _ (frame_curr_fcn hpost.frame) hpost.ext hloc.allocated]
        exact hl1
      have hsub : find_subfunction
          { e with
            class_constructors :=
              Function.update e.class_constructors e.name (some (octave_value.fcn q))
            class_methods :=
              Function.update e.class_methods e.name (some (octave_value.fcn q)) }
          (find_user_function w e G).2.2 fuel (find_user_function w e G).2.2.xcurrent_scope
          = some none :=
        find_subfunction_none_of_chain _ _ fuel _ l hsc (fun s _ => hloc.subfunctions s)
      have hpriv : find_private_function w false
          { e with
            class_constructors :=
              Function.update e.class_constructors e.name (some (octave_value.fcn q))
            class_methods :=
              Function.update e.class_methods e.name (some (octave_value.fcn q)) }
          (find_user_function w e G).2.2
          = (octave_value.undefined, _, (find_user_function w e G).2.2) :=
        find_private_function_silent w false _ _ hloc.private_functions
          (by rw [frame_lp hpost.frame]; exact hloc.private_file)
      simp only [if_true]
      rw [hsub]
      dsimp only
      rw [hpriv]
      simp only [is_defined_undefined, Bool.false_eq_true, if_false]
      rw [hxm, hxc2]
  unfold find
  rw [hx2]
  simp [octave_value.is_undefined, octave_value.is_defined]

/-- C15, as stated, fails, in two ways. In `tick_state` the current time is
the time 5 of the last prompt, the loader stamps what it makes with the time
5, and the file `/p/foo.m` carries the modification time 9: a first `find`
returns a defined function held by the path slot; a second `find`, on the
entry and the state the first one left (same last-prompt time, last-chdir
time, search path and file times), hands the file to the loader again and
returns another function object. In `pkg_state` the file `/p/+pkg/foo.m` on
the path holds a classdef constructor, stamped after the last prompt, and the
lookup of `pkg.foo` is made with an argument of the class `pkg.foo`: a first
`find` loads the file and returns the constructor, which is cached under the
name `foo` only; a second `find` hands the file to the loader again and
returns another function object. -/
theorem find_twice_reloads :
    tick_state.now = tick_state.Vlast_prompt_time
      ∧ ((find tick_world 3 [] false (fcn_info_rep.create "foo") tick_state).bind
          (fun r1 => (find tick_world 3 [] false r1.2.1 r1.2.2).map
            (fun r2 => (r1.1, r1.2.1.function_on_path, r1.2.2.loads, r2.1, r2.2.2.loads))))
        = some (octave_value.fcn 2, octave_value.fcn 2, ["/p/foo.m", "/p/foo.m"],
            octave_value.fcn 4, ["/p/foo.m", "/p/foo.m", "/p/foo.m", "/p/foo.m"])
      ∧ pkg_state.Vlast_prompt_time < pkg_constructor.time_checked
      ∧ ((find pkg_world 3 [⟨btyp_unknown, "pkg.foo"⟩] false (fcn_info_rep.create "pkg.foo")
            pkg_state).bind
          (fun r1 => (find pkg_world 3 [⟨btyp_unknown, "pkg.foo"⟩] false r1.2.1 r1.2.2).map
            (fun r2 => (r1.1, r1.2.2.loads, r2.1, r2.2.2.loads))))
        = some (octave_value.fcn 1, ["/p/+pkg/foo.m"], octave_value.fcn 2,
            ["/p/+pkg/foo.m", "/p/+pkg/foo.m"]) := by
  refine ⟨rfl, ?_, by decide, ?_⟩
  · decide
  · decide

theorem ctor_cached_update {e : fcn_info_rep} {v : octave_value} {e2 : fcn_info_rep}
    (h : ctor_cached e v e2) (c : String) :
    ctor_cached e v
      { e2 with class_methods := Function.update e2.class_methods c (some v) } := by
  obtain ⟨cm, rfl, h1, h2⟩ := h
  refine ⟨Function.update cm c (some v), rfl, ?_, fun x => ?_⟩
  · by_cases hc : e.name = c
    · subst hc
      simp
    · simp [Function.update, hc, h1]
  · by_cases hx : x = c
    · subst hx
      right
      simp
    · simp only [Function.update, hx, dite_false]
      exact h2 x

theorem ctor_cached_entry {e : fcn_info_rep} {v : octave_value} {e2 : fcn_info_rep}
    (h : ctor_cached e v e2) :
    e2.name = e.name ∧ e2.package_name = e.package_name ∧ e2.full_name = e.full_name
      ∧ e2.built_in_function = e.built_in_function
      ∧ e2.subfunctions = e.subfunctions ∧ e2.private_functions = e.private_functions
      ∧ e2.class_constructors e.name = some v
      ∧ e2.function_on_path = e.function_on_path := by
  obtain ⟨cm, rfl, _, _⟩ := h
  exact ⟨rfl, rfl, rfl, rfl, rfl, rfl, by simp, rfl⟩

theorem load_class_method_built_in_silent (dt : String) (e0 e : fcn_info_rep) (G0 G : State)
    (hb : e.built_in_function = e0.built_in_function)
    (hbd : ∀ d, e0.built_in_function ≠ octave_value.data d)
    (hbi : e0.built_in_function.refers G0 (fun f => f.dispatch_classes = []))
    (hx : heap_ext G0 G) :
    load_class_method_built_in dt e G = some (octave_value.undefined, e, G) := by
  unfold load_class_method_built_in
  split
  · rfl
  · rename_i d hbv
    exact absurd (hb.symm.trans hbv) (hbd d)
  · rename_i p hbv
    have hnd := (refers_mono mark_stable_no_dispatch hbi hx p (hb.symm.trans hbv)).2
    simp only [hnd, List.not_mem_nil, if_false]

theorem load_class_method_parents_ctor (e : fcn_info_rep) (G G1 : State) (q : Nat)
    (find : String → fcn_info_rep → State → Option Res) (c : String) :
    ∀ l : List String,
      (∀ p, p ∈ l →
        (find p e G = some (octave_value.undefined, e, G)
            ∧ ∀ e2, ctor_cached e (octave_value.fcn q) e2 →
                ∃ r, find p e2 G1 = some r ∧ ctor_second e (octave_value.fcn q) G1 r)
          ∨ (∃ r, find p e G = some r ∧ ctor_first e (octave_value.fcn q) G1 p r)) →
      (load_class_method_parents find c l e G = some (octave_value.undefined, e, G)
          ∧ ∀ e2, ctor_cached e (octave_value.fcn q) e2 →
              ∃ r, load_class_method_parents find c l e2 G1 = some r
                ∧ ctor_second e (octave_value.fcn q) G1 r)
        ∨ (∃ r, load_class_method_parents find c l e G = some r
            ∧ r.1 = octave_value.fcn q ∧ r.2.2 = G1 ∧ ctor_cached e (octave_value.fcn q) r.2.1
            ∧ r.2.1.class_methods c = some (octave_value.fcn q)) := by
  intro l
  induction l with
  | nil =>
    intro _
    left
    exact ⟨rfl, fun e2 h2 => ⟨_, rfl, Or.inl rfl, h2, rfl⟩⟩
  | cons p rest ih =>
    intro hall
    have ihr := ih (fun x hx => hall x (List.mem_cons_of_mem _ hx))
    rcases hall p (List.mem_cons_self _ _) with ⟨hp1, hp2⟩ | ⟨r, hr, hv, hst, hJ, _⟩
    · have hstep : load_class_method_parents find c (p :: rest) e G
          = load_class_method_parents find c rest e G := by
        rw [load_class_method_parents, hp1]
        simp only [is_defined_undefined, Bool.false_eq_true, if_false]
      rcases ihr with ⟨h1, h2⟩ | ⟨r, hr, hv, hst, hJ, hcm⟩
      · left
        refine ⟨hstep.trans h1, fun e2 hJ2 => ?_⟩
        obtain ⟨r, hr, hval, hJr, hsr⟩ := hp2 e2 hJ2
        rw [load_class_method_parents, hr]
        dsimp only
        rcases hval with hu | hv
        · rw [hu]
          simp only [is_defined_undefined, Bool.false_eq_true, if_false]
          rw [hsr]
          exact h2 r.2.1 hJr
        · rw [hv]
          simp only [octave_value.is_defined, if_true]
          exact ⟨_, rfl, Or.inr rfl, ctor_cached_update hJr c, hsr⟩
      · right
        exact ⟨r, hstep.trans hr, hv, hst, hJ, hcm⟩
    · right
      refine ⟨(r.1, ({ r.2.1 with
          class_methods := Function.update r.2.1.class_methods c (some r.1) } : fcn_info_rep),
        r.2.2), ?_, hv, hst, ?_, ?_⟩
      · rw [load_class_method_parents, hr]
        dsimp only
        rw [hv]
        simp only [octave_value.is_defined, if_true]
      · dsimp only
        rw [hv]
        exact ctor_cached_update hJ c
      · dsimp only
        rw [hv]
        simp

theorem find_method_ctor (w : World) (e : fcn_info_rep) (G : State) (q : Nat)
    (hcm : ∀ c, e.class_methods c = none)
    (hsym : ∀ c, w.find_method_symbol e.name c = none)
    (hmf : ∀ c d p, (G.lp.find_method c e.name d p).1 = "")
    (hbd : ∀ d, e.built_in_function ≠ octave_value.data d)
    (hbi : e.built_in_function.refers G (fun f => f.dispatch_classes = []))
    (hu : (find_user_function w e G).1 = octave_value.fcn q)
    (hc : ((find_user_function w e G).2.2.heap q).is_classdef_constructor = true)
    (hs : settled (find_user_function w e G).2.2 (octave_value.fcn q))
    (rank : String → Nat) (hrank : ∀ c p, p ∈ w.parent_classes c → rank p < rank c) :
    ∀ (n : Nat) (c : String), rank c < n →
      (find_method w n c e G = some (octave_value.undefined, e, G)
          ∧ ∀ e2, ctor_cached e (octave_value.fcn q) e2 →
              ∃ r, find_method w n c e2 (find_user_function w e G).2.2 = some r
                ∧ ctor_second e (octave_value.fcn q) (find_user_function w e G).2.2 r)
        ∨ (∃ r, find_method w n c e G = some r
            ∧ ctor_first e (octave_value.fcn q) (find_user_function w e G).2.2 c r) := by
  have hpost := find_user_function_post w e G
  intro n
  induction n with
  | zero => intro c h; exact absurd h (Nat.not_lt_zero _)
  | succ n ih =>
    intro c hlt
    have h1 : find_method w (n + 1) c e G = load_class_method w (find_method w n) c e G := by
      rw [find_method]
      dsimp only
      rw [hcm c]
    by_cases hfull : e.full_name = c
    · right
      have hl := load_class_constructor_found w e G q (hmf _ _ _) hu hc
      refine ⟨load_class_constructor w e G, ?_, ?_⟩
      · rw [h1, load_class_method, if_pos hfull]
      · rw [hl]
        refine ⟨rfl, rfl, ⟨_, rfl, by simp, fun x => ?_⟩, fun hne => absurd hfull.symm hne⟩
        by_cases hx : x = e.name
        · subst hx
          right
          simp
        · left
          simp only [Function.update, hx, dite_false]
          exact hcm x
    · have hpar := load_class_method_parents_ctor e G (find_user_function w e G).2.2 q
        (find_method w n) c (w.parent_classes c)
        (fun p hp => ih p (lt_of_lt_of_le (hrank c p hp) (Nat.lt_succ_iff.mp hlt)))
      have h2 : load_class_method w (find_method w n) c e G
          = match load_class_method_parents (find_method w n) c (w.parent_classes c) e G with
            | none => none
            | some r2 =>
              if r2.1.is_undefined then load_class_method_built_in c r2.2.1 r2.2.2
              else some r2 := by
        rw [load_class_method, if_neg hfull, hsym]
        simp only [hmf, ne_eq, not_true_eq_false, if_false]
        rfl
      have h3 : ∀ e2, ctor_cached e (octave_value.fcn q) e2 →
          load_class_method w (find_method w n) c e2 (find_user_function w e G).2.2
          = match load_class_method_parents (find_method w n) c (w.parent_classes c) e2
                (find_user_function w e G).2.2 with
            | none => none
            | some r2 =>
              if r2.1.is_undefined then load_class_method_built_in c r2.2.1 r2.2.2
              else some r2 := by
        intro e2 hJ
        obtain ⟨hn, _, hfn, _⟩ := ctor_cached_entry hJ
        rw [load_class_method, if_neg (by rw [hfn]; exact hfull), hn, hsym]
        simp only [frame_lp hpost.frame, hmf, ne_eq, not_true_eq_false, if_false]
        rfl
      rcases hpar with ⟨hp1, hp2⟩ | ⟨r, hr, hv, hst, hJ, hcmc⟩
      · left
        refine ⟨?_, fun e2 hJ => ?_⟩
        · rw [h1, h2, hp1]
          simp only [octave_value.is_undefined, is_defined_undefined, Bool.not_false, if_true]
          exact load_class_method_built_in_silent c e e G G rfl hbd hbi (heap_ext_refl G)
        · have hsecond : ∃ r, load_class_method w (find_method w n) c e2
                (find_user_function w e G).2.2 = some r
              ∧ ctor_second e (octave_value.fcn q) (find_user_function w e G).2.2 r := by
            obtain ⟨r, hr, hval, hJr, hsr⟩ := hp2 e2 hJ
            rw [h3 e2 hJ, hr]
            dsimp only
            rcases hval with hu2 | hv2
            · rw [hu2]
              simp only [octave_value.is_undefined, is_defined_undefined, Bool.not_false,
                if_true]
              rw [hsr]
              refine ⟨_, load_class_method_built_in_silent c e r.2.1 G _
                (ctor_cached_entry hJr).2.2.2.1 hbd hbi hpost.ext, Or.inl rfl, hJr, rfl⟩
            · refine ⟨r, ?_, Or.inr hv2, hJr, hsr⟩
              rw [hv2]
              simp [octave_value.is_undefined, octave_value.is_defined]
          rw [find_method]
          dsimp only
          obtain ⟨cm, he2, hcn, hcall⟩ := hJ
          have hJ2 : ctor_cached e (octave_value.fcn q) e2 := ⟨cm, he2, hcn, hcall⟩
          rcases hcall c with hnone | hsome
          · have hec : e2.class_methods c = none := by rw [he2]; exact hnone
            rw [hec]
            exact hsecond
          · have hec : e2.class_methods c = some (octave_value.fcn q) := by rw [he2]; exact hsome
            rw [hec]
            dsimp only
            simp only [octave_value.is_defined, if_true,
              out_of_date_check_settled w _ c _ hs]
            exact ⟨_, rfl, Or.inr rfl, ctor_cached_update hJ2 c, rfl⟩
      · right
        refine ⟨r, ?_, hv, hst, hJ, fun _ => hcmc⟩
        rw [h1, h2, hr]
        dsimp only
        rw [hv]
        simp [octave_value.is_undefined, octave_value.is_defined]

theorem xfind_skip_local (w : World) (fuel : Nat) (args : List octave_arg) (lf : Bool)
    (e : fcn_info_rep) (G : State) (hloc : lf = true → no_local fuel e G)
    (e2 : fcn_info_rep) (G2 : State)
    (hsub : e2.subfunctions = e.subfunctions)
    (hpriv : e2.private_functions = e.private_functions) (hname : e2.name = e.name)
    (hfr : G2.frame = G.frame) (hext : heap_ext G G2) :
    xfind w fuel args lf e2 G2 = xfind_from_class_methods w fuel args e2 G2 := by
  unfold xfind
  cases lf with
  | false => simp only [Bool.false_eq_true, if_false]
  | true =>
    have hl := hloc rfl
    obtain ⟨l, hl1⟩ := hl.chain
    have hsc : scope_chain G2 fuel G2.xcurrent_scope = some l := by
      rw [frame_xcurrent_scope hfr, scope_chain_ext G _ (frame_curr_fcn hfr) hext hl.allocated]
      exact hl1
    have hs : find_subfunction e2 G2 fuel G2.xcurrent_scope = some none :=
      find_subfunction_none_of_chain _ _ fuel _ l hsc
        (fun s _ => by rw [hsub]; exact hl.subfunctions s)
    have hp : find_private_function w false e2 G2 = (octave_value.undefined, e2, G2) :=
      find_private_function_silent w false _ _ (fun d => by rw [hpriv]; exact hl.private_functions d)
        (fun d => by rw [frame_lp hfr, hname]; exact hl.private_file d)
    simp only [if_true]
    rw [hs]
    dsimp only
    rw [hp]
    simp only [is_defined_undefined, Bool.false_eq_true, if_false]

theorem find_of_xfind_defined (w : World) (fuel : Nat) (args : List octave_arg) (lf : Bool)
    (e : fcn_info_rep) (G : State) (r : Res) (h : xfind w fuel args lf e G = some r)
    (hd : r.1.is_defined = true) : find w fuel args lf e G = some r := by
  unfold find
  rw [h]
  simp [octave_value.is_undefined, hd]

theorem xfind_from_class_constructors_cached (w : World) (e e2 : fcn_info_rep) (G1 : State)
    (q : Nat) (hJ : ctor_cached e (octave_value.fcn q) e2)
    (hs : settled G1 (octave_value.fcn q)) :
    (xfind_from_class_constructors w e2 G1).1 = octave_value.fcn q
      ∧ (xfind_from_class_constructors w e2 G1).2.2 = G1 := by
  obtain ⟨hn, _, _, _, _, _, hcc, _⟩ := ctor_cached_entry hJ
  unfold xfind_from_class_constructors find_class_constructor
  rw [hn, hcc]
  simp only [octave_value.is_defined, if_true, out_of_date_check_settled w _ e.name _ hs,
    and_self]

theorem find_constructor_args_twice (w : World) (fuel : Nat) (args : List octave_arg)
    (lf : Bool) (e : fcn_info_rep) (G : State) (q : Nat)
    (hpath : path_only w fuel args lf e G) (ha : args ≠ [])
    (hu : (find_user_function w e G).1 = octave_value.fcn q)
    (hc : ((find_user_function w e G).2.2.heap q).is_classdef_constructor = true)
    (hs : settled (find_user_function w e G).2.2 (octave_value.fcn q))
    (hx : get_dispatch_type G.class_precedence_table args = e.full_name →
      e.package_name ≠ "" → e.function_on_path = octave_value.fcn q) :
    ∃ r1 r2, find w fuel args lf e G = some r1
      ∧ r1.1 = octave_value.fcn q ∧ r1.2.2 = (find_user_function w e G).2.2
      ∧ find w fuel args lf r1.2.1 r1.2.2 = some r2
      ∧ r2.1 = octave_value.fcn q ∧ r2.2.2 = (find_user_function w e G).2.2 := by
  have hpost := find_user_function_post w e G
  obtain ⟨rank, hrank, hlt⟩ := hpath.depth ha
  have hcomb := find_method_ctor w e G q hpath.methods hpath.method_symbol hpath.method_file
    hpath.not_data hpath.built_in hu hc hs rank hrank fuel _ hlt
  have hl := load_class_constructor_found w e G q (hpath.method_file _ _ _) hu hc
  have hskip : ∀ e2 G2, e2.subfunctions = e.subfunctions →
      e2.private_functions = e.private_functions → e2.name = e.name → G2.frame = G.frame →
      heap_ext G G2 →
      xfind w fuel args lf e2 G2 = xfind_from_class_methods w fuel args e2 G2 :=
    fun e2 G2 h1 h2 h3 h4 h5 => xfind_skip_local w fuel args lf e G hpath.locals e2 G2 h1 h2 h3 h4 h5
  have hskipJ : ∀ e2, ctor_cached e (octave_value.fcn q) e2 →
      xfind w fuel args lf e2 (find_user_function w e G).2.2
        = xfind_from_class_methods w fuel args e2 (find_user_function w e G).2.2 := by
    intro e2 hJ
    obtain ⟨hn, _, _, _, hsf, hpf, _, _⟩ := ctor_cached_entry hJ
    exact hskip e2 _ hsf hpf hn hpost.frame hpost.ext
  have hdt : get_dispatch_type (find_user_function w e G).2.2.class_precedence_table args
      = get_dispatch_type G.class_precedence_table args := by
    rw [frame_class_precedence_table hpost.frame]
  rcases hcomb with ⟨h1, h2⟩ | ⟨r, hr, hv, hst, hJ, hcmc⟩
  · have hx1 : xfind w fuel args lf e G = some (load_class_constructor w e G) := by
      rw [hskip e G rfl rfl rfl rfl (heap_ext_refl G)]
      unfold xfind_from_class_methods
      rw [if_pos ha, h1]
      simp only [is_defined_undefined, Bool.false_eq_true, if_false]
      unfold xfind_from_class_constructors find_class_constructor
      simp only [hpath.constructors, hl, octave_value.is_defined, if_true]
    have hJ1 : ctor_cached e (octave_value.fcn q) (load_class_constructor w e G).2.1 := by
      rw [hl]
      refine ⟨_, rfl, by simp, fun x => ?_⟩
      by_cases hxn : x = e.name
      · subst hxn
        right
        simp
      · left
        simp only [Function.update, hxn, dite_false]
        exact hpath.methods x
    have hst1 : (load_class_constructor w e G).2.2 = (find_user_function w e G).2.2 := by
      rw [hl]
    have hv1 : (load_class_constructor w e G).1 = octave_value.fcn q := by rw [hl]
    obtain ⟨r, hr, hval, hJr, hsr⟩ := h2 _ hJ1
    have hx2 : ∃ r2, xfind w fuel args lf (load_class_constructor w e G).2.1
          (load_class_constructor w e G).2.2 = some r2
        ∧ r2.1 = octave_value.fcn q ∧ r2.2.2 = (find_user_function w e G).2.2 := by
      rw [hst1, hskipJ _ hJ1]
      unfold xfind_from_class_methods
      rw [if_pos ha, hdt, hr]
      dsimp only
      rcases hval with hu2 | hv2
      · rw [hu2]
        simp only [is_defined_undefined, Bool.false_eq_true, if_false]
        rw [hsr]
        exact ⟨_, rfl, xfind_from_class_constructors_cached w e r.2.1 _ q hJr hs⟩
      · rw [hv2]
        simp only [octave_value.is_defined, if_true]
        exact ⟨r, rfl, hv2, hsr⟩
    obtain ⟨r2, hr2, hv2, hs2⟩ := hx2
    exact ⟨_, r2, find_of_xfind_defined w fuel args lf e G _ hx1 (by rw [hv1]; rfl), hv1, hst1,
      find_of_xfind_defined w fuel args lf _ _ r2 hr2 (by rw [hv2]; rfl), hv2, hs2⟩
  · have hx1 : xfind w fuel args lf e G = some r := by
      rw [hskip e G rfl rfl rfl rfl (heap_ext_refl G)]
      unfold xfind_from_class_methods
      rw [if_pos ha, hr]
      dsimp only
      rw [hv]
      simp only [octave_value.is_defined, if_true]
    have hm2 : ∃ r2, find_method w fuel (get_dispatch_type G.class_precedence_table args)
          r.2.1 (find_user_function w e G).2.2 = some r2
        ∧ r2.1 = octave_value.fcn q ∧ r2.2.2 = (find_user_function w e G).2.2 := by
      obtain ⟨n, rfl⟩ : ∃ n, fuel = n + 1 := ⟨fuel - 1, by omega⟩
      obtain ⟨hn, hpk, hfn, _, _, _, _, hfop⟩ := ctor_cached_entry hJ
      rw [find_method]
      dsimp only
      obtain ⟨cm, he2, hcn, hcall⟩ := hJ
      rcases hcall (get_dispatch_type G.class_precedence_table args) with hnone | hsome
      · have hec : r.2.1.class_methods (get_dispatch_type G.class_precedence_table args)
            = none := by rw [he2]; exact hnone
        have hdfull : get_dispatch_type G.class_precedence_table args = e.full_name := by
          by_contra hne
          rw [hcmc hne] at hec
          cases hec
        have hpkg : e.package_name ≠ "" := by
          intro hp
          have : e.full_name = e.name := by
            unfold fcn_info_rep.full_name
            rw [if_pos hp]
          rw [hdfull, this, he2] at hec
          dsimp only at hec
          rw [hcn] at hec
          cases hec
        have hslot := hx hdfull hpkg
        have hfu : find_user_function w r.2.1 (find_user_function w e G).2.2
            = (octave_value.fcn q, r.2.1, (find_user_function w e G).2.2) := by
          have := find_user_function_settled w r.2.1 (find_user_function w e G).2.2
            (by rw [hfop, hslot]; rfl) (by rw [hfop, hslot]; exact hs)
          rw [this, hfop, hslot]
        have hl2 := load_class_constructor_found w r.2.1 (find_user_function w e G).2.2 q
          (by rw [frame_lp hpost.frame, hn]; exact hpath.method_file _ _ _)
          (by rw [hfu]) (by rw [hfu]; exact hc)
        rw [hec]
        dsimp only
        rw [load_class_method, if_pos (hfn.trans hdfull.symm), hl2, hfu]
        exact ⟨_, rfl, rfl, rfl⟩
      · have hec : r.2.1.class_methods (get_dispatch_type G.class_precedence_table args)
            = some (octave_value.fcn q) := by rw [he2]; exact hsome
        rw [hec]
        dsimp only
        simp only [octave_value.is_defined, if_true, out_of_date_check_settled w _ _ _ hs]
        exact ⟨_, rfl, rfl, rfl⟩
    obtain ⟨r2, hr2, hv2, hs2⟩ := hm2
    have hx2 : xfind w fuel args lf r.2.1 r.2.2 = some r2 := by
      rw [hst, hskipJ _ hJ]
      unfold xfind_from_class_methods
      rw [if_pos ha, hdt, hr2]
      dsimp only
      rw [hv2]
      simp only [octave_value.is_defined, if_true]
    exact ⟨r, r2, find_of_xfind_defined w fuel args lf e G r hx1 (by rw [hv]; rfl), hv, hst,
      find_of_xfind_defined w fuel args lf _ _ r2 hx2 (by rw [hv2]; rfl), hv2, hs2⟩

/-- C15, amended: for an entry whose name has no definition that precedes the
path slot and whose path lookup yields a defined function that is not due
for another check (a subfunction, a function without a file, or one last
checked after the last prompt and, if relative, not before the last chdir),
other than a classdef constructor of a package that the path slot did not
hold already and that is looked up with arguments whose dispatch class is
the full name of the entry: a first `find` returns that function, in the
state that the path lookup leaves; a second `find` on the entry and the state
the first one left returns the same function and leaves the state as it is,
so that it hands no file to the loader; across the two calls at most one
function object is made. The second `find` leaves the entry as it is too
when there are no arguments or the function is not a classdef constructor,
and in the latter case the function is held by the path slot. -/
theorem find_twice_same (w : World) (fuel : Nat) (args : List octave_arg) (lf : Bool)
    (e : fcn_info_rep) (G : State)
    (hpath : path_only w fuel args lf e G)
    (hd : (find_user_function w e G).1.is_defined = true)
    (hs : settled (find_user_function w e G).2.2 (find_user_function w e G).1)
    (hctor : args ≠ [] → get_dispatch_type G.class_precedence_table args = e.full_name →
      e.package_name ≠ "" → e.function_on_path ≠ (find_user_function w e G).1 →
      not_constructor (find_user_function w e G).1 (find_user_function w e G).2.2) :
    ∃ r1 r2, find w fuel args lf e G = some r1
      ∧ r1.1 = (find_user_function w e G).1 ∧ r1.2.2 = (find_user_function w e G).2.2
      ∧ r1.1.is_defined = true
      ∧ find w fuel args lf r1.2.1 r1.2.2 = some r2
      ∧ r2.1 = r1.1 ∧ r2.2.2 = r1.2.2
      ∧ r1.2.2.next_fcn ≤ G.next_fcn + 1
      ∧ (args = [] ∨ not_constructor (find_user_function w e G).1
            (find_user_function w e G).2.2 → r2 = r1)
      ∧ (not_constructor (find_user_function w e G).1 (find_user_function w e G).2.2 →
          r1 = find_user_function w e G ∧ r1.2.1.function_on_path = r1.1) := by
  have halloc := find_user_function_alloc w e G
  by_cases hnot : not_constructor (find_user_function w e G).1 (find_user_function w e G).2.2
  · have hslot2 : (find_user_function w e G).2.1.function_on_path
        = (find_user_function w e G).1 := by rw [find_user_function_entry w e G]
    have hidem : find_user_function w (find_user_function w e G).2.1
        (find_user_function w e G).2.2 = find_user_function w e G := by
      rw [find_user_function_settled w _ _ (by rw [hslot2]; exact hd) (by rw [hslot2]; exact hs),
        hslot2]
    exact ⟨find_user_function w e G, find_user_function w e G,
      find_path_steps w fuel args lf e G hpath hnot hidem hd e G (Or.inl ⟨rfl, rfl⟩),
      rfl, rfl, hd,
      find_path_steps w fuel args lf e G hpath hnot hidem hd _ _ (Or.inr ⟨rfl, rfl⟩),
      rfl, rfl, halloc, fun _ => rfl, fun _ => ⟨rfl, hslot2⟩⟩
  · have hnot2 := hnot
    unfold not_constructor at hnot2
    push_neg at hnot2
    obtain ⟨q, hq, hc⟩ := hnot2
    have hc2 : ((find_user_function w e G).2.2.heap q).is_classdef_constructor = true := by
      simpa using hc
    by_cases ha : args = []
    · subst ha
      obtain ⟨r1, h1, hv, hst, h2⟩ := find_constructor_twice w fuel lf e G q hpath hq hc2
        (by rw [← hq]; exact hs)
      exact ⟨r1, r1, h1, hv.trans hq.symm, hst, by rw [hv]; rfl, h2, rfl, rfl,
        by rw [hst]; exact halloc, fun _ => rfl, fun hn => absurd hn hnot⟩
    · obtain ⟨r1, r2, h1, hv1, hst1, h2, hv2, hst2⟩ :=
        find_constructor_args_twice w fuel args lf e G q hpath ha hq hc2
          (by rw [← hq]; exact hs)
          (fun hdt hpk => by
            by_contra hne
            exact hnot (hctor ha hdt hpk (by rw [hq]; exact hne)))
      exact ⟨r1, r2, h1, hv1.trans hq.symm, hst1, by rw [hv1]; rfl, h2, hv2.trans hv1.symm,
        hst2.trans hst1.symm, by rw [hst1]; exact halloc,
        fun h => h.elim (fun h0 => absurd h0 ha) (fun hn => absurd hn hnot),
        fun hn => absurd hn hnot⟩

theorem path_only_pkg (args : List octave_arg) (e : fcn_info_rep) (G : State)
    (he : e = fcn_info_rep.create "pkg.foo" ∨ e = pkg_held_entry)
    (hG : G = pkg_state ∨ G = pkg_held_state) :
    path_only pkg_world 3 args false e G := by
  have hlp : G.lp = pkg_load_path := by rcases hG with rfl | rfl <;> rfl
  exact
  { methods := fun _ => by rcases he with rfl | rfl <;> rfl
    constructors := by rcases he with rfl | rfl <;> rfl
    method_symbol := fun _ => rfl
    method_file := fun _ _ _ => by rw [hlp]; rfl
    not_data := fun d h => by rcases he with rfl | rfl <;> cases h
    built_in := by rcases he with rfl | rfl <;> exact refers_undefined _ _
    cmdline := by rcases he with rfl | rfl <;> rfl
    autoload_slot := by rcases he with rfl | rfl <;> rfl
    autoload_file := rfl
    depth := fun _ => ⟨fun _ => 0, ⟨fun c p hp => absurd hp (List.not_mem_nil p), Nat.succ_pos 2⟩⟩
    locals := fun h => by cases h }

/-- C15 amended, at concrete inputs: the entry for `foo` whose path slot
holds the function at address 0 of `old_state`, at the time 10, after the last
prompt at the time 5, with a loader that stamps what it makes with the time
10; the entry for `pkg.foo` in `pkg_state`, whose file on the path holds a
classdef constructor, looked up without arguments and with an argument of
class double; and the entry for `pkg.foo` whose path slot holds the
constructor already, looked up with an argument of class `pkg.foo`. -/
theorem find_twice_same_witness :
    path_only reload_world 3 [] true path_entry old_state
      ∧ (find_user_function reload_world path_entry old_state).1.is_defined = true
      ∧ (∃ r1, find reload_world 3 [] true path_entry old_state = some r1
          ∧ r1.1 = octave_value.fcn 1
          ∧ find reload_world 3 [] true r1.2.1 r1.2.2 = some r1
          ∧ r1.2.2.next_fcn ≤ old_state.next_fcn + 1
          ∧ r1.2.1.function_on_path = r1.1)
      ∧ (∃ r1, find pkg_world 3 [] false (fcn_info_rep.create "pkg.foo") pkg_state = some r1
          ∧ r1.1 = octave_value.fcn 1
          ∧ find pkg_world 3 [] false r1.2.1 r1.2.2 = some r1
          ∧ r1.2.2.next_fcn ≤ pkg_state.next_fcn + 1)
      ∧ (∃ r1 r2, find pkg_world 3 [⟨btyp_double, "double"⟩] false
              (fcn_info_rep.create "pkg.foo") pkg_state = some r1
          ∧ r1.1 = octave_value.fcn 1
          ∧ find pkg_world 3 [⟨btyp_double, "double"⟩] false r1.2.1 r1.2.2 = some r2
          ∧ r2.1 = r1.1 ∧ r2.2.2 = r1.2.2)
      ∧ (∃ r1 r2, find pkg_world 3 [⟨btyp_unknown, "pkg.foo"⟩] false pkg_held_entry
              pkg_held_state = some r1
          ∧ r1.1 = octave_value.fcn 0
          ∧ find pkg_world 3 [⟨btyp_unknown, "pkg.foo"⟩] false r1.2.1 r1.2.2 = some r2
          ∧ r2.1 = r1.1 ∧ r2.2.2 = r1.2.2) := by
  have hpath : path_only reload_world 3 [] true path_entry old_state :=
    path_only_path_entry reload_world old_state (Or.inl rfl) (Or.inl rfl)
  have hd : (find_user_function reload_world path_entry old_state).1.is_defined = true := by
    decide
  have hv : (find_user_function reload_world path_entry old_state).1 = octave_value.fcn 1 := by
    decide
  have hvp : (find_user_function pkg_world (fcn_info_rep.create "pkg.foo") pkg_state).1
      = octave_value.fcn 1 := by decide
  have hvh : (find_user_function pkg_world pkg_held_entry pkg_held_state).1
      = octave_value.fcn 0 := by decide
  obtain ⟨r1, r2, h1, hv1, _, _, h2, _, _, hal, heq, hslot⟩ :=
    find_twice_same reload_world 3 [] true path_entry old_state hpath hd
      (fun p hp => by
        rw [hv] at hp
        cases hp
        exact Or.inr (Or.inr (by decide)))
      (fun h => absurd rfl h)
  obtain ⟨p1, p2, hp1, hpv1, _, _, hp2, _, _, hpal, hpeq, _⟩ :=
    find_twice_same pkg_world 3 [] false (fcn_info_rep.create "pkg.foo") pkg_state
      (path_only_pkg [] _ _ (Or.inl rfl) (Or.inl rfl)) (by decide)
      (fun p hp => by
        rw [hvp] at hp
        cases hp
        exact Or.inr (Or.inr (by decide)))
      (fun h => absurd rfl h)
  obtain ⟨a1, a2, ha1, hav1, _, _, ha2, hav2, has2, _, _, _⟩ :=
    find_twice_same pkg_world 3 [⟨btyp_double, "double"⟩] false
      (fcn_info_rep.create "pkg.foo") pkg_state
      (path_only_pkg _ _ _ (Or.inl rfl) (Or.inl rfl)) (by decide)
      (fun p hp => by
        rw [hvp] at hp
        cases hp
        exact Or.inr (Or.inr (by decide)))
      (fun _ hdt => absurd hdt (by decide))
  obtain ⟨b1, b2, hb1, hbv1, _, _, hb2, hbv2, hbs2, _, _, _⟩ :=
    find_twice_same pkg_world 3 [⟨btyp_unknown, "pkg.foo"⟩] false
      pkg_held_entry pkg_held_state
      (path_only_pkg _ _ _ (Or.inr rfl) (Or.inr rfl)) (by decide)
      (fun p hp => by
        rw [hvh] at hp
        cases hp
        exact Or.inr (Or.inr (by decide)))
      (fun _ _ _ hne => absurd hvh.symm hne)
  have e1 := heq (Or.inl rfl)
  have e2 := hpeq (Or.inl rfl)
  subst e1
  subst e2
  exact ⟨hpath, hd,
    ⟨r2, h1, hv1.trans hv, h2, hal,
      (hslot (fun q hq => by
        rw [hv] at hq
        cases hq
        decide)).2⟩,
    ⟨p2, hp1, hpv1.trans hvp, hp2, hpal⟩,
    ⟨a1, a2, ha1, hav1.trans hvp, ha2, hav2, has2⟩,
    ⟨b1, b2, hb1, hbv1.trans hvh, hb2, hbv2, hbs2⟩⟩


/-! ### The dispatch type -/

/-- C21: for a list of two arguments whose built-in tags are double and
int32, in this order, whatever their class names and the precedence table,
`get_dispatch_type` leaves the int32 tag in `builtin_type` and returns the
int32 class name. -/
theorem get_dispatch_type_double_int32 (t : precedence_table) (c1 c2 : String) :
    get_dispatch_type_bt t [⟨btyp_double, c1⟩, ⟨btyp_int32, c2⟩] = ("int32", btyp_int32)
      ∧ get_dispatch_type t [⟨btyp_double, c1⟩, ⟨btyp_int32, c2⟩] = btyp_class_name btyp_int32 := by
  constructor <;> rfl

/-- C22: for every tag `t` other than bool, `sup_table[bool][t]` and
`sup_table[t][bool]` are `t`; and an entry of the table is bool only when
both indices are bool. -/
theorem build_sup_table_bool :
    (∀ t, t ≠ btyp_bool →
        build_sup_table btyp_bool t = t ∧ build_sup_table t btyp_bool = t)
      ∧ ∀ i j, build_sup_table i j = btyp_bool → i = btyp_bool ∧ j = btyp_bool := by
  constructor
  · intro t ht
    cases t <;> first | exact absurd rfl ht | exact ⟨rfl, rfl⟩
  · intro i j
    cases i <;> cases j <;> decide

/-- C22, at a concrete input: the tag double. -/
theorem build_sup_table_bool_witness :
    build_sup_table btyp_bool btyp_double = btyp_double
      ∧ build_sup_table btyp_double btyp_bool = btyp_double
      ∧ (build_sup_table btyp_bool btyp_bool = btyp_bool →
          btyp_bool = btyp_bool ∧ btyp_bool = btyp_bool) :=
  ⟨(build_sup_table_bool.1 btyp_double (by decide)).1,
    (build_sup_table_bool.1 btyp_double (by decide)).2,
    build_sup_table_bool.2 btyp_bool btyp_bool⟩

/-- C23: for every tag `t`, `sup_table[t][func_handle]` and
`sup_table[func_handle][t]` are the function-handle tag. -/
theorem build_sup_table_func_handle (t : builtin_type_t) :
    build_sup_table t btyp_func_handle = btyp_func_handle
      ∧ build_sup_table btyp_func_handle t = btyp_func_handle := by
  cases t <;> exact ⟨rfl, rfl⟩

/-- C24, as stated, fails: double is array-typed, cell is not, neither is
bool or function handle, cell is not an integer type, and the table yields
cell, the tag that is not array-typed, in both operand orders. -/
theorem build_sup_table_double_cell :
    btyp_isarray btyp_double = true ∧ btyp_isarray btyp_cell = false
      ∧ btyp_isinteger btyp_cell = false
      ∧ build_sup_table btyp_double btyp_cell = btyp_cell
      ∧ build_sup_table btyp_cell btyp_double = btyp_cell
      ∧ btyp_cell ≠ btyp_double := by
  decide

/-- C24, amended: for tags `i` and `j` of which `i` is array-typed and `j` is
not, and neither is bool or function handle, the table yields `j`, the tag
that is not array-typed, in both operand orders; no tag that is not
array-typed is an integer type. -/
theorem build_sup_table_non_array (i j : builtin_type_t)
    (hi : btyp_isarray i = true) (hj : btyp_isarray j = false)
    (hib : i ≠ btyp_bool) (hjf : j ≠ btyp_func_handle) :
    build_sup_table i j = j ∧ build_sup_table j i = j ∧ btyp_isinteger j = false := by
  cases i <;> cases j <;>
    first
    | exact absurd rfl hib
    | exact absurd rfl hjf
    | exact absurd hi (by decide)
    | exact absurd hj (by decide)
    | exact ⟨rfl, rfl, rfl⟩

/-- C24 amended, at a concrete input: the tags int8 and struct. -/
theorem build_sup_table_non_array_witness :
    btyp_isarray btyp_int8 = true ∧ btyp_isarray btyp_struct = false
      ∧ build_sup_table btyp_int8 btyp_struct = btyp_struct
      ∧ build_sup_table btyp_struct btyp_int8 = btyp_struct :=
  ⟨rfl, rfl,
    (build_sup_table_non_array btyp_int8 btyp_struct rfl rfl (by decide) (by decide)).1,
    (build_sup_table_non_array btyp_int8 btyp_struct rfl rfl (by decide) (by decide)).2.1⟩

/-- C25, as stated, fails: combining double with float yields float, in both
operand orders. -/
theorem build_sup_table_double_float :
    build_sup_table btyp_double btyp_float = btyp_float
      ∧ build_sup_table btyp_float btyp_double = btyp_float
      ∧ btyp_float ≠ btyp_double := by
  decide

/-- C25, amended: for every tag `i` among double, complex and char and every
tag `j` among float and float-complex, the table yields `j`, in both operand
orders: the float or float-complex operand dominates. -/
theorem build_sup_table_float (i j : builtin_type_t)
    (hi : i = btyp_double ∨ i = btyp_complex ∨ i = btyp_char)
    (hj : j = btyp_float ∨ j = btyp_float_complex) :
    build_sup_table i j = j ∧ build_sup_table j i = j := by
  rcases hi with rfl | rfl | rfl <;> rcases hj with rfl | rfl <;> exact ⟨rfl, rfl⟩

/-- C25 amended, at a concrete input: the tags char and float-complex. -/
theorem build_sup_table_float_witness :
    build_sup_table btyp_char btyp_float_complex = btyp_float_complex
      ∧ build_sup_table btyp_float_complex btyp_char = btyp_float_complex :=
  build_sup_table_float btyp_char btyp_float_complex (Or.inr (Or.inr rfl)) (Or.inr rfl)


theorem get_dispatch_type_scan_prefix (a : octave_arg) (post : List octave_arg)
    (ha : a.builtin_type = btyp_unknown) :
    ∀ (pre : List octave_arg) (bt : builtin_type_t),
      (∀ x, x ∈ pre → x.builtin_type ≠ btyp_unknown) →
      get_dispatch_type_scan bt (pre ++ a :: post) = (btyp_unknown, a :: post) := by
  intro pre
  induction pre with
  | nil =>
    intro bt _
    simp [get_dispatch_type_scan, ha]
  | cons x rest ih =>
    intro bt h
    have hx : x.builtin_type ≠ btyp_unknown := h x (List.mem_cons_self _ _)
    rw [List.cons_append, get_dispatch_type_scan, if_pos hx]
    exact ih _ (fun y hy => h y (List.mem_cons_of_mem _ hy))

theorem get_dispatch_type_classes_eq (t : precedence_table) :
    ∀ (later : List octave_arg) (current : String),
      get_dispatch_type_classes t current later = class_dispatch t current later := by
  intro later
  induction later with
  | nil => intro current; rfl
  | cons x rest ih =>
    intro current
    unfold get_dispatch_type_classes
    by_cases hx : x.builtin_type = btyp_unknown
    · rw [if_pos hx]
      have hf : class_dispatch t current (x :: rest)
          = class_dispatch t (class_override t current x.class_name) rest := by
        simp [class_dispatch, hx]
      rw [hf]
      dsimp only
      cases h1 : is_superiorto t current x.class_name <;>
        cases h2 : is_superiorto t x.class_name current <;>
          simp [class_override, h1, h2, ih]
    · rw [if_neg hx]
      have hf : class_dispatch t current (x :: rest) = class_dispatch t current rest := by
        simp [class_dispatch, hx]
      rw [hf]
      exact ih current

theorem class_dispatch_empty :
    ∀ (later : List octave_arg) (first : String),
      class_dispatch empty_precedence_table first later = first := by
  intro later
  induction later with
  | nil => intro first; rfl
  | cons x rest ih =>
    intro first
    by_cases hx : x.builtin_type = btyp_unknown
    · have hf : class_dispatch empty_precedence_table first (x :: rest)
          = class_dispatch empty_precedence_table
              (class_override empty_precedence_table first x.class_name) rest := by
        simp [class_dispatch, hx]
      rw [hf, ih]
      simp [class_override, is_superiorto, empty_precedence_table]
    · have hf : class_dispatch empty_precedence_table first (x :: rest)
          = class_dispatch empty_precedence_table first rest := by
        simp [class_dispatch, hx]
      rw [hf]
      exact ih first

/-- C26: for an argument list in which `a` is the first argument without a
built-in tag, `get_dispatch_type` leaves the unknown tag in `builtin_type`
and returns the result of the scan that starts from the class name of `a`
and goes over the later arguments without a built-in tag from left to right,
a class name replacing the current dispatch type exactly when it is marked
superior to it and the current one is not marked superior to it; the
arguments with a built-in tag play no part. With the empty precedence table
the result is the class name of `a`. -/
theorem get_dispatch_type_class_scan (t : precedence_table) (pre post : List octave_arg)
    (a : octave_arg) (hpre : ∀ x, x ∈ pre → x.builtin_type ≠ btyp_unknown)
    (ha : a.builtin_type = btyp_unknown) :
    get_dispatch_type_bt t (pre ++ a :: post)
        = (class_dispatch t a.class_name post, btyp_unknown)
      ∧ get_dispatch_type t (pre ++ a :: post)
        = ((post.filter (fun x => decide (x.builtin_type = btyp_unknown))).map
            (fun x => x.class_name)).foldl
            (fun current cname =>
              if is_superiorto t cname current = true ∧ is_superiorto t current cname = false
              then cname else current)
            a.class_name
      ∧ get_dispatch_type empty_precedence_table (pre ++ a :: post) = a.class_name := by
  have h : ∀ t2 : precedence_table, get_dispatch_type_bt t2 (pre ++ a :: post)
      = (class_dispatch t2 a.class_name post, btyp_unknown) := by
    intro t2
    cases pre with
    | nil =>
      simp only [List.nil_append, get_dispatch_type_bt, ha, ne_eq, not_true_eq_false, if_false,
        if_true]
      rw [get_dispatch_type_classes_eq]
    | cons x rest =>
      have hx : x.builtin_type ≠ btyp_unknown := hpre x (List.mem_cons_self _ _)
      have hs := get_dispatch_type_scan_prefix a post ha rest x.builtin_type
        (fun y hy => hpre y (List.mem_cons_of_mem _ hy))
      simp only [List.cons_append, get_dispatch_type_bt, if_pos hx, hs, if_true]
      rw [get_dispatch_type_classes_eq]
  refine ⟨h t, ?_, ?_⟩
  · unfold get_dispatch_type
    rw [h t]
    rfl
  · unfold get_dispatch_type
    rw [h empty_precedence_table]
    exact class_dispatch_empty post a.class_name

/-- C26, at a concrete input: a double, an object of class `b`, an int32 and
an object of class `a`, with `a` marked superior to `b`. -/
theorem get_dispatch_type_class_scan_witness :
    get_dispatch_type (set_class_relationship empty_precedence_table "a" "b").2
        ([⟨btyp_double, "double"⟩] ++ ⟨btyp_unknown, "b"⟩
          :: [⟨btyp_int32, "int32"⟩, ⟨btyp_unknown, "a"⟩]) = "a"
      ∧ get_dispatch_type empty_precedence_table
        ([⟨btyp_double, "double"⟩] ++ ⟨btyp_unknown, "b"⟩
          :: [⟨btyp_int32, "int32"⟩, ⟨btyp_unknown, "a"⟩]) = "b" :=
  have h := get_dispatch_type_class_scan (set_class_relationship empty_precedence_table "a" "b").2
    [⟨btyp_double, "double"⟩] [⟨btyp_int32, "int32"⟩, ⟨btyp_unknown, "a"⟩] ⟨btyp_unknown, "b"⟩
    (fun x hx => by
      rw [List.mem_singleton] at hx
      rw [hx]
      decide)
    rfl
  ⟨h.2.1.trans (by decide), h.2.2⟩


/-! ### Nested scopes -/

theorem nest_post_refl (S : nest_state) : nest_post S S :=
  ⟨fun _ => rfl, fun _ h => h, fun _ => rfl, fun _ => rfl, fun _ => rfl, fun _ => rfl,
    fun _ _ => rfl, fun _ h => h⟩

theorem nest_post_trans {S1 S2 S3 : nest_state} (h12 : nest_post S1 S2) (h23 : nest_post S2 S3) :
    nest_post S1 S3 :=
  ⟨fun r => (h23.declared r).trans (h12.declared r),
    fun r h => h23.valid r (h12.valid r h),
    fun q => (h23.nest_parent q).trans (h12.nest_parent q),
    fun q => (h23.nest_children q).trans (h12.nest_children q),
    fun q => (h23.curr_fcn q).trans (h12.curr_fcn q),
    fun q => (h23.keys q).trans (h12.keys q),
    fun q h => (h23.static_workspace q (by rw [h12.nest_parent q]; exact h)).trans
      (h12.static_workspace q h),
    fun q h => h23.visited q (h12.visited q h)⟩

theorem nest_post_set_curr_fcn (S : nest_state) (r f : Nat) :
    nest_post S (S.set_curr_fcn r f) := by
  refine ⟨fun q => ?_, fun q h => ?_, fun _ => rfl, fun _ => rfl, fun _ => rfl, fun _ => rfl,
    fun _ _ => rfl, fun _ h => h⟩
  · by_cases hq : q = r
    · subst hq
      simp [nest_state.set_curr_fcn, symbol_record_rep.declared]
    · simp [nest_state.set_curr_fcn, Function.update, hq]
  · by_cases hq : q = r
    · subst hq
      simpa [nest_state.set_curr_fcn] using h
    · simpa [nest_state.set_curr_fcn, Function.update, hq] using h

theorem nest_post_invalidate (S : nest_state) (r : Nat) : nest_post S (S.invalidate r) := by
  refine ⟨fun q => ?_, fun q h => ?_, fun _ => rfl, fun _ => rfl, fun _ => rfl, fun _ => rfl,
    fun _ _ => rfl, fun _ h => h⟩
  · by_cases hq : q = r
    · subst hq
      simp [nest_state.invalidate, symbol_record_rep.declared]
    · simp [nest_state.invalidate, Function.update, hq]
  · by_cases hq : q = r
    · subst hq
      simp [nest_state.invalidate]
    · simpa [nest_state.invalidate, Function.update, hq] using h

theorem nest_post_assign (S : nest_state) (s : scope_id) (nm : String) (r : Nat) :
    nest_post S (S.assign s nm r) := by
  have hk : ∀ l : List (String × Nat),
      (l.map (fun e => if e.1 = nm then (e.1, r) else e)).map Prod.fst = l.map Prod.fst := by
    intro l
    rw [List.map_map]
    apply List.map_congr_left
    intro e _
    by_cases he : e.1 = nm <;> simp [he]
  refine ⟨fun _ => rfl, fun _ h => h, fun q => ?_, fun q => ?_, fun q => ?_, fun q => ?_,
    fun q _ => ?_, fun _ h => h⟩
  all_goals
    by_cases hq : q = s
    · subst hq
      simp only [nest_state.assign, Function.update_same, hk]
    · simp [nest_state.assign, Function.update, hq]

theorem assign_others (S : nest_state) (s : scope_id) (nm : String) (r : Nat) (q : scope_id)
    (hq : q ≠ s) : (S.assign s nm r).scopes q = S.scopes q := by
  simp [nest_state.assign, Function.update, hq]


theorem do_update_nest_table_cons (L : look_nonlocal_t) (s p : scope_id) (nm : String)
    (ours : Nat) (rest : List (String × Nat)) (S : nest_state) :
    do_update_nest_table L s p ((nm, ours) :: rest) S
      = if nest_offending L S p (nm, ours) = true then nest_outcome.raised nest_error S
        else if (S.reps ours).is_formal = false ∧ (L S p nm).isSome = true then
          do_update_nest_table L s p rest
            ((S.invalidate ours).assign s nm ((L S p nm).getD 0))
        else do_update_nest_table L s p rest (S.set_curr_fcn ours (S.scopes s).curr_fcn) := by
  rw [do_update_nest_table]
  by_cases hf : (S.reps ours).is_formal = false
  · cases hl : L S p nm with
    | none => simp [nest_offending, hf, hl]
    | some parents =>
      by_cases hg : ((S.reps ours).is_global || (S.reps ours).is_persistent) = true
      · simp [nest_offending, hf, hg, hl]
      · simp [nest_offending, hf, hg, hl]
  · simp [nest_offending, hf]

theorem do_update_nest_table_post (L : look_nonlocal_t) (s p : scope_id) :
    ∀ (entries : List (String × Nat)) (S : nest_state),
      nest_post S (do_update_nest_table L s p entries S).state
        ∧ (∀ q, q ≠ s → (do_update_nest_table L s p entries S).state.scopes q = S.scopes q)
        ∧ (do_update_nest_table L s p entries S).state.visited = S.visited := by
  intro entries
  induction entries with
  | nil => intro S; exact ⟨nest_post_refl S, fun _ _ => rfl, rfl⟩
  | cons e rest ih =>
    intro S
    obtain ⟨nm, ours⟩ := e
    rw [do_update_nest_table_cons]
    split
    · exact ⟨nest_post_refl S, fun _ _ => rfl, rfl⟩
    split
    · have h1 := ih ((S.invalidate ours).assign s nm ((L S p nm).getD 0))
      exact ⟨nest_post_trans
          (nest_post_trans (nest_post_invalidate S ours) (nest_post_assign _ s nm _)) h1.1,
        fun q hq => (h1.2.1 q hq).trans (assign_others _ s nm _ q hq), h1.2.2⟩
    · have h1 := ih (S.set_curr_fcn ours (S.scopes s).curr_fcn)
      exact ⟨nest_post_trans (nest_post_set_curr_fcn S ours _) h1.1, h1.2.1, h1.2.2⟩


theorem declared_flags {a b : symbol_record_rep} (h : a.declared = b.declared) :
    a.is_formal = b.is_formal ∧ a.is_global = b.is_global
      ∧ a.is_persistent = b.is_persistent ∧ a.value = b.value := by
  cases a
  cases b
  simp only [symbol_record_rep.declared, symbol_record_rep.mk.injEq] at h
  simp only
  exact ⟨h.1, h.2.1, h.2.2.1, h.2.2.2.2.2⟩

theorem assign_entry_nodup (nm : String) (r r2 : Nat) (pre rest : List (String × Nat))
    (h : ((pre ++ (nm, r) :: rest).map Prod.fst).Nodup) :
    (pre ++ (nm, r) :: rest).map (fun e => if e.1 = nm then (e.1, r2) else e)
      = pre ++ (nm, r2) :: rest := by
  rw [List.map_append, List.map_cons] at h
  have h1 := (List.nodup_cons.mp (List.nodup_middle.mp h)).1
  have hid : ∀ l : List (String × Nat), (∀ e, e ∈ l → e.1 ≠ nm) →
      l.map (fun e => if e.1 = nm then (e.1, r2) else e) = l := by
    intro l hl
    conv_rhs => rw [← List.map_id l]
    apply List.map_congr_left
    intro e he
    simp [hl e he]
  have hpre : ∀ e, e ∈ pre → e.1 ≠ nm := fun e he hn =>
    h1 (List.mem_append_left _ (List.mem_map.mpr ⟨e, he, hn⟩))
  have hrest : ∀ e, e ∈ rest → e.1 ≠ nm := fun e he hn =>
    h1 (List.mem_append_right _ (List.mem_map.mpr ⟨e, he, hn⟩))
  rw [List.map_append, List.map_cons, hid pre hpre, hid rest hrest]
  simp

theorem do_update_nest_table_spec (L : look_nonlocal_t) (s p : scope_id) (S0 : nest_state)
    (hL : look_nonlocal_frame L s p S0) :
    ∀ (entries pre : List (String × Nat)) (S : nest_state),
      (∀ q, q ≠ s → S.scopes q = S0.scopes q) →
      (∀ r, (S.reps r).declared = (S0.reps r).declared) →
      (S.scopes s).table = pre ++ entries →
      ((pre ++ entries).map Prod.fst).Nodup →
      ((do_update_nest_table L s p entries S).state.scopes s).table
          = pre ++ (nest_table L S0 p entries).1
        ∧ (do_update_nest_table L s p entries S).is_raised = (nest_table L S0 p entries).2
        ∧ ((do_update_nest_table L s p entries S).is_raised = true →
            ∃ S2, do_update_nest_table L s p entries S = nest_outcome.raised nest_error S2)
        ∧ ((nest_table L S0 p entries).2 = false → ∀ e, e ∈ entries →
            (S0.reps e.2).is_formal = false → (L S0 p e.1).isSome = true →
            ((do_update_nest_table L s p entries S).state.reps e.2).valid = false) := by
  intro entries
  induction entries with
  | nil =>
    intro pre S _ _ ht _
    refine ⟨by simpa [do_update_nest_table, nest_outcome.state, nest_table] using ht, rfl,
      ?_, ?_⟩
    · intro h
      simp [do_update_nest_table, nest_outcome.is_raised] at h
    · intro _ e he
      cases he
  | cons e rest ih =>
    intro pre S ho hd ht hn
    obtain ⟨nm, ours⟩ := e
    have hfl := declared_flags (hd ours)
    have hl : L S p nm = L S0 p nm := hL S ho hd nm
    have hoff : nest_offending L S p (nm, ours) = nest_offending L S0 p (nm, ours) := by
      simp only [nest_offending, hfl.1, hfl.2.1, hfl.2.2.1, hl]
    rw [do_update_nest_table_cons, hoff]
    by_cases hof : nest_offending L S0 p (nm, ours) = true
    · rw [if_pos hof]
      simp only [nest_table, hof, if_true, nest_outcome.state, nest_outcome.is_raised]
      exact ⟨ht, trivial, fun _ => ⟨S, rfl⟩, fun h => by cases h⟩
    · rw [if_neg hof]
      have hnt : nest_table L S0 p ((nm, ours) :: rest)
          = (nest_entry L S0 p (nm, ours) :: (nest_table L S0 p rest).1,
              (nest_table L S0 p rest).2) := by
        simp only [nest_table, hof, Bool.false_eq_true, if_false]
      rw [hnt]
      by_cases hpull : (S.reps ours).is_formal = false ∧ (L S p nm).isSome = true
      · rw [if_pos hpull]
        obtain ⟨parents, hpar⟩ := Option.isSome_iff_exists.mp hpull.2
        have hent : nest_entry L S0 p (nm, ours) = (nm, parents) := by
          simp only [nest_entry, ← hfl.1, hpull.1, if_true, ← hl, hpar]
        have htab : (((S.invalidate ours).assign s nm ((L S p nm).getD 0)).scopes s).table
            = (pre ++ [(nm, parents)]) ++ rest := by
          simp only [nest_state.assign, Function.update_same, nest_state.invalidate, ht, hpar,
            Option.getD_some]
          rw [assign_entry_nodup nm ours parents pre rest hn]
          simp
        have hn2 : (((pre ++ [(nm, parents)]) ++ rest).map Prod.fst).Nodup := by
          simpa using hn
        have hpost := nest_post_trans (nest_post_invalidate S ours)
          (nest_post_assign (S.invalidate ours) s nm ((L S p nm).getD 0))
        have h1 := ih (pre ++ [(nm, parents)]) ((S.invalidate ours).assign s nm ((L S p nm).getD 0))
          (fun q hq => (assign_others _ s nm _ q hq).trans (ho q hq))
          (fun r => (hpost.declared r).trans (hd r)) htab hn2
        refine ⟨?_, h1.2.1, h1.2.2.1, ?_⟩
        · rw [h1.1, hent]
          simp
        · intro hr e he hef hel
          rcases List.mem_cons.mp he with rfl | he2
          · have hv : (((S.invalidate ours).assign s nm ((L S p nm).getD 0)).reps ours).valid
                = false := by
              simp [nest_state.assign, nest_state.invalidate]
            exact (do_update_nest_table_post L s p rest _).1.valid ours hv
          · exact h1.2.2.2 hr e he2 hef hel
      · rw [if_neg hpull]
        have hent : nest_entry L S0 p (nm, ours) = (nm, ours) := by
          simp only [nest_entry, ← hfl.1, ← hl]
          by_cases hf : (S.reps ours).is_formal = false
          · rw [if_pos hf]
            cases hc : L S p nm with
            | none => rfl
            | some x => exact absurd ⟨hf, by rw [hc]; rfl⟩ hpull
          · rw [if_neg hf]
        have hpost := nest_post_set_curr_fcn S ours (S.scopes s).curr_fcn
        have h1 := ih (pre ++ [(nm, ours)]) (S.set_curr_fcn ours (S.scopes s).curr_fcn)
          ho (fun r => (hpost.declared r).trans (hd r))
          (by rw [List.append_assoc]; exact ht) (by rw [List.append_assoc]; exact hn)
        refine ⟨?_, h1.2.1, h1.2.2.1, ?_⟩
        · rw [h1.1, hent]
          simp
        · intro hr e he hef hel
          rcases List.mem_cons.mp he with rfl | he2
          · exfalso
            apply hpull
            exact ⟨hfl.1.trans hef, by rw [hl]; exact hel⟩
          · exact h1.2.2.2 hr e he2 hef hel


theorem set_curr_fcn_all_post (f : Nat) :
    ∀ (entries : List (String × Nat)) (S : nest_state),
      nest_post S (set_curr_fcn_all f entries S)
        ∧ (set_curr_fcn_all f entries S).scopes = S.scopes
        ∧ (set_curr_fcn_all f entries S).visited = S.visited := by
  intro entries
  induction entries with
  | nil => intro S; exact ⟨nest_post_refl S, rfl, rfl⟩
  | cons e rest ih =>
    intro S
    obtain ⟨nm, r⟩ := e
    rw [set_curr_fcn_all]
    have h1 := ih (S.set_curr_fcn r f)
    exact ⟨nest_post_trans (nest_post_set_curr_fcn S r f) h1.1, h1.2.1, h1.2.2⟩

theorem nest_post_visit (S : nest_state) (s : scope_id) :
    nest_post S { S with visited := s :: S.visited } :=
  ⟨fun _ => rfl, fun _ h => h, fun _ => rfl, fun _ => rfl, fun _ => rfl, fun _ => rfl,
    fun _ _ => rfl, fun _ h => List.mem_cons_of_mem _ h⟩

theorem nest_post_mark (S : nest_state) (f : Nat) :
    nest_post S { S with nested := Function.update S.nested f true } :=
  ⟨fun _ => rfl, fun _ h => h, fun _ => rfl, fun _ => rfl, fun _ => rfl, fun _ => rfl,
    fun _ _ => rfl, fun _ h => h⟩

theorem nest_post_static (S : nest_state) (s : scope_id)
    (h : (S.scopes s).nest_parent = none) :
    nest_post S
      { S with scopes :=
          Function.update S.scopes s { S.scopes s with static_workspace := true } } := by
  refine ⟨fun _ => rfl, fun _ h => h, fun q => ?_, fun q => ?_, fun q => ?_, fun q => ?_,
    fun q hq => ?_, fun _ h => h⟩
  all_goals
    by_cases hqs : q = s
    · subst hqs
      first
      | exact absurd h hq
      | simp
    · simp [Function.update, hqs]

theorem do_update_nest_scope_post (L : look_nonlocal_t) (s : scope_id) (S : nest_state) :
    nest_post S (do_update_nest_scope L s S).state
      ∧ (∀ q, q ≠ s → (do_update_nest_scope L s S).state.scopes q = S.scopes q)
      ∧ s ∈ (do_update_nest_scope L s S).state.visited := by
  unfold do_update_nest_scope
  dsimp only
  have hm : nest_post S
      (if ((S.scopes s).nest_parent.isSome || !(S.scopes s).nest_children.isEmpty) = true then
        { S with visited := s :: S.visited,
                 nested := Function.update S.nested (S.scopes s).curr_fcn true }
       else { S with visited := s :: S.visited }) := by
    split
    · exact nest_post_trans (nest_post_visit S s) (nest_post_mark _ _)
    · exact nest_post_visit S s
  have hs : (if ((S.scopes s).nest_parent.isSome || !(S.scopes s).nest_children.isEmpty) = true
      then ({ S with visited := s :: S.visited,
                     nested := Function.update S.nested (S.scopes s).curr_fcn true } : nest_state)
      else { S with visited := s :: S.visited }).scopes = S.scopes := by
    split <;> rfl
  have hv : s ∈ (if ((S.scopes s).nest_parent.isSome || !(S.scopes s).nest_children.isEmpty)
        = true
      then ({ S with visited := s :: S.visited,
                     nested := Function.update S.nested (S.scopes s).curr_fcn true } : nest_state)
      else { S with visited := s :: S.visited }).visited := by
    split <;> exact List.mem_cons_self _ _
  revert hm hs hv
  generalize (if ((S.scopes s).nest_parent.isSome || !(S.scopes s).nest_children.isEmpty) = true
      then ({ S with visited := s :: S.visited,
                     nested := Function.update S.nested (S.scopes s).curr_fcn true } : nest_state)
      else { S with visited := s :: S.visited }) = S1
  intro hm hs hv
  cases hp : (S.scopes s).nest_parent with
  | some p =>
    dsimp only
    have h1 := do_update_nest_table_post L s p (S.scopes s).table S1
    exact ⟨nest_post_trans hm h1.1, fun q hq => (h1.2.1 q hq).trans (by rw [hs]),
      by rw [h1.2.2]; exact hv⟩
  | none =>
    dsimp only
    split
    · have hp1 : (S1.scopes s).nest_parent = none := by rw [hs]; exact hp
      have h1 := set_curr_fcn_all_post (S.scopes s).curr_fcn (S.scopes s).table
        { S1 with scopes :=
            Function.update S1.scopes s { S1.scopes s with static_workspace := true } }
      refine ⟨nest_post_trans hm (nest_post_trans (nest_post_static S1 s hp1) h1.1), ?_, ?_⟩
      · intro q hq
        simp only [nest_outcome.state]
        rw [h1.2.1]
        simp [Function.update, hq, hs]
      · simp only [nest_outcome.state]
        rw [h1.2.2]
        exact hv
    · exact ⟨hm, fun q _ => by simp only [nest_outcome.state]; rw [hs], hv⟩


theorem do_update_nest_scope_nested (L : look_nonlocal_t) (s p : scope_id) (S : nest_state)
    (hp : (S.scopes s).nest_parent = some p) (hL : look_nonlocal_frame L s p S)
    (hn : ((S.scopes s).table.map Prod.fst).Nodup) :
    ((do_update_nest_scope L s S).state.scopes s).table
        = (nest_table L S p (S.scopes s).table).1
      ∧ (do_update_nest_scope L s S).is_raised = (nest_table L S p (S.scopes s).table).2
      ∧ ((do_update_nest_scope L s S).is_raised = true →
          ∃ S2, do_update_nest_scope L s S = nest_outcome.raised nest_error S2)
      ∧ ((nest_table L S p (S.scopes s).table).2 = false → ∀ e, e ∈ (S.scopes s).table →
          (S.reps e.2).is_formal = false → (L S p e.1).isSome = true →
          ((do_update_nest_scope L s S).state.reps e.2).valid = false) := by
  have hx : do_update_nest_scope L s S
      = do_update_nest_table L s p (S.scopes s).table
          { S with visited := s :: S.visited,
                   nested := Function.update S.nested (S.scopes s).curr_fcn true } := by
    unfold do_update_nest_scope
    simp only [hp, Option.isSome_some, Bool.true_or, if_true]
  rw [hx]
  have h := do_update_nest_table_spec L s p S hL (S.scopes s).table []
    { S with visited := s :: S.visited,
             nested := Function.update S.nested (S.scopes s).curr_fcn true }
    (fun _ _ => rfl) (fun _ => rfl) rfl hn
  simpa using h

theorem do_update_nest_scope_top (L : look_nonlocal_t) (s : scope_id) (S : nest_state)
    (hp : (S.scopes s).nest_parent = none) (hc : (S.scopes s).nest_children ≠ []) :
    (do_update_nest_scope L s S).is_raised = false
      ∧ ((do_update_nest_scope L s S).state.scopes s).static_workspace = true := by
  have hne : (S.scopes s).nest_children.isEmpty = false := by
    cases h : (S.scopes s).nest_children with
    | nil => exact absurd h hc
    | cons a l => rfl
  unfold do_update_nest_scope
  simp only [hp, hne, Option.isSome_none, Bool.false_or, Bool.not_false, if_true,
    nest_outcome.is_raised, nest_outcome.state, true_and]
  rw [(set_curr_fcn_all_post _ _ _).2.1]
  simp

theorem nest_ranked_post {S S2 : nest_state} {rank : scope_id → Nat} (h : nest_post S S2)
    (hr : nest_ranked S rank) : nest_ranked S2 rank := by
  intro q c hc
  rw [h.nest_children q] at hc
  exact hr q c hc

theorem nest_descendant_post {S S2 : nest_state} (h : nest_post S S2) {q d : scope_id}
    (hd : nest_descendant S q d) : nest_descendant S2 q d := by
  induction hd with
  | child hc => exact nest_descendant.child (by rw [h.nest_children]; exact hc)
  | step hc _ ih => exact nest_descendant.step (by rw [h.nest_children]; exact hc) ih


theorem do_update_nest_children_run (L : look_nonlocal_t) (rank : scope_id → Nat) (bound : Nat)
    (run : scope_id → nest_state → Option nest_outcome)
    (hrun : ∀ c S, nest_ranked S rank → rank c < bound →
      ∃ o, run c S = some o ∧ nest_run L rank c S o) :
    ∀ (cs : List scope_id) (S : nest_state), nest_ranked S rank →
      (∀ c, c ∈ cs → rank c < bound) →
      ∃ o, do_update_nest_children run cs S = some o ∧ nest_post S o.state
        ∧ (∀ q, (∀ c, c ∈ cs → rank c < rank q) → o.state.scopes q = S.scopes q)
        ∧ (o.is_raised = false → ∀ c, c ∈ cs →
            c ∈ o.state.visited ∧ ∀ d, nest_descendant S c d → d ∈ o.state.visited) := by
  intro cs
  induction cs with
  | nil =>
    intro S _ _
    exact ⟨nest_outcome.done S, rfl, nest_post_refl S, fun _ _ => rfl,
      fun _ c hc => by cases hc⟩
  | cons c rest ih =>
    intro S hr hb
    obtain ⟨o1, ho1, h1⟩ := hrun c S hr (hb c (List.mem_cons_self _ _))
    rw [do_update_nest_children, ho1]
    cases o1 with
    | raised m S1 =>
      refine ⟨nest_outcome.raised m S1, rfl, h1.post, fun q hq => ?_, fun h => by cases h⟩
      have hlt := hq c (List.mem_cons_self _ _)
      exact h1.above q (le_of_lt hlt) (fun h => by rw [h] at hlt; exact lt_irrefl _ hlt)
    | done S1 =>
      have hp1 : nest_post S S1 := h1.post
      obtain ⟨o2, ho2, hp2, ha2, hv2⟩ := ih S1 (nest_ranked_post hp1 hr)
        (fun x hx => hb x (List.mem_cons_of_mem _ hx))
      refine ⟨o2, ho2, nest_post_trans hp1 hp2, fun q hq => ?_, fun hnr x hx => ?_⟩
      · have hlt := hq c (List.mem_cons_self _ _)
        rw [ha2 q (fun x hx => hq x (List.mem_cons_of_mem _ hx))]
        exact h1.above q (le_of_lt hlt) (fun h => by rw [h] at hlt; exact lt_irrefl _ hlt)
      · rcases List.mem_cons.mp hx with rfl | hx2
        · have hv1 := h1.visited rfl
          exact ⟨hp2.visited _ hv1.1, fun d hd => hp2.visited _ (hv1.2 d hd)⟩
        · have hv := hv2 hnr x hx2
          exact ⟨hv.1, fun d hd => hv.2 d (nest_descendant_post hp1 hd)⟩

theorem do_update_nest_run (L : look_nonlocal_t) (rank : scope_id → Nat) :
    ∀ (n : Nat) (s : scope_id) (S : nest_state), nest_ranked S rank → rank s < n →
      ∃ o, do_update_nest L n s S = some o ∧ nest_run L rank s S o := by
  intro n
  induction n with
  | zero => intro s S _ h; exact absurd h (Nat.not_lt_zero _)
  | succ n ih =>
    intro s S hr hlt
    have hb := do_update_nest_scope_post L s S
    rw [do_update_nest]
    cases ho : do_update_nest_scope L s S with
    | raised m S1 =>
      rw [ho] at hb
      refine ⟨nest_outcome.raised m S1, by simp only [ho], hb.1,
        by rw [ho]; exact nest_post_refl _, fun q _ hq => hb.2.1 q hq,
        by rw [ho], fun _ => ho.symm, fun h => by cases h⟩
    | done S1 =>
      rw [ho] at hb
      simp only [ho]
      have hp1 : nest_post S S1 := hb.1
      have hcs : (S1.scopes s).nest_children = (S.scopes s).nest_children :=
        hp1.nest_children s
      have hrk : ∀ c, c ∈ (S1.scopes s).nest_children → rank c < rank s := by
        intro c hc
        rw [hcs] at hc
        exact hr s c hc
      obtain ⟨o, hoc, hp2, ha2, hv2⟩ := do_update_nest_children_run L rank n (do_update_nest L n)
        ih (S1.scopes s).nest_children S1 (nest_ranked_post hp1 hr)
        (fun c hc => lt_of_lt_of_le (hrk c hc) (Nat.lt_succ_iff.mp hlt))
      refine ⟨o, hoc, nest_post_trans hp1 hp2, by rw [ho]; exact hp2, fun q hq hne => ?_, ?_,
        (fun h => by rw [ho] at h; cases h),
        fun hnr => ⟨hp2.visited _ hb.2.2, fun d hd => ?_⟩⟩
      · rw [ha2 q (fun c hc => lt_of_lt_of_le (hrk c hc) hq)]
        exact hb.2.1 q hne
      · rw [ha2 s hrk, ho]
        rfl
      · cases hd with
        | child hc => exact (hv2 hnr _ (by rw [hcs]; exact hc)).1
        | step hc hd2 =>
          exact (hv2 hnr _ (by rw [hcs]; exact hc)).2 _ (nest_descendant_post hp1 hd2)


theorem nest_table_clean (L : look_nonlocal_t) (S : nest_state) (p : scope_id) :
    ∀ l : List (String × Nat), (∀ e, e ∈ l → nest_offending L S p e = false) →
      nest_table L S p l = (l.map (nest_entry L S p), false) := by
  intro l
  induction l with
  | nil => intro _; rfl
  | cons e rest ih =>
    intro h
    have he := h e (List.mem_cons_self _ _)
    simp only [nest_table, he, Bool.false_eq_true, if_false, List.map_cons,
      ih (fun x hx => h x (List.mem_cons_of_mem _ hx))]

theorem nest_table_offending (L : look_nonlocal_t) (S : nest_state) (p : scope_id)
    (e : String × Nat) (he : nest_offending L S p e = true) :
    ∀ l : List (String × Nat), e ∈ l →
      (nest_table L S p l).2 = true ∧ e ∈ (nest_table L S p l).1 := by
  intro l
  induction l with
  | nil => intro h; cases h
  | cons x rest ih =>
    intro h
    by_cases hx : nest_offending L S p x = true
    · simp only [nest_table, hx, if_true]
      exact ⟨trivial, h⟩
    · simp only [nest_table, hx, if_false]
      rcases List.mem_cons.mp h with rfl | h2
      · exact absurd he hx
      · exact ⟨(ih h2).1, List.mem_cons_of_mem _ (ih h2).2⟩

theorem nest_table_raised (L : look_nonlocal_t) (S : nest_state) (p : scope_id) :
    ∀ l : List (String × Nat), (nest_table L S p l).2 = true →
      ∃ e, e ∈ l ∧ nest_offending L S p e = true := by
  intro l
  induction l with
  | nil => intro h; cases h
  | cons x rest ih =>
    intro h
    by_cases hx : nest_offending L S p x = true
    · exact ⟨x, List.mem_cons_self _ _, hx⟩
    · simp only [nest_table, hx, if_false] at h
      obtain ⟨e, he, ho⟩ := ih h
      exact ⟨e, List.mem_cons_of_mem _ he, ho⟩

theorem do_update_nest_leaf (L : look_nonlocal_t) (n : Nat) (s : scope_id) (S : nest_state)
    (hc : (S.scopes s).nest_children = []) :
    do_update_nest L (n + 1) s S = some (do_update_nest_scope L s S) := by
  have hb := (do_update_nest_scope_post L s S).1.nest_children s
  rw [do_update_nest]
  cases ho : do_update_nest_scope L s S with
  | raised m S1 => simp only [ho]
  | done S1 =>
    rw [ho] at hb
    have h1 : (S1.scopes s).nest_children = [] := hb.trans hc
    simp only [ho, h1, do_update_nest_children]

theorem sample_look_nonlocal_frame (s p : scope_id) (S : nest_state) (h : p ≠ s) :
    look_nonlocal_frame sample_look_nonlocal s p S := by
  intro S2 ho _ nm
  simp only [sample_look_nonlocal, ho p h]


theorem nest_offending_iff (L : look_nonlocal_t) (S : nest_state) (p : scope_id)
    (e : String × Nat) :
    nest_offending L S p e = true ↔
      (S.reps e.2).is_formal = false ∧ (L S p e.1).isSome = true
        ∧ ((S.reps e.2).is_global = true ∨ (S.reps e.2).is_persistent = true) := by
  simp [nest_offending, and_assoc]

theorem nest_ranked_sample (S : nest_state) (h : S.scopes = sample_nest.scopes) :
    nest_ranked S sample_rank := by
  intro q c hc
  rw [h] at hc
  by_cases h5 : q = 5
  · subst h5
    simp only [sample_nest, if_true, List.mem_singleton] at hc
    subst hc
    decide
  · by_cases h6 : q = 6
    · subst h6
      simp [sample_nest, lone_scope] at hc
    · simp [sample_nest, lone_scope, h5, h6] at hc

theorem nest_table_split (L : look_nonlocal_t) (S : nest_state) (p : scope_id) :
    ∀ l : List (String × Nat),
      (nest_table L S p l).1
          = (nest_reached L S p l).map (nest_entry L S p) ++ nest_left L S p l
        ∧ ((nest_table L S p l).2 = true ↔ nest_left L S p l ≠ []) := by
  intro l
  induction l with
  | nil => simp [nest_table, nest_reached, nest_left]
  | cons e rest ih =>
    by_cases he : nest_offending L S p e = true
    · simp [nest_table, nest_reached, nest_left, he]
    · have he2 : nest_offending L S p e = false := by simpa using he
      simp only [nest_reached, nest_left] at ih
      simp [nest_table, nest_reached, nest_left, he2, ih.1, ih.2]

theorem nest_reached_clean (L : look_nonlocal_t) (S : nest_state) (p : scope_id) :
    ∀ l : List (String × Nat), (∀ e, e ∈ l → nest_offending L S p e = false) →
      nest_reached L S p l = l ∧ nest_left L S p l = [] := by
  intro l
  induction l with
  | nil => intro _; exact ⟨rfl, rfl⟩
  | cons e rest ih =>
    intro h
    have he := h e (List.mem_cons_self _ _)
    have h2 := ih (fun x hx => h x (List.mem_cons_of_mem _ hx))
    simp only [nest_reached, nest_left] at h2
    simp [nest_reached, nest_left, he, h2.1, h2.2]

theorem do_update_nest_table_reached (L : look_nonlocal_t) (s p : scope_id) (S0 : nest_state)
    (hL : look_nonlocal_frame L s p S0) :
    ∀ (entries : List (String × Nat)) (S : nest_state),
      (∀ q, q ≠ s → S.scopes q = S0.scopes q) →
      (∀ r, (S.reps r).declared = (S0.reps r).declared) →
      ∀ e, e ∈ nest_reached L S0 p entries →
        (S0.reps e.2).is_formal = false → (L S0 p e.1).isSome = true →
        ((do_update_nest_table L s p entries S).state.reps e.2).valid = false := by
  intro entries
  induction entries with
  | nil =>
    intro S _ _ e he
    simp [nest_reached] at he
  | cons x rest ih =>
    intro S ho hd e he hef hel
    obtain ⟨nm, ours⟩ := x
    have hfl := declared_flags (hd ours)
    have hl : L S p nm = L S0 p nm := hL S ho hd nm
    have hoff : nest_offending L S p (nm, ours) = nest_offending L S0 p (nm, ours) := by
      simp only [nest_offending, hfl.1, hfl.2.1, hfl.2.2.1, hl]
    by_cases hof : nest_offending L S0 p (nm, ours) = true
    · simp [nest_reached, hof] at he
    · have hof2 : nest_offending L S0 p (nm, ours) = false := by simpa using hof
      have hmem : e = (nm, ours) ∨ e ∈ nest_reached L S0 p rest := by
        simpa [nest_reached, hof2] using he
      rw [do_update_nest_table_cons, hoff, if_neg hof]
      by_cases hpull : (S.reps ours).is_formal = false ∧ (L S p nm).isSome = true
      · rw [if_pos hpull]
        have hpost := nest_post_trans (nest_post_invalidate S ours)
          (nest_post_assign (S.invalidate ours) s nm ((L S p nm).getD 0))
        rcases hmem with rfl | hm
        · have hv : (((S.invalidate ours).assign s nm ((L S p nm).getD 0)).reps ours).valid
              = false := by
            simp [nest_state.assign, nest_state.invalidate]
          exact (do_update_nest_table_post L s p rest _).1.valid ours hv
        · exact ih ((S.invalidate ours).assign s nm ((L S p nm).getD 0))
            (fun q hq => (assign_others _ s nm _ q hq).trans (ho q hq))
            (fun r => (hpost.declared r).trans (hd r)) e hm hef hel
      · rw [if_neg hpull]
        have hpost := nest_post_set_curr_fcn S ours (S.scopes s).curr_fcn
        rcases hmem with rfl | hm
        · exfalso
          apply hpull
          exact ⟨hfl.1.trans hef, by rw [hl]; exact hel⟩
        · exact ih (S.set_curr_fcn ours (S.scopes s).curr_fcn) ho
            (fun r => (hpost.declared r).trans (hd r)) e hm hef hel

theorem do_update_nest_scope_reached (L : look_nonlocal_t) (s p : scope_id) (S : nest_state)
    (hp : (S.scopes s).nest_parent = some p) (hL : look_nonlocal_frame L s p S) :
    ∀ e, e ∈ nest_reached L S p (S.scopes s).table →
      (S.reps e.2).is_formal = false → (L S p e.1).isSome = true →
      ((do_update_nest_scope L s S).state.reps e.2).valid = false := by
  have hx : do_update_nest_scope L s S
      = do_update_nest_table L s p (S.scopes s).table
          { S with visited := s :: S.visited,
                   nested := Function.update S.nested (S.scopes s).curr_fcn true } := by
    unfold do_update_nest_scope
    simp only [hp, Option.isSome_some, Bool.true_or, if_true]
  rw [hx]
  exact do_update_nest_table_reached L s p S hL (S.scopes s).table _ (fun _ _ => rfl)
    (fun _ => rfl)

/-- C27, as stated, fails: in `global_x_y_nest` the child 6 has the nest
parent 5 and holds `y`, a plain variable that the parent resolves (to its
record 1), after `x`, which is global in the child and resolved by the
parent; `do_update_nest` raises the error at `x`, and the entry of `y` is
still the own record 4 of the child, which is still valid. -/
theorem do_update_nest_stops_at_global :
    (global_x_y_nest.scopes 6).nest_parent = some 5
      ∧ ("y", 4) ∈ (global_x_y_nest.scopes 6).table
      ∧ (global_x_y_nest.reps 4).is_formal = false
      ∧ (global_x_y_nest.reps 4).is_global = false
      ∧ (global_x_y_nest.reps 4).is_persistent = false
      ∧ sample_look_nonlocal global_x_y_nest 5 "y" = some 1
      ∧ (do_update_nest sample_look_nonlocal 1 6 global_x_y_nest).map
          (fun o => (o.is_raised, (o.state.scopes 6).table, (o.state.reps 4).valid))
        = some (true, [("x", 3), ("y", 4)], true) := by
  decide

/-- C27, amended: for a scope `s` with nest parent `p`, in a finite nest
tree, with a table whose names are distinct and a `look_nonlocal` of the
parent that does not read the table of `s`: `do_update_nest` returns; it
handles the names of the table in order up to the first non-formal name
resolved by the parent that is global or persistent in `s`, where it raises
the error. Afterwards the table of `s` holds, for every non-formal name
before that point that the parent resolves, the record of the parent (whose
value is unchanged) in place of the own record, which is invalidated; for
every formal parameter and every name that the parent does not resolve
before that point, the own record; and for every name from that point on,
the own record. When the table holds no such global or persistent name,
every name of the table is before that point. -/
theorem do_update_nest_pulls (L : look_nonlocal_t) (rank : scope_id → Nat) (fuel : Nat)
    (s p : scope_id) (S : nest_state)
    (hp : (S.scopes s).nest_parent = some p)
    (hL : look_nonlocal_frame L s p S)
    (hn : ((S.scopes s).table.map Prod.fst).Nodup)
    (hr : nest_ranked S rank) (hlt : rank s < fuel) :
    ∃ o, do_update_nest L fuel s S = some o
      ∧ (o.state.scopes s).table
          = (nest_reached L S p (S.scopes s).table).map (nest_entry L S p)
              ++ nest_left L S p (S.scopes s).table
      ∧ (∀ e parents, e ∈ nest_reached L S p (S.scopes s).table →
          (S.reps e.2).is_formal = false → L S p e.1 = some parents →
          (e.1, parents) ∈ (o.state.scopes s).table ∧ (o.state.reps e.2).valid = false
            ∧ (o.state.reps parents).value = (S.reps parents).value)
      ∧ (∀ e, e ∈ nest_reached L S p (S.scopes s).table →
          ((S.reps e.2).is_formal = true ∨ L S p e.1 = none) →
          e ∈ (o.state.scopes s).table)
      ∧ (∀ e, e ∈ nest_left L S p (S.scopes s).table → e ∈ (o.state.scopes s).table)
      ∧ (nest_left L S p (S.scopes s).table ≠ [] →
          ∃ S2, o = nest_outcome.raised nest_error S2)
      ∧ ((∀ e, e ∈ (S.scopes s).table → (S.reps e.2).is_formal = false →
            (L S p e.1).isSome = true →
            (S.reps e.2).is_global = false ∧ (S.reps e.2).is_persistent = false) →
          nest_reached L S p (S.scopes s).table = (S.scopes s).table
            ∧ (o.state.scopes s).table = (S.scopes s).table.map (nest_entry L S p)) := by
  obtain ⟨o, ho, hrun⟩ := do_update_nest_run L rank fuel s S hr hlt
  have hb := do_update_nest_scope_nested L s p S hp hL hn
  have hsplit := nest_table_split L S p (S.scopes s).table
  have htab : (o.state.scopes s).table
      = (nest_reached L S p (S.scopes s).table).map (nest_entry L S p)
          ++ nest_left L S p (S.scopes s).table := by
    rw [hrun.own, hb.1, hsplit.1]
  refine ⟨o, ho, htab, fun e parents he hf hl => ⟨?_, ?_, ?_⟩, fun e he hc => ?_,
    fun e he => ?_, fun hne => ?_, fun hok => ?_⟩
  · rw [htab]
    have hent : nest_entry L S p e = (e.1, parents) := by
      simp only [nest_entry, hf, if_true, hl]
    rw [← hent]
    exact List.mem_append_left _ (List.mem_map_of_mem _ he)
  · exact hrun.after.valid e.2
      (do_update_nest_scope_reached L s p S hp hL e he hf (by rw [hl]; rfl))
  · exact (declared_flags (hrun.post.declared parents)).2.2.2
  · rw [htab]
    have hent : nest_entry L S p e = e := by
      rcases hc with hc | hc
      · simp [nest_entry, hc]
      · simp only [nest_entry, hc]
        split <;> rfl
    have hm := List.mem_map_of_mem (nest_entry L S p) he
    rw [hent] at hm
    exact List.mem_append_left _ hm
  · rw [htab]
    exact List.mem_append_right _ he
  · have hraised : (do_update_nest_scope L s S).is_raised = true :=
      hb.2.1.trans (hsplit.2.mpr hne)
    obtain ⟨S2, h2⟩ := hb.2.2.1 hraised
    exact ⟨S2, (hrun.own_raised hraised).trans h2⟩
  · have hno : ∀ e, e ∈ (S.scopes s).table → nest_offending L S p e = false := by
      intro e he
      cases hc : nest_offending L S p e with
      | false => rfl
      | true =>
        obtain ⟨h1, h2, h3⟩ := (nest_offending_iff L S p e).mp hc
        have h4 := hok e he h1 h2
        rcases h3 with h3 | h3
        · rw [h4.1] at h3; cases h3
        · rw [h4.2] at h3; cases h3
    have hcl := nest_reached_clean L S p (S.scopes s).table hno
    refine ⟨hcl.1, ?_⟩
    rw [htab, hcl.1, hcl.2, List.append_nil]

/-- C27 amended, at a concrete input: the nest child 6 of the sample nest,
whose own `x` is replaced by the record 0 of the parent, and whose formal
parameter `a` and variable `z` keep their records. -/
theorem do_update_nest_pulls_witness :
    (sample_nest.scopes 6).nest_parent = some 5
      ∧ ∃ o, do_update_nest sample_look_nonlocal 1 6 sample_nest = some o
          ∧ (o.state.scopes 6).table = [("a", 2), ("x", 0), ("z", 4)]
          ∧ (o.state.reps 3).valid = false
          ∧ (o.state.reps 0).value = octave_value.data 7 :=
  have h := do_update_nest_pulls sample_look_nonlocal sample_rank 1 6 5 sample_nest rfl
    (sample_look_nonlocal_frame 6 5 sample_nest (by decide)) (by decide)
    (nest_ranked_sample sample_nest rfl) (by decide)
  ⟨rfl, h.choose, h.choose_spec.1, h.choose_spec.2.1.trans (by decide),
    (h.choose_spec.2.2.1 ("x", 3) 0 (by decide) rfl rfl).2.1,
    (h.choose_spec.2.2.1 ("x", 3) 0 (by decide) rfl rfl).2.2⟩


theorem do_update_nest_of_raised (L : look_nonlocal_t) (n : Nat) (s : scope_id) (S : nest_state)
    (m : String) (S2 : nest_state) (h : do_update_nest_scope L s S = nest_outcome.raised m S2) :
    do_update_nest L (n + 1) s S = some (nest_outcome.raised m S2) := by
  rw [do_update_nest]
  simp only [h]

/-- C28: for a scope `s` with nest parent `p`, with a table whose names are
distinct and a `look_nonlocal` of the parent that does not read the table of
`s`: if the table holds a non-formal record, flagged global or persistent,
under a name that the parent resolves, `do_update_nest` raises the error
"global and persistent may only be used in the topmost level in which a
nested variable is used", and the table of `s` still holds that record under
that name. -/
theorem do_update_nest_raises (L : look_nonlocal_t) (n : Nat) (s p : scope_id) (S : nest_state)
    (e : String × Nat)
    (hp : (S.scopes s).nest_parent = some p)
    (hL : look_nonlocal_frame L s p S)
    (hn : ((S.scopes s).table.map Prod.fst).Nodup)
    (he : e ∈ (S.scopes s).table) (hf : (S.reps e.2).is_formal = false)
    (hres : (L S p e.1).isSome = true)
    (hg : (S.reps e.2).is_global = true ∨ (S.reps e.2).is_persistent = true) :
    ∃ S2, do_update_nest L (n + 1) s S
        = some (nest_outcome.raised
            "global and persistent may only be used in the topmost level in which a nested variable is used"
            S2)
      ∧ e ∈ (S2.scopes s).table := by
  have hoff := (nest_offending_iff L S p e).mpr ⟨hf, hres, hg⟩
  have ht := nest_table_offending L S p e hoff (S.scopes s).table he
  have hb := do_update_nest_scope_nested L s p S hp hL hn
  obtain ⟨S2, h2⟩ := hb.2.2.1 (hb.2.1.trans ht.1)
  refine ⟨S2, do_update_nest_of_raised L n s S _ S2 h2, ?_⟩
  have h3 := hb.1
  rw [h2] at h3
  simp only [nest_outcome.state] at h3
  rw [h3]
  exact ht.2

/-- C28, at a concrete input: the nest child 6 of the sample nest with its
own `x`, which the parent binds, flagged global. -/
theorem do_update_nest_raises_witness :
    (global_x_nest.scopes 6).nest_parent = some 5
      ∧ (global_x_nest.reps 3).is_global = true
      ∧ ∃ S2, do_update_nest sample_look_nonlocal 1 6 global_x_nest
          = some (nest_outcome.raised nest_error S2)
        ∧ ("x", 3) ∈ (S2.scopes 6).table :=
  ⟨rfl, rfl,
    do_update_nest_raises sample_look_nonlocal 0 6 5 global_x_nest ("x", 3) rfl
      (sample_look_nonlocal_frame 6 5 global_x_nest (by decide)) (by decide) (by decide) rfl rfl
      (Or.inl rfl)⟩

/-- C29, as stated, fails: the nest child 6 of `global_z_nest` has a nest
parent and holds the record of `z` flagged global, the parent does not bind
`z`, and `do_update_nest` ends without raising the error. -/
theorem do_update_nest_global_unbound :
    (global_z_nest.scopes 6).nest_parent = some 5
      ∧ ("z", 4) ∈ (global_z_nest.scopes 6).table
      ∧ (global_z_nest.reps 4).is_global = true
      ∧ (do_update_nest sample_look_nonlocal 1 6 global_z_nest).map nest_outcome.is_raised
          = some false := by
  decide

/-- C29, amended: for a scope `s` with nest parent `p`, with a table whose
names are distinct and a `look_nonlocal` of the parent that does not read the
table of `s`, the body of `do_update_nest` for `s` raises the error if and
only if the table holds a non-formal record, flagged global or persistent,
under a name that the parent resolves; `do_update_nest` then raises it, and
when `s` has no nest children the outcome of that body is the outcome of
`do_update_nest`. -/
theorem do_update_nest_raises_iff (L : look_nonlocal_t) (n : Nat) (s p : scope_id)
    (S : nest_state)
    (hp : (S.scopes s).nest_parent = some p)
    (hL : look_nonlocal_frame L s p S)
    (hn : ((S.scopes s).table.map Prod.fst).Nodup) :
    ((do_update_nest_scope L s S).is_raised = true ↔
        ∃ e, e ∈ (S.scopes s).table ∧ (S.reps e.2).is_formal = false
          ∧ (L S p e.1).isSome = true
          ∧ ((S.reps e.2).is_global = true ∨ (S.reps e.2).is_persistent = true))
      ∧ ((do_update_nest_scope L s S).is_raised = true →
          ∃ S2, do_update_nest L (n + 1) s S = some (nest_outcome.raised nest_error S2))
      ∧ ((S.scopes s).nest_children = [] →
          do_update_nest L (n + 1) s S = some (do_update_nest_scope L s S)) := by
  have hb := do_update_nest_scope_nested L s p S hp hL hn
  refine ⟨⟨fun h => ?_, fun ⟨e, he, h1⟩ => ?_⟩, fun h => ?_, do_update_nest_leaf L n s S⟩
  · rw [hb.2.1] at h
    obtain ⟨e, he, ho⟩ := nest_table_raised L S p _ h
    exact ⟨e, he, (nest_offending_iff L S p e).mp ho⟩
  · rw [hb.2.1]
    exact (nest_table_offending L S p e ((nest_offending_iff L S p e).mpr h1) _ he).1
  · obtain ⟨S2, h2⟩ := hb.2.2.1 h
    exact ⟨S2, do_update_nest_of_raised L n s S _ S2 h2⟩

/-- C29 amended, at a concrete input: the nest child 6 of `global_z_nest`,
which has no nest children and whose global `z` the parent does not bind: the
body raises no error, and its outcome is that of `do_update_nest`. -/
theorem do_update_nest_raises_iff_witness :
    (global_z_nest.scopes 6).nest_parent = some 5
      ∧ (do_update_nest_scope sample_look_nonlocal 6 global_z_nest).is_raised = false
      ∧ do_update_nest sample_look_nonlocal 1 6 global_z_nest
          = some (do_update_nest_scope sample_look_nonlocal 6 global_z_nest) :=
  ⟨rfl, by decide,
    (do_update_nest_raises_iff sample_look_nonlocal 0 6 5 global_z_nest rfl
      (sample_look_nonlocal_frame 6 5 global_z_nest (by decide)) (by decide)).2.2 rfl⟩

theorem nest_run_visited {L : look_nonlocal_t} {rank : scope_id → Nat} {s : scope_id}
    {S : nest_state} {o : nest_outcome} (h : nest_run L rank s S o) : s ∈ o.state.visited :=
  h.after.visited s (do_update_nest_scope_post L s S).2.2

/-- C30, as stated, fails: in `two_children_nest` the scope 5 has no nest
parent and the nest children 6 and 7; the run of `do_update_nest` on the
child 6 raises the error, and the run on the scope 5 ends with the error
raised, the flag `static_workspace` of the scope 5 set, and the child 7 not
visited. -/
theorem do_update_nest_skips_child :
    (two_children_nest.scopes 5).nest_parent = none
      ∧ (two_children_nest.scopes 5).nest_children = [6, 7]
      ∧ two_children_nest.visited = []
      ∧ (do_update_nest sample_look_nonlocal 2 5 two_children_nest).map
          (fun o => (o.is_raised, (o.state.scopes 5).static_workspace, o.state.visited))
        = some (true, true, [6, 5]) := by
  decide

/-- C30, amended: on a scope `s` with no nest parent and at least one nest
child, in a finite nest tree, `do_update_nest` returns; the flag
`static_workspace` of `s` is then true; the run has visited `s` and the first
nest child of `s`; unless the error was raised, it has visited every nest
child of `s` and every scope below them; and the flag `static_workspace` of
every scope that has a nest parent is as it was. -/
theorem do_update_nest_top (L : look_nonlocal_t) (rank : scope_id → Nat) (fuel : Nat)
    (s : scope_id) (S : nest_state)
    (hp : (S.scopes s).nest_parent = none) (hc : (S.scopes s).nest_children ≠ [])
    (hr : nest_ranked S rank) (hlt : rank s < fuel) :
    ∃ o, do_update_nest L fuel s S = some o
      ∧ (o.state.scopes s).static_workspace = true
      ∧ s ∈ o.state.visited
      ∧ (∀ c rest, (S.scopes s).nest_children = c :: rest → c ∈ o.state.visited)
      ∧ (o.is_raised = false →
          s ∈ o.state.visited
            ∧ (∀ c, c ∈ (S.scopes s).nest_children → c ∈ o.state.visited)
            ∧ ∀ d, nest_descendant S s d → d ∈ o.state.visited)
      ∧ ∀ q, (S.scopes q).nest_parent ≠ none →
          (o.state.scopes q).static_workspace = (S.scopes q).static_workspace := by
  obtain ⟨o, ho, hrun⟩ := do_update_nest_run L rank fuel s S hr hlt
  refine ⟨o, ho, ?_, nest_run_visited hrun, fun c rest hcs => ?_, fun hnr => ?_,
    hrun.post.static_workspace⟩
  · rw [hrun.own]
    exact (do_update_nest_scope_top L s S hp hc).2
  · obtain ⟨n, rfl⟩ : ∃ n, fuel = n + 1 := ⟨fuel - 1, by omega⟩
    have hb := do_update_nest_scope_post L s S
    have htop := (do_update_nest_scope_top L s S hp hc).1
    rw [do_update_nest] at ho
    cases hsc : do_update_nest_scope L s S with
    | raised m S1 =>
      rw [hsc] at htop
      cases htop
    | done S1 =>
      rw [hsc] at hb
      simp only [hsc] at ho
      have hp1 : nest_post S S1 := hb.1
      have hcs1 : (S1.scopes s).nest_children = c :: rest :=
        (hp1.nest_children s).trans hcs
      rw [hcs1, do_update_nest_children] at ho
      have hrc : rank c < n :=
        lt_of_lt_of_le (hr s c (by rw [hcs]; exact List.mem_cons_self _ _))
          (Nat.lt_succ_iff.mp hlt)
      obtain ⟨o1, ho1, h1⟩ := do_update_nest_run L rank n c S1 (nest_ranked_post hp1 hr) hrc
      rw [ho1] at ho
      have hv1 := nest_run_visited h1
      cases o1 with
      | raised m S2 =>
        simp only [Option.some.injEq] at ho
        rw [← ho]
        exact hv1
      | done S2 =>
        simp only at ho
        obtain ⟨o2, ho2, hp2, _, _⟩ := do_update_nest_children_run L rank n
          (do_update_nest L n) (fun c2 S3 h3 hlt3 => do_update_nest_run L rank n c2 S3 h3 hlt3)
          rest S2 (nest_ranked_post h1.post (nest_ranked_post hp1 hr))
          (fun x hx => lt_of_lt_of_le
            (hr s x (by rw [hcs]; exact List.mem_cons_of_mem _ hx)) (Nat.lt_succ_iff.mp hlt))
        rw [ho2] at ho
        simp only [Option.some.injEq] at ho
        rw [← ho]
        exact hp2.visited c hv1
  · have hv := hrun.visited hnr
    exact ⟨hv.1, fun c hcc => hv.2 c (nest_descendant.child hcc), hv.2⟩

/-- C30 amended, at a concrete input: the scope 5 of the sample nest, with its nest
child 6. -/
theorem do_update_nest_top_witness :
    (sample_nest.scopes 5).nest_parent = none
      ∧ (sample_nest.scopes 5).nest_children = [6]
      ∧ (sample_nest.scopes 5).static_workspace = false
      ∧ sample_nest.visited = []
      ∧ ∃ o, do_update_nest sample_look_nonlocal 2 5 sample_nest = some o
          ∧ (o.state.scopes 5).static_workspace = true
          ∧ (o.state.scopes 6).static_workspace = false
          ∧ 6 ∈ o.state.visited :=
  have h := do_update_nest_top sample_look_nonlocal sample_rank 2 5 sample_nest rfl (by decide)
    (nest_ranked_sample sample_nest rfl) (by decide)
  have hd : (do_update_nest sample_look_nonlocal 2 5 sample_nest).map nest_outcome.is_raised
      = some false := by decide
  have hnr : h.choose.is_raised = false := by
    rw [h.choose_spec.1] at hd
    exact Option.some.inj hd
  ⟨rfl, rfl, rfl, rfl, h.choose, h.choose_spec.1, h.choose_spec.2.1,
    (h.choose_spec.2.2.2.2.2 6 (by decide)).trans rfl,
    (h.choose_spec.2.2.2.2.1 hnr).2.1 6 (by decide)⟩


/-! ### The walk over the parent scopes -/

theorem scope_chain_shape (G : State) :
    ∀ (fuel : Nat) (s : scope_id) (l : List scope_id), scope_chain G fuel s = some l →
      l.head? = (if 0 ≤ s then some s else none) ∧ List.Chain' (scope_parent G) l := by
  intro fuel
  induction fuel with
  | zero => intro s l h; simp [scope_chain] at h
  | succ n ih =>
    intro s l h
    unfold scope_chain at h
    by_cases hs : s ≥ 0
    · simp only [hs, if_true] at h
      have hs0 : 0 ≤ s := hs
      cases hc : G.curr_fcn s with
      | none =>
        rw [hc] at h
        simp only [Option.map_eq_some'] at h
        obtain ⟨l2, h2, rfl⟩ := h
        have h3 := ih _ l2 h2
        have hl2 : l2 = [] := by
          cases l2 with
          | nil => rfl
          | cons a t => simp at h3
        subst hl2
        simp [hs0]
      | some p =>
        rw [hc] at h
        simp only [Option.map_eq_some'] at h
        obtain ⟨l2, h2, rfl⟩ := h
        have h3 := ih _ l2 h2
        refine ⟨by simp [hs0], ?_⟩
        cases l2 with
        | nil => simp
        | cons a t =>
          by_cases hp : 0 ≤ (G.heap p).parent_fcn_scope
          · simp only [List.head?_cons, hp, if_true, Option.some.injEq] at h3
            rw [List.chain'_cons]
            exact ⟨⟨hs0, by rw [h3.1]; exact hp, p, hc, h3.1.symm⟩, h3.2⟩
          · simp [hp] at h3
    · simp only [hs, if_false, Option.some.injEq] at h
      subst h
      have hs0 : ¬ 0 ≤ s := hs
      simp [hs0]

theorem find_subfunction_first (e : fcn_info_rep) (G : State) :
    ∀ (fuel : Nat) (s : scope_id) (l : List scope_id), scope_chain G fuel s = some l →
      find_subfunction e G fuel s = some (first_subfunction e l) := by
  intro fuel
  induction fuel with
  | zero => intro s l h; simp [scope_chain] at h
  | succ n ih =>
    intro s l h
    unfold scope_chain at h
    unfold find_subfunction
    by_cases hs : s ≥ 0
    · simp only [hs, if_true] at h ⊢
      cases hc : G.curr_fcn s with
      | none =>
        rw [hc] at h
        simp only [Option.map_eq_some'] at h
        obtain ⟨l2, h2, rfl⟩ := h
        cases he : e.subfunctions s with
        | some v => simp [first_subfunction, he]
        | none =>
          simp only [first_subfunction, he]
          exact ih _ l2 h2
      | some p =>
        rw [hc] at h
        simp only [Option.map_eq_some'] at h
        obtain ⟨l2, h2, rfl⟩ := h
        cases he : e.subfunctions s with
        | some v => simp [first_subfunction, he]
        | none =>
          simp only [first_subfunction, he]
          exact ih _ l2 h2
    · simp only [hs, if_false, Option.some.injEq] at h ⊢
      subst h
      rfl

theorem scope_chain_end (G : State) (s : scope_id) (h : ∀ s2, ¬ scope_parent G s s2) :
    ∃ l, scope_chain G 2 s = some l := by
  by_cases hs : s ≥ 0
  · cases hc : G.curr_fcn s with
    | none => exact ⟨[s], by simp [scope_chain, hs, hc]⟩
    | some p =>
      have hp : ¬ (G.heap p).parent_fcn_scope ≥ 0 := fun hp => h _ ⟨hs, hp, p, hc, rfl⟩
      exact ⟨[s], by simp [scope_chain, hs, hc, hp]⟩
  · exact ⟨[], by simp [scope_chain, hs]⟩

theorem scope_chain_of_acyclic (G : State) (N : Int)
    (hfin : ∀ s s2, scope_parent G s s2 → s < N)
    (hac : ∀ s, ¬ Relation.TransGen (scope_parent G) s s) :
    ∀ s, ∃ fuel l, scope_chain G fuel s = some l := by
  have hwf : WellFounded (Relation.TransGen
      (fun (t2 t1 : Set.Ico (0 : Int) N) => scope_parent G t1.1 t2.1)) := by
    haveI : IsIrrefl (Set.Ico (0 : Int) N) (Relation.TransGen
        (fun (t2 t1 : Set.Ico (0 : Int) N) => scope_parent G t1.1 t2.1)) :=
      ⟨fun t ht => hac t.1 (Relation.transGen_swap.mp
        (Relation.TransGen.lift (fun t : Set.Ico (0 : Int) N => t.1) (fun a b hab => hab) ht))⟩
    exact Finite.wellFounded_of_trans_of_irrefl _
  have hT : ∀ t : Set.Ico (0 : Int) N, ∃ fuel l, scope_chain G fuel t.1 = some l := by
    intro t
    induction t using hwf.induction with
    | _ t ih =>
      have ht0 : t.1 ≥ 0 := t.2.1
      cases hc : G.curr_fcn t.1 with
      | none => exact ⟨2, [t.1], by simp [scope_chain, ht0, hc]⟩
      | some p =>
        by_cases hp : (G.heap p).parent_fcn_scope ≥ 0
        · have hsp : scope_parent G t.1 (G.heap p).parent_fcn_scope := ⟨ht0, hp, p, hc, rfl⟩
          by_cases hN : (G.heap p).parent_fcn_scope < N
          · obtain ⟨fuel, l, hl⟩ := ih ⟨(G.heap p).parent_fcn_scope, hp, hN⟩
              (Relation.TransGen.single hsp)
            exact ⟨fuel + 1, t.1 :: l, by simp [scope_chain, ht0, hc, hl]⟩
          · obtain ⟨l, hl⟩ := scope_chain_end G (G.heap p).parent_fcn_scope
              (fun s2 h2 => hN (hfin _ _ h2))
            refine ⟨2 + 1, t.1 :: l, ?_⟩
            rw [scope_chain]
            simp only [ht0, if_true, hc, hl, Option.map_some']
        · exact ⟨2, [t.1], by simp [scope_chain, ht0, hc, hp]⟩
  intro s
  by_cases hs : 0 ≤ s ∧ s < N
  · exact hT ⟨s, hs⟩
  · obtain ⟨l, hl⟩ := scope_chain_end G s (fun s2 h2 => hs ⟨h2.1, hfin _ _ h2⟩)
    exact ⟨2, l, hl⟩


theorem scope_chain_last (G : State) :
    ∀ (fuel : Nat) (s : scope_id) (l : List scope_id), scope_chain G fuel s = some l →
      ∀ x, l.getLast? = some x → ∀ s2, ¬ scope_parent G x s2 := by
  intro fuel
  induction fuel with
  | zero => intro s l h; simp [scope_chain] at h
  | succ n ih =>
    intro s l h x hx s2 hsp
    unfold scope_chain at h
    by_cases hs : s ≥ 0
    · simp only [hs, if_true] at h
      cases hc : G.curr_fcn s with
      | none =>
        rw [hc] at h
        simp only [Option.map_eq_some'] at h
        obtain ⟨l2, h2, rfl⟩ := h
        cases l2 with
        | nil =>
          simp only [List.getLast?_singleton, Option.some.injEq] at hx
          subst hx
          obtain ⟨_, _, p, hp, _⟩ := hsp
          rw [hc] at hp
          cases hp
        | cons a t =>
          rw [List.getLast?_cons_cons] at hx
          exact ih _ _ h2 x hx s2 hsp
      | some p =>
        rw [hc] at h
        simp only [Option.map_eq_some'] at h
        obtain ⟨l2, h2, rfl⟩ := h
        cases l2 with
        | nil =>
          simp only [List.getLast?_singleton, Option.some.injEq] at hx
          subst hx
          obtain ⟨_, h0, q, hq, hpar⟩ := hsp
          rw [hc] at hq
          cases hq
          have h3 := (scope_chain_shape G _ _ _ h2).1
          rw [hpar] at h3
          simp [h0] at h3
        | cons a t =>
          rw [List.getLast?_cons_cons] at hx
          exact ih _ _ h2 x hx s2 hsp
    · simp only [hs, if_false, Option.some.injEq] at h
      subst h
      simp at hx

theorem acyclic_of_rank (G : State) (rank : scope_id → Nat)
    (h : ∀ s s2, scope_parent G s s2 → rank s2 < rank s) :
    ∀ s, ¬ Relation.TransGen (scope_parent G) s s := by
  have hl : ∀ a b, Relation.TransGen (scope_parent G) a b → rank b < rank a := by
    intro a b hab
    induction hab with
    | single h1 => exact h _ _ h1
    | tail _ h1 ih => exact lt_trans (h _ _ h1) ih
  intro s hs
  exact lt_irrefl _ (hl s s hs)

/-- C35: when only scopes below some bound have an executing function with
a parent scope, and no scope is reached from itself through the parent
scopes, the walk of `xfind` over the parent scopes ends within some fuel. It
visits the current scope (if not negative) and then, from each visited
scope, the parent scope of the function that executes there, and it ends at
a scope with no executing function or with a negative parent scope. The
subfunction search returns the subfunction registered for the first visited
scope that has one, and `xfind` with `local_funcs` true returns it with the
entry and the state unchanged. -/
theorem xfind_subfunction_walk (w : World) (args : List octave_arg) (e : fcn_info_rep)
    (G : State) (N : Int)
    (hfin : ∀ s s2, scope_parent G s s2 → s < N)
    (hac : ∀ s, ¬ Relation.TransGen (scope_parent G) s s) :
    ∃ fuel l, scope_chain G fuel G.xcurrent_scope = some l
      ∧ l.head? = (if 0 ≤ G.xcurrent_scope then some G.xcurrent_scope else none)
      ∧ List.Chain' (scope_parent G) l
      ∧ (∀ x, l.getLast? = some x → ∀ s2, ¬ scope_parent G x s2)
      ∧ find_subfunction e G fuel G.xcurrent_scope = some (first_subfunction e l)
      ∧ ∀ v, first_subfunction e l = some v →
          xfind w fuel args true e G = some (v, e, G) := by
  obtain ⟨fuel, l, hl⟩ := scope_chain_of_acyclic G N hfin hac G.xcurrent_scope
  have hs := scope_chain_shape G fuel _ l hl
  have hf := find_subfunction_first e G fuel _ l hl
  refine ⟨fuel, l, hl, hs.1, hs.2, scope_chain_last G fuel _ l hl, hf, fun v hv => ?_⟩
  unfold xfind
  simp only [if_true]
  rw [hf, hv]

theorem scope_parent_nested (s s2 : scope_id) (h : scope_parent nested_state s s2) :
    s = 2 ∧ s2 = 1 := by
  obtain ⟨_, _, p, hp, hpar⟩ := h
  by_cases h2 : s = 2
  · exact ⟨h2, hpar.symm⟩
  · simp [nested_state, h2] at hp

/-- C35, at a concrete input: in `nested_state` the walk visits the scopes 2
and 1, and the subfunction registered for scope 1 is the one returned. -/
theorem xfind_subfunction_walk_witness :
    scope_chain nested_state 3 nested_state.xcurrent_scope = some [2, 1]
      ∧ first_subfunction subfunction_entry [2, 1] = some (octave_value.fcn 0)
      ∧ ∃ fuel l, scope_chain nested_state fuel nested_state.xcurrent_scope = some l
          ∧ find_subfunction subfunction_entry nested_state fuel nested_state.xcurrent_scope
              = some (first_subfunction subfunction_entry l)
          ∧ ∀ v, first_subfunction subfunction_entry l = some v →
              xfind empty_world fuel [] true subfunction_entry nested_state
                = some (v, subfunction_entry, nested_state) :=
  have h := xfind_subfunction_walk empty_world [] subfunction_entry nested_state 3
    (fun s s2 hsp => by rw [(scope_parent_nested s s2 hsp).1]; decide)
    (acyclic_of_rank nested_state Int.toNat (fun s s2 hsp => by
      rw [(scope_parent_nested s s2 hsp).1, (scope_parent_nested s s2 hsp).2]
      decide))
  ⟨by decide, by decide, h.choose, h.choose_spec.choose, h.choose_spec.choose_spec.1,
    h.choose_spec.choose_spec.2.2.2.2.1, h.choose_spec.choose_spec.2.2.2.2.2⟩


/-! ### Constructors on the path, self-relations, the dispatch type once more -/

/-- C36: for an entry with no cached constructor, no constructor file in an
@-folder of the path, and a path lookup that yields a function that is a
classdef constructor, `xfind` with an empty argument list and without local
functions returns that function although a command-line function is
defined, records it in the constructor map and the method map under the
name of the entry, and leaves the path slot as it was before the lookup. -/
theorem xfind_classdef_constructor_on_path (w : World) (fuel : Nat) (e : fcn_info_rep)
    (G : State) (p : Nat)
    (hcc : e.class_constructors e.name = none)
    (hmf : (G.lp.find_method e.name e.name "" e.package_name).1 = "")
    (hu : (find_user_function w e G).1 = octave_value.fcn p)
    (hctor : ((find_user_function w e G).2.2.heap p).is_classdef_constructor = true)
    (hcmd : e.cmdline_function.is_defined = true) :
    ∃ e2, xfind w fuel [] false e G
        = some (octave_value.fcn p, e2, (find_user_function w e G).2.2)
      ∧ e2 = { e with
          class_constructors :=
            Function.update e.class_constructors e.name (some (octave_value.fcn p))
          class_methods := Function.update e.class_methods e.name (some (octave_value.fcn p)) }
      ∧ e2.function_on_path = e.function_on_path
      ∧ e2.class_constructors e.name = some (octave_value.fcn p)
      ∧ e2.class_methods e.name = some (octave_value.fcn p)
      ∧ e2.cmdline_function.is_defined = true := by
  have he := find_user_function_entry w e G
  have hl : load_class_constructor w e G
      = (octave_value.fcn p,
          { e with
            class_constructors :=
              Function.update e.class_constructors e.name (some (octave_value.fcn p))
            class_methods :=
              Function.update e.class_methods e.name (some (octave_value.fcn p)) },
          (find_user_function w e G).2.2) := by
    unfold load_class_constructor
    simp only [hmf, ne_eq, not_true_eq_false, if_false, hu, octave_value.is_defined, if_true,
      octave_value.function_value, hctor]
    rw [he, hu]
  refine ⟨_, ?_, rfl, rfl, by simp, by simp, hcmd⟩
  unfold xfind
  simp only [Bool.false_eq_true, if_false]
  unfold xfind_from_class_methods
  simp only [ne_eq, not_true_eq_false, if_false]
  unfold xfind_from_class_constructors find_class_constructor
  simp only [hcc, hl, octave_value.is_defined, if_true]

/-- C36, at a concrete input: the entry for `foo` with a command-line
function, on the search path that holds `/p/foo.m`, of which the loader makes
a classdef constructor. -/
theorem xfind_classdef_constructor_on_path_witness :
    cmdline_entry.cmdline_function = octave_value.fcn 0
      ∧ (find_user_function ctor_world cmdline_entry foo_state).1 = octave_value.fcn 1
      ∧ ∃ e2, xfind ctor_world 1 [] false cmdline_entry foo_state
          = some (octave_value.fcn 1, e2, (find_user_function ctor_world cmdline_entry foo_state).2.2)
        ∧ e2.function_on_path = octave_value.undefined
        ∧ e2.class_constructors "foo" = some (octave_value.fcn 1) :=
  have hu : (find_user_function ctor_world cmdline_entry foo_state).1 = octave_value.fcn 1 := by
    decide
  have h := xfind_classdef_constructor_on_path ctor_world 1 cmdline_entry foo_state 1 rfl rfl hu
    (by decide) rfl
  ⟨rfl, hu, h.choose, h.choose_spec.1, h.choose_spec.2.2.1, h.choose_spec.2.2.2.1⟩

theorem is_superiorto_mono (t : precedence_table) (sup_class inf_class a b : String)
    (h : is_superiorto t a b = true) :
    is_superiorto (set_class_relationship t sup_class inf_class).2 a b = true := by
  cases hc : is_superiorto t inf_class sup_class with
  | true =>
    rw [set_class_relationship_refused t sup_class inf_class hc]
    exact h
  | false =>
    rw [is_superiorto_set t sup_class inf_class a b hc, h]
    simp

theorem is_superiorto_after {t0 t : precedence_table} (h : table_after t0 t) (a b : String)
    (hab : is_superiorto t0 a b = true) : is_superiorto t a b = true := by
  induction h with
  | refl => exact hab
  | call t1 s i _ ih => exact is_superiorto_mono t1 s i a b ih

/-- C37: on a table in which `a` is not recorded superior to itself,
`set_class_relationship (a, a)` returns true and records `a` as superior to
itself; afterwards `is_superiorto (a, a)` is true, and on every table that
further calls of `set_class_relationship` make, `set_class_relationship (a,
a)` returns false and changes nothing. -/
theorem set_class_relationship_self_once (t : precedence_table) (a : String)
    (h : is_superiorto t a a = false) :
    (set_class_relationship t a a).1 = true
      ∧ is_superiorto (set_class_relationship t a a).2 a a = true
      ∧ ∀ t2, table_after (set_class_relationship t a a).2 t2 →
          is_superiorto t2 a a = true ∧ set_class_relationship t2 a a = (false, t2) := by
  have h1 : is_superiorto (set_class_relationship t a a).2 a a = true := by
    rw [is_superiorto_set t a a a a h]
    simp
  refine ⟨by rw [set_class_relationship_recorded t a a h], h1, fun t2 h2 => ?_⟩
  have h3 := is_superiorto_after h2 a a h1
  exact ⟨h3, set_class_relationship_refused t2 a a h3⟩

/-- C37, at a concrete input: the class `a` on the empty table, and the
table after a further call for the classes `b` and `c`. -/
theorem set_class_relationship_self_once_witness :
    is_superiorto empty_precedence_table "a" "a" = false
      ∧ (set_class_relationship empty_precedence_table "a" "a").1 = true
      ∧ (set_class_relationship
          (set_class_relationship (set_class_relationship empty_precedence_table "a" "a").2
            "b" "c").2 "a" "a").1 = false :=
  have h := set_class_relationship_self_once empty_precedence_table "a" rfl
  ⟨rfl, h.1,
    congrArg Prod.fst (h.2.2 _ (table_after.call _ "b" "c" table_after.refl)).2⟩


theorem build_sup_table_operand (i j : builtin_type_t) :
    build_sup_table i j = i ∨ build_sup_table i j = j := by
  unfold build_sup_table
  dsimp only
  split
  · exact Or.inr rfl
  · exact Or.inl rfl

theorem get_dispatch_type_scan_known :
    ∀ (rest : List octave_arg) (bt : builtin_type_t),
      (∀ x, x ∈ rest → x.builtin_type ≠ btyp_unknown) →
      ∃ b, get_dispatch_type_scan bt rest = (b, [])
        ∧ (b = bt ∨ ∃ a, a ∈ rest ∧ a.builtin_type = b) := by
  intro rest
  induction rest with
  | nil => intro bt _; exact ⟨bt, rfl, Or.inl rfl⟩
  | cons x rest ih =>
    intro bt h
    have hx := h x (List.mem_cons_self _ _)
    obtain ⟨b, hb, hm⟩ := ih (build_sup_table bt x.builtin_type)
      (fun y hy => h y (List.mem_cons_of_mem _ hy))
    refine ⟨b, by rw [get_dispatch_type_scan, if_pos hx]; exact hb, ?_⟩
    rcases hm with hm | ⟨a, ha, hab⟩
    · rcases build_sup_table_operand bt x.builtin_type with h1 | h1
      · exact Or.inl (hm.trans h1)
      · exact Or.inr ⟨x, List.mem_cons_self _ _, (hm.trans h1).symm⟩
    · exact Or.inr ⟨a, List.mem_cons_of_mem _ ha, hab⟩

theorem first_unknown_split :
    ∀ args : List octave_arg, (∃ x, x ∈ args ∧ x.builtin_type = btyp_unknown) →
      ∃ pre a post, args = pre ++ a :: post
        ∧ (∀ x, x ∈ pre → x.builtin_type ≠ btyp_unknown) ∧ a.builtin_type = btyp_unknown := by
  intro args
  induction args with
  | nil => rintro ⟨x, hx, _⟩; cases hx
  | cons y rest ih =>
    rintro ⟨x, hx, hxu⟩
    by_cases hy : y.builtin_type = btyp_unknown
    · exact ⟨[], y, rest, rfl, (fun z hz => by cases hz), hy⟩
    · rcases List.mem_cons.mp hx with rfl | hx2
      · exact absurd hxu hy
      · obtain ⟨pre, a, post, hsplit, hpre, ha⟩ := ih ⟨x, hx2, hxu⟩
        refine ⟨y :: pre, a, post, by rw [hsplit]; rfl, fun z hz => ?_, ha⟩
        rcases List.mem_cons.mp hz with rfl | hz2
        · exact hy
        · exact hpre z hz2

theorem get_dispatch_type_bt_split (t : precedence_table) (pre post : List octave_arg)
    (a : octave_arg) (hpre : ∀ x, x ∈ pre → x.builtin_type ≠ btyp_unknown)
    (ha : a.builtin_type = btyp_unknown) :
    get_dispatch_type_bt t (pre ++ a :: post)
      = (class_dispatch t a.class_name post, btyp_unknown) := by
  cases pre with
  | nil =>
    simp only [List.nil_append, get_dispatch_type_bt, ha, ne_eq, not_true_eq_false, if_false,
      if_true]
    rw [get_dispatch_type_classes_eq]
  | cons x rest =>
    have hx : x.builtin_type ≠ btyp_unknown := hpre x (List.mem_cons_self _ _)
    have hs := get_dispatch_type_scan_prefix a post ha rest x.builtin_type
      (fun y hy => hpre y (List.mem_cons_of_mem _ hy))
    simp only [List.cons_append, get_dispatch_type_bt, if_pos hx, hs, if_true]
    rw [get_dispatch_type_classes_eq]

theorem class_dispatch_mem (t : precedence_table) :
    ∀ (later : List octave_arg) (first : String),
      class_dispatch t first later = first
        ∨ ∃ x, x ∈ later ∧ x.builtin_type = btyp_unknown
            ∧ class_dispatch t first later = x.class_name := by
  intro later
  induction later with
  | nil => intro first; exact Or.inl rfl
  | cons y rest ih =>
    intro first
    by_cases hy : y.builtin_type = btyp_unknown
    · have hf : class_dispatch t first (y :: rest)
          = class_dispatch t (class_override t first y.class_name) rest := by
        simp [class_dispatch, hy]
      rw [hf]
      rcases ih (class_override t first y.class_name) with h | ⟨x, hx, hxu, h⟩
      · rw [h]
        unfold class_override
        split
        · exact Or.inr ⟨y, List.mem_cons_self _ _, hy, rfl⟩
        · exact Or.inl rfl
      · exact Or.inr ⟨x, List.mem_cons_of_mem _ hx, hxu, h⟩
    · have hf : class_dispatch t first (y :: rest) = class_dispatch t first rest := by
        simp [class_dispatch, hy]
      rw [hf]
      rcases ih first with h | ⟨x, hx, hxu, h⟩
      · exact Or.inl h
      · exact Or.inr ⟨x, List.mem_cons_of_mem _ hx, hxu, h⟩

/-- C38: for the empty argument list `get_dispatch_type` returns the empty
string and leaves the unknown tag in `builtin_type`; for a non-empty list in
which every argument has a built-in tag, the tag left in `builtin_type` is
the tag of some argument of the list and the result is the class name of
that tag; for a list with an argument without built-in tag, the result is
the class name of some argument without built-in tag, and the tag left is
the unknown tag. -/
theorem get_dispatch_type_of_argument (t : precedence_table) (args : List octave_arg) :
    (args = [] → get_dispatch_type_bt t args = ("", btyp_unknown))
      ∧ (args ≠ [] → (∀ x, x ∈ args → x.builtin_type ≠ btyp_unknown) →
          ∃ a, a ∈ args
            ∧ get_dispatch_type_bt t args = (btyp_class_name a.builtin_type, a.builtin_type))
      ∧ ((∃ x, x ∈ args ∧ x.builtin_type = btyp_unknown) →
          ∃ a, a ∈ args ∧ a.builtin_type = btyp_unknown
            ∧ get_dispatch_type_bt t args = (a.class_name, btyp_unknown)) := by
  refine ⟨fun h => by rw [h]; rfl, fun hne hall => ?_, fun hex => ?_⟩
  · cases args with
    | nil => exact absurd rfl hne
    | cons a0 rest =>
      have h0 := hall a0 (List.mem_cons_self _ _)
      obtain ⟨b, hb, hm⟩ := get_dispatch_type_scan_known rest a0.builtin_type
        (fun y hy => hall y (List.mem_cons_of_mem _ hy))
      have hmem : ∃ a, a ∈ a0 :: rest ∧ a.builtin_type = b := by
        rcases hm with hm | ⟨a, ha, hab⟩
        · exact ⟨a0, List.mem_cons_self _ _, hm.symm⟩
        · exact ⟨a, List.mem_cons_of_mem _ ha, hab⟩
      obtain ⟨a, ha, hab⟩ := hmem
      have hbu : b ≠ btyp_unknown := by
        rw [← hab]
        exact hall a ha
      refine ⟨a, ha, ?_⟩
      simp only [get_dispatch_type_bt, if_pos h0, hb, hbu, if_false, hab]
  · obtain ⟨pre, a, post, hsplit, hpre, ha⟩ := first_unknown_split args hex
    rw [hsplit, get_dispatch_type_bt_split t pre post a hpre ha]
    rcases class_dispatch_mem t post a.class_name with h | ⟨x, hx, hxu, h⟩
    · exact ⟨a, by simp, ha, by rw [h]⟩
    · exact ⟨x, by simp [hx], hxu, by rw [h]⟩

/-- C38, at a concrete input: a bool and a double, and an object of class
`b` after a double. -/
theorem get_dispatch_type_of_argument_witness :
    (∃ a, a ∈ [(⟨btyp_bool, "logical"⟩ : octave_arg), ⟨btyp_double, "double"⟩]
        ∧ get_dispatch_type_bt empty_precedence_table
            [⟨btyp_bool, "logical"⟩, ⟨btyp_double, "double"⟩]
          = (btyp_class_name a.builtin_type, a.builtin_type))
      ∧ get_dispatch_type_bt empty_precedence_table
          [⟨btyp_bool, "logical"⟩, ⟨btyp_double, "double"⟩] = ("double", btyp_double) :=
  ⟨(get_dispatch_type_of_argument empty_precedence_table
      [⟨btyp_bool, "logical"⟩, ⟨btyp_double, "double"⟩]).2.1 (by decide) (by decide),
    by decide⟩


theorem build_sup_table_integer (i j : builtin_type_t) (hi : btyp_isinteger i = true)
    (hj : btyp_isinteger j = true) : build_sup_table i j = i := by
  cases i <;> cases j <;> first | rfl | exact absurd hi (by decide) | exact absurd hj (by decide)

theorem get_dispatch_type_scan_integer :
    ∀ (rest : List octave_arg) (bt : builtin_type_t), btyp_isinteger bt = true →
      (∀ x, x ∈ rest → btyp_isinteger x.builtin_type = true) →
      get_dispatch_type_scan bt rest = (bt, []) := by
  intro rest
  induction rest with
  | nil => intro bt _ _; rfl
  | cons x rest ih =>
    intro bt hbt h
    have hx := h x (List.mem_cons_self _ _)
    have hxu : x.builtin_type ≠ btyp_unknown := fun hu => by rw [hu] at hx; cases hx
    rw [get_dispatch_type_scan, if_pos hxu, build_sup_table_integer bt _ hbt hx]
    exact ih bt hbt (fun y hy => h y (List.mem_cons_of_mem _ hy))

theorem get_dispatch_type_bt_integer (t : precedence_table) (a : octave_arg)
    (rest : List octave_arg) (h : ∀ x, x ∈ a :: rest → btyp_isinteger x.builtin_type = true) :
    get_dispatch_type_bt t (a :: rest) = (btyp_class_name a.builtin_type, a.builtin_type) := by
  have ha := h a (List.mem_cons_self _ _)
  have hau : a.builtin_type ≠ btyp_unknown := fun hu => by rw [hu] at ha; cases ha
  have hs := get_dispatch_type_scan_integer rest a.builtin_type ha
    (fun y hy => h y (List.mem_cons_of_mem _ hy))
  simp only [get_dispatch_type_bt, if_pos hau, hs, hau, if_false]

theorem btyp_class_name_integer (i j : builtin_type_t) (hi : btyp_isinteger i = true)
    (hj : btyp_isinteger j = true) (h : btyp_class_name i = btyp_class_name j) : i = j := by
  cases i <;> cases j <;>
    first
    | rfl
    | exact absurd hi (by decide)
    | exact absurd hj (by decide)
    | exact absurd h (by decide)

/-- C39: for integer-typed tags `i` and `j`, `sup_table[i][j]` is `i`; the
dispatch type of a non-empty argument list whose tags are all integer types
is the class name of the tag of its first argument, which is the tag left in
`builtin_type`; and exchanging the first argument with a later argument of
a different integer type changes the dispatch type, so that for two
arguments of different integer types the two orders give different dispatch
types. -/
theorem get_dispatch_type_integer (t : precedence_table) :
    (∀ i j, btyp_isinteger i = true → btyp_isinteger j = true → build_sup_table i j = i)
      ∧ (∀ a rest, (∀ x, x ∈ a :: rest → btyp_isinteger x.builtin_type = true) →
          get_dispatch_type_bt t (a :: rest)
            = (btyp_class_name a.builtin_type, a.builtin_type))
      ∧ (∀ a b pre post,
          (∀ x, x ∈ a :: (pre ++ b :: post) → btyp_isinteger x.builtin_type = true) →
          a.builtin_type ≠ b.builtin_type →
          get_dispatch_type t (b :: (pre ++ a :: post))
            ≠ get_dispatch_type t (a :: (pre ++ b :: post)))
      ∧ (∀ a b, btyp_isinteger a.builtin_type = true → btyp_isinteger b.builtin_type = true →
          a.builtin_type ≠ b.builtin_type →
          get_dispatch_type t [b, a] ≠ get_dispatch_type t [a, b]) := by
  have hswap : ∀ a b pre post,
      (∀ x, x ∈ a :: (pre ++ b :: post) → btyp_isinteger x.builtin_type = true) →
      a.builtin_type ≠ b.builtin_type →
      get_dispatch_type t (b :: (pre ++ a :: post))
        ≠ get_dispatch_type t (a :: (pre ++ b :: post)) := by
    intro a b pre post h hne heq
    have ha := h a (List.mem_cons_self _ _)
    have hb := h b (by simp)
    have h2 : ∀ x, x ∈ b :: (pre ++ a :: post) → btyp_isinteger x.builtin_type = true := by
      intro x hx
      apply h x
      simp only [List.mem_cons, List.mem_append] at hx ⊢
      tauto
    unfold get_dispatch_type at heq
    rw [get_dispatch_type_bt_integer t a _ h, get_dispatch_type_bt_integer t b _ h2] at heq
    exact hne (btyp_class_name_integer _ _ hb ha heq).symm
  refine ⟨build_sup_table_integer, get_dispatch_type_bt_integer t, hswap, fun a b ha hb hne => ?_⟩
  refine hswap a b [] [] (fun x hx => ?_) hne
  simp only [List.nil_append, List.mem_cons, List.mem_singleton, List.not_mem_nil, or_false]
    at hx
  rcases hx with rfl | rfl
  · exact ha
  · exact hb

/-- C39, at a concrete input: an int8 and an int16. -/
theorem get_dispatch_type_integer_witness :
    build_sup_table btyp_int8 btyp_int16 = btyp_int8
      ∧ get_dispatch_type empty_precedence_table [⟨btyp_int16, "int16"⟩, ⟨btyp_int8, "int8"⟩]
          ≠ get_dispatch_type empty_precedence_table
              [⟨btyp_int8, "int8"⟩, ⟨btyp_int16, "int16"⟩] :=
  ⟨(get_dispatch_type_integer empty_precedence_table).1 btyp_int8 btyp_int16 rfl rfl,
    (get_dispatch_type_integer empty_precedence_table).2.2.2 ⟨btyp_int8, "int8"⟩
      ⟨btyp_int16, "int16"⟩ rfl rfl (by decide)⟩


/-! ### Built-in dispatch classes and the time-stamp mode -/

/-- C31: `install_built_in_dispatch (klass)` raises an error exactly when the
built-in slot of the entry holds no function, and with an undefined slot the
error is "install_built_in_dispatch: '<name>' is not a built-in function";
when the built-in function already handles `klass`, it issues a warning and
changes nothing; otherwise it adds `klass` to the dispatch classes of the
function, which are otherwise as before, and changes nothing else. -/
theorem install_built_in_dispatch_spec (e : fcn_info_rep) (klass : String) (G : State) :
    ((install_built_in_dispatch e klass G).is_raised = true
        ↔ ∀ p, e.built_in_function ≠ octave_value.fcn p)
      ∧ (e.built_in_function.is_defined = false →
          install_built_in_dispatch e klass G
            = install_result.error
                ("install_built_in_dispatch: '" ++ e.name ++ "' is not a built-in function"))
      ∧ (∀ p, e.built_in_function = octave_value.fcn p →
          klass ∈ (G.heap p).dispatch_classes →
          ∃ msg, install_built_in_dispatch e klass G = install_result.warned msg G)
      ∧ (∀ p, e.built_in_function = octave_value.fcn p →
          klass ∉ (G.heap p).dispatch_classes →
          ∃ G2, install_built_in_dispatch e klass G = install_result.pushed G2
            ∧ (∀ c, c ∈ (G2.heap p).dispatch_classes
                ↔ c = klass ∨ c ∈ (G.heap p).dispatch_classes)
            ∧ G2 = { G with heap := Function.update G.heap p ({ G.heap p with
                dispatch_classes := klass :: (G.heap p).dispatch_classes }) }) := by
  refine ⟨?_, fun h => ?_, fun p hp hk => ?_, fun p hp hk => ?_⟩
  · cases hb : e.built_in_function with
    | undefined =>
      simp [install_built_in_dispatch, hb, octave_value.is_defined, install_result.is_raised]
    | data n =>
      simp [install_built_in_dispatch, hb, octave_value.is_defined, octave_value.function_value,
        install_result.is_raised]
    | fcn p =>
      by_cases hk : klass ∈ (G.heap p).dispatch_classes <;>
        simp [install_built_in_dispatch, hb, octave_value.is_defined,
          octave_value.function_value, install_result.is_raised, hk]
  · simp [install_built_in_dispatch, h]
  · exact ⟨"install_built_in_dispatch: '" ++ e.name ++ "' already defined for class '"
        ++ klass ++ "'",
      by simp [install_built_in_dispatch, hp, octave_value.is_defined,
        octave_value.function_value, hk]⟩
  · refine ⟨_, by simp [install_built_in_dispatch, hp, octave_value.is_defined,
      octave_value.function_value, hk], fun c => ?_, rfl⟩
    simp

/-- C31, at a concrete input: the entry for `foo` with the built-in function
at address 0 of the sample state, which handles no class, and the class
`double`; and the entry without built-in function. -/
theorem install_built_in_dispatch_spec_witness :
    built_in_entry.built_in_function = octave_value.fcn 0
      ∧ (sample_state.heap 0).dispatch_classes = []
      ∧ (∃ G2, install_built_in_dispatch built_in_entry "double" sample_state
            = install_result.pushed G2
          ∧ ∀ c, c ∈ (G2.heap 0).dispatch_classes
              ↔ c = "double" ∨ c ∈ (sample_state.heap 0).dispatch_classes)
      ∧ install_built_in_dispatch cmdline_entry "double" sample_state
          = install_result.error "install_built_in_dispatch: 'foo' is not a built-in function" :=
  have h := (install_built_in_dispatch_spec built_in_entry "double" sample_state).2.2.2 0 rfl
    (by decide)
  ⟨rfl, rfl, ⟨h.choose, h.choose_spec.1, h.choose_spec.2.1⟩,
    (install_built_in_dispatch_spec cmdline_entry "double" sample_state).2.1 rfl⟩

/-- C32: called with one of "all", "system", "none" and an output requested,
`ignore_function_time_stamp` returns the name of the mode in force before
the call and sets the mode, and a following call with no argument returns
the string just set and changes nothing; called with any other string it
raises an error and leaves the state as it is. -/
theorem Fignore_function_time_stamp_round_trip (sval : String) (nargout n2 : Nat) (G : State) :
    (sval = "all" ∨ sval = "system" ∨ sval = "none" → 0 < nargout →
        (Fignore_function_time_stamp [arg_value.str sval] nargout G).1
            = Except.ok (some (time_stamp_mode_name G.Vignore_function_time_stamp))
          ∧ Fignore_function_time_stamp [] n2
              (Fignore_function_time_stamp [arg_value.str sval] nargout G).2
            = (Except.ok (some sval),
                (Fignore_function_time_stamp [arg_value.str sval] nargout G).2)
          ∧ (Fignore_function_time_stamp [arg_value.str sval] nargout G).2
            = { G with Vignore_function_time_stamp :=
                  if sval = "all" then 2 else if sval = "system" then 1 else 0 })
      ∧ (sval ≠ "all" → sval ≠ "system" → sval ≠ "none" →
          Fignore_function_time_stamp [arg_value.str sval] nargout G
            = (Except.error (call_error.error
                "ignore_function_time_stamp: argument must be one of \"all\", \"system\", or \"none\""),
              G)) := by
  constructor
  · intro hs hn
    rcases hs with rfl | rfl | rfl <;>
      simp [Fignore_function_time_stamp, hn, time_stamp_mode_name]
  · intro h1 h2 h3
    simp [Fignore_function_time_stamp, h1, h2, h3]

/-- C32, at a concrete input: the mode "system" of the sample state, set to
"all" and read back. -/
theorem Fignore_function_time_stamp_round_trip_witness :
    sample_state.Vignore_function_time_stamp = 1
      ∧ (Fignore_function_time_stamp [arg_value.str "all"] 1 sample_state).1
          = Except.ok (some "system")
      ∧ (Fignore_function_time_stamp [] 0
          (Fignore_function_time_stamp [arg_value.str "all"] 1 sample_state).2).1
          = Except.ok (some "all")
      ∧ (Fignore_function_time_stamp [arg_value.str "UNKNOWN_VALUE"] 1 sample_state).2
          = sample_state :=
  have h := Fignore_function_time_stamp_round_trip "all" 1 0 sample_state
  ⟨rfl, (h.1 (Or.inl rfl) (by decide)).1,
    congrArg Prod.fst (h.1 (Or.inl rfl) (by decide)).2.1,
    congrArg Prod.snd
      ((Fignore_function_time_stamp_round_trip "UNKNOWN_VALUE" 1 0 sample_state).2
        (by decide) (by decide) (by decide))⟩


/-! ### Cell ranges of `dlmread` -/

theorem cell_letters_facts :
    ∀ c, c ∈ cell_letters →
      c.isAlpha = true ∧ c.isDigit = false ∧ c ≠ '.' ∧ c ≠ ':'
        ∧ 1 ≤ cell_column_step 0 c ∧ cell_column_step 0 c ≤ 26 := by
  decide

theorem cell_digits_facts :
    ∀ c, c ∈ cell_digits →
      c.isDigit = true ∧ c.isAlpha = false ∧ istream.isspace c = false ∧ c ≠ '-' ∧ c ≠ '+'
        ∧ c ≠ '.' ∧ c ≠ ':' := by
  decide

theorem takeWhile_run (p : Char → Bool) :
    ∀ (D t : List Char), (∀ c, c ∈ D → p c = true) → starts_without p t →
      (D ++ t).takeWhile p = D ∧ (D ++ t).dropWhile p = t := by
  intro D
  induction D with
  | nil =>
    intro t _ ht
    cases t with
    | nil => exact ⟨rfl, rfl⟩
    | cons c r =>
      have hc := ht c rfl
      simp [List.takeWhile, List.dropWhile, hc]
  | cons d D ih =>
    intro t hD ht
    have hd := hD d (List.mem_cons_self _ _)
    have h := ih t (fun c hc => hD c (List.mem_cons_of_mem _ hc)) ht
    simp [List.takeWhile, List.dropWhile, hd, h.1, h.2]


theorem read_cell_spec_while_run :
    ∀ (L t : List Char) (col : Int) (fuel : Nat), (∀ c, c ∈ L → c.isAlpha = true) →
      starts_without Char.isAlpha t → L.length < fuel →
      read_cell_spec_while fuel { rest := L ++ t, eof := false, fail := false } col
        = some (L.foldl cell_column_step col,
            { rest := t, eof := t.isEmpty, fail := false }) := by
  intro L
  induction L with
  | nil =>
    intro t col fuel _ ht hf
    obtain ⟨n, rfl⟩ := Nat.exists_eq_succ_of_ne_zero (Nat.pos_iff_ne_zero.mp hf)
    cases t with
    | nil => simp [read_cell_spec_while, istream.ok, istream.peek, istream.good]
    | cons c r =>
      have hc := ht c rfl
      simp [read_cell_spec_while, istream.ok, istream.peek, istream.good, hc]
  | cons a L ih =>
    intro t col fuel hL ht hf
    obtain ⟨n, rfl⟩ := Nat.exists_eq_succ_of_ne_zero (Nat.pos_iff_ne_zero.mp
      (lt_of_le_of_lt (Nat.zero_le _) hf))
    have ha := hL a (List.mem_cons_self _ _)
    have h := ih t (cell_column_step col a) n (fun c hc => hL c (List.mem_cons_of_mem _ hc)) ht
      (by simpa using hf)
    simp only [List.cons_append, read_cell_spec_while, istream.ok, istream.peek, istream.good,
      Bool.not_false, Bool.and_self, if_true, ha, istream.get, List.foldl_cons]
    exact h

theorem extract_run (idx_max : Nat) (D t : List Char) (old : Int)
    (hD : ∀ c, c ∈ D → c ∈ cell_digits) (hne : D ≠ []) (ht : starts_without Char.isDigit t)
    (hfit : istream.digits_value 0 D ≤ idx_max) :
    istream.extract idx_max { rest := D ++ t, eof := false, fail := false } old
      = ((istream.digits_value 0 D : Int), { rest := t, eof := t.isEmpty, fail := false }) := by
  cases D with
  | nil => exact absurd rfl hne
  | cons d D =>
    have hd := cell_digits_facts d (hD d (List.mem_cons_self _ _))
    have hrun := takeWhile_run Char.isDigit (d :: D) t
      (fun c hc => (cell_digits_facts c (hD c hc)).1) ht
    have hdrop : (d :: D ++ t).dropWhile istream.isspace = d :: (D ++ t) := by
      simp [List.dropWhile, hd.2.2.1]
    have hnot : ¬ istream.digits_value 0 (d :: D) > idx_max := Nat.not_lt.mpr hfit
    unfold istream.extract
    simp only [istream.good, Bool.not_false, Bool.and_self, if_true, hdrop]
    simp only [hd.2.2.2.1, hd.2.2.2.2.1, or_self, if_false, decide_False]
    rw [← List.cons_append, hrun.1, hrun.2]
    simp only [reduceCtorEq, if_false, Bool.false_eq_true, hnot]

theorem read_cell_spec_run (idx_max fuel : Nat) (L D t : List Char) (row col : Int)
    (h : cell_spec idx_max L D) (ht : starts_without Char.isDigit t) (hf : L.length < fuel) :
    read_cell_spec idx_max fuel { rest := L ++ (D ++ t), eof := false, fail := false } row col
      = some (true, (istream.digits_value 0 D : Int) - 1, column_value L - 1,
          { rest := t, eof := t.isEmpty, fail := false }) := by
  have hL : ∀ c, c ∈ L → c.isAlpha = true := fun c hc => (cell_letters_facts c (h.letters c hc)).1
  have hDt : starts_without Char.isAlpha (D ++ t) := by
    intro c hc
    cases hD : D with
    | nil => exact absurd hD h.some_digit
    | cons d D2 =>
      rw [hD] at hc
      simp only [List.cons_append, List.head?_cons, Option.some.injEq] at hc
      rw [← hc]
      exact (cell_digits_facts d (h.digits d (by rw [hD]; exact List.mem_cons_self _ _))).2.1
  have hw := read_cell_spec_while_run L (D ++ t) 0 fuel hL hDt hf
  have hx := extract_run idx_max D t row h.digits h.some_digit ht h.row_fits
  cases hLc : L with
  | nil => exact absurd hLc h.some_letter
  | cons a L2 =>
    have ha : a.isAlpha = true := hL a (by rw [hLc]; exact List.mem_cons_self _ _)
    rw [hLc] at hw
    have hne : (D ++ t).isEmpty = false := by
      cases hD : D with
      | nil => exact absurd hD h.some_digit
      | cons d D2 => rfl
    unfold read_cell_spec
    simp only [List.cons_append, istream.peek, istream.good, Bool.not_false, Bool.and_self,
      if_true, ha]
    simp only [List.cons_append] at hw
    rw [hw]
    simp only [istream.ok, hne, Bool.not_false, if_true]
    have hx2 : istream.extract idx_max { rest := D ++ t, eof := false, fail := false } row
        = ((istream.digits_value 0 D : Int), { rest := t, eof := t.isEmpty, fail := false }) := hx
    rw [hx2]
    simp [column_value, hLc]


theorem parse_range_spec_tail_cell (idx_max fuel : Nat) (L D : List Char) (r : cell_range)
    (h : cell_spec idx_max L D) (hf : L.length < fuel) :
    parse_range_spec_tail idx_max fuel true { rest := L ++ D, eof := false, fail := false } r
      = some (true, { r with rup := (istream.digits_value 0 D : Int) - 1,
                             cup := column_value L - 1 }) := by
  have hrun := read_cell_spec_run idx_max fuel L D [] r.rup r.cup h
    (fun c hc => by cases hc) hf
  rw [List.append_nil] at hrun
  unfold parse_range_spec_tail
  simp only [istream.ok, Bool.not_false, Bool.and_self, if_true, hrun]
  simp

theorem parse_range_spec_tail_end (idx_max fuel : Nat) (r : cell_range) :
    parse_range_spec_tail idx_max fuel true { rest := [], eof := false, fail := false } r
      = some (true, r) := by
  unfold parse_range_spec_tail
  simp [istream.ok, read_cell_spec, istream.peek, istream.good]

theorem read_separator_dots (t : List Char) :
    read_separator { rest := '.' :: '.' :: t, eof := false, fail := false }
      = (true, { rest := t, eof := false, fail := false }) := by
  simp [read_separator, istream.get, istream.good, istream.ok]

theorem read_separator_colon (t : List Char) :
    read_separator { rest := ':' :: t, eof := false, fail := false }
      = (true, { rest := t, eof := false, fail := false }) := by
  simp [read_separator, istream.get, istream.good]

theorem parse_range_spec_from_cell (idx_max fuel : Nat) (L D u : List Char) (c : Char)
    (r : cell_range) (h : cell_spec idx_max L D) (hf : L.length < fuel)
    (hc : c = '.' ∨ c = ':') :
    parse_range_spec idx_max fuel (range_spec_value.str (String.mk (L ++ (D ++ c :: u)))) r
      = parse_range_spec_tail idx_max fuel
          (read_separator { rest := c :: u, eof := false, fail := false }).1
          (read_separator { rest := c :: u, eof := false, fail := false }).2
          { rlo := (istream.digits_value 0 D : Int) - 1, clo := column_value L - 1,
            rup := (idx_max : Int) - 1, cup := (idx_max : Int) - 1 } := by
  have hcd : Char.isDigit c = false := by
    rcases hc with rfl | rfl <;> rfl
  have hrun := read_cell_spec_run idx_max fuel L D (c :: u) r.rlo r.clo h
    (fun x hx => by
      simp only [List.head?_cons, Option.some.injEq] at hx
      rw [← hx]
      exact hcd) hf
  cases hL : L with
  | nil => exact absurd hL h.some_letter
  | cons a L2 =>
    have ha := cell_letters_facts a (h.letters a (by rw [hL]; exact List.mem_cons_self _ _))
    rw [hL] at hrun
    unfold parse_range_spec
    simp only [String.toList, List.cons_append, istream.peek, istream.good, Bool.not_false,
      Bool.and_self, if_true, Option.some.injEq, ha.2.2.1, ha.2.2.2.1, or_self, if_false]
    simp only [List.cons_append] at hrun
    rw [hrun]
    simp only [if_true, List.isEmpty_cons, istream.peek, istream.good, Bool.not_false,
      Bool.and_self, Option.some.injEq, hc]



/-- C33, as stated, fails: with a 32-bit index type the cell reference
`A2147483648` has a row number that does not fit, and `parse_range_spec`
rejects both `A2147483648..B2` and `A2147483648:B2`; likewise
`A9223372036854775808` with a 64-bit index type. -/
theorem parse_range_spec_row_overflow :
    (parse_range_spec 2147483647 2 (range_spec_value.str "A2147483648..B2")
        { rlo := 5, clo := 5, rup := 5, cup := 5 }).map Prod.fst = some false
    ∧ (parse_range_spec 2147483647 2 (range_spec_value.str "A2147483648:B2")
        { rlo := 5, clo := 5, rup := 5, cup := 5 }).map Prod.fst = some false
    ∧ (parse_range_spec 9223372036854775807 2
        (range_spec_value.str "A9223372036854775808..B2")
        { rlo := 5, clo := 5, rup := 5, cup := 5 }).map Prod.fst = some false
    ∧ (parse_range_spec 9223372036854775807 2
        (range_spec_value.str "A9223372036854775808:B2")
        { rlo := 5, clo := 5, rup := 5, cup := 5 }).map Prod.fst = some false := by
  decide

/-- C33, amended: for cell references `X` (letters `LX`, digits `DX`) and `Y`
(letters `LY`, digits `DY`) that fit the index type, `parse_range_spec`
accepts the strings `X..Y` and `X:Y` and gives the same range for both: the
lower row and column are those of `X`, the upper row and column those of
`Y`, all zero-based. It accepts `..Y`, with the lower row and column 0, and
`X..`, with the upper row and column `idx_max - 1`. -/
theorem parse_range_spec_separators (idx_max fuel : Nat) (LX DX LY DY : List Char)
    (r : cell_range) (hX : cell_spec idx_max LX DX) (hY : cell_spec idx_max LY DY)
    (hfX : LX.length < fuel) (hfY : LY.length < fuel) :
    parse_range_spec idx_max fuel
        (range_spec_value.str (String.mk (LX ++ (DX ++ '.' :: '.' :: (LY ++ DY))))) r
        = some (true,
            { rlo := (istream.digits_value 0 DX : Int) - 1, clo := column_value LX - 1,
              rup := (istream.digits_value 0 DY : Int) - 1, cup := column_value LY - 1 })
      ∧ parse_range_spec idx_max fuel
          (range_spec_value.str (String.mk (LX ++ (DX ++ ':' :: (LY ++ DY))))) r
        = parse_range_spec idx_max fuel
            (range_spec_value.str (String.mk (LX ++ (DX ++ '.' :: '.' :: (LY ++ DY))))) r
      ∧ parse_range_spec idx_max fuel
          (range_spec_value.str (String.mk ('.' :: '.' :: (LY ++ DY)))) r
        = some (true,
            { rlo := 0, clo := 0,
              rup := (istream.digits_value 0 DY : Int) - 1, cup := column_value LY - 1 })
      ∧ parse_range_spec idx_max fuel
          (range_spec_value.str (String.mk (LX ++ (DX ++ ['.', '.'])))) r
        = some (true,
            { rlo := (istream.digits_value 0 DX : Int) - 1, clo := column_value LX - 1,
              rup := (idx_max : Int) - 1, cup := (idx_max : Int) - 1 }) := by
  have h1 : parse_range_spec idx_max fuel
      (range_spec_value.str (String.mk (LX ++ (DX ++ '.' :: '.' :: (LY ++ DY))))) r
      = some (true,
          { rlo := (istream.digits_value 0 DX : Int) - 1, clo := column_value LX - 1,
            rup := (istream.digits_value 0 DY : Int) - 1, cup := column_value LY - 1 }) := by
    rw [parse_range_spec_from_cell idx_max fuel LX DX _ '.' r hX hfX (Or.inl rfl),
      read_separator_dots, parse_range_spec_tail_cell idx_max fuel LY DY _ hY hfY]
  refine ⟨h1, ?_, ?_, ?_⟩
  · rw [h1, parse_range_spec_from_cell idx_max fuel LX DX _ ':' r hX hfX (Or.inr rfl),
      read_separator_colon, parse_range_spec_tail_cell idx_max fuel LY DY _ hY hfY]
  · have ht := parse_range_spec_tail_cell idx_max fuel LY DY
      { rlo := 0, clo := 0, rup := r.rup, cup := r.cup } hY hfY
    unfold parse_range_spec
    simp only [String.toList, istream.peek, istream.good, Bool.not_false, Bool.and_self,
      if_true, true_or, istream.get]
    simp only [decide_True]
    exact ht
  · rw [parse_range_spec_from_cell idx_max fuel LX DX _ '.' r hX hfX (Or.inl rfl),
      read_separator_dots, parse_range_spec_tail_end]

theorem cell_spec_B1 (idx_max : Nat) (h : 26 ≤ idx_max) (c d : Char) (hc : c ∈ cell_letters)
    (hd : d ∈ cell_digits) : cell_spec idx_max [c] [d] := by
  have hcf := cell_letters_facts c hc
  refine
    { letters := fun x hx => by rw [List.mem_singleton] at hx; rw [hx]; exact hc
      some_letter := by simp
      digits := fun x hx => by rw [List.mem_singleton] at hx; rw [hx]; exact hd
      some_digit := by simp
      row_fits := ?_
      column_fits := ?_ }
  · have : ∀ x, x ∈ cell_digits → istream.digits_value 0 [x] ≤ 26 := by decide
    exact le_trans (this d hd) h
  · have h26 : column_value [c] ≤ 26 := hcf.2.2.2.2.2
    exact le_trans h26 (by exact_mod_cast h)

/-- C33 amended, at a concrete input: the strings `B1..C2` and `B1:C2`, with a
32-bit index type. -/
theorem parse_range_spec_separators_witness :
    parse_range_spec 2147483647 2 (range_spec_value.str "B1..C2") ⟨5, 5, 5, 5⟩
        = some (true, { rlo := 0, clo := 1, rup := 1, cup := 2 })
      ∧ parse_range_spec 2147483647 2 (range_spec_value.str "B1:C2") ⟨5, 5, 5, 5⟩
        = some (true, { rlo := 0, clo := 1, rup := 1, cup := 2 })
      ∧ parse_range_spec 2147483647 2 (range_spec_value.str "..C2") ⟨5, 5, 5, 5⟩
        = some (true, { rlo := 0, clo := 0, rup := 1, cup := 2 })
      ∧ parse_range_spec 2147483647 2 (range_spec_value.str "B1..") ⟨5, 5, 5, 5⟩
        = some (true, { rlo := 0, clo := 1, rup := 2147483646, cup := 2147483646 }) :=
  have h := parse_range_spec_separators 2147483647 2 ['B'] ['1'] ['C'] ['2'] ⟨5, 5, 5, 5⟩
    (cell_spec_B1 _ (by decide) 'B' '1' (by decide) (by decide))
    (cell_spec_B1 _ (by decide) 'C' '2' (by decide) (by decide)) (by decide) (by decide)
  ⟨h.1, h.2.1.trans h.1, h.2.2.1, h.2.2.2⟩


theorem wrap_int_of_fits (z : Int) (h1 : -2147483648 ≤ z) (h2 : z ≤ 2147483647) :
    wrap_int z = z := by
  unfold wrap_int
  omega

theorem static_cast_int_natCast (b : Nat) (hb : b ≤ 2147483647) :
    static_cast_int (b : ℚ) = some (b : Int) := by
  unfold static_cast_int
  simp only [Rat.num_natCast, Rat.den_natCast, Nat.cast_one, Int.tdiv_one]
  rw [if_pos]
  constructor <;> omega

theorem spec_product_mul {M C : Type} (w : xpow_world M C)
    (hassoc : ∀ x y z, w.mul (w.mul x y) z = w.mul x (w.mul y z)) (a : M) (m : Nat) :
    ∀ n, w.mul (spec_product w a m) (spec_product w a n) = spec_product w a (m + n + 1) := by
  intro n
  induction n with
  | zero => rfl
  | succ n ih =>
    show w.mul (spec_product w a m) (w.mul (spec_product w a n) a) = _
    rw [← hassoc, ih]
    rfl

theorem spec_product_square {M C : Type} (w : xpow_world M C)
    (hassoc : ∀ x y z, w.mul (w.mul x y) z = w.mul x (w.mul y z)) (a : M) :
    ∀ k, spec_product w (w.mul a a) k = spec_product w a (2 * k + 1) := by
  intro k
  induction k with
  | zero => rfl
  | succ k ih =>
    show w.mul (spec_product w (w.mul a a) k) (w.mul a a) = _
    rw [ih, ← hassoc]
    rfl

theorem xpow_while_run {M C : Type} (w : xpow_world M C)
    (hassoc : ∀ x y z, w.mul (w.mul x y) z = w.mul x (w.mul y z)) :
    ∀ (n k : Nat) (result atmp : M), k < 2 ^ n →
      xpow_while w (n + 1) (k : Int) result atmp
        = some (if k = 0 then result else w.mul result (spec_product w atmp (k - 1))) := by
  intro n
  induction n with
  | zero =>
    intro k result atmp hk
    have hk0 : k = 0 := by simpa using hk
    subst hk0
    simp [xpow_while]
  | succ n ih =>
    intro k result atmp hk
    rw [xpow_while]
    by_cases hk0 : k = 0
    · subst hk0
      simp
    · have hpos : ((k : Int) > 0) := by omega
      rw [if_pos hpos, if_neg hk0]
      have hdiv : ((k : Int) / 2) = ((k / 2 : Nat) : Int) := by omega
      have hlt : k / 2 < 2 ^ n := by
        rw [pow_succ] at hk
        omega
      simp only [hdiv]
      rw [ih (k / 2) _ _ hlt]
      congr 1
      have hone := spec_product_mul w hassoc atmp 0
      by_cases hq : k / 2 = 0
      · have hk1 : k = 1 := by omega
        subst hk1
        simp
        rfl
      · have hq2 : ((k / 2 : Nat) : Int) > 0 := by omega
        rw [if_neg hq, if_pos hq2, spec_product_square w hassoc]
        by_cases hodd : (k : Int) % 2 ≠ 0
        · rw [if_pos hodd, hassoc]
          have h1 : w.mul atmp (spec_product w atmp (2 * (k / 2 - 1) + 1))
              = spec_product w atmp (0 + (2 * (k / 2 - 1) + 1) + 1) :=
            hone (2 * (k / 2 - 1) + 1)
          rw [h1]
          congr 2
          omega
        · rw [if_neg hodd]
          congr 2
          omega


/-- The product of five copies of the sample matrix, evaluated. -/
theorem spec_product_int_matrix :
    spec_product int_matrix_world !![1, 1; 0, 1] 4 = !![1, 5; 0, 1] := by
  decide

/-- C40: with a matrix product that is associative, for a matrix `a` that is
square and not empty and an exponent `b` that is a natural number within the
range of an `int`, `xpow` with fuel 32 or more returns a value without a
warning: `DiagMatrix (nr, nr, 1.0)` for `b = 0`, and for `b = k + 1` the
product `a * a * ... * a` of `k + 1` copies of `a`; so the squaring loop ends
within 32 tests of its condition for every such `b`; and a matrix that is
empty or not square is rejected with the error "for A^b, A must be square",
whatever the exponent and the fuel. -/
theorem xpow_integer_power {M C : Type} (w : xpow_world M C) (a : M) (b fuel : Nat)
    (hassoc : ∀ x y z, w.mul (w.mul x y) z = w.mul x (w.mul y z))
    (hr : w.rows a ≠ 0) (hsq : w.rows a = w.cols a) (hb : b ≤ 2147483647)
    (hf : 32 ≤ fuel) :
    xpow w fuel a (b : ℚ)
        = some (xpow_result.value
            (match b with
              | 0 => xpow_retval.diag (w.rows a) (w.rows a) 1
              | k + 1 => xpow_retval.matrix (spec_product w a k)) none)
    ∧ (∀ (x : M) (q : ℚ) (n : Nat), w.rows x = 0 ∨ w.cols x = 0 ∨ w.rows x ≠ w.cols x →
        xpow w n x q = some (xpow_result.error "for A^b, A must be square")) := by
  constructor
  · have hc : ¬ (w.rows a = 0 ∨ w.cols a = 0 ∨ w.rows a ≠ w.cols a) := by
      rw [← hsq]
      simp [hr]
    obtain ⟨f, rfl⟩ : ∃ f, fuel = f + 1 := ⟨fuel - 1, by omega⟩
    unfold xpow
    simp only [hc, if_false, static_cast_int_natCast b hb, Int.cast_natCast, if_true]
    cases b with
    | zero => simp
    | succ k =>
      have hk0 : ¬ (((k + 1 : Nat) : Int) = 0) := by omega
      have hkn : ¬ (((k + 1 : Nat) : Int) < 0) := by omega
      have hw : wrap_int (((k + 1 : Nat) : Int) - 1) = (k : Int) := by
        rw [wrap_int_of_fits _ (by omega) (by omega)]
        omega
      have hlt : k < 2 ^ f :=
        lt_of_lt_of_le (by omega : k < 2 ^ 31) (Nat.pow_le_pow_right (by decide) (by omega))
      simp only [hk0, hkn, if_false, false_and, hw, xpow_while_run w hassoc f k a a hlt]
      congr 3
      by_cases hz : k = 0
      · subst hz
        rfl
      · rw [if_neg hz]
        have h := spec_product_mul w hassoc a 0 (k - 1)
        have he : 0 + (k - 1) + 1 = k := by omega
        rw [he] at h
        exact h
  · intro x q n h
    unfold xpow
    simp only [h, if_true]

/-- C40, at a concrete input: the fifth power of a matrix of two rows and two
columns over the integers, with fuel 32. -/
theorem xpow_integer_power_witness :
    (∀ x y z : Matrix (Fin 2) (Fin 2) Int, int_matrix_world.mul (int_matrix_world.mul x y) z
        = int_matrix_world.mul x (int_matrix_world.mul y z))
    ∧ int_matrix_world.rows !![1, 1; 0, 1] ≠ 0
    ∧ int_matrix_world.rows !![1, 1; 0, 1] = int_matrix_world.cols !![1, 1; 0, 1]
    ∧ xpow int_matrix_world 32 !![1, 1; 0, 1] ((5 : Nat) : ℚ)
        = some (xpow_result.value
            (xpow_retval.matrix (spec_product int_matrix_world !![1, 1; 0, 1] 4)) none) :=
  ⟨fun x y z => Matrix.mul_assoc x y z, by decide, rfl,
    (xpow_integer_power int_matrix_world !![1, 1; 0, 1] 5 32
      (fun x y z => Matrix.mul_assoc x y z) (by decide) rfl (by decide) (by decide)).1⟩

end Octave
